import Mathlib

/-!
# ezc: a shallow embedding of `ezc.c`

`ezc.c` is a one-file compiler for a small subset of C: a lexer and a
recursive-descent parser, a semantic check, a lowering of the AST to a
three-address form ("IR-C") and an emitter of 32-bit x86 assembly text.

Conventions of the embedding.

* The global variables of the C program are fields of explicit state records
  that every function takes and returns.
* `exit(1)` (through `fatal`, `syntax_fatal`, `semantic_fatal`), a failed
  `assert` and undefined behaviour (an out-of-bounds access, a signed overflow,
  a read of a field that was never written, a null dereference) are the error
  results of `Except Err`.
* A `char *` that names an identifier is compared by address in the C code.
  The addresses returned by `str_intern` are equal exactly when the contents
  are (proved below on the concrete table), so an interned pointer is
  represented by its content; a pointer to a string literal of the program
  text is a different address and has its own constructor.
* A `Type *` is compared by address as well, and only ever against the three
  static basic types; pointer types are hash-consed by `type_ptr` (proved
  below on the concrete cache), so types are represented structurally by
  `CType`.
* Linked lists through a `next` field are Lean lists.
* The source text is the list of the characters before the terminating zero.
* The parser recurses on the text, so its functions take a recursion budget
  `fuel` and stop with `Err.out_of_fuel` when it is used up; statements about
  the parser hold for every budget from an explicit bound on.
* Where the C code reads a value that nothing in the program determines (the
  array element behind `op_precedence_table`, the local `curr_param` before its
  first assignment), the value is a parameter of the function that reads it.
-/

namespace Ezc

/-! ## Error results -/

/-- The ways in which a run of the C program stops before returning. -/
inductive Err where
  /-- The function `fatal`: prints `[!] ERROR: <msg>` and calls `exit(1)`. -/
  | fatal (msg : String)
  /-- The function `syntax_fatal`: prints `[!] SYNTAX ERROR: Line <n>: <msg>`
  and calls `exit(1)`. -/
  | syn_fatal (line : Int) (msg : String)
  /-- The function `semantic_fatal`: prints `[!] SEMANTIC ERROR: <msg>` and
  calls `exit(1)`. -/
  | sem_fatal (msg : String)
  /-- A failed `assert(...)`. -/
  | assert_fail
  /-- Undefined behaviour of the C program. -/
  | undefined
  /-- The recursion budget of the embedding ran out (no C counterpart). -/
  | out_of_fuel
  deriving DecidableEq

/-- The result of running a C function that can stop the program. -/
abbrev Res (α : Type) := Except Err α

/-- An outcome is a normal return. -/
def Res.returns {α : Type} : Res α → Bool
  | .ok _ => true
  | .error _ => false

/-! ## Machine integers -/

/-- The constant `INT_MAX` of a 32-bit `int`. -/
def INT_MAX : Int := 2147483647

/-- The constant `INT_MIN` of a 32-bit `int`. -/
def INT_MIN : Int := -2147483648

/-- The value of an `int` expression: representable results are returned,
anything else is a signed overflow. -/
def int_chk (v : Int) : Res Int :=
  if INT_MIN ≤ v ∧ v ≤ INT_MAX then .ok v else .error .undefined

/-- The text that `printf("%d", v)` produces. -/
def fmt_d (v : Int) : String :=
  match v with
  | .ofNat n => Nat.repr n
  | .negSucc n => "-" ++ Nat.repr (n + 1)

/-! ## String interning (`str_intern_table`) -/

/-- The list headed by `str_intern_table`: the strings of its nodes, in link
order.  A node never moves and is never freed, so the address of the node at
position `i` is represented by `i`. -/
abbrev InternTable := List String

/-- The C function `str_intern_add`: links the node after the last one. -/
def str_intern_add : InternTable → String → InternTable
  | [], si => [si]
  | s :: rest, si => s :: str_intern_add rest si

/-- The search loop of `str_intern`, started at the node `ptr` of position `i`:
the position of the first node with `len == s_len && strcmp(str, s) == 0`. -/
def str_intern_find (s : String) : InternTable → Nat → Option Nat
  | [], _ => none
  | node :: next, i =>
    if node.length = s.length ∧ node = s then some i
    else str_intern_find s next (i + 1)

/-- The C function `str_intern`.  The argument is `none` for a null pointer;
the result is `none` for the null pointer and `some i` for the address of the
string of node `i`. -/
def str_intern (s : Option String) (table : InternTable) : Option Nat × InternTable :=
  match s with
  | none => (none, table)
  | some s =>
    if s = "" then (none, table)
    else
      match str_intern_find s table 0 with
      | some i => (some i, table)
      | none => (some table.length, str_intern_add table s)

/-- A `char *` used as an identifier, up to address equality. -/
inductive Ident where
  /-- The address returned by `str_intern` for this content. -/
  | interned (s : String)
  /-- The address of a string literal of the program text. -/
  | literal (s : String)
  deriving DecidableEq

/-- The characters that `%s` prints for the identifier. -/
def Ident.str : Ident → String
  | .interned s => s
  | .literal s => s

/-! ## Types -/

/-- The address of a `Type` object. -/
inductive TypeRef where
  /-- The static `_type_void`. -/
  | void
  /-- The static `_type_char`. -/
  | char
  /-- The static `_type_int`. -/
  | int
  /-- The slot `type_ptr_cache[i]`. -/
  | cached (i : Nat)
  /-- The `n`-th object allocated by `type_func`. -/
  | heap (n : Nat)
  deriving DecidableEq

/-- The enumeration `TYPE_VOID .. TYPE_FUNC`. -/
inductive TypeKind where
  | TYPE_VOID
  | TYPE_CHAR
  | TYPE_INT
  | TYPE_PTR
  | TYPE_FUNC
  deriving DecidableEq

/-- The fields `kind`, `size`, `base_type` of a slot of `type_ptr_cache`. -/
structure TypeSlot where
  kind : TypeKind
  size : Int
  base_type : TypeRef
  deriving DecidableEq

/-- The capacity of `type_ptr_cache`. -/
def TYPE_PTR_CACHE_SIZE : Nat := 1000

/-- The search loop of `type_ptr` from slot `i` on: the first slot whose
`base_type` is the requested one. -/
def type_ptr_find (base_type : TypeRef) : List TypeSlot → Nat → Option Nat
  | [], _ => none
  | slot :: rest, i =>
    if slot.base_type = base_type then some i
    else type_ptr_find base_type rest (i + 1)

/-- The C function `type_ptr` on the cache `type_ptr_cache[0 .. count)`, with
`type_ptr_cache_count` the length of the list.  A write beyond the capacity of
the array is undefined. -/
def type_ptr (base_type : TypeRef) (cache : List TypeSlot) :
    Res (TypeRef × List TypeSlot) :=
  match type_ptr_find base_type cache 0 with
  | some i => .ok (.cached i, cache)
  | none =>
    if cache.length < TYPE_PTR_CACHE_SIZE then
      .ok (.cached cache.length, cache ++ [⟨.TYPE_PTR, 4, base_type⟩])
    else .error .undefined

/-- Every slot in use was written by `type_ptr`. -/
def cache_inv (cache : List TypeSlot) : Prop :=
  ∀ slot ∈ cache, slot.kind = .TYPE_PTR ∧ slot.size = 4

/-- A type, up to address equality: the basic types are the three statics,
`ptr` is the hash-consed slot of `type_ptr`, `func` an object of `type_func`. -/
inductive CType where
  | void
  | char
  | int
  | ptr (base_type : CType)
  | func (base_type : CType) (params : List (Ident × CType))

/-- The field `kind`. -/
def CType.kind : CType → TypeKind
  | .void => .TYPE_VOID
  | .char => .TYPE_CHAR
  | .int => .TYPE_INT
  | .ptr _ => .TYPE_PTR
  | .func _ _ => .TYPE_FUNC

/-- The field `size`; `type_func` never writes it, so it has no value for a
function type. -/
def CType.size : CType → Option Int
  | .void => some 0
  | .char => some 1
  | .int => some 4
  | .ptr _ => some 4
  | .func _ _ => none

/-- The comparison `type == type_void()`. -/
def CType.is_void : CType → Bool
  | .void => true
  | _ => false

/-- The comparison `type == type_char()`. -/
def CType.is_char : CType → Bool
  | .char => true
  | _ => false

/-- The comparison `type == type_int()`. -/
def CType.is_int : CType → Bool
  | .int => true
  | _ => false

/-! ## Symbol table -/

/-- The struct `Sym` (its field `func` is always null and is left out). -/
structure Sym where
  id : Ident
  type : CType
  global : Int
  offset : Int

/-- The capacity of `sym_table`. -/
def SYM_TABLE_SIZE : Nat := 1000

/-- The loop of `sym_get` from index `i` on: the index at which the loop
breaks. -/
def sym_find (id : Ident) : List Sym → Nat → Option Nat
  | [], _ => none
  | sym :: rest, i =>
    if id = sym.id then some i
    else sym_find id rest (i + 1)

/-- The C function `sym_get` on `sym_table[0 .. sym_table_count)`, as the index
of the entry whose address it returns. -/
def sym_get_index (id : Ident) (sym_table : List Sym) : Option Nat :=
  sym_find id sym_table 0

/-- The C function `sym_get`, as the entry it points to. -/
def sym_get (id : Ident) : List Sym → Option Sym
  | [] => none
  | sym :: rest => if id = sym.id then some sym else sym_get id rest

/-! ## AST -/

/-- The kinds `EXPR_BINARY .. EXPR_BINARY_END - 1`. -/
inductive BinKind where
  | EXPR_MUL
  | EXPR_DIV
  | EXPR_MOD
  | EXPR_ADD
  | EXPR_SUB
  | EXPR_ASSIGN
  deriving DecidableEq

/-- The struct `Expr`.  `intlit` is `EXPR_INTLIT`, `id` is `EXPR_ID`, `call` is
`EXPR_CALL` with the callee in `l` and the head of the argument list (linked
through `next`) in `r`, `neg` is `EXPR_NEG`, the only kind in
`EXPR_UNARY .. EXPR_UNARY_END - 1`, and `binary` covers the binary kinds. -/
inductive Expr where
  | intlit (value : Int)
  | id (id : Ident)
  | call (l : Expr) (r : List Expr)
  | neg (l : Expr)
  | binary (kind : BinKind) (l r : Expr)

/-- The struct `Decl`. -/
structure Decl where
  type : CType
  id : Ident

/-- The struct `Stmt`; the `next` links of a block are the list.  `make_stmt`
does not write the union `u`: `block_unset` and `ret_unset` are the nodes of
kind `STMT_BLOCK` and `STMT_RET` whose `u` was never assigned. -/
inductive Stmt where
  | decl (decl : Decl)
  | expr (expr : Expr)
  | block (block : List Stmt)
  | block_unset
  | ret (expr : Option Expr)
  | ret_unset

/-- The struct `GlobDecl`; the `next` links of a unit are a list. -/
inductive GlobDecl where
  | var (id : Ident) (type : CType)
  | func (id : Ident) (type : CType) (func_def : Option Stmt)

/-! ## Global state of semantic analysis, lowering and code generation -/

/-- The globals `sym_table[0 .. sym_table_count)`, `func_var_offset`,
`tmp_vars_count`, the block that `curr_block` points to (its statement list;
`none` for the null pointer) and the text written to `fout` so far, one
element for each `fprintf` call. -/
structure State where
  sym_table : List Sym
  func_var_offset : Int
  tmp_vars_count : Int
  curr_block : Option (List Stmt)
  fout : List String

/-- The global `sym_table_count`. -/
def State.sym_table_count (st : State) : Nat := st.sym_table.length

/-- The state at program start. -/
def State.init : State := ⟨[], 0, 0, none, []⟩

/-- The C function `sym_reset`. -/
def sym_reset (st : State) : State := { st with sym_table := [] }

/-- The C function `sym_add` followed by the writes of `global` and `offset`
that its callers make through the returned pointer (`sym_add` itself sets both
to 0).  The entry is written at index `sym_table_count`; beyond the capacity of
the array that is undefined. -/
def sym_add (id : Ident) (type : CType) (global offset : Int) (st : State) : Res State :=
  if st.sym_table.length < SYM_TABLE_SIZE then
    .ok { st with sym_table := st.sym_table ++ [⟨id, type, global, offset⟩] }
  else .error .undefined

/-- The C function `init_builtin_sym`: the identifier is the address of a string
literal, not an interned string. -/
def init_builtin_sym (st : State) : Res State :=
  sym_add (.literal "putchar") .int 0 0 st

/-! ## Semantic analysis: expression types -/

/-- The C function `eval_expr_type`. -/
def eval_expr_type (sym_table : List Sym) : Expr → Res CType
  | .id id =>
    match sym_get id sym_table with
    | none => .error (.sem_fatal ("Invalid symbol " ++ id.str))
    | some sym => .ok sym.type
  | .intlit value => if value < 256 then .ok .char else .ok .int
  | .call (.id id) _ =>
    match sym_get id sym_table with
    | none => .error (.sem_fatal ("Invalid symbol " ++ id.str))
    | some sym =>
      if sym.global = 0 then
        .error (.sem_fatal ("Invalid function call: " ++ sym.id.str ++ " not a global symbol"))
      else
        match sym.type with
        | .func base_type _ => .ok base_type
        | _ => .error (.sem_fatal ("Invalid function call: " ++ sym.id.str ++ " is not a function"))
  | .call _ _ => .error (.sem_fatal "Invalid function call")
  | .neg l => eval_expr_type sym_table l
  | .binary _ l r => do
    let type1 ← eval_expr_type sym_table l
    let type2 ← eval_expr_type sym_table r
    if type1.is_void || type2.is_void then
      .error (.sem_fatal "Invalid expression type (void in expr)")
    else if (type1.is_int && type2.is_int) || (type1.is_int && type2.is_char)
        || (type1.is_char && type2.is_int) then .ok .int
    else if type1.is_char && type2.is_char then .ok .char
    else .error (.sem_fatal "Invalid expression type (no type)")

/-! ## Lowering to IR-C -/

/-- The C function `tmp_var`: the name is `___t` followed by `%d` of the
counter, the counter is incremented, the name is interned. -/
def tmp_var (st : State) : Res (Ident × State) := do
  let name := "___t" ++ fmt_d st.tmp_vars_count
  let n ← int_chk (st.tmp_vars_count + 1)
  .ok (.interned name, { st with tmp_vars_count := n })

/-- The C function `add_stmt`: appends to the list of the current block. -/
def add_stmt (stmt : Stmt) (st : State) : Res State :=
  match st.curr_block with
  | none => .error .undefined
  | some block => .ok { st with curr_block := some (block ++ [stmt]) }

/-- The C function `expr_is_atom`. -/
def expr_is_atom : Expr → Bool
  | .intlit _ => true
  | .id _ => true
  | _ => false

/-- The first part of `store_expr_temp_var`: when `first` is 0, a temporary is
created and its declaration, of the type of `expr`, is added.  The result is
the variable `res`, not written when `first` is set. -/
def store_begin (expr : Expr) (first : Bool) (st : State) : Res (Option Ident × State) :=
  if first then .ok (none, st)
  else do
    let (res, st1) ← tmp_var st
    let type ← eval_expr_type st1.sym_table expr
    let st2 ← add_stmt (.decl ⟨type, res⟩) st1
    .ok (some res, st2)

/-- The last part of `store_expr_temp_var`: the statement for `rvalue`. -/
def store_end (first : Bool) (res : Option Ident) (rvalue : Expr) (st : State) :
    Res (Option Ident × State) :=
  if first then do
    let st1 ← add_stmt (.expr rvalue) st
    .ok (res, st1)
  else
    match res with
    | none => .error .undefined
    | some t => do
      let st1 ← add_stmt (.expr (.binary .EXPR_ASSIGN (.id t) rvalue)) st
      .ok (res, st1)

/-- The operand pattern of `store_expr_temp_var`:
`if(expr_is_atom(e)) x = e; else x = make_expr_id(store_expr_temp_var(e, 0));`
where `rec` is the outcome of that call on the state `st`. -/
def store_operand (e : Expr) (rec : Res (Option Ident × State)) (st : State) :
    Res (Expr × State) :=
  if expr_is_atom e then .ok (e, st)
  else
    match rec with
    | .error err => .error err
    | .ok (none, _) => .error .undefined
    | .ok (some t, st1) => .ok (.id t, st1)

mutual
/-- The C function `store_expr_temp_var`. -/
def store_expr_temp_var (expr : Expr) (first : Bool) (st : State) :
    Res (Option Ident × State) :=
  match expr with
  | .call l r => do
    let (res, st0) ← store_begin (.call l r) first st
    let (l1, st1) ← store_operand l (store_expr_temp_var l false st0) st0
    let (args, st2) ← store_args r st1
    store_end first res (.call l1 args) st2
  | .neg l => do
    let (res, st0) ← store_begin (.neg l) first st
    let (l1, st1) ← store_operand l (store_expr_temp_var l false st0) st0
    store_end first res (.neg l1) st1
  | .binary kind l r => do
    let (res, st0) ← store_begin (.binary kind l r) first st
    let (l1, st1) ← store_operand l (store_expr_temp_var l false st0) st0
    let (r1, st2) ← store_operand r (store_expr_temp_var r false st1) st1
    store_end first res (.binary kind l1 r1) st2
  | .intlit value => do
    let _ ← store_begin (.intlit value) first st
    .error .assert_fail
  | .id id => do
    let _ ← store_begin (.id id) first st
    .error .assert_fail
/-- The argument loop of `store_expr_temp_var` from the argument `r` on: the
list `args` that it links. -/
def store_args (r : List Expr) (st : State) : Res (List Expr × State) :=
  match r with
  | [] => .ok ([], st)
  | e :: next => do
    let (tmp, st1) ← store_operand e (store_expr_temp_var e false st) st
    let (rest, st2) ← store_args next st1
    .ok (tmp :: rest, st2)
end

/-- The entry of `block_to_irc`: a new empty block becomes the current one. -/
def block_enter (st : State) : State := { st with curr_block := some [] }

/-- The exit of `block_to_irc`: `curr_block` is set back to `parent_block`,
the new block is returned. -/
def block_leave (parent_block : Option (List Stmt)) (st : State) : Res (Stmt × State) :=
  match st.curr_block with
  | none => .error .undefined
  | some block => .ok (.block block, { st with curr_block := parent_block })

/-- The bookkeeping of `stmt_to_irc` for a declaration: the symbol is added with
the current frame offset, which then decreases by the size of the type. -/
def irc_decl_sym (decl : Decl) (st : State) : Res State := do
  let st1 ← sym_add decl.id decl.type 0 st.func_var_offset st
  match decl.type.size with
  | none => .error .undefined
  | some size => do
    let off ← int_chk (st1.func_var_offset - size)
    .ok { st1 with func_var_offset := off }

mutual
/-- The C function `stmt_to_irc`.  For `STMT_BLOCK` it calls `block_to_irc` and
drops the block that is returned. -/
def stmt_to_irc (stmt : Stmt) (st : State) : Res State :=
  match stmt with
  | .decl decl => do
    let st1 ← add_stmt (.decl decl) st
    irc_decl_sym decl st1
  | .expr expr => do
    let (_, st1) ← store_expr_temp_var expr true st
    .ok st1
  | .block block => do
    let st1 ← stmts_to_irc block (block_enter st)
    let (_, st2) ← block_leave st.curr_block st1
    .ok st2
  | .block_unset => .error .undefined
  | .ret none => add_stmt .ret_unset st
  | .ret (some expr) =>
    if expr_is_atom expr then add_stmt (.ret (some expr)) st
    else do
      let (res, st1) ← store_expr_temp_var expr false st
      match res with
      | none => .error .undefined
      | some t => add_stmt (.ret (some (.id t))) st1
  | .ret_unset => .error .undefined
/-- The loop of `block_to_irc` over the statements of the block. -/
def stmts_to_irc (stmts : List Stmt) (st : State) : Res State :=
  match stmts with
  | [] => .ok st
  | stmt :: next => do
    let st1 ← stmt_to_irc stmt st
    stmts_to_irc next st1
end

/-- The C function `block_to_irc`. -/
def block_to_irc (block : Stmt) (st : State) : Res (Stmt × State) :=
  match block with
  | .block stmts => do
    let st1 ← stmts_to_irc stmts (block_enter st)
    block_leave st.curr_block st1
  | _ => .error .undefined

/-- The C function `unit_to_irc` after `sym_reset`: the loop over the global
declarations. -/
def globs_to_irc (unit : List GlobDecl) (st : State) : Res (List GlobDecl × State) :=
  match unit with
  | [] => .ok ([], st)
  | .var id type :: next => do
    let st1 ← sym_add id type 1 0 st
    let (rest, st2) ← globs_to_irc next st1
    .ok (.var id type :: rest, st2)
  | .func id type none :: next => do
    let st1 ← sym_add id type 1 0 st
    let (rest, st2) ← globs_to_irc next st1
    .ok (.func id type none :: rest, st2)
  | .func id type (some func_def) :: next => do
    let (irc, st1) ← block_to_irc func_def st
    let st2 ← sym_add id type 1 0 st1
    let (rest, st3) ← globs_to_irc next st2
    .ok (.func id type (some irc) :: rest, st3)

/-- The C function `unit_to_irc`. -/
def unit_to_irc (unit : List GlobDecl) (st : State) : Res (List GlobDecl × State) :=
  globs_to_irc unit (sym_reset st)

/-! ## Code generation -/

/-- The C function `compile_lvalue`, as the text it writes. -/
def compile_lvalue (sym_table : List Sym) : Expr → Res (List String)
  | .id id =>
    match sym_get id sym_table with
    | none => .error (.fatal ("Invalid symbol " ++ id.str))
    | some sym =>
      if !sym.type.is_int then .error .assert_fail
      else if sym.global ≠ 0 then .ok ["\tmovl " ++ sym.id.str ++ ",%eax\n"]
      else .ok ["\tmovl %ebp,%eax\n", "\taddl $" ++ fmt_d sym.offset ++ ",%eax\n"]
  | _ => .error (.fatal "Invalid lvalue")

/-- The instruction that `compile_expr` writes last for an arithmetic kind it
handles. -/
def bin_instr : BinKind → Option String
  | .EXPR_MUL => some "\timull %ecx\n"
  | .EXPR_DIV => some "\tidivl %ecx\n"
  | .EXPR_ADD => some "\taddl %ecx,%eax\n"
  | .EXPR_SUB => some "\tsubl %ecx,%eax\n"
  | _ => none

mutual
/-- The C function `compile_expr`, as the text it writes. -/
def compile_expr (sym_table : List Sym) (expr : Expr) : Res (List String) :=
  match expr with
  | .intlit value => .ok ["\tmovl $" ++ fmt_d value ++ ",%eax\n"]
  | .id id =>
    match sym_get id sym_table with
    | none => .error (.fatal ("Invalid symbol " ++ id.str))
    | some sym =>
      if !sym.type.is_int then .error .assert_fail
      else if sym.global ≠ 0 then
        .ok ["\tmovl " ++ sym.id.str ++ ",%ebx\n", "\tmovl (%ebx),%eax\n"]
      else .ok ["\tmovl " ++ fmt_d sym.offset ++ "(%ebp),%eax\n"]
  | .call (.id id) r =>
    match sym_get id sym_table with
    | none => .error (.fatal ("Invalid symbol " ++ id.str))
    | some sym =>
      if sym.type.kind ≠ .TYPE_FUNC then .error .assert_fail
      else do
        let args ← compile_args sym_table r
        .ok (args ++ ["\tcall " ++ id.str ++ "\n"] ++ List.replicate r.length "\tpopl %eax\n")
  | .call _ _ => .error (.fatal "We don't handle \"complex\" function calls")
  | .binary .EXPR_ASSIGN l r => do
    let a ← compile_expr sym_table r
    let b ← compile_lvalue sym_table l
    .ok (a ++ ["\tmovl %eax,%ecx\n"] ++ b ++ ["\tmovl %ecx,(%eax)\n"])
  | .binary .EXPR_MOD _ _ => .error (.fatal "Invalid expression")
  | .binary kind l r => do
    let a ← compile_expr sym_table r
    let b ← compile_expr sym_table l
    match bin_instr kind with
    | some instr => .ok (a ++ ["\tmovl %eax,%ecx\n"] ++ b ++ [instr])
    | none => .error (.fatal "Invalid expression")
  | .neg _ => .error (.fatal "Invalid expression")
/-- The argument loop of the `EXPR_CALL` case: each argument is compiled and
pushed. -/
def compile_args (sym_table : List Sym) (arg : List Expr) : Res (List String) :=
  match arg with
  | [] => .ok []
  | e :: next => do
    let a ← compile_expr sym_table e
    let rest ← compile_args sym_table next
    .ok (a ++ ["\tpushl %eax\n"] ++ rest)
end

/-- The C function `fprintf(fout, ...)` for a sequence of calls. -/
def emit (text : List String) (st : State) : State :=
  { st with fout := st.fout ++ text }

/-- The C function `compile_decl`. -/
def compile_decl (decl : Decl) (st : State) : Res State :=
  match decl.type.size with
  | none => .error .undefined
  | some size =>
    if ¬ (size > 0) then .error .assert_fail
    else do
      let st1 := emit ["\tsubl $" ++ fmt_d size ++ ",%esp\n"] st
      let st2 ← sym_add decl.id decl.type 0 st1.func_var_offset st1
      let off ← int_chk (st2.func_var_offset - size)
      .ok { st2 with func_var_offset := off }

mutual
/-- The C function `compile_stmt`. -/
def compile_stmt (stmt : Stmt) (st : State) : Res State :=
  match stmt with
  | .decl decl => compile_decl decl st
  | .expr expr => do
    let text ← compile_expr st.sym_table expr
    .ok (emit text st)
  | .block block => do
    let scope := st.sym_table_count
    let st1 ← compile_stmts block st
    .ok { st1 with sym_table := st1.sym_table.take scope }
  | .block_unset => .error .undefined
  | .ret none => .ok (emit ["\tleave\n", "\tret\n"] st)
  | .ret (some expr) => do
    let text ← compile_expr st.sym_table expr
    .ok (emit (text ++ ["\tleave\n", "\tret\n"]) st)
  | .ret_unset => .error .undefined
/-- The loop of the `STMT_BLOCK` case over the statements of the block. -/
def compile_stmts (substmt : List Stmt) (st : State) : Res State :=
  match substmt with
  | [] => .ok st
  | stmt :: next => do
    let st1 ← compile_stmt stmt st
    compile_stmts next st1
end

/-- The state in which `compile_glob_decl` starts on the body of the function
`id`: `func_var_offset` is -4, the label and the prologue are written. -/
def func_entry (id : Ident) (st : State) : State :=
  emit [id.str ++ ":\n", "\tpushl %ebp\n", "\tmovl %esp,%ebp\n"]
    { st with func_var_offset := -4 }

/-- The C function `compile_glob_decl`. -/
def compile_glob_decl (decl : GlobDecl) (st : State) : Res State :=
  match decl with
  | .var id type =>
    match type.size with
    | none => .error .undefined
    | some size => do
      let st1 := emit [id.str ++ ":\n", "\t.zero $" ++ fmt_d size ++ "\n"] st
      sym_add id type 1 0 st1
  | .func id type none =>
    sym_add id type 1 0 { st with func_var_offset := -4 }
  | .func id type (some body) => do
    let st1 ← compile_stmt body (func_entry id st)
    sym_add id type 1 0 (emit ["\tleave\n", "\tret\n"] st1)

/-- The loop of `compile_unit` over the global declarations. -/
def compile_globs (unit : List GlobDecl) (st : State) : Res State :=
  match unit with
  | [] => .ok st
  | curr :: next => do
    let st1 ← compile_glob_decl curr st
    compile_globs next st1

/-- The text of the entry stub that `compile_unit` writes first. -/
def entry_stub : List String :=
  ["___entry:\n", "\tpushl %ebp\n", "\tmovl %esp,%ebp\n", "\tcall main\n",
   "\tmovl %eax,%ebx\n", "\tmovl $1,%eax\n", "\tsyscall\n", "\tleave\n", "\tret\n"]

/-- The C function `compile_unit` (compiled without `DEBUG`). -/
def compile_unit (unit : List GlobDecl) (st : State) : Res State :=
  compile_globs unit (emit entry_stub (sym_reset st))

/-! ## Lexer -/

/-- The token kinds `TOK_EOF .. TOK_KW_IF`. -/
inductive TokKind where
  | TOK_EOF
  | TOK_ID
  | TOK_INTLIT
  | TOK_LPAREN
  | TOK_RPAREN
  | TOK_LBRACE
  | TOK_RBRACE
  | TOK_SEMI
  | TOK_COMMA
  | TOK_STAR
  | TOK_SLASH
  | TOK_PERCENT
  | TOK_PLUS
  | TOK_MINUS
  | TOK_EQUAL
  | TOK_KW_INT
  | TOK_KW_RETURN
  | TOK_KW_IF
  deriving DecidableEq

/-- The value of the enumeration constant; `TOK_BIN_OP_END` (15) and `TOK_COUNT`
have no token. -/
def TokKind.code : TokKind → Nat
  | .TOK_EOF => 0
  | .TOK_ID => 1
  | .TOK_INTLIT => 2
  | .TOK_LPAREN => 3
  | .TOK_RPAREN => 4
  | .TOK_LBRACE => 5
  | .TOK_RBRACE => 6
  | .TOK_SEMI => 7
  | .TOK_COMMA => 8
  | .TOK_STAR => 9
  | .TOK_SLASH => 10
  | .TOK_PERCENT => 11
  | .TOK_PLUS => 12
  | .TOK_MINUS => 13
  | .TOK_EQUAL => 14
  | .TOK_KW_INT => 16
  | .TOK_KW_RETURN => 17
  | .TOK_KW_IF => 18

/-- The constant `TOK_BIN_OP`. -/
def TOK_BIN_OP : Nat := 9

/-- The constant `TOK_BIN_OP_END`. -/
def TOK_BIN_OP_END : Nat := 15

/-- The constant `MAX_ID_LEN`. -/
def MAX_ID_LEN : Nat := 33

/-- The struct `Token`; a field that `_tok_next` did not write is `none`. -/
structure Token where
  kind : TokKind
  value : Option Int
  id : Option Ident
  deriving DecidableEq

/-- The globals `source` (the text up to the terminating zero) and
`source_line` (used for diagnostics only, kept unbounded). -/
structure Lexer where
  source : List Char
  source_line : Int
  deriving DecidableEq

/-- The C function `isspace` in the C locale. -/
def isspace (c : Char) : Bool :=
  c = ' ' || c = '\t' || c = '\n' || c = '\x0b' || c = '\x0c' || c = '\r'

/-- The C function `isdigit`: the codes 48 (`0`) to 57 (`9`). -/
def isdigit (c : Char) : Bool := decide (48 ≤ c.toNat ∧ c.toNat ≤ 57)

/-- The character is a letter: the codes 97 (`a`) to 122 (`z`) and 65 (`A`) to
90 (`Z`). -/
def isletter (c : Char) : Bool :=
  decide (97 ≤ c.toNat ∧ c.toNat ≤ 122) || decide (65 ≤ c.toNat ∧ c.toNat ≤ 90)

/-- The C function `isalnum` in the C locale. -/
def isalnum (c : Char) : Bool := isdigit c || isletter c

/-- The labels of the identifier case of `_tok_next`: `_` and the letters. -/
def is_ident_start (c : Char) : Bool := c = '_' || isletter c

/-- The loop `while(isspace(*src))` of `_tok_next`. -/
def skip_space : List Char → Int → List Char × Int
  | [], srcl => ([], srcl)
  | c :: src, srcl =>
    if isspace c then skip_space src (if c = '\n' then srcl + 1 else srcl)
    else (c :: src, srcl)

/-- The loop `while(isalnum(*src) || *src == '_')` of `_tok_next`, with the
characters stored in `buff` so far. -/
def lex_ident : List Char → List Char → Res (List Char × List Char)
  | [], buff => .ok (buff, [])
  | c :: src, buff =>
    if isalnum c || c = '_' then
      if buff.length + 1 < MAX_ID_LEN then lex_ident src (buff ++ [c])
      else .error .assert_fail
    else .ok (buff, c :: src)

/-- The loop `while(isdigit(*src))` of `_tok_next`, with `tok.value` so far. -/
def lex_number : List Char → Int → Res (Int × List Char)
  | [], value => .ok (value, [])
  | c :: src, value =>
    if isdigit c then do
      let v ← int_chk (value * 10 + ((c.toNat : Int) - 48))
      lex_number src v
    else .ok (value, c :: src)

/-- The pointer `kword_int` after `parser_init`. -/
def kword_int : Ident := .interned "int"

/-- The pointer `kword_return` after `parser_init`. -/
def kword_return : Ident := .interned "return"

/-- The pointer `kword_if` after `parser_init`. -/
def kword_if : Ident := .interned "if"

/-- The one-character tokens of `_tok_next`. -/
def punct_kind (c : Char) : Option TokKind :=
  if c = '(' then some .TOK_LPAREN
  else if c = ')' then some .TOK_RPAREN
  else if c = '\x7b' then some .TOK_LBRACE
  else if c = '\x7d' then some .TOK_RBRACE
  else if c = ';' then some .TOK_SEMI
  else if c = ',' then some .TOK_COMMA
  else if c = '*' then some .TOK_STAR
  else if c = '/' then some .TOK_SLASH
  else if c = '%' then some .TOK_PERCENT
  else if c = '+' then some .TOK_PLUS
  else if c = '-' then some .TOK_MINUS
  else if c = '=' then some .TOK_EQUAL
  else none

/-- The `switch(*src)` of `_tok_next`, after the whitespace was skipped: `src`
and `srcl` are the local copies of the position and of the line. -/
def tok_switch (update_source : Bool) (lx : Lexer) : List Char → Int → Res (Token × Lexer)
  | [], _ => .error (.syn_fatal lx.source_line "Invalid token")
  | c :: src, srcl =>
    if is_ident_start c then do
      let (buff, src1) ← lex_ident (c :: src) []
      let id := Ident.interned (String.mk buff)
      let kind :=
        if id = kword_int then TokKind.TOK_KW_INT
        else if id = kword_return then TokKind.TOK_KW_RETURN
        else if id = kword_if then TokKind.TOK_KW_IF
        else TokKind.TOK_ID
      .ok (⟨kind, none, some id⟩, if update_source then ⟨src1, srcl⟩ else lx)
    else if isdigit c then do
      let (value, src1) ← lex_number (c :: src) 0
      .ok (⟨.TOK_INTLIT, some value, none⟩, if update_source then ⟨src1, srcl⟩ else lx)
    else
      match punct_kind c with
      | some kind => .ok (⟨kind, none, none⟩, if update_source then ⟨src, srcl⟩ else lx)
      | none => .error (.syn_fatal lx.source_line "Invalid token")

/-- The C function `_tok_next`: the token and the values of `source` and
`source_line` after the call. -/
def _tok_next (update_source : Bool) (lx : Lexer) : Res (Token × Lexer) :=
  match lx.source with
  | [] => .ok (⟨.TOK_EOF, none, none⟩, lx)
  | c :: src =>
    tok_switch update_source lx (skip_space (c :: src) lx.source_line).1
      (skip_space (c :: src) lx.source_line).2

/-- The C function `tok_peek`. -/
def tok_peek (lx : Lexer) : Res Token := do
  let (tok, _) ← _tok_next false lx
  .ok tok

/-- The C function `tok_next`. -/
def tok_next (lx : Lexer) : Res (Token × Lexer) := _tok_next true lx

/-- The C function `tok_expect`. -/
def tok_expect (tok_kind : TokKind) (lx : Lexer) : Res (Token × Lexer) := do
  let (tok, lx1) ← tok_next lx
  if tok.kind = tok_kind then .ok (tok, lx1) else .error .assert_fail

/-! ## Expression parser

Every parse function takes, besides the budget `fuel`, the value `arg_prec`
that the read `op_precedence_table[TOK_EQUAL]` in `parse_expr_unary_post`
yields.  `TOK_EQUAL` is 14 and the table has six entries, so the read is
outside the array and the value is whatever is stored behind the table; it is a
parameter of the embedding, the same for all the reads of one parse. -/

/-- The array `op_precedence_table`. -/
def op_precedence_table : List Int := [0, 0, 0, 1, 1, 8]

/-- The read `op_precedence_table[i]`; outside the array it is undefined. -/
def op_precedence (i : Nat) : Res Int :=
  match op_precedence_table[i]? with
  | some p => .ok p
  | none => .error .undefined

/-- The switch of `parse_expr_binary` from the operator token to the kind of
the node. -/
def bin_kind_of : TokKind → Option BinKind
  | .TOK_STAR => some .EXPR_MUL
  | .TOK_SLASH => some .EXPR_DIV
  | .TOK_PERCENT => some .EXPR_MOD
  | .TOK_PLUS => some .EXPR_ADD
  | .TOK_MINUS => some .EXPR_SUB
  | .TOK_EQUAL => some .EXPR_ASSIGN
  | _ => none

/-- The C function `reverse_args_list`. -/
def reverse_args_list : List Expr → List Expr
  | [] => []
  | [arg] => [arg]
  | arg :: next :: rest => reverse_args_list (next :: rest) ++ [arg]

/-- The statement `if(tok.kind == TOK_COMMA) tok_next();` at the head of the
argument loop. -/
def skip_comma (tok : Token) (lx : Lexer) : Res Lexer :=
  if tok.kind = .TOK_COMMA then do
    let (_, lx1) ← tok_next lx
    .ok lx1
  else .ok lx

/-- The end of the call case of `parse_expr_unary_post`: the closing
parenthesis is expected, the linked arguments are reversed, the node is made. -/
def call_close (expr : Expr) (args : List Expr) (lx : Lexer) : Res (Expr × Lexer) := do
  let (_, lx1) ← tok_expect .TOK_RPAREN lx
  .ok (.call expr (reverse_args_list args), lx1)

mutual
/-- The C function `parse_expr_base`. -/
def parse_expr_base (arg_prec : Int) (fuel : Nat) (lx : Lexer) : Res (Expr × Lexer) :=
  match fuel with
  | 0 => .error .out_of_fuel
  | fuel + 1 => do
    let (tok, lx1) ← tok_next lx
    match tok.kind, tok.value, tok.id with
    | .TOK_INTLIT, some value, _ => .ok (.intlit value, lx1)
    | .TOK_INTLIT, none, _ => .error .undefined
    | .TOK_ID, _, some id => .ok (.id id, lx1)
    | .TOK_ID, _, none => .error .undefined
    | .TOK_LPAREN, _, _ => do
      let (expr, lx2) ← parse_expr arg_prec fuel lx1
      let (_, lx3) ← tok_expect .TOK_RPAREN lx2
      .ok (expr, lx3)
    | _, _, _ => .error (.syn_fatal lx1.source_line "Invalid base expression")
/-- The `do ... while(tok.kind == TOK_COMMA)` loop of `parse_expr_unary_post`,
entered with the token `tok` that was peeked last: the arguments in the order
in which they are linked. -/
def parse_call_args (arg_prec : Int) (fuel : Nat) (tok : Token) (lx : Lexer) :
    Res (List Expr × Lexer) :=
  match fuel with
  | 0 => .error .out_of_fuel
  | fuel + 1 => do
    let lx1 ← skip_comma tok lx
    let (arg, lx2) ← parse_expr_binary arg_prec fuel arg_prec lx1
    let tok1 ← tok_peek lx2
    if tok1.kind = .TOK_COMMA then do
      let (rest, lx3) ← parse_call_args arg_prec fuel tok1 lx2
      .ok (arg :: rest, lx3)
    else .ok ([arg], lx2)
/-- The C function `parse_expr_unary_post`. -/
def parse_expr_unary_post (arg_prec : Int) (fuel : Nat) (lx : Lexer) : Res (Expr × Lexer) :=
  match fuel with
  | 0 => .error .out_of_fuel
  | fuel + 1 => do
    let (expr, lx1) ← parse_expr_base arg_prec fuel lx
    let tok ← tok_peek lx1
    if tok.kind = .TOK_LPAREN then do
      let (_, lx2) ← tok_next lx1
      let tok1 ← tok_peek lx2
      if tok1.kind ≠ .TOK_RPAREN then do
        let (args, lx3) ← parse_call_args arg_prec fuel tok1 lx2
        call_close expr args lx3
      else call_close expr [] lx2
    else .ok (expr, lx1)
/-- The C function `parse_expr_unary`. -/
def parse_expr_unary (arg_prec : Int) (fuel : Nat) (lx : Lexer) : Res (Expr × Lexer) :=
  match fuel with
  | 0 => .error .out_of_fuel
  | fuel + 1 => do
    let tok ← tok_peek lx
    if tok.kind = .TOK_MINUS then do
      let (_, lx1) ← tok_next lx
      let (expr, lx2) ← parse_expr_unary arg_prec fuel lx1
      .ok (.neg expr, lx2)
    else if tok.kind = .TOK_PLUS then do
      let (_, lx1) ← tok_next lx
      parse_expr_unary_post arg_prec fuel lx1
    else parse_expr_unary_post arg_prec fuel lx
/-- The `while` loop of `parse_expr_binary`, entered with the left operand `l`
parsed so far. -/
def parse_expr_binary_loop (arg_prec : Int) (fuel : Nat) (precedence : Int) (l : Expr)
    (lx : Lexer) : Res (Expr × Lexer) :=
  match fuel with
  | 0 => .error .out_of_fuel
  | fuel + 1 => do
    let tok ← tok_peek lx
    if TOK_BIN_OP ≤ tok.kind.code ∧ tok.kind.code < TOK_BIN_OP_END then do
      let new_precedence ← op_precedence (tok.kind.code - TOK_BIN_OP)
      if new_precedence < precedence then do
        let (_, lx1) ← tok_next lx
        let (r, lx2) ← parse_expr_binary arg_prec fuel new_precedence lx1
        match bin_kind_of tok.kind with
        | some kind => parse_expr_binary_loop arg_prec fuel precedence (.binary kind l r) lx2
        | none => .error (.syn_fatal lx2.source_line "Invalid binary expression")
      else .ok (l, lx)
    else .ok (l, lx)
/-- The C function `parse_expr_binary`. -/
def parse_expr_binary (arg_prec : Int) (fuel : Nat) (precedence : Int) (lx : Lexer) :
    Res (Expr × Lexer) :=
  match fuel with
  | 0 => .error .out_of_fuel
  | fuel + 1 => do
    let (l, lx1) ← parse_expr_unary arg_prec fuel lx
    parse_expr_binary_loop arg_prec fuel precedence l lx1
/-- The C function `parse_expr_assign`. -/
def parse_expr_assign (arg_prec : Int) (fuel : Nat) (lx : Lexer) : Res (Expr × Lexer) :=
  match fuel with
  | 0 => .error .out_of_fuel
  | fuel + 1 => do
    let (expr, lx1) ← parse_expr_binary arg_prec fuel 999 lx
    let tok ← tok_peek lx1
    if tok.kind = .TOK_EQUAL then do
      let (_, lx2) ← tok_next lx1
      let (r, lx3) ← parse_expr_binary arg_prec fuel 999 lx2
      .ok (.binary .EXPR_ASSIGN expr r, lx3)
    else .ok (expr, lx1)
/-- The C function `parse_expr`. -/
def parse_expr (arg_prec : Int) (fuel : Nat) (lx : Lexer) : Res (Expr × Lexer) :=
  match fuel with
  | 0 => .error .out_of_fuel
  | fuel + 1 => parse_expr_assign arg_prec fuel lx
end

/-! ## Source texts for statements about the parser -/

/-- An atom as it is written: an identifier or a decimal literal. -/
inductive Atom where
  | ident (name : String)
  | intlit (digits : List Char)

/-- The characters of the atom. -/
def Atom.text : Atom → List Char
  | .ident name => name.data
  | .intlit digits => digits

/-- The value that the lexer accumulates for a digit string. -/
def intlit_value (digits : List Char) : Int :=
  digits.foldl (fun v c => v * 10 + ((c.toNat : Int) - 48)) 0

/-- The atom is well written: an identifier starts with a letter or `_`,
continues with letters, digits and `_`, fits the buffer of `MAX_ID_LEN`
characters and is no keyword; a literal is a non-empty digit string whose value
is an `int`. -/
def Atom.valid : Atom → Bool
  | .ident name =>
    (match name.data with
      | [] => false
      | c :: cs => is_ident_start c && cs.all (fun x => isalnum x || x = '_')) &&
    decide (name.data.length < MAX_ID_LEN) &&
    decide (name ≠ "int") && decide (name ≠ "return") && decide (name ≠ "if")
  | .intlit digits =>
    !digits.isEmpty && digits.all isdigit && decide (intlit_value digits ≤ INT_MAX)

/-- The node that `parse_expr_base` makes for the atom. -/
def Atom.expr : Atom → Expr
  | .ident name => .id (.interned name)
  | .intlit digits => .intlit (intlit_value digits)

/-- The token of the atom. -/
def Atom.token : Atom → Token
  | .ident name => ⟨.TOK_ID, none, some (.interned name)⟩
  | .intlit digits => ⟨.TOK_INTLIT, some (intlit_value digits), none⟩

/-- The binary operators of the language. -/
inductive Op where
  | star
  | slash
  | percent
  | plus
  | minus
  | equal
  deriving DecidableEq

/-- The character of the operator. -/
def Op.char : Op → Char
  | .star => '*'
  | .slash => '/'
  | .percent => '%'
  | .plus => '+'
  | .minus => '-'
  | .equal => '='

/-- The token kind of the operator. -/
def Op.tok : Op → TokKind
  | .star => .TOK_STAR
  | .slash => .TOK_SLASH
  | .percent => .TOK_PERCENT
  | .plus => .TOK_PLUS
  | .minus => .TOK_MINUS
  | .equal => .TOK_EQUAL

/-- The node kind of the operator. -/
def Op.kind : Op → BinKind
  | .star => .EXPR_MUL
  | .slash => .EXPR_DIV
  | .percent => .EXPR_MOD
  | .plus => .EXPR_ADD
  | .minus => .EXPR_SUB
  | .equal => .EXPR_ASSIGN

/-- The precedence of the operator in the words of the specification: 0 for
`*`, `/`, `%`, 1 for `+`, `-`, 8 for `=` (lower binds tighter). -/
def Op.prec : Op → Int
  | .star => 0
  | .slash => 0
  | .percent => 0
  | .plus => 1
  | .minus => 1
  | .equal => 8

/-- The operator is one of `*`, `/`, `%`, `+`, `-`. -/
def Op.arith : Op → Bool
  | .equal => false
  | _ => true

/-- The number of newlines in a text. -/
def newlines (w : List Char) : Int := (w.filter (fun c => c = '\n')).length

/-- The source text `a op1 b op2 c`, with the whitespace `w1 .. w4` between
the five tokens. -/
def text3 (a : Atom) (w1 : List Char) (op1 : Op) (w2 : List Char) (b : Atom)
    (w3 : List Char) (op2 : Op) (w4 : List Char) (c : Atom) : List Char :=
  a.text ++ (w1 ++ (op1.char :: (w2 ++ (b.text ++ (w3 ++ (op2.char :: (w4 ++ c.text)))))))

/-- The argument list of a call in the words of the specification, read from
the source: from `lx`, the comma-separated arguments are `es` in source order,
each the parse by `parse_expr_binary` at the argument ceiling of the text at
which it starts, and `lx1` is the position after the last one, where no comma
follows. -/
inductive ArgList (arg_prec : Int) (fuel : Nat) : Lexer → List Expr → Lexer → Prop where
  | last {lx lx1 : Lexer} {e : Expr} {tok : Token} :
    parse_expr_binary arg_prec fuel arg_prec lx = .ok (e, lx1) →
    tok_peek lx1 = .ok tok → tok.kind ≠ .TOK_COMMA →
    ArgList arg_prec fuel lx [e] lx1
  | more {lx lx1 lx2 lx3 : Lexer} {e : Expr} {tok : Token} {es : List Expr} :
    parse_expr_binary arg_prec fuel arg_prec lx = .ok (e, lx1) →
    tok_next lx1 = .ok (tok, lx2) → tok.kind = .TOK_COMMA →
    ArgList arg_prec fuel lx2 es lx3 →
    ArgList arg_prec fuel lx (e :: es) lx3

/-! ## The normal form of lowered statements -/

/-- A call, unary or binary node all of whose operands (callee, operands, call
arguments) are atoms. -/
def Expr.flat : Expr → Bool
  | .call l r => expr_is_atom l && r.all expr_is_atom
  | .neg l => expr_is_atom l
  | .binary _ l r => expr_is_atom l && expr_is_atom r
  | _ => false

/-- The form of the statements that the lowering adds to a block: a
declaration; an expression statement that is a call, unary or binary node with
atom operands, or the assignment of such a node to an identifier; a return
whose operand is an atom. -/
def Stmt.irc_form : Stmt → Bool
  | .decl _ => true
  | .expr (.binary .EXPR_ASSIGN (.id t) r) => (Expr.binary .EXPR_ASSIGN (.id t) r).flat || r.flat
  | .expr e => e.flat
  | .ret (some e) => expr_is_atom e
  | .ret none => false
  | .ret_unset => false
  | .block _ => false
  | .block_unset => false

/-- The state `st1` is `st` with `added` appended to the current block and the
counter of temporaries not decreased; the output is untouched. -/
def Appended (st st1 : State) (added : List Stmt) : Prop :=
  st1.curr_block = st.curr_block.map (fun b => b ++ added) ∧
  st.tmp_vars_count ≤ st1.tmp_vars_count ∧ st1.fout = st.fout

/-- The symbol table and the frame offset are the same in both states. -/
def SameSyms (st st1 : State) : Prop :=
  st1.sym_table = st.sym_table ∧ st1.func_var_offset = st.func_var_offset

/-- The step from `st` to `st1` appends statements of the lowered form to the
current block and changes neither the symbols nor the output. -/
def Lowers (st st1 : State) : Prop :=
  ∃ added, Appended st st1 added ∧ SameSyms st st1 ∧ ∀ s ∈ added, Stmt.irc_form s = true

/-- Successive calls of `tmp_var`: the names returned, in call order. -/
def tmp_var_calls : Nat → State → Res (List Ident × State)
  | 0, st => .ok ([], st)
  | n + 1, st => do
    let (t, st1) ← tmp_var st
    let (rest, st2) ← tmp_var_calls n st1
    .ok (t :: rest, st2)

/-! ## The frame layout that code generation assigns -/

mutual
/-- The local declarations of a statement in the order in which `compile_stmt`
reaches them, those of nested blocks included. -/
def Stmt.locals : Stmt → List Decl
  | .decl d => [d]
  | .block b => Stmt.locals_list b
  | .expr _ => []
  | .block_unset => []
  | .ret _ => []
  | .ret_unset => []
/-- The same for the statements of a block. -/
def Stmt.locals_list : List Stmt → List Decl
  | [] => []
  | s :: next => s.locals ++ Stmt.locals_list next
end

mutual
/-- The symbols that `compile_decl` adds while `compile_stmt` runs on the
statement from the state `st`, in the order of the calls. -/
def frame_log (stmt : Stmt) (st : State) : List Sym :=
  match stmt with
  | .decl d =>
    match compile_decl d st with
    | .ok st1 => st1.sym_table.drop st.sym_table.length
    | .error _ => []
  | .block b => frame_log_list b st
  | .expr _ => []
  | .block_unset => []
  | .ret _ => []
  | .ret_unset => []
/-- The same for the loop over the statements of a block. -/
def frame_log_list (stmts : List Stmt) (st : State) : List Sym :=
  match stmts with
  | [] => []
  | s :: next =>
    frame_log s st ++
      match compile_stmt s st with
      | .ok st1 => frame_log_list next st1
      | .error _ => []
end

/-- The declared size of a local. -/
def Decl.size (d : Decl) : Int := d.type.size.getD 0

/-- The layout in the words of the specification: the first local gets
`first`, each later one the offset of the previous local minus the declared
size of the previous local. -/
def frame_offsets (first : Int) : List Decl → List Int
  | [] => []
  | d :: rest => first :: frame_offsets (first - d.size) rest

/-! ## Vocabulary of the proofs -/

/-- The step appends statements to the current block, each of the lowered form
or, when `unset` holds, a return node whose operand was never written. -/
def Grows (unset : Prop) (st st1 : State) : Prop :=
  ∃ added, Appended st st1 added ∧
    ∀ s ∈ added, Stmt.irc_form s = true ∨ (s = .ret_unset ∧ unset)

/-- The number that a string of decimal digits denotes. -/
def digits_value (cs : List Char) : Nat :=
  cs.foldl (fun v c => v * 10 + (c.toNat - 48)) 0

/-- The frame bookkeeping of a successful run from `st` to `st1` over the
locals `ds`, with `log` the symbols added for them. -/
def FrameRun (st st1 : State) (ds : List Decl) (log : List Sym) : Prop :=
  log.map (fun s => (s.id, s.global, s.offset)) =
    List.zipWith (fun (d : Decl) o => (d.id, 0, o)) ds (frame_offsets st.func_var_offset ds) ∧
  st1.func_var_offset = st.func_var_offset - (ds.map Decl.size).sum ∧
  ∀ d ∈ ds, 0 < d.size

/-- The frame layout holds for the locals that were reached: `log` gives, for
the first `k` locals of `ds`, the offsets of the layout from the frame offset of
`st`, and those locals have a positive size. -/
def FrameReached (st : State) (ds : List Decl) (log : List Sym) : Prop :=
  ∃ k, k ≤ ds.length ∧
    log.map (fun s => (s.id, s.global, s.offset)) =
      List.zipWith (fun (d : Decl) o => (d.id, 0, o)) (ds.take k)
        (frame_offsets st.func_var_offset (ds.take k)) ∧
    ∀ d ∈ ds.take k, 0 < d.size

/-- The text does not go on with a character of an identifier or a number. -/
def Delim (rest : List Char) : Prop :=
  ∀ c, rest.head? = some c → (isalnum c || decide (c = '_')) = false

/-- The text does not start with whitespace. -/
def NoSpace (rest : List Char) : Prop :=
  ∀ c, rest.head? = some c → isspace c = false

/-- The text does not go on with a digit. -/
def NoDigit (rest : List Char) : Prop :=
  ∀ c, rest.head? = some c → isdigit c = false

/-- At `lx` the next token is `tok`, and `lx1` is the lexer after it. -/
def TokAt (lx : Lexer) (tok : Token) (lx1 : Lexer) : Prop :=
  _tok_next true lx = .ok (tok, lx1) ∧ _tok_next false lx = .ok (tok, lx)

/-- Whenever `a` returns, `b` returns the same. -/
def Res.le {α : Type} (a b : Res α) : Prop := ∀ r, a = .ok r → b = .ok r

/-- The parse functions at fuel `n` are below those at fuel `m`. -/
def ParseLe (ap : Int) (n m : Nat) : Prop :=
  (∀ lx, Res.le (parse_expr_base ap n lx) (parse_expr_base ap m lx)) ∧
  (∀ tok lx, Res.le (parse_call_args ap n tok lx) (parse_call_args ap m tok lx)) ∧
  (∀ lx, Res.le (parse_expr_unary_post ap n lx) (parse_expr_unary_post ap m lx)) ∧
  (∀ lx, Res.le (parse_expr_unary ap n lx) (parse_expr_unary ap m lx)) ∧
  (∀ p l lx, Res.le (parse_expr_binary_loop ap n p l lx) (parse_expr_binary_loop ap m p l lx)) ∧
  (∀ p lx, Res.le (parse_expr_binary ap n p lx) (parse_expr_binary ap m p lx)) ∧
  (∀ lx, Res.le (parse_expr_assign ap n lx) (parse_expr_assign ap m lx)) ∧
  (∀ lx, Res.le (parse_expr ap n lx) (parse_expr ap m lx))

/-! ## Semantic analysis: the checks -/

/-- The constant `EXPR_BINARY`. -/
def EXPR_BINARY : Nat := 5

/-- The constant `EXPR_BINARY_END`. -/
def EXPR_BINARY_END : Nat := 11

/-- The value of the enumeration constant of a binary kind. -/
def BinKind.code : BinKind → Nat
  | .EXPR_MUL => 5
  | .EXPR_DIV => 6
  | .EXPR_MOD => 7
  | .EXPR_ADD => 8
  | .EXPR_SUB => 9
  | .EXPR_ASSIGN => 10

/-- The C function `check_lvalue`. -/
def check_lvalue : Expr → Res Int
  | .id _ => .ok 1
  | .intlit _ => .error (.sem_fatal "Invalid lvalue")
  | .call _ _ => .error (.sem_fatal "Invalid lvalue")
  | .neg _ => .error (.sem_fatal "Invalid lvalue")
  | .binary _ _ _ => .error (.sem_fatal "Invalid lvalue")

/-- The value of `a && b` where `b` is only evaluated when `a` is not 0. -/
def and_then (a : Res Int) (b : Res Int) : Res Int :=
  match a with
  | .error err => .error err
  | .ok x =>
    if x = 0 then .ok 0
    else
      match b with
      | .error err => .error err
      | .ok y => if y = 0 then .ok 0 else .ok 1

/-- The value of `eval_expr_type(expr) != 0`, and of `eval_expr_type(expr)` as
a truth value: the pointer returned is never null. -/
def type_not_null (type : Res CType) : Res Int :=
  match type with
  | .error err => .error err
  | .ok _ => .ok 1

/-- The C function `check_expr`.  The test `EXPR_BINARY <= kind < EXPR_BINARY_END`
comes before the test `kind == EXPR_ASSIGN`.  In the call case the result of
`sym_get` is dereferenced without a test, and the arguments are not visited. -/
def check_expr (sym_table : List Sym) : Expr → Res Int
  | .id id =>
    match sym_get id sym_table with
    | none => .error (.sem_fatal ("Invalid symbol " ++ id.str))
    | some _ => type_not_null (eval_expr_type sym_table (.id id))
  | .intlit value => type_not_null (eval_expr_type sym_table (.intlit value))
  | .call (.id id) r =>
    match sym_get id sym_table with
    | none => .error .undefined
    | some sym =>
      if sym.global = 0 then
        .error (.sem_fatal ("Invalid function call: " ++ sym.id.str ++ " not a global symbol"))
      else if sym.type.kind ≠ .TYPE_FUNC then
        .error (.sem_fatal ("Invalid function call: " ++ sym.id.str ++ " is not a function"))
      else type_not_null (eval_expr_type sym_table (.call (.id id) r))
  | .call (.intlit _) _ => .error (.sem_fatal "Invalid function call")
  | .call (.call _ _) _ => .error (.sem_fatal "Invalid function call")
  | .call (.neg _) _ => .error (.sem_fatal "Invalid function call")
  | .call (.binary _ _ _) _ => .error (.sem_fatal "Invalid function call")
  | .neg l =>
    and_then (check_expr sym_table l) (type_not_null (eval_expr_type sym_table (.neg l)))
  | .binary kind l r =>
    if EXPR_BINARY ≤ kind.code ∧ kind.code < EXPR_BINARY_END then
      and_then (and_then (check_expr sym_table l) (check_expr sym_table r))
        (type_not_null (eval_expr_type sym_table (.binary kind l r)))
    else if kind = .EXPR_ASSIGN then
      and_then (and_then (check_lvalue l) (check_expr sym_table r))
        (type_not_null (eval_expr_type sym_table (.binary kind l r)))
    else .ok 0

mutual
/-- The C function `check_stmt`; it has no case for `STMT_RET`, which takes the
`default` branch. -/
def check_stmt (stmt : Stmt) (st : State) : Res (Int × State) :=
  match stmt with
  | .decl decl =>
    match sym_get decl.id st.sym_table with
    | some _ => .error (.sem_fatal ("Symbol '" ++ decl.id.str ++ "' already declared"))
    | none => do
      let st1 ← sym_add decl.id decl.type 0 st.func_var_offset st
      match decl.type.size with
      | none => .error .undefined
      | some size => do
        let off ← int_chk (st1.func_var_offset - size)
        .ok (1, { st1 with func_var_offset := off })
  | .expr expr => do
    let res ← check_expr st.sym_table expr
    .ok (res, st)
  | .block block => check_stmts block 1 st
  | .block_unset => .error .undefined
  | .ret _ => .ok (0, st)
  | .ret_unset => .ok (0, st)
/-- The loop of the `STMT_BLOCK` case, `res = res && check_stmt(curr)`: once
`res` is 0 the remaining statements are not checked. -/
def check_stmts (curr : List Stmt) (res : Int) (st : State) : Res (Int × State) :=
  match curr with
  | [] => .ok (res, st)
  | stmt :: next =>
    if res = 0 then check_stmts next 0 st
    else do
      let (r, st1) ← check_stmt stmt st
      check_stmts next (if r = 0 then 0 else 1) st1
end

/-- The C function `check_glob_decl`.  For a function it calls `check_stmt` on
`func_def` also when that is the null pointer. -/
def check_glob_decl (decl : GlobDecl) (st : State) : Res (Int × State) :=
  match decl with
  | .var id type =>
    match sym_get id st.sym_table with
    | some _ => .error (.sem_fatal ("Symbol '" ++ id.str ++ "' already declared"))
    | none => do
      let st1 ← sym_add id type 1 0 st
      .ok (1, st1)
  | .func id type func_def =>
    match sym_get id st.sym_table with
    | some _ => .error (.sem_fatal ("Symbol '" ++ id.str ++ "' already declared"))
    | none => do
      let st1 ← sym_add id type 1 0 st
      match func_def with
      | none => .error .undefined
      | some body => check_stmt body { st1 with func_var_offset := -4 }

/-- The loop of `check_unit`, `res = res && check_glob_decl(curr)`: once `res`
is 0 the remaining declarations are not checked. -/
def check_globs (curr : List GlobDecl) (res : Int) (st : State) : Res (Int × State) :=
  match curr with
  | [] => .ok (res, st)
  | decl :: next =>
    if res = 0 then check_globs next 0 st
    else do
      let (r, st1) ← check_glob_decl decl st
      check_globs next (if r = 0 then 0 else 1) st1

/-- The C function `check_unit`. -/
def check_unit (unit : List GlobDecl) (st : State) : Res (Int × State) := do
  let st1 ← init_builtin_sym st
  check_globs unit 1 st1

/-! ## Declaration parser

The functions with a loop or a recursion take the budget `fuel`; those that
reach the expression parser take `arg_prec` as well. -/

/-- The C function `tok_is_type`. -/
def tok_is_type (tok : Token) : Bool := tok.kind = .TOK_KW_INT

/-- The C function `get_base_type`; `none` is the null pointer. -/
def get_base_type (lx : Lexer) : Res (Option CType × Lexer) := do
  let tok ← tok_peek lx
  if tok.kind = .TOK_KW_INT then do
    let (_, lx1) ← tok_next lx
    .ok (some .int, lx1)
  else .ok (none, lx)

/-- The number of pointer levels of a type. -/
def CType.ptr_depth : CType → Nat
  | .ptr base_type => base_type.ptr_depth + 1
  | .void => 0
  | .char => 0
  | .int => 0
  | .func _ _ => 0

/-- The C function `type_ptr` on the structural types of the parser.
`parse_type` is its only caller and every chain of calls starts from `int`, so
the slots of `type_ptr_cache` in use hold `int*`, `int**`, ... in this order:
the pointer to a type of `n` levels is slot `n`, which is found or, when `n`
is `type_ptr_cache_count`, written; beyond the capacity of the array that is
undefined. -/
def CType.type_ptr (base_type : CType) : Res CType :=
  if base_type.ptr_depth < TYPE_PTR_CACHE_SIZE then .ok (.ptr base_type)
  else .error .undefined

/-- The C function `parse_type`, entered with `type = base_type`: the loop over
the stars. -/
def parse_type (fuel : Nat) (type : CType) (lx : Lexer) : Res (CType × Lexer) :=
  match fuel with
  | 0 => .error .out_of_fuel
  | fuel + 1 => do
    let tok ← tok_peek lx
    if tok.kind = .TOK_STAR then do
      let (_, lx1) ← tok_next lx
      let type1 ← type.type_ptr
      parse_type fuel type1 lx1
    else .ok (type, lx)

/-- The identifier of a token that `tok_expect(TOK_ID)` returned. -/
def tok_id (tok : Token) : Res Ident :=
  match tok.id with
  | none => .error .undefined
  | some id => .ok id

/-- The C function `parse_decl`. -/
def parse_decl (fuel : Nat) (lx : Lexer) : Res (Decl × Lexer) := do
  let (base_type, lx1) ← get_base_type lx
  match base_type with
  | none => .error (.syn_fatal lx1.source_line "Invalid type for variable declaration")
  | some base_type => do
    let (type, lx2) ← parse_type fuel base_type lx1
    let (tok, lx3) ← tok_expect .TOK_ID lx2
    let id ← tok_id tok
    let (_, lx4) ← tok_expect .TOK_SEMI lx3
    .ok (⟨type, id⟩, lx4)

/-- The loop `while(tok.kind == TOK_SEMI)` at the head of `parse_stmt`. -/
def skip_semis (fuel : Nat) (lx : Lexer) : Res Lexer :=
  match fuel with
  | 0 => .error .out_of_fuel
  | fuel + 1 => do
    let tok ← tok_peek lx
    if tok.kind = .TOK_SEMI then do
      let (_, lx1) ← tok_next lx
      skip_semis fuel lx1
    else .ok lx

/-- The end of the `TOK_KW_RETURN` case of `parse_stmt`, after the keyword:
the operand, when the next token `tok` is no semicolon, and the semicolon. -/
def parse_ret (parsed : Res (Expr × Lexer)) (tok : Token) (lx : Lexer) : Res (Stmt × Lexer) :=
  if tok.kind ≠ .TOK_SEMI then do
    let (expr, lx1) ← parsed
    let (_, lx2) ← tok_expect .TOK_SEMI lx1
    .ok (.ret (some expr), lx2)
  else do
    let (_, lx2) ← tok_expect .TOK_SEMI lx
    .ok (.ret none, lx2)

mutual
/-- The C function `parse_stmt_block`.  For an empty block the loop is not entered and
`u.block` is never written. -/
def parse_stmt_block (arg_prec : Int) (fuel : Nat) (lx : Lexer) : Res (Stmt × Lexer) :=
  match fuel with
  | 0 => .error .out_of_fuel
  | fuel + 1 => do
    let (_, lx1) ← tok_expect .TOK_LBRACE lx
    let tok ← tok_peek lx1
    if tok.kind ≠ .TOK_RBRACE then do
      let (block, lx2) ← parse_block_stmts arg_prec fuel lx1
      let (_, lx3) ← tok_expect .TOK_RBRACE lx2
      .ok (.block block, lx3)
    else do
      let (_, lx3) ← tok_expect .TOK_RBRACE lx1
      .ok (.block_unset, lx3)
/-- The loop `while(tok.kind != TOK_RBRACE)` of `parse_stmt_block`, entered when
the token peeked last is no closing brace: the statements in link order. -/
def parse_block_stmts (arg_prec : Int) (fuel : Nat) (lx : Lexer) : Res (List Stmt × Lexer) :=
  match fuel with
  | 0 => .error .out_of_fuel
  | fuel + 1 => do
    let (sub_stmt, lx1) ← parse_stmt arg_prec fuel lx
    let tok ← tok_peek lx1
    if tok.kind ≠ .TOK_RBRACE then do
      let (rest, lx2) ← parse_block_stmts arg_prec fuel lx1
      .ok (sub_stmt :: rest, lx2)
    else .ok ([sub_stmt], lx1)
/-- The C function `parse_stmt`. -/
def parse_stmt (arg_prec : Int) (fuel : Nat) (lx : Lexer) : Res (Stmt × Lexer) :=
  match fuel with
  | 0 => .error .out_of_fuel
  | fuel + 1 => do
    let lx1 ← skip_semis fuel lx
    let tok ← tok_peek lx1
    if tok_is_type tok then do
      let (decl, lx2) ← parse_decl fuel lx1
      .ok (.decl decl, lx2)
    else if tok.kind = .TOK_LBRACE then parse_stmt_block arg_prec fuel lx1
    else if tok.kind = .TOK_KW_RETURN then do
      let (_, lx2) ← tok_next lx1
      let tok1 ← tok_peek lx2
      parse_ret (parse_expr arg_prec fuel lx2) tok1 lx2
    else do
      let (expr, lx2) ← parse_expr arg_prec fuel lx1
      let (_, lx3) ← tok_expect .TOK_SEMI lx2
      .ok (.expr expr, lx3)
end

/-- The C function `parse_func_param`: the identifier and the type of the node
that `make_func_param` returns. -/
def parse_func_param (fuel : Nat) (lx : Lexer) : Res ((Ident × CType) × Lexer) := do
  let (base_type, lx1) ← get_base_type lx
  match base_type with
  | none => .error (.syn_fatal lx1.source_line "Invalid type for function parameter")
  | some base_type => do
    let (type, lx2) ← parse_type fuel base_type lx1
    let (tok, lx3) ← tok_expect .TOK_ID lx2
    let id ← tok_id tok
    .ok ((id, type), lx3)

/-- The value of the local `curr_param` of `parse_glob_decl`, which is read
before it is written: the null pointer, the last node of the list `params`, or
an indeterminate value that is not null. -/
inductive ParamPtr where
  | null
  | last
  | wild

/-- The statement `if(curr_param) ... else ...` of the parameter loop, after
`parse_func_param` returned `param`: the list headed by `params` afterwards.  A
write of `next` through an indeterminate pointer is undefined. -/
def link_param (curr_param : ParamPtr) (params : List (Ident × CType)) (param : Ident × CType) :
    Res (List (Ident × CType)) :=
  match curr_param with
  | .null => .ok [param]
  | .last => .ok (params ++ [param])
  | .wild => .error .undefined

/-- The loop `while(tok.kind != TOK_RPAREN)` of `parse_glob_decl`, entered when
the token peeked last is no closing parenthesis.  The loop goes on only when the
token after a parameter is a comma, which is no closing parenthesis, and the
comma is not consumed. -/
def parse_func_params (fuel : Nat) (curr_param : ParamPtr) (params : List (Ident × CType))
    (lx : Lexer) : Res (List (Ident × CType) × Lexer) :=
  match fuel with
  | 0 => .error .out_of_fuel
  | fuel + 1 => do
    let (param, lx1) ← parse_func_param fuel lx
    let params1 ← link_param curr_param params param
    let tok ← tok_peek lx1
    if tok.kind ≠ .TOK_COMMA then .ok (params1, lx1)
    else parse_func_params fuel .last params1 lx1

/-- The parameter list of `parse_glob_decl` after the opening parenthesis;
`curr_param_null` tells whether the uninitialised local `curr_param` holds the
null pointer. -/
def glob_decl_params (curr_param_null : Bool) (fuel : Nat) (lx : Lexer) :
    Res (List (Ident × CType) × Lexer) := do
  let tok ← tok_peek lx
  if tok.kind ≠ .TOK_RPAREN then
    parse_func_params fuel (if curr_param_null then .null else .wild) [] lx
  else .ok ([], lx)

/-- The end of the function case of `parse_glob_decl`, after the closing
parenthesis: the body or the semicolon. -/
def glob_decl_body (arg_prec : Int) (fuel : Nat) (id : Ident) (type : CType) (lx : Lexer) :
    Res (GlobDecl × Lexer) := do
  let tok ← tok_peek lx
  if tok.kind = .TOK_LBRACE then do
    let (func_def, lx1) ← parse_stmt_block arg_prec fuel lx
    .ok (.func id type (some func_def), lx1)
  else do
    let (_, lx1) ← tok_expect .TOK_SEMI lx
    .ok (.func id type none, lx1)

/-- The C function `parse_glob_decl`.  Its local `curr_param` is read before it
is written; `curr_param_null` tells whether the value read is the null
pointer. -/
def parse_glob_decl (arg_prec : Int) (curr_param_null : Bool) (fuel : Nat) (lx : Lexer) :
    Res (GlobDecl × Lexer) := do
  let (base_type, lx1) ← get_base_type lx
  match base_type with
  | none => .error (.syn_fatal lx1.source_line "Invalid type for global declaration")
  | some base_type => do
    let (type, lx2) ← parse_type fuel base_type lx1
    let (tok, lx3) ← tok_expect .TOK_ID lx2
    let id ← tok_id tok
    let tok1 ← tok_peek lx3
    if tok1.kind = .TOK_SEMI then do
      let (_, lx4) ← tok_expect .TOK_SEMI lx3
      .ok (.var id type, lx4)
    else do
      let (_, lx4) ← tok_expect .TOK_LPAREN lx3
      let (params, lx5) ← glob_decl_params curr_param_null fuel lx4
      let (_, lx6) ← tok_expect .TOK_RPAREN lx5
      glob_decl_body arg_prec fuel id (.func type params) lx6

/-- The loop of `parse_unit`, at the `n`-th call of `parse_glob_decl`;
`curr_param_null k` tells whether the uninitialised local `curr_param` of the
`k`-th call holds the null pointer. -/
def parse_globs (arg_prec : Int) (curr_param_null : Nat → Bool) (fuel : Nat) (n : Nat)
    (lx : Lexer) : Res (List GlobDecl × Lexer) :=
  match fuel with
  | 0 => .error .out_of_fuel
  | fuel + 1 => do
    let tok ← tok_peek lx
    if tok.kind ≠ .TOK_EOF then do
      let (decl, lx1) ← parse_glob_decl arg_prec (curr_param_null n) fuel lx
      let (rest, lx2) ← parse_globs arg_prec curr_param_null fuel (n + 1) lx1
      .ok (decl :: rest, lx2)
    else .ok ([], lx)

/-- The C function `parse_unit`. -/
def parse_unit (arg_prec : Int) (curr_param_null : Nat → Bool) (fuel : Nat) (lx : Lexer) :
    Res (List GlobDecl × Lexer) :=
  parse_globs arg_prec curr_param_null fuel 0 lx

/-- The C function `parser_init`: the lexer at the start of `src`. -/
def parser_init (src : String) : Lexer := ⟨src.data, 1⟩

/-! ## Vocabulary of the statements about the lexer and the calls -/

/-- Successive calls of `tok_peek`: the tokens returned, in call order, and the
values of `source` and `source_line` after the last call. -/
def tok_peek_calls : Nat → Lexer → Res (List Token × Lexer)
  | 0, lx => .ok ([], lx)
  | n + 1, lx => do
    let (tok, lx1) ← _tok_next false lx
    let (rest, lx2) ← tok_peek_calls n lx1
    .ok (tok :: rest, lx2)

/-- The characters of a token: there is one at least and none is whitespace. -/
def TokText (text : List Char) : Prop := text ≠ [] ∧ text.all (fun c => !isspace c) = true

/-- The text of the argument part of a call in the words of the specification:
for each argument in list order its own text, followed by `pushl %eax`. -/
def pushed_args : List (List String) → List String
  | [] => []
  | text :: rest => text ++ ["\tpushl %eax\n"] ++ pushed_args rest

/-! ## The whole run -/

/-- The four passes that `main` runs on a program text, in its order:
`parser_init` and `parse_unit`, `check_unit` (whose result `main` ignores),
`unit_to_irc`, `compile_unit`.  The result is the state at the end, whose `fout`
is the assembly text written.  The calls of `print_unit` between the passes are
not part of it. -/
def pipeline (arg_prec : Int) (curr_param_null : Nat → Bool) (fuel : Nat) (src : String) :
    Res State := do
  let (unit, _) ← parse_unit arg_prec curr_param_null fuel (parser_init src)
  let (_, st1) ← check_unit unit State.init
  let (irc, st2) ← unit_to_irc unit st1
  compile_unit irc st2

/-! ## Vocabulary of the statements about the emitted text -/

/-- The instruction of an arithmetic operator in the words of the
specification. -/
def arith_instr : List (BinKind × String) :=
  [(.EXPR_MUL, "\timull %ecx\n"), (.EXPR_DIV, "\tidivl %ecx\n"),
   (.EXPR_ADD, "\taddl %ecx,%eax\n"), (.EXPR_SUB, "\tsubl %ecx,%eax\n")]

/-- The address of a symbol in `%eax` as the specification words it: for a
global one move of the symbol name with the immediate sign `$`, for a local the
copy of `%ebp` and the addition of the offset. -/
def lvalue_text_immediate (sym : Sym) : List String :=
  if sym.global ≠ 0 then ["\tmovl $" ++ sym.id.str ++ ",%eax\n"]
  else ["\tmovl %ebp,%eax\n", "\taddl $" ++ fmt_d sym.offset ++ ",%eax\n"]

/-- The address of a symbol in `%eax` with the name of a global written bare. -/
def lvalue_text (sym : Sym) : List String :=
  if sym.global ≠ 0 then ["\tmovl " ++ sym.id.str ++ ",%eax\n"]
  else ["\tmovl %ebp,%eax\n", "\taddl $" ++ fmt_d sym.offset ++ ",%eax\n"]

/-- The text that `compile_stmt` writes for `body` from the state `st`; empty
when it does not return. -/
def body_code (body : Stmt) (st : State) : List String :=
  match compile_stmt body st with
  | .ok st1 => st1.fout.drop st.fout.length
  | .error _ => []

/-- The emission of a global declaration in the words of the specification,
with `st` the state in which the declaration is reached: a variable emits its
label and a `.zero` reservation of the size of its type; a function with a body
emits its label, `pushl %ebp`, `movl %esp,%ebp`, the code of the body, `leave`,
`ret`; a function without a body emits nothing. -/
def glob_emission (decl : GlobDecl) (st : State) : List String :=
  match decl with
  | .var id type => [id.str ++ ":\n", "\t.zero $" ++ fmt_d (type.size.getD 0) ++ "\n"]
  | .func _ _ none => []
  | .func id _ (some body) =>
    [id.str ++ ":\n", "\tpushl %ebp\n", "\tmovl %esp,%ebp\n"] ++
      body_code body (func_entry id st) ++ ["\tleave\n", "\tret\n"]

/-- The emissions of the declarations of a unit in the order of the unit, each
in the state that `compile_glob_decl` left for it. -/
def unit_emission (unit : List GlobDecl) (st : State) : List String :=
  match unit with
  | [] => []
  | decl :: next =>
    glob_emission decl st ++
      match compile_glob_decl decl st with
      | .ok st1 => unit_emission next st1
      | .error _ => []

/-! ## Deciding the equality of results

Boolean tests of equality for the syntax trees and the states, which have no
decidable equality of their own; they are proved sound among the theorems and
serve to settle runs on concrete programs by evaluation. -/

mutual
/-- The two types are the same. -/
def CType.same : CType → CType → Bool
  | .void, .void => true
  | .char, .char => true
  | .int, .int => true
  | .ptr a, .ptr b => a.same b
  | .func a ps, .func b qs => a.same b && CType.same_params ps qs
  | _, _ => false
/-- The two parameter lists are the same. -/
def CType.same_params : List (Ident × CType) → List (Ident × CType) → Bool
  | [], [] => true
  | p :: ps, q :: qs => CType.same_param p q && CType.same_params ps qs
  | _, _ => false
/-- The two parameters are the same. -/
def CType.same_param : Ident × CType → Ident × CType → Bool
  | (i, a), (j, b) => decide (i = j) && a.same b
end

mutual
/-- The two expressions are the same. -/
def Expr.same : Expr → Expr → Bool
  | .intlit v, .intlit w => decide (v = w)
  | .id i, .id j => decide (i = j)
  | .call l r, .call l1 r1 => l.same l1 && Expr.same_list r r1
  | .neg l, .neg l1 => l.same l1
  | .binary k l r, .binary k1 l1 r1 => decide (k = k1) && l.same l1 && r.same r1
  | _, _ => false
/-- The two lists of expressions are the same. -/
def Expr.same_list : List Expr → List Expr → Bool
  | [], [] => true
  | e :: es, f :: fs => e.same f && Expr.same_list es fs
  | _, _ => false
end

mutual
/-- The two statements are the same. -/
def Stmt.same : Stmt → Stmt → Bool
  | .decl d, .decl e => d.type.same e.type && decide (d.id = e.id)
  | .expr a, .expr b => a.same b
  | .block a, .block b => Stmt.same_list a b
  | .block_unset, .block_unset => true
  | .ret none, .ret none => true
  | .ret (some a), .ret (some b) => a.same b
  | .ret_unset, .ret_unset => true
  | _, _ => false
/-- The two lists of statements are the same. -/
def Stmt.same_list : List Stmt → List Stmt → Bool
  | [], [] => true
  | s :: ss, t :: ts => s.same t && Stmt.same_list ss ts
  | _, _ => false
end

/-- The two global declarations are the same. -/
def GlobDecl.same : GlobDecl → GlobDecl → Bool
  | .var i a, .var j b => decide (i = j) && a.same b
  | .func i a none, .func j b none => decide (i = j) && a.same b
  | .func i a (some s), .func j b (some t) => decide (i = j) && a.same b && s.same t
  | _, _ => false

/-- The two units are the same. -/
def GlobDecl.same_list : List GlobDecl → List GlobDecl → Bool
  | [], [] => true
  | d :: ds, e :: es => d.same e && GlobDecl.same_list ds es
  | _, _ => false

/-- The two symbol tables are the same. -/
def Sym.same_list : List Sym → List Sym → Bool
  | [], [] => true
  | s :: ss, t :: ts =>
    decide (s.id = t.id) && s.type.same t.type && decide (s.global = t.global) &&
      decide (s.offset = t.offset) && Sym.same_list ss ts
  | _, _ => false

/-- The two states are the same. -/
def State.same (a b : State) : Bool :=
  Sym.same_list a.sym_table b.sym_table && decide (a.func_var_offset = b.func_var_offset) &&
    decide (a.tmp_vars_count = b.tmp_vars_count) &&
    (match a.curr_block, b.curr_block with
      | none, none => true
      | some x, some y => Stmt.same_list x y
      | _, _ => false) &&
    decide (a.fout = b.fout)

/-- The two outcomes are the same, for values compared with `same`. -/
def Res.same {α : Type} (same : α → α → Bool) : Res α → Res α → Bool
  | .ok a, .ok b => same a b
  | .error e, .error f => decide (e = f)
  | _, _ => false

/-- The two pairs are the same, for components compared with `sa` and `sb`. -/
def same_pair {α β : Type} (sa : α → α → Bool) (sb : β → β → Bool) (x y : α × β) : Bool :=
  sa x.1 y.1 && sb x.2 y.2

/-! ## The shape of what the lowering adds for one expression -/

/-- The operand that `store_expr_temp_var` puts in the place of the operand `e`:
`e` itself when it is an atom, otherwise an identifier that a statement of `mid`
declares. -/
def FlatOperand (mid : List Stmt) (e x : Expr) : Prop :=
  (expr_is_atom e = true ∧ x = e) ∨
  (expr_is_atom e = false ∧ ∃ t type, x = .id t ∧ Stmt.decl ⟨type, t⟩ ∈ mid)

/-- The node `rvalue` is the node `e` with its operands replaced as in
`FlatOperand`. -/
def Flattened (mid : List Stmt) : Expr → Expr → Prop
  | .call l r, .call l1 args => FlatOperand mid l l1 ∧ List.Forall₂ (FlatOperand mid) r args
  | .neg l, .neg l1 => FlatOperand mid l l1
  | .binary kind l r, .binary kind1 l1 r1 =>
    kind = kind1 ∧ FlatOperand mid l l1 ∧ FlatOperand mid r r1
  | _, _ => False

/-- What one call with `first` = 0 adds to the current block. -/
def StoreShape (E : Expr) (st st1 : State) (res : Option Ident) : Prop :=
  ∃ type mid rvalue,
    res = some (.interned ("___t" ++ fmt_d st.tmp_vars_count)) ∧
    eval_expr_type st.sym_table E = .ok type ∧
    st1.curr_block = st.curr_block.map (fun b => b ++
      (.decl ⟨type, .interned ("___t" ++ fmt_d st.tmp_vars_count)⟩ :: mid ++
        [.expr (.binary .EXPR_ASSIGN (.id (.interned ("___t" ++ fmt_d st.tmp_vars_count)))
          rvalue)])) ∧
    Flattened mid E rvalue ∧
    (E.flat = true → mid = [] ∧ rvalue = E) ∧
    (E.flat = false → ∃ d rest, mid = .decl d :: rest)

/-! ## Vocabulary of the statements about the use of temporaries -/

/-- The name that `tmp_var` makes from the counter value `k`. -/
def tmp_name (k : Nat) : Ident := .interned ("___t" ++ Nat.repr k)

mutual
/-- The identifiers that occur in the expression. -/
def Expr.ids : Expr → List Ident
  | .intlit _ => []
  | .id i => [i]
  | .call l r => l.ids ++ Expr.ids_list r
  | .neg l => l.ids
  | .binary _ l r => l.ids ++ r.ids
/-- The identifiers that occur in the expressions of the list. -/
def Expr.ids_list : List Expr → List Ident
  | [] => []
  | e :: next => e.ids ++ Expr.ids_list next
end

mutual
/-- The identifiers that the statement mentions: the one it declares, those of
its expression, those of the statements of its block. -/
def Stmt.ids : Stmt → List Ident
  | .decl d => [d.id]
  | .expr e => e.ids
  | .block b => Stmt.ids_list b
  | .block_unset => []
  | .ret none => []
  | .ret (some e) => e.ids
  | .ret_unset => []
/-- The identifiers that the statements of the list mention. -/
def Stmt.ids_list : List Stmt → List Ident
  | [] => []
  | s :: next => s.ids ++ Stmt.ids_list next
end

/-- The statement is the declaration of `t`. -/
def Stmt.declares (t : Ident) : Stmt → Bool
  | .decl d => decide (d.id = t)
  | _ => false

/-- The statement is an assignment to `t`: an expression statement whose
expression is an assignment with the identifier `t` on the left. -/
def Stmt.assigns (t : Ident) : Stmt → Bool
  | .expr (.binary .EXPR_ASSIGN (.id x) _) => decide (x = t)
  | _ => false

/-- The identifiers that the statement uses as an operand, a call argument or a
return operand.  In an assignment of a call, unary or binary node to an
identifier, the form in which the lowering defines a temporary, the identifier
on the left is being defined and is not a use. -/
def Stmt.uses : Stmt → List Ident
  | .expr (.binary .EXPR_ASSIGN (.id t) r) => if expr_is_atom r then t :: r.ids else r.ids
  | .expr e => e.ids
  | .ret (some e) => e.ids
  | _ => []

/-- None of the identifiers is the name of a temporary of counter value `c0` or
more. -/
def Hygienic (c0 : Nat) (ids : List Ident) : Prop :=
  ∀ k, c0 ≤ k → tmp_name k ∉ ids

/-- In the block, each use of a temporary of counter value `c0` or more comes
after the declaration of that temporary and after exactly one assignment to
it. -/
def DefinedBeforeUse (c0 : Nat) (block : List Stmt) : Prop :=
  ∀ pre s post k, block = pre ++ s :: post → c0 ≤ k → tmp_name k ∈ s.uses →
    pre.any (Stmt.declares (tmp_name k)) = true ∧
    pre.countP (Stmt.assigns (tmp_name k)) = 1

/-- In the block, the declarations of the temporaries of counter value `c0` or
more come in the order of their counter values. -/
def DeclOrder (c0 : Nat) (block : List Stmt) : Prop :=
  block.Pairwise (fun s s1 => ∀ a b, c0 ≤ a → c0 ≤ b →
    s.declares (tmp_name a) = true → s1.declares (tmp_name b) = true → a < b)

/-- The statements `added` while the counter went from `c` to `c1`: they
declare and assign, among the temporaries from `c0` on, only those of the
counter values `c .. c1 - 1`, in counter order, and use them after their
declaration and their one assignment. -/
def Seg (c0 c c1 : Nat) (added : List Stmt) : Prop :=
  c ≤ c1 ∧
  (∀ s ∈ added, ∀ k, c0 ≤ k → s.declares (tmp_name k) = true → c ≤ k ∧ k < c1) ∧
  (∀ s ∈ added, ∀ k, c0 ≤ k → s.assigns (tmp_name k) = true → c ≤ k ∧ k < c1) ∧
  DefinedBeforeUse c0 added ∧ DeclOrder c0 added

/-- Each temporary from `c0` on among the identifiers is declared by a
statement of `added` and assigned by exactly one. -/
def Covered (c0 : Nat) (added : List Stmt) (ids : List Ident) : Prop :=
  ∀ k, c0 ≤ k → tmp_name k ∈ ids →
    added.any (Stmt.declares (tmp_name k)) = true ∧
    added.countP (Stmt.assigns (tmp_name k)) = 1

/-! ## Vocabulary of the statements about the table read and the code generator -/

/-- The index of the read `op_precedence_table[TOK_EQUAL]` in
`parse_expr_unary_post`. -/
def arg_prec_index : Nat := TokKind.TOK_EQUAL.code

mutual
/-- The expression has a node of kind `EXPR_MOD` or `EXPR_NEG`. -/
def Expr.has_mod_neg : Expr → Bool
  | .intlit _ => false
  | .id _ => false
  | .call l r => l.has_mod_neg || Expr.has_mod_neg_list r
  | .neg _ => true
  | .binary kind l r => decide (kind = .EXPR_MOD) || l.has_mod_neg || r.has_mod_neg
/-- One of the expressions has such a node. -/
def Expr.has_mod_neg_list : List Expr → Bool
  | [] => false
  | e :: next => e.has_mod_neg || Expr.has_mod_neg_list next
end

mutual
/-- The statement has an expression with a node of kind `EXPR_MOD` or
`EXPR_NEG`, nested blocks included. -/
def Stmt.has_mod_neg : Stmt → Bool
  | .decl _ => false
  | .expr e => e.has_mod_neg
  | .block b => Stmt.has_mod_neg_list b
  | .block_unset => false
  | .ret none => false
  | .ret (some e) => e.has_mod_neg
  | .ret_unset => false
/-- One of the statements has such an expression. -/
def Stmt.has_mod_neg_list : List Stmt → Bool
  | [] => false
  | s :: next => s.has_mod_neg || Stmt.has_mod_neg_list next
end

/-- The body of the function has an expression with a node of kind `EXPR_MOD`
or `EXPR_NEG`. -/
def GlobDecl.has_mod_neg : GlobDecl → Bool
  | .var _ _ => false
  | .func _ _ none => false
  | .func _ _ (some body) => body.has_mod_neg

/-- The identifier that the global declaration declares. -/
def GlobDecl.name : GlobDecl → Ident
  | .var id _ => id
  | .func id _ _ => id

/-- The declaration is a variable, a function without a body, or a function
whose body is a block, as `parse_stmt_block` builds it. -/
def GlobDecl.block_body : GlobDecl → Bool
  | .var _ _ => true
  | .func _ _ none => true
  | .func _ _ (some (.block _)) => true
  | .func _ _ (some _) => false

/-- The statement is a call of `f` in one of the places in which the code
generator reaches the call before anything else of the statement: the call as
an expression statement, as the right-hand side of an assignment to an
identifier, or as the operand of a return. -/
def CallStmt (f : Ident) (s : Stmt) : Prop :=
  ∃ args, s = .expr (.call (.id f) args) ∨
    (∃ t, s = .expr (.binary .EXPR_ASSIGN (.id t) (.call (.id f) args))) ∨
    s = .ret (some (.call (.id f) args))

/-- The text has `%ecx` at its start. -/
def ecx_at (cs : List Char) : Bool := cs.take 4 = ['%', 'e', 'c', 'x']

/-- The text mentions the register `%ecx`. -/
def mentions_ecx : List Char → Bool
  | [] => false
  | c :: rest => ecx_at (c :: rest) || mentions_ecx rest

/-! ## The temporaries that a lowering creates -/

/-- The names of the temporaries of the counter values `c .. c1 - 1`, in the
order of the counter. -/
def temp_range (c c1 : Nat) : List Ident := (List.range' c (c1 - c)).map tmp_name

/-- The identifier that the statement declares. -/
def Stmt.decl_id : Stmt → Option Ident
  | .decl d => some d.id
  | _ => none

/-- The identifiers that the statements of the list declare, in their order. -/
def declared_ids (block : List Stmt) : List Ident := block.filterMap Stmt.decl_id

/-- The name that the call of `tmp_var` in the first part of
`store_expr_temp_var` returns; the call is made when `first` is 0. -/
def begin_temps (first : Bool) (st : State) : List Ident :=
  if first then []
  else
    match tmp_var st with
    | .ok (t, _) => [t]
    | .error _ => []

mutual
/-- The names that the calls of `tmp_var` return while `store_expr_temp_var`
runs on `expr` from the state `st`, in the order of the calls. -/
def store_temps (expr : Expr) (first : Bool) (st : State) : List Ident :=
  match expr with
  | .call l r =>
    begin_temps first st ++
      match store_begin (.call l r) first st with
      | .error _ => []
      | .ok (_, st0) =>
        (if expr_is_atom l then [] else store_temps l false st0) ++
          match store_operand l (store_expr_temp_var l false st0) st0 with
          | .error _ => []
          | .ok (_, st1) => args_temps r st1
  | .neg l =>
    begin_temps first st ++
      match store_begin (.neg l) first st with
      | .error _ => []
      | .ok (_, st0) => if expr_is_atom l then [] else store_temps l false st0
  | .binary kind l r =>
    begin_temps first st ++
      match store_begin (.binary kind l r) first st with
      | .error _ => []
      | .ok (_, st0) =>
        (if expr_is_atom l then [] else store_temps l false st0) ++
          match store_operand l (store_expr_temp_var l false st0) st0 with
          | .error _ => []
          | .ok (_, st1) => if expr_is_atom r then [] else store_temps r false st1
  | .intlit _ => begin_temps first st
  | .id _ => begin_temps first st
/-- The same for the argument loop of `store_expr_temp_var`. -/
def args_temps (r : List Expr) (st : State) : List Ident :=
  match r with
  | [] => []
  | e :: next =>
    (if expr_is_atom e then [] else store_temps e false st) ++
      match store_operand e (store_expr_temp_var e false st) st with
      | .error _ => []
      | .ok (_, st1) => args_temps next st1
end

mutual
/-- The names that the calls of `tmp_var` return while `stmt_to_irc` runs on the
statement from the state `st`, those made for nested blocks included. -/
def stmt_temps (stmt : Stmt) (st : State) : List Ident :=
  match stmt with
  | .decl _ => []
  | .expr expr => store_temps expr true st
  | .block block => stmts_temps block (block_enter st)
  | .block_unset => []
  | .ret none => []
  | .ret (some expr) => if expr_is_atom expr then [] else store_temps expr false st
  | .ret_unset => []
/-- The same for the loop of `block_to_irc` over the statements of a block. -/
def stmts_temps (stmts : List Stmt) (st : State) : List Ident :=
  match stmts with
  | [] => []
  | stmt :: next =>
    stmt_temps stmt st ++
      match stmt_to_irc stmt st with
      | .error _ => []
      | .ok st1 => stmts_temps next st1
end

/-- The names that the calls of `tmp_var` return while `block_to_irc` runs on
the block. -/
def block_temps (block : Stmt) (st : State) : List Ident :=
  match block with
  | .block stmts => stmts_temps stmts (block_enter st)
  | _ => []

/-- The names that the calls of `tmp_var` return while the loop of
`unit_to_irc` runs over the global declarations, function after function. -/
def globs_temps (unit : List GlobDecl) (st : State) : List Ident :=
  match unit with
  | [] => []
  | .var id type :: next =>
    match sym_add id type 1 0 st with
    | .error _ => []
    | .ok st1 => globs_temps next st1
  | .func id type none :: next =>
    match sym_add id type 1 0 st with
    | .error _ => []
    | .ok st1 => globs_temps next st1
  | .func id type (some func_def) :: next =>
    block_temps func_def st ++
      match block_to_irc func_def st with
      | .error _ => []
      | .ok (_, st1) =>
        match sym_add id type 1 0 st1 with
        | .error _ => []
        | .ok st2 => globs_temps next st2

/-- The names of all the temporaries that `unit_to_irc` creates on the unit, in
the order of their creation. -/
def unit_temps (unit : List GlobDecl) (st : State) : List Ident :=
  globs_temps unit (sym_reset st)

/-- What one run of a lowering function from the counter value `c` does: it
appends `A` to the current block, the counter goes to `c1`, the names returned
by `tmp_var` are those of `c .. c1 - 1`, and they are the identifiers that the
statements of `A` declare. -/
def TempRun (st st1 : State) (c : Nat) (log : List Ident) : Prop :=
  ∃ (A : List Stmt) (c1 : Nat), st1.curr_block = st.curr_block.map (fun b => b ++ A) ∧
    st1.tmp_vars_count = (c1 : Nat) ∧ c ≤ c1 ∧ log = temp_range c c1 ∧
    declared_ids A = temp_range c c1

/-- The part of `TempRun` about the counter alone, for the lowering functions
that do not keep the statements they make in the current block. -/
def CountRun (_st st1 : State) (c : Nat) (log : List Ident) : Prop :=
  ∃ c1 : Nat, st1.tmp_vars_count = (c1 : Nat) ∧ c ≤ c1 ∧ log = temp_range c c1

/-! ## Return statements in a unit -/

mutual
/-- Whether the statement is a return statement or a block that has one, at
any depth. -/
def Stmt.has_ret : Stmt → Bool
  | .decl _ => false
  | .expr _ => false
  | .block b => Stmt.has_ret_list b
  | .block_unset => false
  | .ret _ => true
  | .ret_unset => true
/-- The same for the statements of a list. -/
def Stmt.has_ret_list : List Stmt → Bool
  | [] => false
  | stmt :: next => stmt.has_ret || Stmt.has_ret_list next
end

/-- Whether the body of the function has a return statement. -/
def GlobDecl.has_ret : GlobDecl → Bool
  | .var _ _ => false
  | .func _ _ none => false
  | .func _ _ (some body) => body.has_ret

/-! # Theorems -/

/-! ## Facts about the lowering -/

theorem bind_ok {α β : Type} {x : Res α} {f : α → Res β} {b : β} :
    (x >>= f) = .ok b ↔ ∃ a, x = .ok a ∧ f a = .ok b := by
  cases x <;> simp [bind, Except.bind]

theorem int_chk_ok {v w : Int} (h : int_chk v = .ok w) :
    w = v ∧ INT_MIN ≤ v ∧ v ≤ INT_MAX := by
  unfold int_chk at h
  split at h
  · rename_i hc
    cases h
    exact ⟨rfl, hc⟩
  · cases h

theorem Appended.app_refl (st : State) : Appended st st [] := by
  refine ⟨?_, le_refl _, rfl⟩
  cases st.curr_block <;> simp

theorem Appended.app_trans {st st1 st2 : State} {a b : List Stmt}
    (h1 : Appended st st1 a) (h2 : Appended st1 st2 b) : Appended st st2 (a ++ b) := by
  obtain ⟨c1, m1, f1⟩ := h1
  obtain ⟨c2, m2, f2⟩ := h2
  refine ⟨?_, le_trans m1 m2, f2.trans f1⟩
  rw [c2, c1]
  cases st.curr_block <;> simp

theorem SameSyms.syms_refl (st : State) : SameSyms st st := ⟨rfl, rfl⟩

theorem SameSyms.syms_trans {st st1 st2 : State}
    (h1 : SameSyms st st1) (h2 : SameSyms st1 st2) : SameSyms st st2 :=
  ⟨h2.1.trans h1.1, h2.2.trans h1.2⟩

theorem tmp_var_ok {st st1 : State} {t : Ident} (h : tmp_var st = .ok (t, st1)) :
    t = .interned ("___t" ++ fmt_d st.tmp_vars_count) ∧
    st1 = { st with tmp_vars_count := st.tmp_vars_count + 1 } ∧
    st.tmp_vars_count + 1 ≤ INT_MAX := by
  unfold tmp_var at h
  obtain ⟨n, hn, k⟩ := bind_ok.1 h
  obtain ⟨rfl, _, hmax⟩ := int_chk_ok hn
  simp only [Except.ok.injEq, Prod.mk.injEq] at k
  exact ⟨k.1.symm, k.2.symm, hmax⟩

theorem add_stmt_ok {stmt : Stmt} {st st1 : State} (h : add_stmt stmt st = .ok st1) :
    Appended st st1 [stmt] ∧ SameSyms st st1 ∧ st.curr_block ≠ none := by
  unfold add_stmt at h
  split at h
  · cases h
  · rename_i b hb
    cases h
    refine ⟨⟨by simp [hb], le_refl _, rfl⟩, ⟨rfl, rfl⟩, by simp [hb]⟩

theorem store_begin_ok {expr : Expr} {first : Bool} {st st0 : State} {res : Option Ident}
    (h : store_begin expr first st = .ok (res, st0)) :
    SameSyms st st0 ∧
    ((first = true ∧ res = none ∧ st0 = st) ∨
     (first = false ∧ ∃ type, res = some (.interned ("___t" ++ fmt_d st.tmp_vars_count)) ∧
        Appended st st0 [.decl ⟨type, .interned ("___t" ++ fmt_d st.tmp_vars_count)⟩])) := by
  unfold store_begin at h
  split at h
  · rename_i hf
    cases h
    exact ⟨SameSyms.syms_refl _, Or.inl ⟨hf, rfl, rfl⟩⟩
  · rename_i hf
    obtain ⟨⟨t, st1⟩, h1, k1⟩ := bind_ok.1 h
    obtain ⟨type, h2, k2⟩ := bind_ok.1 k1
    obtain ⟨st2, h3, k3⟩ := bind_ok.1 k2
    obtain ⟨rfl, rfl, _⟩ := tmp_var_ok h1
    obtain ⟨ha, hs, _⟩ := add_stmt_ok h3
    simp only [Except.ok.injEq, Prod.mk.injEq] at k3
    obtain ⟨rfl, rfl⟩ := k3
    refine ⟨⟨hs.1, hs.2⟩, Or.inr ⟨by simpa using hf, type, rfl, ?_⟩⟩
    obtain ⟨c, m, f⟩ := ha
    exact ⟨c, by simp at m; omega, f⟩

/-! ## Facts about the interner -/

theorem str_intern_add_eq (table : InternTable) (si : String) :
    str_intern_add table si = table ++ [si] := by
  induction table with
  | nil => rfl
  | cons s rest ih => simp [str_intern_add, ih]

theorem str_intern_find_some (s : String) (table : InternTable) (i j : Nat)
    (h : str_intern_find s table i = some j) :
    i ≤ j ∧ table[j - i]? = some s := by
  induction table generalizing i with
  | nil => simp [str_intern_find] at h
  | cons node next ih =>
    simp only [str_intern_find] at h
    split at h
    · rename_i hc
      cases h
      simp [hc.2]
    · obtain ⟨h1, h2⟩ := ih (i + 1) h
      refine ⟨by omega, ?_⟩
      have : j - i = (j - (i + 1)) + 1 := by omega
      rw [this]
      simpa using h2

theorem str_intern_find_none (s : String) (table : InternTable) (i : Nat)
    (h : str_intern_find s table i = none) : s ∉ table := by
  induction table generalizing i with
  | nil => simp
  | cons node next ih =>
    simp only [str_intern_find] at h
    split at h
    · cases h
    · rename_i hc
      have hne : ¬ node = s := fun e => hc ⟨by rw [e], e⟩
      simp only [List.mem_cons, not_or]
      exact ⟨fun e => hne e.symm, ih (i + 1) h⟩

theorem str_intern_find_append (s : String) (table ext : InternTable) (i j : Nat)
    (h : str_intern_find s table i = some j) :
    str_intern_find s (table ++ ext) i = some j := by
  induction table generalizing i with
  | nil => simp [str_intern_find] at h
  | cons node next ih =>
    simp only [str_intern_find, List.cons_append] at h ⊢
    split
    · rename_i hc
      simpa [hc] using h
    · rename_i hc
      simp only [hc, if_false] at h
      exact ih (i + 1) h

theorem str_intern_find_new (s : String) (table : InternTable) (i : Nat)
    (h : str_intern_find s table i = none) :
    str_intern_find s (table ++ [s]) i = some (i + table.length) := by
  induction table generalizing i with
  | nil => simp [str_intern_find]
  | cons node next ih =>
    simp only [str_intern_find, List.cons_append] at h ⊢
    split
    · rename_i hc
      simp [hc] at h
    · rename_i hc
      simp only [hc, if_false] at h
      have := ih (i + 1) h
      simp only [List.length_cons]
      rw [show i + (next.length + 1) = i + 1 + next.length by omega]
      exact this

/-- What one call of `str_intern` on a non-empty string does: the table is
extended at the end at most, the result is the position of the string, and the
search finds that position again. -/
theorem str_intern_spec (s : String) (table : InternTable) (hs : s ≠ "") :
    ∃ i ext, str_intern (some s) table = (some i, table ++ ext) ∧
      str_intern_find s (table ++ ext) 0 = some i ∧
      (table ++ ext)[i]? = some s ∧ (s ∈ table → ext = []) := by
  unfold str_intern
  simp only [hs, if_false]
  cases hf : str_intern_find s table 0 with
  | some i =>
    refine ⟨i, [], by simp, by simpa using hf, ?_, fun _ => rfl⟩
    have := (str_intern_find_some s table 0 i hf).2
    simpa using this
  | none =>
    refine ⟨table.length, [s], by simp [str_intern_add_eq], ?_, by simp, ?_⟩
    · simpa using str_intern_find_new s table 0 hf
    · intro hm
      exact absurd hm (str_intern_find_none s table 0 hf)

/-- C9. Interner injectivity: for every intern table and any two non-empty
strings, the addresses returned by `str_intern(s1)` and then `str_intern(s2)`
are non-null and equal exactly when the strings are equal; the address returned
for `s1` is that of a node holding `s1`; a string that is already in the table
is returned without growing the table. -/
theorem str_intern_injective (table : InternTable) (s1 s2 : String)
    (h1 : s1 ≠ "") (h2 : s2 ≠ "") :
    ((str_intern (some s1) table).1 =
        (str_intern (some s2) (str_intern (some s1) table).2).1 ↔ s1 = s2) ∧
    (∃ i, (str_intern (some s1) table).1 = some i ∧
        (str_intern (some s1) table).2[i]? = some s1) ∧
    (s1 ∈ table → (str_intern (some s1) table).2 = table) := by
  obtain ⟨i, ext, he, hf, hi, hm⟩ := str_intern_spec s1 table h1
  obtain ⟨j, ext2, he2, hf2, hj, _⟩ := str_intern_spec s2 (table ++ ext) h2
  rw [he]
  simp only [he2]
  refine ⟨⟨?_, ?_⟩, ⟨i, rfl, hi⟩, ?_⟩
  · intro hij
    have hij : i = j := by simpa using hij
    subst hij
    have hlt : i < (table ++ ext).length := by
      by_contra hge
      rw [List.getElem?_eq_none (by omega)] at hi
      cases hi
    rw [List.getElem?_append_left hlt, hi] at hj
    exact Option.some.inj hj
  · intro hs
    subst hs
    have := str_intern_find_append s1 (table ++ ext) ext2 0 i hf
    rw [this] at hf2
    exact hf2
  · intro hmem
    simp [hm hmem]

/-- A run of C9: `a` and `b` interned after `int`. -/
theorem str_intern_injective_witness :
    (((str_intern (some "a") ["int"]).1 =
        (str_intern (some "b") (str_intern (some "a") ["int"]).2).1 ↔ "a" = "b") ∧
    (∃ i, (str_intern (some "a") ["int"]).1 = some i ∧
        (str_intern (some "a") ["int"]).2[i]? = some "a") ∧
    ("a" ∈ ["int"] → (str_intern (some "a") ["int"]).2 = ["int"])) :=
  str_intern_injective ["int"] "a" "b" (by decide) (by decide)

/-! ## Facts about the pointer-type cache -/

theorem type_ptr_find_some (base : TypeRef) (cache : List TypeSlot) (i j : Nat)
    (h : type_ptr_find base cache i = some j) :
    i ≤ j ∧ ∃ slot, cache[j - i]? = some slot ∧ slot.base_type = base := by
  induction cache generalizing i with
  | nil => simp [type_ptr_find] at h
  | cons slot rest ih =>
    simp only [type_ptr_find] at h
    split at h
    · rename_i hc
      cases h
      exact ⟨le_refl _, slot, by simp, hc⟩
    · obtain ⟨h1, s, h2, h3⟩ := ih (i + 1) h
      refine ⟨by omega, s, ?_, h3⟩
      have : j - i = (j - (i + 1)) + 1 := by omega
      rw [this]
      simpa using h2

theorem type_ptr_find_append (base : TypeRef) (cache ext : List TypeSlot) (i j : Nat)
    (h : type_ptr_find base cache i = some j) :
    type_ptr_find base (cache ++ ext) i = some j := by
  induction cache generalizing i with
  | nil => simp [type_ptr_find] at h
  | cons slot rest ih =>
    simp only [type_ptr_find, List.cons_append] at h ⊢
    split
    · rename_i hc
      simpa [hc] using h
    · rename_i hc
      simp only [hc, if_false] at h
      exact ih (i + 1) h

theorem type_ptr_find_new (base : TypeRef) (cache : List TypeSlot) (i : Nat)
    (kind : TypeKind) (size : Int)
    (h : type_ptr_find base cache i = none) :
    type_ptr_find base (cache ++ [⟨kind, size, base⟩]) i = some (i + cache.length) := by
  induction cache generalizing i with
  | nil => simp [type_ptr_find]
  | cons slot rest ih =>
    simp only [type_ptr_find, List.cons_append] at h ⊢
    split
    · rename_i hc
      simp [hc] at h
    · rename_i hc
      simp only [hc, if_false] at h
      have := ih (i + 1) h
      simp only [List.length_cons]
      rw [show i + (rest.length + 1) = i + 1 + rest.length by omega]
      exact this

/-- What one call of `type_ptr` does when the array has room: the cache is
extended at the end by at most one slot, the result is a slot of kind
`TYPE_PTR` and size 4 whose base is the requested type, and the search finds
that slot again. -/
theorem type_ptr_spec (base : TypeRef) (cache : List TypeSlot)
    (hinv : cache_inv cache) (hroom : cache.length < TYPE_PTR_CACHE_SIZE) :
    ∃ i ext, type_ptr base cache = .ok (.cached i, cache ++ ext) ∧
      type_ptr_find base (cache ++ ext) 0 = some i ∧
      (cache ++ ext)[i]? = some ⟨.TYPE_PTR, 4, base⟩ ∧
      ext.length ≤ 1 ∧ cache_inv (cache ++ ext) := by
  unfold type_ptr
  cases hf : type_ptr_find base cache 0 with
  | some i =>
    obtain ⟨_, slot, hs, hb⟩ := type_ptr_find_some base cache 0 i hf
    refine ⟨i, [], by simp, by simpa using hf, ?_, by simp, by simpa using hinv⟩
    have hmem : slot ∈ cache := by
      obtain ⟨hlt, he⟩ := List.getElem?_eq_some.1 hs
      exact he ▸ List.getElem_mem hlt
    obtain ⟨hk, hz⟩ := hinv slot hmem
    have : slot = ⟨.TYPE_PTR, 4, base⟩ := by
      cases slot
      simp_all
    simpa [this] using hs
  | none =>
    refine ⟨cache.length, [⟨.TYPE_PTR, 4, base⟩], by simp [hroom], ?_, by simp, by simp, ?_⟩
    · simpa using type_ptr_find_new base cache 0 .TYPE_PTR 4 hf
    · intro slot hm
      rcases List.mem_append.1 hm with hm | hm
      · exact hinv slot hm
      · simp only [List.mem_singleton] at hm
        subst hm
        exact ⟨rfl, rfl⟩

/-- C10. Pointer-type uniqueness: on a cache written by `type_ptr` with room
for two more slots, `type_ptr(T1)` and then `type_ptr(T2)` return, and they
return the same address exactly when `T1` and `T2` are the same address; a
repeated `type_ptr(T1)` returns the same slot, of kind `TYPE_PTR`, size 4 and
base `T1`, and leaves the cache and its count unchanged. -/
theorem type_ptr_unique (cache : List TypeSlot) (T1 T2 : TypeRef)
    (hinv : cache_inv cache) (hroom : cache.length + 2 ≤ TYPE_PTR_CACHE_SIZE) :
    ∃ i1 c1 i2 c2, type_ptr T1 cache = .ok (.cached i1, c1) ∧
      type_ptr T2 c1 = .ok (.cached i2, c2) ∧
      (TypeRef.cached i1 = TypeRef.cached i2 ↔ T1 = T2) ∧
      type_ptr T1 c2 = .ok (.cached i1, c2) ∧
      c2[i1]? = some ⟨.TYPE_PTR, 4, T1⟩ ∧
      type_ptr T1 c1 = .ok (.cached i1, c1) := by
  obtain ⟨i1, e1, h1, hf1, hs1, hl1, hinv1⟩ :=
    type_ptr_spec T1 cache hinv (by omega)
  have hroom1 : (cache ++ e1).length < TYPE_PTR_CACHE_SIZE := by
    simp only [List.length_append]
    omega
  obtain ⟨i2, e2, h2, hf2, hs2, _, _⟩ := type_ptr_spec T2 (cache ++ e1) hinv1 hroom1
  have hlt : i1 < (cache ++ e1).length := by
    by_contra hge
    rw [List.getElem?_eq_none (by omega)] at hs1
    cases hs1
  have hf12 := type_ptr_find_append T1 (cache ++ e1) e2 0 i1 hf1
  refine ⟨i1, cache ++ e1, i2, cache ++ e1 ++ e2, h1, h2, ⟨?_, ?_⟩, ?_, ?_, ?_⟩
  · intro hij
    have hij : i1 = i2 := by simpa using hij
    subst hij
    rw [List.getElem?_append_left hlt, hs1] at hs2
    simpa using hs2
  · intro ht
    subst ht
    rw [hf12] at hf2
    simpa using hf2
  · unfold type_ptr
    rw [hf12]
  · rw [List.getElem?_append_left hlt]
    exact hs1
  · unfold type_ptr
    rw [hf1]

/-- A run of C10 on the empty cache with `int` and `int *` as bases. -/
theorem type_ptr_unique_witness :
    ∃ i1 c1 i2 c2, type_ptr .int [] = .ok (.cached i1, c1) ∧
      type_ptr (.cached 0) c1 = .ok (.cached i2, c2) ∧
      (TypeRef.cached i1 = TypeRef.cached i2 ↔ TypeRef.int = TypeRef.cached 0) ∧
      type_ptr .int c2 = .ok (.cached i1, c2) ∧
      c2[i1]? = some ⟨.TYPE_PTR, 4, .int⟩ ∧
      type_ptr .int c1 = .ok (.cached i1, c1) :=
  type_ptr_unique [] .int (.cached 0) (by intro s hs; cases hs) (by decide)

/-! ## Facts about the symbol table -/

theorem sym_find_some (id : Ident) (tbl : List Sym) (i j : Nat)
    (h : sym_find id tbl i = some j) :
    i ≤ j ∧ (∃ sym, tbl[j - i]? = some sym ∧ sym.id = id ∧ sym_get id tbl = some sym) ∧
      ∀ k, k < j - i → ∀ s, tbl[k]? = some s → s.id ≠ id := by
  induction tbl generalizing i with
  | nil => simp [sym_find] at h
  | cons sym rest ih =>
    simp only [sym_find] at h
    split at h
    · rename_i hc
      cases h
      refine ⟨le_refl _, ⟨sym, by simp, hc.symm, by simp [sym_get, hc]⟩, ?_⟩
      intro k hk
      omega
    · rename_i hc
      obtain ⟨h1, ⟨s, h2, h3, h4⟩, h5⟩ := ih (i + 1) h
      have e : j - i = (j - (i + 1)) + 1 := by omega
      refine ⟨by omega, ⟨s, ?_, h3, by simp [sym_get, hc, h4]⟩, ?_⟩
      · rw [e]
        simpa using h2
      · intro k hk s0 hs0
        cases k with
        | zero =>
          simp only [List.getElem?_cons_zero, Option.some.injEq] at hs0
          subst hs0
          exact fun e0 => hc e0.symm
        | succ k =>
          simp only [List.getElem?_cons_succ] at hs0
          exact h5 k (by omega) s0 hs0

theorem sym_find_none (id : Ident) (tbl : List Sym) (i : Nat) :
    sym_find id tbl i = none ↔ ∀ s ∈ tbl, s.id ≠ id := by
  induction tbl generalizing i with
  | nil => simp [sym_find]
  | cons sym rest ih =>
    simp only [sym_find, List.mem_cons, forall_eq_or_imp]
    split
    · rename_i hc
      simp [hc]
    · rename_i hc
      rw [ih (i + 1)]
      constructor
      · intro h
        exact ⟨fun e => hc e.symm, h⟩
      · intro h
        exact h.2

theorem sym_get_none (id : Ident) (tbl : List Sym) :
    sym_get id tbl = none ↔ ∀ s ∈ tbl, s.id ≠ id := by
  induction tbl with
  | nil => simp [sym_get]
  | cons sym rest ih =>
    simp only [sym_get, List.mem_cons, forall_eq_or_imp]
    split
    · rename_i hc
      simp [hc]
    · rename_i hc
      rw [ih]
      constructor
      · intro h
        exact ⟨fun e => hc e.symm, h⟩
      · intro h
        exact h.2

/-- C6, as the code has it. Symbol lookup returns the first binding: for every
symbol table and identifier, when `sym_get` returns the entry of index `i`, that
entry has the identifier and no entry of a smaller index has it; `sym_get`
returns no symbol exactly when no entry below `sym_table_count` has the
identifier. -/
theorem sym_get_first (id : Ident) (sym_table : List Sym) :
    (∀ i, sym_get_index id sym_table = some i →
      (∃ sym, sym_table[i]? = some sym ∧ sym.id = id ∧ sym_get id sym_table = some sym) ∧
      ∀ k, k < i → ∀ s, sym_table[k]? = some s → s.id ≠ id) ∧
    (sym_get_index id sym_table = none ↔ ∀ s ∈ sym_table, s.id ≠ id) ∧
    (sym_get id sym_table = none ↔ ∀ s ∈ sym_table, s.id ≠ id) := by
  refine ⟨?_, sym_find_none id sym_table 0, sym_get_none id sym_table⟩
  intro i hi
  have := sym_find_some id sym_table 0 i hi
  simpa using this.2

/-- C6 as stated fails: with two entries for `x`, `sym_get` returns the entry
of index 0 (the one of type `int`, offset -4), not the entry of the greatest
index 1. -/
theorem sym_get_not_last :
    sym_get_index (.interned "x")
        [⟨.interned "x", .int, 0, -4⟩, ⟨.interned "x", .ptr .int, 0, -8⟩] = some 0 ∧
    ([⟨.interned "x", .int, 0, -4⟩, ⟨.interned "x", .ptr .int, 0, -8⟩][1]?.map
        (fun (s : Sym) => s.id)) = some (.interned "x") ∧
    (sym_get (.interned "x")
        [⟨.interned "x", .int, 0, -4⟩, ⟨.interned "x", .ptr .int, 0, -8⟩]).map
        (fun (s : Sym) => s.offset) = some (-4) := by
  refine ⟨by decide, by decide, by decide⟩

theorem Lowers.low_refl (st : State) : Lowers st st :=
  ⟨[], Appended.app_refl st, SameSyms.syms_refl st, by simp⟩

theorem Lowers.low_trans {st st1 st2 : State} (h1 : Lowers st st1) (h2 : Lowers st1 st2) :
    Lowers st st2 := by
  obtain ⟨a, ha, hs, hf⟩ := h1
  obtain ⟨b, hb, hs2, hf2⟩ := h2
  refine ⟨a ++ b, ha.app_trans hb, hs.syms_trans hs2, ?_⟩
  intro s hm
  rcases List.mem_append.1 hm with hm | hm
  · exact hf s hm
  · exact hf2 s hm

theorem Lowers.single {st st1 : State} {stmt : Stmt} (h : add_stmt stmt st = .ok st1)
    (hf : stmt.irc_form = true) : Lowers st st1 := by
  obtain ⟨ha, hs, _⟩ := add_stmt_ok h
  exact ⟨[stmt], ha, hs, by simpa using hf⟩

theorem irc_form_of_flat {e : Expr} (h : e.flat = true) : (Stmt.expr e).irc_form = true := by
  unfold Stmt.irc_form
  split <;> simp_all

theorem irc_form_assign {t : Ident} {e : Expr} (h : e.flat = true) :
    (Stmt.expr (.binary .EXPR_ASSIGN (.id t) e)).irc_form = true := by
  simp [Stmt.irc_form, h]

theorem store_begin_lowers {expr : Expr} {first : Bool} {st st0 : State} {res : Option Ident}
    (h : store_begin expr first st = .ok (res, st0)) :
    Lowers st st0 ∧ (first = false → res = some (.interned ("___t" ++ fmt_d st.tmp_vars_count))) := by
  obtain ⟨hs, h1 | h1⟩ := store_begin_ok h
  · obtain ⟨hf, _, rfl⟩ := h1
    exact ⟨Lowers.low_refl _, by simp [hf]⟩
  · obtain ⟨hf, type, hr, ha⟩ := h1
    exact ⟨⟨_, ha, hs, by simp [Stmt.irc_form]⟩, fun _ => hr⟩

theorem store_end_lowers {first : Bool} {res res1 : Option Ident} {rvalue : Expr}
    {st st1 : State} (h : store_end first res rvalue st = .ok (res1, st1))
    (hf : rvalue.flat = true) : Lowers st st1 ∧ res1 = res := by
  unfold store_end at h
  split at h
  · obtain ⟨st2, h1, k⟩ := bind_ok.1 h
    simp only [Except.ok.injEq, Prod.mk.injEq] at k
    obtain ⟨rfl, rfl⟩ := k
    exact ⟨Lowers.single h1 (irc_form_of_flat hf), rfl⟩
  · split at h
    · cases h
    · obtain ⟨st2, h1, k⟩ := bind_ok.1 h
      simp only [Except.ok.injEq, Prod.mk.injEq] at k
      obtain ⟨rfl, rfl⟩ := k
      exact ⟨Lowers.single h1 (irc_form_assign hf), rfl⟩

theorem store_operand_lowers {e x : Expr} {rec : Res (Option Ident × State)} {st st1 : State}
    (h : store_operand e rec st = .ok (x, st1))
    (ih : ∀ res st2, rec = .ok (res, st2) → Lowers st st2) :
    expr_is_atom x = true ∧ Lowers st st1 := by
  unfold store_operand at h
  split at h
  · rename_i ha
    simp only [Except.ok.injEq, Prod.mk.injEq] at h
    obtain ⟨rfl, rfl⟩ := h
    exact ⟨ha, Lowers.low_refl _⟩
  · split at h
    · cases h
    · cases h
    · rename_i t st2
      simp only [Except.ok.injEq, Prod.mk.injEq] at h
      obtain ⟨rfl, rfl⟩ := h
      exact ⟨rfl, ih _ _ rfl⟩

mutual
theorem store_expr_temp_var_lowers : ∀ (expr : Expr) (first : Bool) (st st1 : State)
    (res : Option Ident), store_expr_temp_var expr first st = .ok (res, st1) →
    Lowers st st1 ∧ (first = false → res = some (.interned ("___t" ++ fmt_d st.tmp_vars_count)))
  | .call l r, first, st, st1, res, h => by
    rw [store_expr_temp_var] at h
    obtain ⟨⟨res0, st0⟩, h0, k0⟩ := bind_ok.1 h
    obtain ⟨⟨l1, sta⟩, ha, ka⟩ := bind_ok.1 k0
    obtain ⟨⟨args, stb⟩, hb, kb⟩ := bind_ok.1 ka
    obtain ⟨b0, r0⟩ := store_begin_lowers h0
    obtain ⟨al, la⟩ := store_operand_lowers ha
      (fun res2 st2 h2 => (store_expr_temp_var_lowers l false st0 st2 res2 h2).1)
    obtain ⟨aargs, lb⟩ := store_args_lowers r sta stb args hb
    obtain ⟨le, re⟩ := store_end_lowers kb (by simp [Expr.flat, al, aargs])
    subst re
    exact ⟨(b0.low_trans la).low_trans (lb.low_trans le), r0⟩
  | .neg l, first, st, st1, res, h => by
    rw [store_expr_temp_var] at h
    obtain ⟨⟨res0, st0⟩, h0, k0⟩ := bind_ok.1 h
    obtain ⟨⟨l1, sta⟩, ha, ka⟩ := bind_ok.1 k0
    obtain ⟨b0, r0⟩ := store_begin_lowers h0
    obtain ⟨al, la⟩ := store_operand_lowers ha
      (fun res2 st2 h2 => (store_expr_temp_var_lowers l false st0 st2 res2 h2).1)
    obtain ⟨le, re⟩ := store_end_lowers ka (by simp [Expr.flat, al])
    subst re
    exact ⟨(b0.low_trans la).low_trans le, r0⟩
  | .binary kind l r, first, st, st1, res, h => by
    rw [store_expr_temp_var] at h
    obtain ⟨⟨res0, st0⟩, h0, k0⟩ := bind_ok.1 h
    obtain ⟨⟨l1, sta⟩, ha, ka⟩ := bind_ok.1 k0
    obtain ⟨⟨r1, stb⟩, hb, kb⟩ := bind_ok.1 ka
    obtain ⟨b0, r0⟩ := store_begin_lowers h0
    obtain ⟨al, la⟩ := store_operand_lowers ha
      (fun res2 st2 h2 => (store_expr_temp_var_lowers l false st0 st2 res2 h2).1)
    obtain ⟨ar, lb⟩ := store_operand_lowers hb
      (fun res2 st2 h2 => (store_expr_temp_var_lowers r false sta st2 res2 h2).1)
    obtain ⟨le, re⟩ := store_end_lowers kb (by simp [Expr.flat, al, ar])
    subst re
    exact ⟨(b0.low_trans la).low_trans (lb.low_trans le), r0⟩
  | .intlit value, first, st, st1, res, h => by
    rw [store_expr_temp_var] at h
    obtain ⟨_, _, k0⟩ := bind_ok.1 h
    cases k0
  | .id id, first, st, st1, res, h => by
    rw [store_expr_temp_var] at h
    obtain ⟨_, _, k0⟩ := bind_ok.1 h
    cases k0
theorem store_args_lowers : ∀ (r : List Expr) (st st1 : State) (args : List Expr),
    store_args r st = .ok (args, st1) →
    args.all expr_is_atom = true ∧ Lowers st st1
  | [], st, st1, args, h => by
    rw [store_args] at h
    simp only [Except.ok.injEq, Prod.mk.injEq] at h
    obtain ⟨rfl, rfl⟩ := h
    exact ⟨rfl, Lowers.low_refl _⟩
  | e :: next, st, st1, args, h => by
    rw [store_args] at h
    obtain ⟨⟨tmp, sta⟩, ha, ka⟩ := bind_ok.1 h
    obtain ⟨⟨rest, stb⟩, hb, kb⟩ := bind_ok.1 ka
    simp only [Except.ok.injEq, Prod.mk.injEq] at kb
    obtain ⟨rfl, rfl⟩ := kb
    obtain ⟨at1, la⟩ := store_operand_lowers ha
      (fun res2 st2 h2 => (store_expr_temp_var_lowers e false st st2 res2 h2).1)
    obtain ⟨arest, lb⟩ := store_args_lowers next sta stb rest hb
    exact ⟨by simp [at1, arest], la.low_trans lb⟩
end

theorem sym_add_ok {id : Ident} {type : CType} {g o : Int} {st st1 : State}
    (h : sym_add id type g o st = .ok st1) :
    st1 = { st with sym_table := st.sym_table ++ [⟨id, type, g, o⟩] } ∧
    st.sym_table.length < SYM_TABLE_SIZE := by
  unfold sym_add at h
  split at h
  · rename_i hc
    cases h
    exact ⟨rfl, hc⟩
  · cases h

theorem irc_decl_sym_ok {decl : Decl} {st st1 : State} (h : irc_decl_sym decl st = .ok st1) :
    Appended st st1 [] := by
  unfold irc_decl_sym at h
  obtain ⟨st2, h1, k1⟩ := bind_ok.1 h
  obtain ⟨rfl, _⟩ := sym_add_ok h1
  split at k1
  · cases k1
  · obtain ⟨off, h2, k2⟩ := bind_ok.1 k1
    cases k2
    refine ⟨?_, le_refl _, rfl⟩
    cases st.curr_block <;> simp

theorem Grows.grow_refl (unset : Prop) (st : State) : Grows unset st st :=
  ⟨[], Appended.app_refl st, by simp⟩

theorem Grows.grow_trans {p q r : Prop} {st st1 st2 : State} (hp : p → r) (hq : q → r)
    (h1 : Grows p st st1) (h2 : Grows q st1 st2) : Grows r st st2 := by
  obtain ⟨a, ha, hf⟩ := h1
  obtain ⟨b, hb, hf2⟩ := h2
  refine ⟨a ++ b, ha.app_trans hb, ?_⟩
  intro s hm
  rcases List.mem_append.1 hm with hm | hm
  · rcases hf s hm with h | ⟨h, hu⟩
    · exact Or.inl h
    · exact Or.inr ⟨h, hp hu⟩
  · rcases hf2 s hm with h | ⟨h, hu⟩
    · exact Or.inl h
    · exact Or.inr ⟨h, hq hu⟩

theorem Lowers.grows {unset : Prop} {st st1 : State} (h : Lowers st st1) :
    Grows unset st st1 := by
  obtain ⟨a, ha, _, hf⟩ := h
  exact ⟨a, ha, fun s hm => Or.inl (hf s hm)⟩

theorem block_scope_grows (unset : Prop) {st st1 st2 : State} {blk : Stmt}
    {blk_added : List Stmt} (h1 : Appended (block_enter st) st1 blk_added)
    (h2 : block_leave st.curr_block st1 = .ok (blk, st2)) :
    blk = .block blk_added ∧ Grows unset st st2 := by
  unfold block_leave at h2
  obtain ⟨c, m, f⟩ := h1
  simp only [block_enter, Option.map_some', List.nil_append] at c
  rw [c] at h2
  simp only [Except.ok.injEq, Prod.mk.injEq] at h2
  obtain ⟨rfl, rfl⟩ := h2
  refine ⟨rfl, [], ⟨?_, m, f⟩, by simp⟩
  cases st.curr_block <;> simp

mutual
theorem stmt_to_irc_grows : ∀ (stmt : Stmt) (st st1 : State),
    stmt_to_irc stmt st = .ok st1 → Grows (stmt = .ret none) st st1
  | .decl decl, st, st1, h => by
    rw [stmt_to_irc] at h
    obtain ⟨st2, h1, k1⟩ := bind_ok.1 h
    obtain ⟨ha, _, _⟩ := add_stmt_ok h1
    have hb := irc_decl_sym_ok k1
    exact ⟨[.decl decl] ++ [], ha.app_trans hb, by simp [Stmt.irc_form]⟩
  | .expr expr, st, st1, h => by
    rw [stmt_to_irc] at h
    obtain ⟨⟨res, st2⟩, h1, k1⟩ := bind_ok.1 h
    cases k1
    exact (store_expr_temp_var_lowers expr true st st1 res h1).1.grows
  | .block block, st, st1, h => by
    rw [stmt_to_irc] at h
    obtain ⟨st2, h1, k1⟩ := bind_ok.1 h
    obtain ⟨⟨blk, st3⟩, h2, k2⟩ := bind_ok.1 k1
    cases k2
    obtain ⟨added, ha, _⟩ := stmts_to_irc_grows block (block_enter st) st2 h1
    exact (block_scope_grows _ ha h2).2
  | .block_unset, st, st1, h => by
    rw [stmt_to_irc] at h
    cases h
  | .ret none, st, st1, h => by
    rw [stmt_to_irc] at h
    obtain ⟨ha, _, _⟩ := add_stmt_ok h
    exact ⟨[.ret_unset], ha, by simp⟩
  | .ret (some expr), st, st1, h => by
    rw [stmt_to_irc] at h
    split at h
    · rename_i hatom
      exact (Lowers.single h (by simpa [Stmt.irc_form] using hatom)).grows
    · obtain ⟨⟨res, st2⟩, h1, k1⟩ := bind_ok.1 h
      have hl := (store_expr_temp_var_lowers expr false st st2 res h1).1
      cases res with
      | none => cases k1
      | some t =>
        exact (hl.low_trans (Lowers.single k1 (by simp [Stmt.irc_form, expr_is_atom]))).grows
  | .ret_unset, st, st1, h => by
    rw [stmt_to_irc] at h
    cases h
theorem stmts_to_irc_grows : ∀ (stmts : List Stmt) (st st1 : State),
    stmts_to_irc stmts st = .ok st1 → Grows (.ret none ∈ stmts) st st1
  | [], st, st1, h => by
    rw [stmts_to_irc] at h
    cases h
    exact Grows.grow_refl _ _
  | stmt :: next, st, st1, h => by
    rw [stmts_to_irc] at h
    obtain ⟨st2, h1, k1⟩ := bind_ok.1 h
    have g1 := stmt_to_irc_grows stmt st st2 h1
    have g2 := stmts_to_irc_grows next st2 st1 k1
    exact Grows.grow_trans (fun e => by simp [e]) (fun e => by simp [e]) g1 g2
end

/-- What `block_to_irc` returns: a block whose statements are of the lowered
form, or return nodes with an unwritten operand when the input block has a
`return;` among its statements. -/
theorem block_to_irc_ok {body irc : Stmt} {st st1 : State}
    (h : block_to_irc body st = .ok (irc, st1)) :
    ∃ stmts lowered, body = .block stmts ∧ irc = .block lowered ∧
      (∀ s ∈ lowered, s.irc_form = true ∨ (s = .ret_unset ∧ .ret none ∈ stmts)) ∧
      st.tmp_vars_count ≤ st1.tmp_vars_count := by
  unfold block_to_irc at h
  split at h
  · rename_i stmts
    obtain ⟨st2, h1, k1⟩ := bind_ok.1 h
    obtain ⟨added, ha, hf⟩ := stmts_to_irc_grows stmts (block_enter st) st2 h1
    obtain ⟨rfl, _, g, _⟩ := block_scope_grows True ha k1
    exact ⟨stmts, added, rfl, rfl, hf, g.2.1⟩
  · cases h

/-! ## Decimal rendering -/

theorem digitChar_value (k : Nat) (h : k < 10) : (Nat.digitChar k).toNat - 48 = k := by
  interval_cases k <;> rfl

theorem toDigitsCore_value (fuel n : Nat) (ds : List Char) (h : n < fuel) :
    (Nat.toDigitsCore 10 fuel n ds).foldl (fun v c => v * 10 + (c.toNat - 48)) 0 =
      ds.foldl (fun v c => v * 10 + (c.toNat - 48)) n := by
  induction fuel generalizing n ds with
  | zero => omega
  | succ fuel ih =>
    simp only [Nat.toDigitsCore]
    split
    · rename_i h0
      have hn : n < 10 := by omega
      simp only [List.foldl_cons, Nat.zero_mul, Nat.zero_add]
      rw [digitChar_value _ (Nat.mod_lt _ (by decide)), Nat.mod_eq_of_lt hn]
    · rename_i h0
      rw [ih (n / 10) _ (by omega)]
      simp only [List.foldl_cons]
      rw [digitChar_value _ (Nat.mod_lt _ (by decide))]
      congr 1
      omega

theorem repr_value (n : Nat) : digits_value (Nat.repr n).data = n := by
  simp only [Nat.repr, Nat.toDigits, digits_value, List.asString]
  rw [toDigitsCore_value _ _ _ (by omega)]
  rfl

theorem repr_injective {i j : Nat} (h : Nat.repr i = Nat.repr j) : i = j := by
  have := congrArg (fun s => digits_value s.data) h
  simpa [repr_value] using this

theorem tmp_name_injective {i j : Nat}
    (h : Ident.interned ("___t" ++ Nat.repr i) = Ident.interned ("___t" ++ Nat.repr j)) :
    i = j := by
  have h1 : "___t" ++ Nat.repr i = "___t" ++ Nat.repr j := by
    injection h
  have h2 := congrArg String.data h1
  simp only [String.data_append, List.append_cancel_left_eq] at h2
  exact repr_injective (String.ext h2)

theorem tmp_var_at {st : State} {c : Nat} (hc : st.tmp_vars_count = c)
    (hmax : (c : Int) + 1 ≤ INT_MAX) :
    tmp_var st = .ok (.interned ("___t" ++ Nat.repr c),
      { st with tmp_vars_count := (c : Int) + 1 }) := by
  unfold tmp_var int_chk
  have hmin : INT_MIN ≤ (c : Int) + 1 := by
    unfold INT_MIN
    omega
  simp only [hc, hmin, hmax, and_self, if_true, bind, Except.bind]
  rfl

theorem tmp_var_calls_from (n c : Nat) (st : State) (hc : st.tmp_vars_count = c)
    (hmax : (c : Int) + n ≤ INT_MAX) :
    tmp_var_calls n st =
      .ok ((List.range n).map (fun k => Ident.interned ("___t" ++ Nat.repr (c + k))),
        { st with tmp_vars_count := (c : Int) + n }) := by
  induction n generalizing c st with
  | zero =>
    simp only [tmp_var_calls, List.range_zero, List.map_nil, Nat.cast_zero, add_zero]
    rw [← hc]
  | succ n ih =>
    have h1 := tmp_var_at hc (by push_cast at hmax; omega)
    have h2 := ih (c + 1) { st with tmp_vars_count := (c : Int) + 1 } (by simp)
      (by push_cast at hmax ⊢; omega)
    simp only [tmp_var_calls, h1, h2, bind, Except.bind]
    simp only [List.range_succ_eq_map, List.map_cons, List.map_map, Nat.add_zero,
      Except.ok.injEq, Prod.mk.injEq, List.cons.injEq, true_and]
    refine ⟨?_, ?_⟩
    · apply List.map_congr_left
      intro k _
      simp only [Function.comp, Nat.succ_eq_add_one]
      rw [show c + 1 + k = c + (k + 1) by omega]
    · push_cast
      congr 1
      omega

theorem globs_to_irc_counter : ∀ (unit : List GlobDecl) (st st1 : State)
    (irc : List GlobDecl), globs_to_irc unit st = .ok (irc, st1) →
    st.tmp_vars_count ≤ st1.tmp_vars_count
  | [], st, st1, irc, h => by
    rw [globs_to_irc] at h
    cases h
    exact le_refl _
  | .var id type :: next, st, st1, irc, h => by
    rw [globs_to_irc] at h
    obtain ⟨st2, h1, k1⟩ := bind_ok.1 h
    obtain ⟨⟨rest, st3⟩, h2, k2⟩ := bind_ok.1 k1
    cases k2
    obtain ⟨rfl, _⟩ := sym_add_ok h1
    have := globs_to_irc_counter next _ _ rest h2
    exact this
  | .func id type none :: next, st, st1, irc, h => by
    rw [globs_to_irc] at h
    obtain ⟨st2, h1, k1⟩ := bind_ok.1 h
    obtain ⟨⟨rest, st3⟩, h2, k2⟩ := bind_ok.1 k1
    cases k2
    obtain ⟨rfl, _⟩ := sym_add_ok h1
    have := globs_to_irc_counter next _ _ rest h2
    exact this
  | .func id type (some func_def) :: next, st, st1, irc, h => by
    rw [globs_to_irc] at h
    obtain ⟨⟨blk, st2⟩, h1, k1⟩ := bind_ok.1 h
    obtain ⟨st3, h2, k2⟩ := bind_ok.1 k1
    obtain ⟨⟨rest, st4⟩, h3, k3⟩ := bind_ok.1 k2
    cases k3
    obtain ⟨_, _, _, _, _, hm⟩ := block_to_irc_ok h1
    obtain ⟨rfl, _⟩ := sym_add_ok h2
    have := globs_to_irc_counter next _ _ rest h3
    exact le_trans hm this

/-! ## Facts about code generation -/

theorem compile_decl_ok {decl : Decl} {st st1 : State} (h : compile_decl decl st = .ok st1) :
    ∃ size, decl.type.size = some size ∧ 0 < size ∧
      st1 = { st with
        fout := st.fout ++ ["\tsubl $" ++ fmt_d size ++ ",%esp\n"]
        sym_table := st.sym_table ++ [⟨decl.id, decl.type, 0, st.func_var_offset⟩]
        func_var_offset := st.func_var_offset - size } := by
  unfold compile_decl at h
  split at h
  · cases h
  · rename_i size hsize
    split at h
    · cases h
    · rename_i hpos
      obtain ⟨st2, h1, k1⟩ := bind_ok.1 h
      obtain ⟨off, h2, k2⟩ := bind_ok.1 k1
      obtain ⟨rfl, _⟩ := sym_add_ok h1
      obtain ⟨rfl, _, _⟩ := int_chk_ok h2
      cases k2
      exact ⟨size, hsize, by simpa using hpos, rfl⟩

mutual
theorem compile_stmt_syms : ∀ (stmt : Stmt) (st st1 : State),
    compile_stmt stmt st = .ok st1 → ∃ ext, st1.sym_table = st.sym_table ++ ext
  | .decl decl, st, st1, h => by
    rw [compile_stmt] at h
    obtain ⟨size, _, _, rfl⟩ := compile_decl_ok h
    exact ⟨_, rfl⟩
  | .expr expr, st, st1, h => by
    rw [compile_stmt] at h
    obtain ⟨text, _, k1⟩ := bind_ok.1 h
    cases k1
    exact ⟨[], by simp [emit]⟩
  | .block block, st, st1, h => by
    rw [compile_stmt] at h
    obtain ⟨st2, h1, k1⟩ := bind_ok.1 h
    cases k1
    obtain ⟨ext, he⟩ := compile_stmts_syms block st st2 h1
    exact ⟨[], by simp [he, State.sym_table_count]⟩
  | .block_unset, st, st1, h => by
    rw [compile_stmt] at h
    cases h
  | .ret none, st, st1, h => by
    rw [compile_stmt] at h
    cases h
    exact ⟨[], by simp [emit]⟩
  | .ret (some expr), st, st1, h => by
    rw [compile_stmt] at h
    obtain ⟨text, _, k1⟩ := bind_ok.1 h
    cases k1
    exact ⟨[], by simp [emit]⟩
  | .ret_unset, st, st1, h => by
    rw [compile_stmt] at h
    cases h
theorem compile_stmts_syms : ∀ (stmts : List Stmt) (st st1 : State),
    compile_stmts stmts st = .ok st1 → ∃ ext, st1.sym_table = st.sym_table ++ ext
  | [], st, st1, h => by
    rw [compile_stmts] at h
    cases h
    exact ⟨[], by simp⟩
  | stmt :: next, st, st1, h => by
    rw [compile_stmts] at h
    obtain ⟨st2, h1, k1⟩ := bind_ok.1 h
    obtain ⟨e1, he1⟩ := compile_stmt_syms stmt st st2 h1
    obtain ⟨e2, he2⟩ := compile_stmts_syms next st2 st1 k1
    exact ⟨e1 ++ e2, by simp [he2, he1]⟩
end

/-- C7. Scope discipline: for every block statement and every symbol table,
if `compile_stmt` on the block returns, then `sym_table_count` after the call
equals `sym_table_count` before it, and the entries below it are the same,
whatever declarations and nested blocks the block contains. -/
theorem compile_block_scope (block : List Stmt) (st st1 : State)
    (h : compile_stmt (.block block) st = .ok st1) :
    st1.sym_table_count = st.sym_table_count ∧ st1.sym_table = st.sym_table := by
  rw [compile_stmt] at h
  obtain ⟨st2, h1, k1⟩ := bind_ok.1 h
  cases k1
  obtain ⟨ext, he⟩ := compile_stmts_syms block st st2 h1
  simp [he, State.sym_table_count]

theorem frame_offsets_append (o : Int) (a b : List Decl) :
    frame_offsets o (a ++ b) =
      frame_offsets o a ++ frame_offsets (o - (a.map Decl.size).sum) b := by
  induction a generalizing o with
  | nil => simp [frame_offsets]
  | cons d rest ih =>
    have := ih (o - d.size)
    simp only [List.cons_append, frame_offsets, List.map_cons, List.sum_cons,
      List.cons.injEq, true_and, ← sub_sub]
    exact this

theorem frame_offsets_le (o : Int) (ds : List Decl) (hpos : ∀ d ∈ ds, 0 < d.size) :
    ∀ x ∈ frame_offsets o ds, x ≤ o := by
  induction ds generalizing o with
  | nil => simp [frame_offsets]
  | cons d rest ih =>
    intro x hx
    simp only [frame_offsets, List.mem_cons] at hx
    rcases hx with rfl | hx
    · exact le_refl _
    · have := ih (o - d.size) (fun e he => hpos e (List.mem_cons_of_mem _ he)) x hx
      have := hpos d (List.mem_cons_self _ _)
      omega

theorem frame_offsets_pairwise (o : Int) (ds : List Decl) (hpos : ∀ d ∈ ds, 0 < d.size) :
    (frame_offsets o ds).Pairwise (fun a b => b < a) := by
  induction ds generalizing o with
  | nil => simp [frame_offsets]
  | cons d rest ih =>
    simp only [frame_offsets, List.pairwise_cons]
    have hrest : ∀ e ∈ rest, 0 < e.size := fun e he => hpos e (List.mem_cons_of_mem _ he)
    refine ⟨?_, ih _ hrest⟩
    intro x hx
    have := frame_offsets_le (o - d.size) rest hrest x hx
    have := hpos d (List.mem_cons_self _ _)
    omega

theorem frame_offsets_length (o : Int) (ds : List Decl) :
    (frame_offsets o ds).length = ds.length := by
  induction ds generalizing o with
  | nil => rfl
  | cons d rest ih => simp [frame_offsets, ih]

theorem FrameRun.empty {st st1 : State} (h : st1.func_var_offset = st.func_var_offset) :
    FrameRun st st1 [] [] := by
  refine ⟨by simp [frame_offsets], by simpa using h, by simp⟩

theorem FrameRun.append {st st1 st2 : State} {a b : List Decl} {la lb : List Sym}
    (h1 : FrameRun st st1 a la) (h2 : FrameRun st1 st2 b lb) :
    FrameRun st st2 (a ++ b) (la ++ lb) := by
  obtain ⟨z1, o1, p1⟩ := h1
  obtain ⟨z2, o2, p2⟩ := h2
  refine ⟨?_, ?_, ?_⟩
  · rw [frame_offsets_append, List.map_append, z1, z2, o1]
    rw [List.zipWith_append]
    rw [frame_offsets_length]
  · rw [o2, o1, List.map_append, List.sum_append]
    omega
  · intro d hd
    rcases List.mem_append.1 hd with hd | hd
    · exact p1 d hd
    · exact p2 d hd

mutual
theorem compile_stmt_frame : ∀ (stmt : Stmt) (st st1 : State),
    compile_stmt stmt st = .ok st1 → FrameRun st st1 stmt.locals (frame_log stmt st)
  | .decl decl, st, st1, h => by
    rw [compile_stmt] at h
    obtain ⟨size, hsize, hpos, rfl⟩ := compile_decl_ok h
    have hlog : frame_log (.decl decl) st = [⟨decl.id, decl.type, 0, st.func_var_offset⟩] := by
      rw [frame_log, h]
      simp
    have hds : Decl.size decl = size := by simp [Decl.size, hsize]
    rw [hlog]
    refine ⟨by simp [Stmt.locals, frame_offsets], by simp [Stmt.locals, hds], ?_⟩
    intro d hd
    simp only [Stmt.locals, List.mem_singleton] at hd
    subst hd
    rw [hds]
    exact hpos
  | .expr expr, st, st1, h => by
    rw [compile_stmt] at h
    obtain ⟨text, _, k1⟩ := bind_ok.1 h
    cases k1
    rw [frame_log, Stmt.locals]
    exact FrameRun.empty rfl
  | .block block, st, st1, h => by
    rw [compile_stmt] at h
    obtain ⟨st2, h1, k1⟩ := bind_ok.1 h
    cases k1
    rw [frame_log, Stmt.locals]
    obtain ⟨z, o, p⟩ := compile_stmts_frame block st st2 h1
    exact ⟨z, o, p⟩
  | .block_unset, st, st1, h => by
    rw [compile_stmt] at h
    cases h
  | .ret none, st, st1, h => by
    rw [compile_stmt] at h
    cases h
    rw [frame_log, Stmt.locals]
    exact FrameRun.empty rfl
  | .ret (some expr), st, st1, h => by
    rw [compile_stmt] at h
    obtain ⟨text, _, k1⟩ := bind_ok.1 h
    cases k1
    rw [frame_log, Stmt.locals]
    exact FrameRun.empty rfl
  | .ret_unset, st, st1, h => by
    rw [compile_stmt] at h
    cases h
theorem compile_stmts_frame : ∀ (stmts : List Stmt) (st st1 : State),
    compile_stmts stmts st = .ok st1 →
    FrameRun st st1 (Stmt.locals_list stmts) (frame_log_list stmts st)
  | [], st, st1, h => by
    rw [compile_stmts] at h
    cases h
    rw [frame_log_list, Stmt.locals_list]
    exact FrameRun.empty rfl
  | stmt :: next, st, st1, h => by
    rw [compile_stmts] at h
    obtain ⟨st2, h1, k1⟩ := bind_ok.1 h
    have f1 := compile_stmt_frame stmt st st2 h1
    have f2 := compile_stmts_frame next st2 st1 k1
    rw [frame_log_list, Stmt.locals_list, h1]
    exact f1.append f2
end

theorem frame_reached_none (st : State) (ds : List Decl) : FrameReached st ds [] :=
  ⟨0, Nat.zero_le _, by simp [frame_offsets], by simp⟩

theorem frame_reached_all {st st1 : State} {ds : List Decl} {log : List Sym}
    (h : FrameRun st st1 ds log) : FrameReached st ds log :=
  ⟨ds.length, le_refl _, by simpa using h.1, by simpa using h.2.2⟩

theorem frame_reached_left {st : State} {a : List Decl} {log : List Sym} (b : List Decl)
    (h : FrameReached st a log) : FrameReached st (a ++ b) log := by
  obtain ⟨k, hk, hz, hp⟩ := h
  refine ⟨k, by simp only [List.length_append]; omega, ?_, ?_⟩
  · rw [List.take_append_of_le_length hk]
    exact hz
  · rw [List.take_append_of_le_length hk]
    exact hp

theorem frame_reached_right {st st1 : State} {a b : List Decl} {la lb : List Sym}
    (h1 : FrameRun st st1 a la) (h2 : FrameReached st1 b lb) :
    FrameReached st (a ++ b) (la ++ lb) := by
  obtain ⟨k, hk, hz, hp⟩ := h2
  have hrun : FrameRun st1
      { st1 with func_var_offset := st1.func_var_offset - ((b.take k).map Decl.size).sum }
      (b.take k) lb := ⟨hz, rfl, hp⟩
  have hall := h1.append hrun
  refine ⟨a.length + k, by simp only [List.length_append]; omega, ?_, ?_⟩
  · rw [List.take_append]
    exact hall.1
  · rw [List.take_append]
    exact hall.2.2

mutual
theorem frame_log_reached : ∀ (stmt : Stmt) (st : State),
    FrameReached st stmt.locals (frame_log stmt st)
  | .decl decl, st => by
    cases h : compile_decl decl st with
    | error e =>
      rw [frame_log, h]
      exact frame_reached_none _ _
    | ok st1 =>
      have hs : compile_stmt (.decl decl) st = .ok st1 := by
        rw [compile_stmt]
        exact h
      exact frame_reached_all (compile_stmt_frame (.decl decl) st st1 hs)
  | .expr expr, st => by
    rw [frame_log]
    exact frame_reached_none _ _
  | .block block, st => by
    rw [frame_log, Stmt.locals]
    exact frame_log_list_reached block st
  | .block_unset, st => by
    rw [frame_log]
    exact frame_reached_none _ _
  | .ret expr, st => by
    rw [frame_log]
    exact frame_reached_none _ _
  | .ret_unset, st => by
    rw [frame_log]
    exact frame_reached_none _ _
theorem frame_log_list_reached : ∀ (stmts : List Stmt) (st : State),
    FrameReached st (Stmt.locals_list stmts) (frame_log_list stmts st)
  | [], st => by
    rw [frame_log_list]
    exact frame_reached_none _ _
  | stmt :: next, st => by
    rw [frame_log_list, Stmt.locals_list]
    cases h : compile_stmt stmt st with
    | error e =>
      simp only [List.append_nil]
      exact frame_reached_left _ (frame_log_reached stmt st)
    | ok st1 =>
      exact frame_reached_right (compile_stmt_frame stmt st st1 h)
        (frame_log_list_reached next st1)
end

theorem frame_reached_total {st st1 : State} {ds : List Decl} {log : List Sym} {k : Nat}
    (h : FrameRun st st1 ds log) (hk : k ≤ ds.length)
    (hz : log.map (fun s => (s.id, s.global, s.offset)) =
      List.zipWith (fun (d : Decl) o => (d.id, 0, o)) (ds.take k)
        (frame_offsets st.func_var_offset (ds.take k))) : k = ds.length := by
  have h1 := congrArg List.length h.1
  have h2 := congrArg List.length hz
  simp only [List.length_map, List.length_zipWith, frame_offsets_length, List.length_take,
    min_self] at h1 h2
  omega

/-- C8. Frame-offset monotonicity: during the code generation of a function
with a body by `compile_glob_decl`, the symbols that `compile_decl` adds for the
locals of the body, in declaration order and with the locals of nested blocks,
are non-global and carry the offsets -4 for the first local and, for each later
one, the offset of the previous local minus the declared size of the previous
local; the declared sizes of these locals are positive, so the offsets are
strictly decreasing.  This holds for the `k` locals that the run reaches, and
`k` is the number of all locals of the body when `compile_glob_decl` returns. -/
theorem frame_offsets_decreasing (id : Ident) (type : CType) (body : Stmt) (st : State) :
    ∃ k, k ≤ body.locals.length ∧
      (frame_log body (func_entry id st)).map (fun s => (s.id, s.global, s.offset)) =
        List.zipWith (fun (d : Decl) o => (d.id, 0, o)) (body.locals.take k)
          (frame_offsets (-4) (body.locals.take k)) ∧
      (∀ d ∈ body.locals.take k, 0 < d.size) ∧
      (frame_offsets (-4) (body.locals.take k)).Pairwise (fun a b => b < a) ∧
      ∀ st1, compile_glob_decl (.func id type (some body)) st = .ok st1 →
        k = body.locals.length := by
  obtain ⟨k, hk, hz, hp⟩ := frame_log_reached body (func_entry id st)
  refine ⟨k, hk, hz, hp, frame_offsets_pairwise _ _ hp, ?_⟩
  intro st1 h
  rw [compile_glob_decl] at h
  obtain ⟨st2, h1, _⟩ := bind_ok.1 h
  exact frame_reached_total (compile_stmt_frame body (func_entry id st) st2 h1) hk hz

/-- The layout of `int f() { int a; { int *b; } int c; }`: `compile_glob_decl`
returns, and the locals get the offsets -4, -8 and -12. -/
theorem frame_log_example :
    compile_glob_decl (.func (.interned "f") (.func .int [])
        (some (.block [.decl ⟨.int, .interned "a"⟩, .block [.decl ⟨.ptr .int, .interned "b"⟩],
          .decl ⟨.int, .interned "c"⟩]))) State.init =
      .ok ⟨[⟨.interned "f", .func .int [], 1, 0⟩], -16, 0, none,
        ["f:\n", "\tpushl %ebp\n", "\tmovl %esp,%ebp\n", "\tsubl $4,%esp\n", "\tsubl $4,%esp\n",
          "\tsubl $4,%esp\n", "\tleave\n", "\tret\n"]⟩ ∧
    (frame_log
        (.block [.decl ⟨.int, .interned "a"⟩, .block [.decl ⟨.ptr .int, .interned "b"⟩],
          .decl ⟨.int, .interned "c"⟩])
        (func_entry (.interned "f") State.init)).map (fun s => (s.id, s.global, s.offset)) =
      [(.interned "a", 0, -4), (.interned "b", 0, -8), (.interned "c", 0, -12)] :=
  ⟨by rfl, by rfl⟩

/-- A run of C7 on the block `{ int a; { int b; } a = 1; }` from a table
holding one global: `compile_stmt` returns and the table is the same
afterwards. -/
theorem compile_block_scope_witness :
    compile_stmt
        (.block [.decl ⟨.int, .interned "a"⟩, .block [.decl ⟨.int, .interned "b"⟩],
          .expr (.binary .EXPR_ASSIGN (.id (.interned "a")) (.intlit 1))])
        ⟨[⟨.interned "g", .int, 1, 0⟩], 0, 0, none, []⟩ =
      .ok ⟨[⟨.interned "g", .int, 1, 0⟩], -8, 0, none,
        ["\tsubl $4,%esp\n", "\tsubl $4,%esp\n", "\tmovl $1,%eax\n", "\tmovl %eax,%ecx\n",
          "\tmovl %ebp,%eax\n", "\taddl $0,%eax\n", "\tmovl %ecx,(%eax)\n"]⟩ ∧
    (State.mk [⟨.interned "g", .int, 1, 0⟩] (-8) 0 none
        ["\tsubl $4,%esp\n", "\tsubl $4,%esp\n", "\tmovl $1,%eax\n", "\tmovl %eax,%ecx\n",
          "\tmovl %ebp,%eax\n", "\taddl $0,%eax\n", "\tmovl %ecx,(%eax)\n"]).sym_table_count =
      (State.mk [⟨.interned "g", .int, 1, 0⟩] 0 0 none []).sym_table_count ∧
    (State.mk [⟨.interned "g", .int, 1, 0⟩] (-8) 0 none
        ["\tsubl $4,%esp\n", "\tsubl $4,%esp\n", "\tmovl $1,%eax\n", "\tmovl %eax,%ecx\n",
          "\tmovl %ebp,%eax\n", "\taddl $0,%eax\n", "\tmovl %ecx,(%eax)\n"]).sym_table =
      (State.mk [⟨.interned "g", .int, 1, 0⟩] 0 0 none []).sym_table :=
  ⟨by rfl,
   compile_block_scope
    [.decl ⟨.int, .interned "a"⟩, .block [.decl ⟨.int, .interned "b"⟩],
      .expr (.binary .EXPR_ASSIGN (.id (.interned "a")) (.intlit 1))]
    (State.mk [⟨.interned "g", .int, 1, 0⟩] 0 0 none []) _ (by rfl)⟩

/-! ## Facts about the lexer -/

theorem Delim.at_end : Delim [] := by
  intro c h
  simp at h

theorem isspace_cases {c : Char} (h : isspace c = true) :
    c = ' ' ∨ c = '\t' ∨ c = '\n' ∨ c = '\x0b' ∨ c = '\x0c' ∨ c = '\r' := by
  simpa [isspace, or_assoc] using h

theorem isspace_toNat {c : Char} (h : isspace c = true) : c.toNat = 32 ∨ (9 ≤ c.toNat ∧ c.toNat ≤ 13) := by
  rcases isspace_cases h with h | h | h | h | h | h <;> subst h <;> decide

theorem isspace_not_ident {c : Char} (h : isspace c = true) :
    (isalnum c || decide (c = '_')) = false := by
  rcases isspace_cases h with h | h | h | h | h | h <;> subst h <;> decide

theorem ident_start_toNat {c : Char} (h : is_ident_start c = true) :
    c.toNat = 95 ∨ (97 ≤ c.toNat ∧ c.toNat ≤ 122) ∨ (65 ≤ c.toNat ∧ c.toNat ≤ 90) := by
  simp only [is_ident_start, isletter, Bool.or_eq_true, decide_eq_true_eq] at h
  rcases h with h | h
  · subst h
    exact Or.inl (by decide)
  · exact Or.inr h

theorem isdigit_toNat {c : Char} (h : isdigit c = true) : 48 ≤ c.toNat ∧ c.toNat ≤ 57 := by
  simpa [isdigit] using h

theorem ident_start_not_space {c : Char} (h : is_ident_start c = true) : isspace c = false := by
  cases hs : isspace c with
  | false => rfl
  | true =>
    have h1 := ident_start_toNat h
    have h2 := isspace_toNat hs
    omega

theorem isdigit_not_space {c : Char} (h : isdigit c = true) : isspace c = false := by
  cases hs : isspace c with
  | false => rfl
  | true =>
    have h1 := isdigit_toNat h
    have h2 := isspace_toNat hs
    omega

theorem isdigit_not_ident_start {c : Char} (h : isdigit c = true) : is_ident_start c = false := by
  cases hs : is_ident_start c with
  | false => rfl
  | true =>
    have h1 := isdigit_toNat h
    have h2 := ident_start_toNat hs
    omega

theorem ident_start_is_ident {c : Char} (h : is_ident_start c = true) :
    (isalnum c || decide (c = '_')) = true := by
  simp only [is_ident_start, isalnum, Bool.or_eq_true, decide_eq_true_eq] at h ⊢
  tauto

theorem Delim.of_space {w rest : List Char} (hw : w.all isspace = true) (hr : Delim rest) :
    Delim (w ++ rest) := by
  cases w with
  | nil => simpa using hr
  | cons c cs =>
    intro x hx
    simp only [List.cons_append, List.head?_cons, Option.some.injEq] at hx
    subst hx
    simp only [List.all_cons, Bool.and_eq_true] at hw
    exact isspace_not_ident hw.1

theorem Delim.before_op (op : Op) (rest : List Char) : Delim (op.char :: rest) := by
  intro x hx
  simp only [List.head?_cons, Option.some.injEq] at hx
  subst hx
  cases op <;> decide

theorem NoSpace.at_op (op : Op) (rest : List Char) : NoSpace (op.char :: rest) := by
  intro x hx
  simp only [List.head?_cons, Option.some.injEq] at hx
  subst hx
  cases op <;> decide

theorem skip_space_append (w rest : List Char) (line : Int) (hw : w.all isspace = true)
    (hr : NoSpace rest) : skip_space (w ++ rest) line = (rest, line + newlines w) := by
  induction w generalizing line with
  | nil =>
    simp only [List.nil_append, newlines, List.filter_nil, List.length_nil, Nat.cast_zero,
      add_zero]
    cases rest with
    | nil => rfl
    | cons c cs =>
      have := hr c rfl
      simp [skip_space, this]
  | cons c cs ih =>
    simp only [List.all_cons, Bool.and_eq_true] at hw
    rw [List.cons_append]
    simp only [skip_space, hw.1, if_true]
    rw [ih _ hw.2]
    by_cases hc : c = '\n'
    · subst hc
      simp [newlines, List.filter_cons]
      omega
    · simp [newlines, List.filter_cons, hc]

theorem lex_ident_append (cs buff rest : List Char)
    (hcs : cs.all (fun x => isalnum x || decide (x = '_')) = true)
    (hlen : buff.length + cs.length < MAX_ID_LEN) (hr : Delim rest) :
    lex_ident (cs ++ rest) buff = .ok (buff ++ cs, rest) := by
  induction cs generalizing buff with
  | nil =>
    simp only [List.nil_append, List.append_nil]
    cases rest with
    | nil => rfl
    | cons c r =>
      have := hr c rfl
      simp only [lex_ident, this]
      rfl
  | cons c cs ih =>
    simp only [List.all_cons, Bool.and_eq_true] at hcs
    simp only [List.length_cons] at hlen
    have h1 : buff.length + 1 < MAX_ID_LEN := by omega
    rw [List.cons_append]
    simp only [lex_ident, hcs.1, if_true, h1]
    rw [ih (buff ++ [c]) hcs.2 (by simp only [List.length_append, List.length_singleton]; omega)]
    simp

theorem Delim.no_digit {rest : List Char} (h : Delim rest) : NoDigit rest := by
  intro c hc
  have := h c hc
  simp only [isalnum, Bool.or_eq_false_iff] at this
  exact this.1.1

theorem foldl_digits_ge (ds : List Char) (v : Int) (hds : ds.all isdigit = true) (hv : 0 ≤ v) :
    v ≤ ds.foldl (fun v c => v * 10 + ((c.toNat : Int) - 48)) v := by
  induction ds generalizing v with
  | nil => simp
  | cons c cs ih =>
    simp only [List.all_cons, Bool.and_eq_true] at hds
    have hc := isdigit_toNat hds.1
    simp only [List.foldl_cons]
    have := ih (v * 10 + ((c.toNat : Int) - 48)) hds.2 (by omega)
    omega

theorem lex_number_append (ds rest : List Char) (v : Int) (hds : ds.all isdigit = true)
    (hv : 0 ≤ v)
    (hmax : ds.foldl (fun v c => v * 10 + ((c.toNat : Int) - 48)) v ≤ INT_MAX)
    (hr : NoDigit rest) :
    lex_number (ds ++ rest) v =
      .ok (ds.foldl (fun v c => v * 10 + ((c.toNat : Int) - 48)) v, rest) := by
  induction ds generalizing v with
  | nil =>
    simp only [List.nil_append, List.foldl_nil]
    cases rest with
    | nil => rfl
    | cons c r =>
      have := hr c rfl
      simp only [lex_number, this]
      rfl
  | cons c cs ih =>
    simp only [List.all_cons, Bool.and_eq_true] at hds
    have hc := isdigit_toNat hds.1
    simp only [List.foldl_cons] at hmax
    have hge := foldl_digits_ge cs (v * 10 + ((c.toNat : Int) - 48)) hds.2 (by omega)
    have hchk : int_chk (v * 10 + ((c.toNat : Int) - 48)) = .ok (v * 10 + ((c.toNat : Int) - 48)) := by
      unfold int_chk
      rw [if_pos]
      unfold INT_MIN
      constructor <;> omega
    rw [List.cons_append]
    simp only [lex_number, hds.1, if_true, hchk, bind, Except.bind, List.foldl_cons]
    exact ih _ hds.2 (by omega) hmax

theorem tok_next_nonempty (upd : Bool) (src : List Char) (line : Int) (h : src ≠ []) :
    _tok_next upd ⟨src, line⟩ =
      tok_switch upd ⟨src, line⟩ (skip_space src line).1 (skip_space src line).2 := by
  cases src with
  | nil => exact absurd rfl h
  | cons c cs => rfl

theorem tok_next_eof (upd : Bool) (line : Int) :
    _tok_next upd ⟨[], line⟩ = .ok (⟨.TOK_EOF, none, none⟩, ⟨[], line⟩) := rfl

theorem Atom.text_ne_nil {a : Atom} (hv : a.valid = true) : a.text ≠ [] := by
  cases a with
  | ident name =>
    simp only [Atom.valid, Bool.and_eq_true] at hv
    intro h
    simp only [Atom.text] at h
    simp [h] at hv
  | intlit digits =>
    simp only [Atom.valid, Bool.and_eq_true] at hv
    intro h
    simp only [Atom.text] at h
    simp [h] at hv

theorem Atom.head_not_space {a : Atom} (hv : a.valid = true) (rest : List Char) :
    NoSpace (a.text ++ rest) := by
  intro c hc
  cases a with
  | ident name =>
    simp only [Atom.valid, Bool.and_eq_true] at hv
    simp only [Atom.text] at hc
    cases hd : name.data with
    | nil => simp [hd] at hv
    | cons x xs =>
      simp only [hd, Bool.and_eq_true] at hv
      simp only [hd, List.cons_append, List.head?_cons, Option.some.injEq] at hc
      subst hc
      exact ident_start_not_space hv.1.1.1.1.1
  | intlit digits =>
    simp only [Atom.valid, Bool.and_eq_true] at hv
    simp only [Atom.text] at hc
    cases hd : digits with
    | nil => simp [hd] at hv
    | cons x xs =>
      simp only [hd, List.all_cons, Bool.and_eq_true] at hv
      simp only [hd, List.cons_append, List.head?_cons, Option.some.injEq] at hc
      subst hc
      exact isdigit_not_space hv.1.2.1

theorem tok_switch_atom (a : Atom) (hv : a.valid = true) (rest : List Char) (hd : Delim rest)
    (upd : Bool) (lx : Lexer) (srcl : Int) :
    tok_switch upd lx (a.text ++ rest) srcl =
      .ok (a.token, if upd then ⟨rest, srcl⟩ else lx) := by
  cases a with
  | ident name =>
    simp only [Atom.valid, Bool.and_eq_true, decide_eq_true_eq] at hv
    obtain ⟨⟨⟨⟨h1, hlen⟩, hk1⟩, hk2⟩, hk3⟩ := hv
    simp only [Atom.text, Atom.token]
    cases hdata : name.data with
    | nil => simp [hdata] at h1
    | cons c cs =>
      simp only [hdata, Bool.and_eq_true] at h1
      have hall : (c :: cs).all (fun x => isalnum x || decide (x = '_')) = true := by
        simp only [List.all_cons, Bool.and_eq_true]
        exact ⟨ident_start_is_ident h1.1, h1.2⟩
      have hlex := lex_ident_append (c :: cs) [] rest hall
        (by simpa [hdata] using hlen) hd
      rw [List.cons_append] at hlex ⊢
      simp only [tok_switch, h1.1, if_true, hlex, bind, Except.bind, List.nil_append]
      have hname : String.mk (c :: cs) = name := by
        rw [← hdata]
      rw [hname]
      have e1 : Ident.interned name ≠ kword_int := by
        intro e
        injection e with e
        exact hk1 e
      have e2 : Ident.interned name ≠ kword_return := by
        intro e
        injection e with e
        exact hk2 e
      have e3 : Ident.interned name ≠ kword_if := by
        intro e
        injection e with e
        exact hk3 e
      simp only [e1, e2, e3, if_false]
  | intlit digits =>
    simp only [Atom.valid, Bool.and_eq_true, decide_eq_true_eq] at hv
    obtain ⟨⟨h1, hall⟩, hmax⟩ := hv
    simp only [Atom.text, Atom.token]
    cases hdata : digits with
    | nil => simp [hdata] at h1
    | cons c cs =>
      rw [hdata] at hall hmax
      have hc : isdigit c = true := by
        simp only [List.all_cons, Bool.and_eq_true] at hall
        exact hall.1
      have hlex := lex_number_append (c :: cs) rest 0 hall (le_refl _) hmax hd.no_digit
      rw [List.cons_append] at hlex ⊢
      simp only [tok_switch, isdigit_not_ident_start hc, hc, if_true, hlex, bind, Except.bind]
      rfl

/-- Lexing an atom that is followed by a delimiter, after whitespace. -/
theorem tok_next_atom (a : Atom) (hv : a.valid = true) (w rest : List Char)
    (hw : w.all isspace = true) (hd : Delim rest) (upd : Bool) (line : Int) :
    _tok_next upd ⟨w ++ (a.text ++ rest), line⟩ =
      .ok (a.token,
        if upd then ⟨rest, line + newlines w⟩ else ⟨w ++ (a.text ++ rest), line⟩) := by
  have hne : w ++ (a.text ++ rest) ≠ [] := by
    simp [Atom.text_ne_nil hv]
  rw [tok_next_nonempty upd _ _ hne, skip_space_append w _ line hw (Atom.head_not_space hv rest)]
  exact tok_switch_atom a hv rest hd upd _ _

/-- Lexing an operator, after whitespace. -/
theorem tok_next_op (op : Op) (w rest : List Char) (hw : w.all isspace = true)
    (upd : Bool) (line : Int) :
    _tok_next upd ⟨w ++ (op.char :: rest), line⟩ =
      .ok (⟨op.tok, none, none⟩,
        if upd then ⟨rest, line + newlines w⟩ else ⟨w ++ (op.char :: rest), line⟩) := by
  rw [tok_next_nonempty upd _ _ (by simp), skip_space_append w _ line hw (NoSpace.at_op op rest)]
  cases op <;> rfl

/-! ## Facts about the expression parser -/

theorem TokAt.peek {lx lx1 : Lexer} {tok : Token} (h : TokAt lx tok lx1) :
    tok_peek lx = .ok tok := by
  simp [tok_peek, h.2, bind, Except.bind]

theorem TokAt.next {lx lx1 : Lexer} {tok : Token} (h : TokAt lx tok lx1) :
    tok_next lx = .ok (tok, lx1) := h.1

theorem TokAt.atom (a : Atom) (hv : a.valid = true) (w rest : List Char)
    (hw : w.all isspace = true) (hd : Delim rest) (line : Int) :
    TokAt ⟨w ++ (a.text ++ rest), line⟩ a.token ⟨rest, line + newlines w⟩ :=
  ⟨by simpa using tok_next_atom a hv w rest hw hd true line,
   by simpa using tok_next_atom a hv w rest hw hd false line⟩

theorem TokAt.op (op : Op) (w rest : List Char) (hw : w.all isspace = true) (line : Int) :
    TokAt ⟨w ++ (op.char :: rest), line⟩ ⟨op.tok, none, none⟩ ⟨rest, line + newlines w⟩ :=
  ⟨by simpa using tok_next_op op w rest hw true line,
   by simpa using tok_next_op op w rest hw false line⟩

theorem TokAt.eof (line : Int) : TokAt ⟨[], line⟩ ⟨.TOK_EOF, none, none⟩ ⟨[], line⟩ :=
  ⟨rfl, rfl⟩

theorem op_precedence_op (op : Op) : op_precedence (op.tok.code - TOK_BIN_OP) = .ok op.prec := by
  cases op <;> rfl

theorem op_is_bin (op : Op) : TOK_BIN_OP ≤ op.tok.code ∧ op.tok.code < TOK_BIN_OP_END := by
  cases op <;> decide

theorem bin_kind_of_op (op : Op) : bin_kind_of op.tok = some op.kind := by
  cases op <;> rfl

theorem op_prec_lt (op : Op) : op.prec < 999 := by
  cases op <;> decide

theorem parse_base_atom (ap : Int) (n : Nat) (a : Atom) {lx lx1 : Lexer}
    (h : TokAt lx a.token lx1) : parse_expr_base ap (n + 1) lx = .ok (a.expr, lx1) := by
  rw [parse_expr_base]
  simp only [h.next, bind, Except.bind]
  cases a <;> rfl

theorem parse_post_atom (ap : Int) (n : Nat) (a : Atom) {lx lx1 lx2 : Lexer} {t1 : Token}
    (h : TokAt lx a.token lx1) (h1 : TokAt lx1 t1 lx2) (hk : t1.kind ≠ .TOK_LPAREN) :
    parse_expr_unary_post ap (n + 2) lx = .ok (a.expr, lx1) := by
  rw [parse_expr_unary_post]
  simp only [parse_base_atom ap n a h, h1.peek, bind, Except.bind, hk, if_false]

theorem parse_unary_atom (ap : Int) (n : Nat) (a : Atom) {lx lx1 lx2 : Lexer} {t1 : Token}
    (h : TokAt lx a.token lx1) (h1 : TokAt lx1 t1 lx2) (hk : t1.kind ≠ .TOK_LPAREN) :
    parse_expr_unary ap (n + 3) lx = .ok (a.expr, lx1) := by
  rw [parse_expr_unary]
  have hm : a.token.kind ≠ .TOK_MINUS := by cases a <;> simp [Atom.token]
  have hp : a.token.kind ≠ .TOK_PLUS := by cases a <;> simp [Atom.token]
  simp only [h.peek, bind, Except.bind, hm, hp, if_false]
  exact parse_post_atom ap n a h h1 hk

theorem loop_stop (ap : Int) (n : Nat) (p : Int) (l : Expr) {lx lx1 : Lexer} {t : Token}
    (h : TokAt lx t lx1) (hk : ¬ (TOK_BIN_OP ≤ t.kind.code ∧ t.kind.code < TOK_BIN_OP_END)) :
    parse_expr_binary_loop ap (n + 1) p l lx = .ok (l, lx) := by
  rw [parse_expr_binary_loop]
  simp only [h.peek, bind, Except.bind, hk, if_false]

theorem loop_keep (ap : Int) (n : Nat) (p : Int) (l : Expr) (op : Op) {lx lx1 : Lexer}
    (h : TokAt lx ⟨op.tok, none, none⟩ lx1) (hp : p ≤ op.prec) :
    parse_expr_binary_loop ap (n + 1) p l lx = .ok (l, lx) := by
  rw [parse_expr_binary_loop]
  simp only [h.peek, bind, Except.bind, op_is_bin op, and_self, if_true, op_precedence_op,
    not_lt.2 hp, if_false]

theorem loop_step (ap : Int) (n : Nat) (p : Int) (l r : Expr) (op : Op) {lx lx1 lx2 : Lexer}
    (h : TokAt lx ⟨op.tok, none, none⟩ lx1) (hp : op.prec < p)
    (hr : parse_expr_binary ap n op.prec lx1 = .ok (r, lx2)) :
    parse_expr_binary_loop ap (n + 1) p l lx =
      parse_expr_binary_loop ap n p (.binary op.kind l r) lx2 := by
  rw [parse_expr_binary_loop]
  simp only [h.peek, h.next, bind, Except.bind, op_is_bin op, and_self, if_true,
    op_precedence_op, hp, hr, bin_kind_of_op]

theorem binary_of (ap : Int) (n : Nat) (p : Int) {lx lx1 : Lexer} {l : Expr} {res : Res (Expr × Lexer)}
    (hu : parse_expr_unary ap n lx = .ok (l, lx1))
    (hl : parse_expr_binary_loop ap n p l lx1 = res) :
    parse_expr_binary ap (n + 1) p lx = res := by
  rw [parse_expr_binary]
  simp only [hu, bind, Except.bind, hl]

theorem eof_not_bin : ¬ (TOK_BIN_OP ≤ (Token.mk .TOK_EOF none none).kind.code ∧
    (Token.mk .TOK_EOF none none).kind.code < TOK_BIN_OP_END) := by decide

/-- The parse of `a op1 b op2 c` for any two binary operators of the table:
the tighter operator (the smaller precedence value) is applied first, the left
one at equal precedence. -/
theorem parse_expr_two_ops (ap : Int) (a b c : Atom) (op1 op2 : Op)
    (w1 w2 w3 w4 : List Char) (line : Int) (n : Nat)
    (ha : a.valid = true) (hb : b.valid = true) (hc : c.valid = true)
    (hw1 : w1.all isspace = true) (hw2 : w2.all isspace = true)
    (hw3 : w3.all isspace = true) (hw4 : w4.all isspace = true) :
    parse_expr ap (n + 10) ⟨text3 a w1 op1 w2 b w3 op2 w4 c, line⟩ =
      .ok (if op1.prec ≤ op2.prec
          then .binary op2.kind (.binary op1.kind a.expr b.expr) c.expr
          else .binary op1.kind a.expr (.binary op2.kind b.expr c.expr),
        ⟨[], line + newlines w1 + newlines w2 + newlines w3 + newlines w4⟩) := by
  have hA := TokAt.atom a ha [] (w1 ++ (op1.char :: (w2 ++ (b.text ++ (w3 ++
    (op2.char :: (w4 ++ (c.text ++ []))))))))
    rfl (Delim.of_space hw1 (Delim.before_op _ _)) line
  have hO1 := TokAt.op op1 w1 (w2 ++ (b.text ++ (w3 ++ (op2.char :: (w4 ++ (c.text ++ []))))))
    hw1 (line + newlines [])
  have hB := TokAt.atom b hb w2 (w3 ++ (op2.char :: (w4 ++ (c.text ++ []))))
    hw2 (Delim.of_space hw3 (Delim.before_op _ _)) (line + newlines [] + newlines w1)
  have hO2 := TokAt.op op2 w3 (w4 ++ (c.text ++ [])) hw3
    (line + newlines [] + newlines w1 + newlines w2)
  have hC := TokAt.atom c hc w4 [] hw4 Delim.at_end
    (line + newlines [] + newlines w1 + newlines w2 + newlines w3)
  have hE := TokAt.eof (line + newlines [] + newlines w1 + newlines w2 + newlines w3 + newlines w4)
  have k1 : (Token.mk op1.tok none none).kind ≠ .TOK_LPAREN := by cases op1 <;> simp [Op.tok]
  have k2 : (Token.mk op2.tok none none).kind ≠ .TOK_LPAREN := by cases op2 <;> simp [Op.tok]
  have k3 : (Token.mk .TOK_EOF none none).kind ≠ .TOK_LPAREN := by simp
  have hline : line + newlines [] = line := by simp [newlines]
  have hsrc : text3 a w1 op1 w2 b w3 op2 w4 c =
      [] ++ (a.text ++ (w1 ++ (op1.char :: (w2 ++ (b.text ++ (w3 ++ (op2.char ::
        (w4 ++ (c.text ++ []))))))))) := by
    simp only [text3, List.nil_append, List.append_nil]
  rw [hsrc, ← hline]
  simp only [hline] at hA hO1 hB hO2 hC hE ⊢
  have binC : ∀ m p, parse_expr_binary ap (m + 4) p
      ⟨w4 ++ (c.text ++ []), line + newlines w1 + newlines w2 + newlines w3⟩ =
      .ok (c.expr, ⟨[], line + newlines w1 + newlines w2 + newlines w3 + newlines w4⟩) :=
    fun m p => binary_of ap (m + 3) p (parse_unary_atom ap m c hC hE k3)
      (loop_stop ap (m + 2) p _ hE eof_not_bin)
  rw [parse_expr, parse_expr_assign]
  by_cases hp : op1.prec ≤ op2.prec
  · have binB : parse_expr_binary ap (n + 6) op1.prec
        ⟨w2 ++ (b.text ++ (w3 ++ (op2.char :: (w4 ++ (c.text ++ []))))),
          line + newlines w1⟩ =
        .ok (b.expr, ⟨w3 ++ (op2.char :: (w4 ++ (c.text ++ []))),
          line + newlines w1 + newlines w2⟩) :=
      binary_of ap (n + 5) _ (parse_unary_atom ap (n + 2) b hB hO2 k2)
        (loop_keep ap (n + 4) _ _ op2 hO2 hp)
    have loopA : parse_expr_binary_loop ap (n + 7) 999 a.expr
        ⟨w1 ++ (op1.char :: (w2 ++ (b.text ++ (w3 ++ (op2.char :: (w4 ++ (c.text ++ [])))))))
          , line⟩ =
        .ok (.binary op2.kind (.binary op1.kind a.expr b.expr) c.expr,
          ⟨[], line + newlines w1 + newlines w2 + newlines w3 + newlines w4⟩) := by
      rw [loop_step ap (n + 6) 999 _ _ op1 hO1 (op_prec_lt op1) binB,
        loop_step ap (n + 5) 999 _ _ op2 hO2 (op_prec_lt op2) (binC (n + 1) _)]
      exact loop_stop ap (n + 4) 999 _ hE eof_not_bin
    have binA := binary_of ap (n + 7) 999 (parse_unary_atom ap (n + 4) a hA hO1 k1) loopA
    simp only [binA, hE.peek, bind, Except.bind, hp, if_true]
    rfl
  · have hlt : op2.prec < op1.prec := not_le.1 hp
    have loopB : parse_expr_binary_loop ap (n + 5) op1.prec b.expr
        ⟨w3 ++ (op2.char :: (w4 ++ (c.text ++ []))), line + newlines w1 + newlines w2⟩ =
        .ok (.binary op2.kind b.expr c.expr,
          ⟨[], line + newlines w1 + newlines w2 + newlines w3 + newlines w4⟩) := by
      rw [loop_step ap (n + 4) op1.prec _ _ op2 hO2 hlt (binC n _)]
      exact loop_stop ap (n + 3) _ _ hE eof_not_bin
    have binB := binary_of ap (n + 5) op1.prec (parse_unary_atom ap (n + 2) b hB hO2 k2) loopB
    have loopA : parse_expr_binary_loop ap (n + 7) 999 a.expr
        ⟨w1 ++ (op1.char :: (w2 ++ (b.text ++ (w3 ++ (op2.char :: (w4 ++ (c.text ++ [])))))))
          , line⟩ =
        .ok (.binary op1.kind a.expr (.binary op2.kind b.expr c.expr),
          ⟨[], line + newlines w1 + newlines w2 + newlines w3 + newlines w4⟩) := by
      rw [loop_step ap (n + 6) 999 _ _ op1 hO1 (op_prec_lt op1) binB]
      exact loop_stop ap (n + 5) 999 _ hE eof_not_bin
    have binA := binary_of ap (n + 7) 999 (parse_unary_atom ap (n + 4) a hA hO1 k1) loopA
    simp only [binA, hE.peek, bind, Except.bind, hp, if_false]
    rfl

/-! ## More fuel gives the same parse -/

theorem Res.le_refl {α : Type} (a : Res α) : Res.le a a := fun _ h => h

theorem Res.le_error {α : Type} (e : Err) (b : Res α) : Res.le (.error e) b := by
  intro r h
  cases h

theorem Res.le_bind {α β : Type} {a b : Res α} {f g : α → Res β}
    (h1 : Res.le a b) (h2 : ∀ x, Res.le (f x) (g x)) : Res.le (a >>= f) (b >>= g) := by
  intro r h
  obtain ⟨x, hx, hf⟩ := bind_ok.1 h
  exact bind_ok.2 ⟨x, h1 x hx, h2 x r hf⟩

theorem Res.le_ite {α : Type} {c : Prop} [Decidable c] {a a1 b b1 : Res α}
    (h1 : Res.le a a1) (h2 : Res.le b b1) :
    Res.le (if c then a else b) (if c then a1 else b1) := by
  split
  · exact h1
  · exact h2

theorem parse_le_zero (ap : Int) (m : Nat) : ParseLe ap 0 m := by
  refine ⟨?_, ?_, ?_, ?_, ?_, ?_, ?_, ?_⟩
  · intro lx
    rw [parse_expr_base]
    exact Res.le_error _ _
  · intro tok lx
    rw [parse_call_args]
    exact Res.le_error _ _
  · intro lx
    rw [parse_expr_unary_post]
    exact Res.le_error _ _
  · intro lx
    rw [parse_expr_unary]
    exact Res.le_error _ _
  · intro p l lx
    rw [parse_expr_binary_loop]
    exact Res.le_error _ _
  · intro p lx
    rw [parse_expr_binary]
    exact Res.le_error _ _
  · intro lx
    rw [parse_expr_assign]
    exact Res.le_error _ _
  · intro lx
    rw [parse_expr]
    exact Res.le_error _ _

theorem parse_le_succ (ap : Int) (n m : Nat) (ih : ParseLe ap n m) :
    ParseLe ap (n + 1) (m + 1) := by
  obtain ⟨ibase, iargs, ipost, iunary, iloop, ibin, iassign, iexpr⟩ := ih
  refine ⟨?_, ?_, ?_, ?_, ?_, ?_, ?_, ?_⟩
  · intro lx
    rw [parse_expr_base, parse_expr_base]
    refine Res.le_bind (Res.le_refl _) (fun x => ?_)
    obtain ⟨tok, lx1⟩ := x
    dsimp only
    split
    · exact Res.le_refl _
    · exact Res.le_refl _
    · exact Res.le_refl _
    · exact Res.le_refl _
    · exact Res.le_bind (iexpr _) (fun _ => Res.le_refl _)
    · exact Res.le_refl _
  · intro tok lx
    rw [parse_call_args, parse_call_args]
    refine Res.le_bind (Res.le_refl _) (fun lx1 => ?_)
    refine Res.le_bind (ibin _ _) (fun x => ?_)
    refine Res.le_bind (Res.le_refl _) (fun tok1 => ?_)
    exact Res.le_ite (Res.le_bind (iargs _ _) (fun _ => Res.le_refl _)) (Res.le_refl _)
  · intro lx
    rw [parse_expr_unary_post, parse_expr_unary_post]
    refine Res.le_bind (ibase _) (fun x => ?_)
    refine Res.le_bind (Res.le_refl _) (fun tok => ?_)
    refine Res.le_ite ?_ (Res.le_refl _)
    refine Res.le_bind (Res.le_refl _) (fun y => ?_)
    refine Res.le_bind (Res.le_refl _) (fun tok1 => ?_)
    exact Res.le_ite (Res.le_bind (iargs _ _) (fun _ => Res.le_refl _)) (Res.le_refl _)
  · intro lx
    rw [parse_expr_unary, parse_expr_unary]
    refine Res.le_bind (Res.le_refl _) (fun tok => ?_)
    refine Res.le_ite ?_ (Res.le_ite ?_ (ipost _))
    · refine Res.le_bind (Res.le_refl _) (fun y => ?_)
      exact Res.le_bind (iunary _) (fun _ => Res.le_refl _)
    · exact Res.le_bind (Res.le_refl _) (fun y => ipost _)
  · intro p l lx
    rw [parse_expr_binary_loop, parse_expr_binary_loop]
    refine Res.le_bind (Res.le_refl _) (fun tok => ?_)
    refine Res.le_ite ?_ (Res.le_refl _)
    refine Res.le_bind (Res.le_refl _) (fun np => ?_)
    refine Res.le_ite ?_ (Res.le_refl _)
    refine Res.le_bind (Res.le_refl _) (fun y => ?_)
    refine Res.le_bind (ibin _ _) (fun z => ?_)
    obtain ⟨r, lx2⟩ := z
    dsimp only
    split
    · exact iloop _ _ _
    · exact Res.le_refl _
  · intro p lx
    rw [parse_expr_binary, parse_expr_binary]
    exact Res.le_bind (iunary _) (fun x => iloop _ _ _)
  · intro lx
    rw [parse_expr_assign, parse_expr_assign]
    refine Res.le_bind (ibin _ _) (fun x => ?_)
    refine Res.le_bind (Res.le_refl _) (fun tok => ?_)
    refine Res.le_ite ?_ (Res.le_refl _)
    refine Res.le_bind (Res.le_refl _) (fun y => ?_)
    exact Res.le_bind (ibin _ _) (fun _ => Res.le_refl _)
  · intro lx
    rw [parse_expr, parse_expr]
    exact iassign _

theorem parse_le (ap : Int) (n m : Nat) (h : n ≤ m) : ParseLe ap n m := by
  induction n generalizing m with
  | zero => exact parse_le_zero ap m
  | succ n ih =>
    obtain ⟨k, rfl⟩ : ∃ k, m = k + 1 := ⟨m - 1, by omega⟩
    exact parse_le_succ ap n k (ih k (by omega))

/-! ## Call arguments -/

theorem tok_switch_flag (lx : Lexer) (src : List Char) (srcl : Int) (tok : Token)
    (lxa : Lexer) (upd : Bool) (h : tok_switch upd lx src srcl = .ok (tok, lxa)) (upd1 : Bool) :
    ∃ lxb, tok_switch upd1 lx src srcl = .ok (tok, lxb) := by
  cases src with
  | nil => simp [tok_switch] at h
  | cons c cs =>
    simp only [tok_switch] at h ⊢
    split
    · rename_i hc
      simp only [hc, if_true] at h
      obtain ⟨⟨buff, src1⟩, h1, k1⟩ := bind_ok.1 h
      simp only [h1, bind, Except.bind]
      simp only [Except.ok.injEq, Prod.mk.injEq] at k1
      exact ⟨_, by rw [k1.1]⟩
    · rename_i hc
      simp only [hc, Bool.false_eq_true, if_false] at h
      split
      · rename_i hd
        simp only [hd, if_true] at h
        obtain ⟨⟨v, src1⟩, h1, k1⟩ := bind_ok.1 h
        simp only [h1, bind, Except.bind]
        simp only [Except.ok.injEq, Prod.mk.injEq] at k1
        exact ⟨_, by rw [k1.1]⟩
      · rename_i hd
        simp only [hd, Bool.false_eq_true, if_false] at h
        split
        · rename_i kind hk
          simp only [hk, Except.ok.injEq, Prod.mk.injEq] at h
          exact ⟨_, by rw [h.1]⟩
        · rename_i hk
          simp [hk] at h

theorem tok_next_flag (lx lxa : Lexer) (tok : Token) (upd : Bool)
    (h : _tok_next upd lx = .ok (tok, lxa)) (upd1 : Bool) :
    ∃ lxb, _tok_next upd1 lx = .ok (tok, lxb) := by
  unfold _tok_next at h ⊢
  split
  · rename_i hs
    simp only [hs, Except.ok.injEq, Prod.mk.injEq] at h
    exact ⟨_, by rw [h.1]⟩
  · rename_i c src hs
    simp only [hs] at h
    exact tok_switch_flag _ _ _ _ _ _ h upd1

theorem tok_peek_of_next {lx lx1 : Lexer} {tok : Token} (h : tok_next lx = .ok (tok, lx1)) :
    tok_peek lx = .ok tok := by
  obtain ⟨lxb, hb⟩ := tok_next_flag lx lx1 tok true h false
  simp [tok_peek, hb, bind, Except.bind]

theorem tok_next_of_peek {lx : Lexer} {tok : Token} (h : tok_peek lx = .ok tok) :
    ∃ lx1, tok_next lx = .ok (tok, lx1) := by
  unfold tok_peek at h
  obtain ⟨⟨t, lxa⟩, h1, k1⟩ := bind_ok.1 h
  cases k1
  exact tok_next_flag lx lxa tok false h1 true

/-- Where `parse_expr_binary` returns, the text starts with a token that is
neither a comma nor a closing parenthesis. -/
theorem parse_binary_first (ap : Int) (k : Nat) (p : Int) (lx lx1 : Lexer) (e : Expr)
    (h : parse_expr_binary ap k p lx = .ok (e, lx1)) :
    ∃ tok, tok_peek lx = .ok tok ∧ tok.kind ≠ .TOK_COMMA ∧ tok.kind ≠ .TOK_RPAREN := by
  cases k with
  | zero => rw [parse_expr_binary] at h; cases h
  | succ k =>
    rw [parse_expr_binary] at h
    obtain ⟨⟨l, lxa⟩, h1, _⟩ := bind_ok.1 h
    cases k with
    | zero => rw [parse_expr_unary] at h1; cases h1
    | succ k =>
      rw [parse_expr_unary] at h1
      obtain ⟨tok, hp, k1⟩ := bind_ok.1 h1
      refine ⟨tok, hp, ?_⟩
      by_cases hm : tok.kind = .TOK_MINUS
      · simp [hm]
      by_cases hpl : tok.kind = .TOK_PLUS
      · simp [hpl]
      simp only [hm, hpl, if_false] at k1
      cases k with
      | zero => rw [parse_expr_unary_post] at k1; cases k1
      | succ k =>
        rw [parse_expr_unary_post] at k1
        obtain ⟨⟨b, lxb⟩, h2, _⟩ := bind_ok.1 k1
        cases k with
        | zero => rw [parse_expr_base] at h2; cases h2
        | succ k =>
          rw [parse_expr_base] at h2
          obtain ⟨⟨t, lxc⟩, h3, k3⟩ := bind_ok.1 h2
          have ht := tok_peek_of_next h3
          rw [hp] at ht
          cases ht
          dsimp only at k3
          split at k3 <;> simp_all

theorem reverse_args_list_eq (args : List Expr) : reverse_args_list args = args.reverse := by
  induction args with
  | nil => rfl
  | cons a rest ih =>
    cases rest with
    | nil => rfl
    | cons b rest2 =>
      rw [reverse_args_list, ih]
      simp

theorem skip_comma_other {tok : Token} (lx : Lexer) (h : tok.kind ≠ .TOK_COMMA) :
    skip_comma tok lx = .ok lx := by
  simp [skip_comma, h]

theorem skip_comma_comma {tok tok1 : Token} {lx lx1 : Lexer} (h : tok.kind = .TOK_COMMA)
    (hn : tok_next lx = .ok (tok1, lx1)) : skip_comma tok lx = .ok lx1 := by
  simp [skip_comma, h, hn, bind, Except.bind]

theorem parse_call_args_of (ap : Int) (k : Nat) {lxa lxz : Lexer} {es : List Expr}
    (h : ArgList ap k lxa es lxz) :
    ∀ (f : Nat) (tok : Token) (lx : Lexer), k + es.length ≤ f → skip_comma tok lx = .ok lxa →
      parse_call_args ap f tok lx = .ok (es, lxz) := by
  induction h with
  | @last lx1 lx2 e t hp hpeek hk =>
    intro f tok lx hf hs
    obtain ⟨g, rfl⟩ : ∃ g, f = g + 1 := ⟨f - 1, by simp at hf; omega⟩
    have hp1 := (parse_le ap k g (by simp at hf; omega)).2.2.2.2.2.1 ap lx1 _ hp
    rw [parse_call_args]
    simp only [hs, hp1, hpeek, bind, Except.bind, hk, if_false]
  | @more lx1 lx2 lx3 lx4 e t es hp hn hk _ ih =>
    intro f tok lx hf hs
    obtain ⟨g, rfl⟩ : ∃ g, f = g + 1 := ⟨f - 1, by simp at hf; omega⟩
    have hp1 := (parse_le ap k g (by simp at hf; omega)).2.2.2.2.2.1 ap lx1 _ hp
    have hrec := ih g t lx2 (by simp at hf; omega) (skip_comma_comma hk hn)
    rw [parse_call_args]
    simp only [hs, hp1, tok_peek_of_next hn, bind, Except.bind, hk, if_true, hrec]

theorem ArgList.first {ap : Int} {k : Nat} {lxa lxz : Lexer} {es : List Expr}
    (h : ArgList ap k lxa es lxz) :
    0 < es.length ∧
      ∃ tok, tok_peek lxa = .ok tok ∧ tok.kind ≠ .TOK_COMMA ∧ tok.kind ≠ .TOK_RPAREN := by
  cases h with
  | last hp _ _ => exact ⟨by simp, parse_binary_first ap k ap _ _ _ hp⟩
  | more hp _ _ _ => exact ⟨by simp, parse_binary_first ap k ap _ _ _ hp⟩

/-- The call case of `parse_expr_unary_post`, from the parses of its parts. -/
theorem parse_call_of (ap : Int) (k : Nat) (lx lx1 lx2 lx3 lx4 : Lexer) (callee : Expr)
    (es : List Expr) (t1 t2 : Token)
    (hbase : parse_expr_base ap k lx = .ok (callee, lx1))
    (hopen : tok_next lx1 = .ok (t1, lx2)) (hk1 : t1.kind = .TOK_LPAREN)
    (hargs : ArgList ap k lx2 es lx3)
    (hclose : tok_next lx3 = .ok (t2, lx4)) (hk2 : t2.kind = .TOK_RPAREN)
    (fuel : Nat) (hfuel : k + es.length + 1 ≤ fuel) :
    parse_expr_unary_post ap fuel lx = .ok (.call callee es.reverse, lx4) := by
  obtain ⟨g, rfl⟩ : ∃ g, fuel = g + 1 := ⟨fuel - 1, by omega⟩
  have hb := (parse_le ap k g (by omega)).1 lx _ hbase
  obtain ⟨_, tok1, hpeek, hc, hr⟩ := hargs.first
  have ha := parse_call_args_of ap k hargs g tok1 lx2 (by omega) (skip_comma_other lx2 hc)
  rw [parse_expr_unary_post]
  simp only [hb, tok_peek_of_next hopen, hopen, hpeek, bind, Except.bind, hk1, if_true,
    ne_eq, hr, not_false_eq_true, ha, call_close, tok_expect, hclose, hk2,
    reverse_args_list_eq]

/-- C3. Arithmetic precedence and associativity: for all well-written atoms
`a`, `b`, `c`, all arithmetic operators `op1`, `op2` among `*`, `/`, `%`, `+`,
`-`, any whitespace between the five tokens and any fuel from 10 on,
`parse_expr` on `a op1 b op2 c` consumes the whole text and returns
`binary(op2, binary(op1, a, b), c)` when `prec(op1) <= prec(op2)` and
`binary(op1, a, binary(op2, b, c))` when `prec(op2) < prec(op1)`, where the
precedences, 0 for `*`, `/`, `%` and 1 for `+`, `-`, are the entries that the
parser reads in `op_precedence_table`. -/
theorem parse_expr_precedence (arg_prec : Int) (a b c : Atom) (op1 op2 : Op)
    (w1 w2 w3 w4 : List Char) (line : Int) (fuel : Nat)
    (ha : a.valid = true) (hb : b.valid = true) (hc : c.valid = true)
    (h1 : op1.arith = true) (h2 : op2.arith = true)
    (hw1 : w1.all isspace = true) (hw2 : w2.all isspace = true)
    (hw3 : w3.all isspace = true) (hw4 : w4.all isspace = true) (hfuel : 10 ≤ fuel) :
    parse_expr arg_prec fuel ⟨text3 a w1 op1 w2 b w3 op2 w4 c, line⟩ =
      .ok (if op1.prec ≤ op2.prec
          then .binary op2.kind (.binary op1.kind a.expr b.expr) c.expr
          else .binary op1.kind a.expr (.binary op2.kind b.expr c.expr),
        ⟨[], line + newlines w1 + newlines w2 + newlines w3 + newlines w4⟩) ∧
    op_precedence (op1.tok.code - TOK_BIN_OP) = .ok op1.prec ∧
    op_precedence (op2.tok.code - TOK_BIN_OP) = .ok op2.prec ∧
    (op1.prec = 0 ∨ op1.prec = 1) ∧ (op2.prec = 0 ∨ op2.prec = 1) := by
  obtain ⟨n, rfl⟩ : ∃ n, fuel = n + 10 := ⟨fuel - 10, by omega⟩
  refine ⟨parse_expr_two_ops arg_prec a b c op1 op2 w1 w2 w3 w4 line n ha hb hc hw1 hw2 hw3 hw4,
    op_precedence_op op1, op_precedence_op op2, ?_, ?_⟩
  · cases op1 <;> simp_all [Op.arith, Op.prec]
  · cases op2 <;> simp_all [Op.arith, Op.prec]

/-- A run of C3 on `a + b * c`: the product is the right operand of the sum. -/
theorem parse_expr_precedence_witness :
    parse_expr 8 10 ⟨['a', ' ', '+', ' ', 'b', ' ', '*', ' ', 'c'], 1⟩ =
      .ok (.binary .EXPR_ADD (.id (.interned "a"))
        (.binary .EXPR_MUL (.id (.interned "b")) (.id (.interned "c"))), ⟨[], 1⟩) ∧
    op_precedence (TokKind.TOK_PLUS.code - TOK_BIN_OP) = .ok 1 ∧
    op_precedence (TokKind.TOK_STAR.code - TOK_BIN_OP) = .ok 0 ∧
    ((1 : Int) = 0 ∨ (1 : Int) = 1) ∧ ((0 : Int) = 0 ∨ (0 : Int) = 1) :=
  parse_expr_precedence 8 (.ident "a") (.ident "b") (.ident "c") .plus .star
    [' '] [' '] [' '] [' '] 1 10 (by decide) (by decide) (by decide) (by decide) (by decide)
    (by decide) (by decide) (by decide) (by decide) (by decide)

/-- C4, as the code has it. Assignment is left-associative in the parser: for
all well-written identifiers `a`, `b`, `c`, any whitespace between the tokens
and any fuel from 10 on, `parse_expr` on `a = b = c` returns
`assign(assign(a, b), c)`: the loop of `parse_expr_binary` consumes both `=`
as operators of precedence 8 below the ceiling 999. -/
theorem parse_assign_left_assoc (arg_prec : Int) (a b c : String)
    (w1 w2 w3 w4 : List Char) (line : Int) (fuel : Nat)
    (ha : (Atom.ident a).valid = true) (hb : (Atom.ident b).valid = true)
    (hc : (Atom.ident c).valid = true)
    (hw1 : w1.all isspace = true) (hw2 : w2.all isspace = true)
    (hw3 : w3.all isspace = true) (hw4 : w4.all isspace = true) (hfuel : 10 ≤ fuel) :
    parse_expr arg_prec fuel
        ⟨text3 (.ident a) w1 .equal w2 (.ident b) w3 .equal w4 (.ident c), line⟩ =
      .ok (.binary .EXPR_ASSIGN
          (.binary .EXPR_ASSIGN (.id (.interned a)) (.id (.interned b)))
          (.id (.interned c)),
        ⟨[], line + newlines w1 + newlines w2 + newlines w3 + newlines w4⟩) := by
  obtain ⟨n, rfl⟩ : ∃ n, fuel = n + 10 := ⟨fuel - 10, by omega⟩
  have := parse_expr_two_ops arg_prec (.ident a) (.ident b) (.ident c) .equal .equal
    w1 w2 w3 w4 line n ha hb hc hw1 hw2 hw3 hw4
  simpa [Op.prec, Op.kind, Atom.expr] using this

/-- A run of C4 on `x = y = z`. -/
theorem parse_assign_left_assoc_witness :
    parse_expr 8 10 ⟨['x', ' ', '=', ' ', 'y', ' ', '=', ' ', 'z'], 1⟩ =
      .ok (.binary .EXPR_ASSIGN
          (.binary .EXPR_ASSIGN (.id (.interned "x")) (.id (.interned "y")))
          (.id (.interned "z")), ⟨[], 1⟩) :=
  parse_assign_left_assoc 8 "x" "y" "z" [' '] [' '] [' '] [' '] 1 10
    (by decide) (by decide) (by decide) (by decide) (by decide) (by decide) (by decide)
    (by decide)

/-- C4 as stated fails: `parse_expr` on `a = b = c` returns
`assign(assign(a, b), c)`, which is not `assign(a, assign(b, c))`. -/
theorem parse_assign_not_right_assoc :
    parse_expr 8 10 ⟨['a', ' ', '=', ' ', 'b', ' ', '=', ' ', 'c'], 1⟩ =
      .ok (.binary .EXPR_ASSIGN
          (.binary .EXPR_ASSIGN (.id (.interned "a")) (.id (.interned "b")))
          (.id (.interned "c")), ⟨[], 1⟩) ∧
    Expr.binary .EXPR_ASSIGN
        (.binary .EXPR_ASSIGN (.id (.interned "a")) (.id (.interned "b")))
        (.id (.interned "c")) ≠
      Expr.binary .EXPR_ASSIGN (.id (.interned "a"))
        (.binary .EXPR_ASSIGN (.id (.interned "b")) (.id (.interned "c"))) :=
  ⟨by rfl, by simp⟩

/-- C5, as the code has it. Call argument order: when the callee parses to
`callee`, an opening parenthesis follows, the arguments `e1, ..., en` (n >= 1,
each parsed by `parse_expr_binary` at the argument ceiling, in source order)
are `es` and a closing parenthesis follows, then for every fuel large enough
`parse_expr_unary_post` returns the `EXPR_CALL` node whose argument list is
`es` reversed: it has length n and its i-th element is the parse of
`e(n+1-i)`, the arguments are in reverse source order. -/
theorem call_args_reversed (arg_prec : Int) (k : Nat) (lx lx1 lx2 lx3 lx4 : Lexer)
    (callee : Expr) (es : List Expr) (t1 t2 : Token)
    (hbase : parse_expr_base arg_prec k lx = .ok (callee, lx1))
    (hopen : tok_next lx1 = .ok (t1, lx2)) (hk1 : t1.kind = .TOK_LPAREN)
    (hargs : ArgList arg_prec k lx2 es lx3)
    (hclose : tok_next lx3 = .ok (t2, lx4)) (hk2 : t2.kind = .TOK_RPAREN)
    (fuel : Nat) (hfuel : k + es.length + 1 ≤ fuel) :
    parse_expr_unary_post arg_prec fuel lx = .ok (.call callee es.reverse, lx4) ∧
    es.reverse.length = es.length ∧ 0 < es.length ∧
    ∀ i, i < es.length → es.reverse[i]? = es[es.length - 1 - i]? := by
  refine ⟨parse_call_of arg_prec k lx lx1 lx2 lx3 lx4 callee es t1 t2 hbase hopen hk1 hargs
    hclose hk2 fuel hfuel, List.length_reverse es, hargs.first.1, ?_⟩
  intro i hi
  rw [List.getElem?_reverse hi]

/-- A run of C5 on `f(1,2)`: the argument list is `2`, `1`. -/
theorem call_args_reversed_witness :
    parse_expr_unary_post 8 10 ⟨['f', '(', '1', ',', '2', ')'], 1⟩ =
      .ok (.call (.id (.interned "f")) [Expr.intlit 1, Expr.intlit 2].reverse, ⟨[], 1⟩) ∧
    [Expr.intlit 1, Expr.intlit 2].reverse.length = [Expr.intlit 1, Expr.intlit 2].length ∧
    0 < [Expr.intlit 1, Expr.intlit 2].length ∧
    ∀ i, i < [Expr.intlit 1, Expr.intlit 2].length →
      [Expr.intlit 1, Expr.intlit 2].reverse[i]? =
        [Expr.intlit 1, Expr.intlit 2][[Expr.intlit 1, Expr.intlit 2].length - 1 - i]? :=
  call_args_reversed 8 5 ⟨['f', '(', '1', ',', '2', ')'], 1⟩ ⟨['(', '1', ',', '2', ')'], 1⟩
    ⟨['1', ',', '2', ')'], 1⟩ ⟨[')'], 1⟩ ⟨[], 1⟩ (.id (.interned "f"))
    [.intlit 1, .intlit 2] ⟨.TOK_LPAREN, none, none⟩ ⟨.TOK_RPAREN, none, none⟩
    (by rfl) (by rfl) (by rfl)
    (@ArgList.more 8 5 ⟨['1', ',', '2', ')'], 1⟩ ⟨[',', '2', ')'], 1⟩ ⟨['2', ')'], 1⟩
      ⟨[')'], 1⟩ (.intlit 1) ⟨.TOK_COMMA, none, none⟩ [.intlit 2]
      (by rfl) (by rfl) (by rfl)
      (@ArgList.last 8 5 ⟨['2', ')'], 1⟩ ⟨[')'], 1⟩ (.intlit 2) ⟨.TOK_RPAREN, none, none⟩
        (by rfl) (by rfl) (by decide)))
    (by rfl) (by rfl) 10 (by decide)

/-- C5 as stated fails: on `f(1,2)` the first element of the argument list of
the node that `parse_expr_unary_post` returns is the parse of the second
argument `2`, while the parse of the first argument `1` is `intlit 1`.  (No
operator occurs in the arguments, so the ceiling, here 8, plays no role.) -/
theorem call_args_not_source_order :
    parse_expr_unary_post 8 10 ⟨['f', '(', '1', ',', '2', ')'], 1⟩ =
      .ok (.call (.id (.interned "f")) [.intlit 2, .intlit 1], ⟨[], 1⟩) ∧
    parse_expr_binary 8 10 8 ⟨['1', ',', '2', ')'], 1⟩ =
      .ok (.intlit 1, ⟨[',', '2', ')'], 1⟩) ∧
    parse_expr_binary 8 10 8 ⟨['2', ')'], 1⟩ = .ok (.intlit 2, ⟨[')'], 1⟩) ∧
    ([Expr.intlit 2, Expr.intlit 1] : List Expr) ≠ [Expr.intlit 1, Expr.intlit 2] :=
  ⟨by rfl, by rfl, by rfl, by simp⟩

/-! ## Peeking -/

theorem tok_switch_peek_state (lx : Lexer) (src : List Char) (srcl : Int) (tok : Token)
    (lx1 : Lexer) (h : tok_switch false lx src srcl = .ok (tok, lx1)) : lx1 = lx := by
  cases src with
  | nil => simp [tok_switch] at h
  | cons c cs =>
    simp only [tok_switch] at h
    split at h
    · obtain ⟨⟨buff, src1⟩, _, k1⟩ := bind_ok.1 h
      simp only [Bool.false_eq_true, if_false, Except.ok.injEq, Prod.mk.injEq] at k1
      exact k1.2.symm
    · split at h
      · obtain ⟨⟨v, src1⟩, _, k1⟩ := bind_ok.1 h
        simp only [Bool.false_eq_true, if_false, Except.ok.injEq, Prod.mk.injEq] at k1
        exact k1.2.symm
      · split at h
        · simp only [Bool.false_eq_true, if_false, Except.ok.injEq, Prod.mk.injEq] at h
          exact h.2.symm
        · simp at h

theorem tok_peek_state (lx lx1 : Lexer) (tok : Token)
    (h : _tok_next false lx = .ok (tok, lx1)) : lx1 = lx := by
  unfold _tok_next at h
  split at h
  · simp only [Except.ok.injEq, Prod.mk.injEq] at h
    exact h.2.symm
  · exact tok_switch_peek_state _ _ _ _ _ h

theorem tok_peek_eq {lx : Lexer} {tok : Token} (h : tok_peek lx = .ok tok) :
    _tok_next false lx = .ok (tok, lx) := by
  unfold tok_peek at h
  obtain ⟨⟨t, lxa⟩, h1, k1⟩ := bind_ok.1 h
  cases k1
  rw [h1, tok_peek_state lx lxa tok h1]

theorem tok_peek_calls_eq {lx : Lexer} {tok : Token} (h : tok_peek lx = .ok tok) (n : Nat) :
    tok_peek_calls n lx = .ok (List.replicate n tok, lx) := by
  induction n with
  | zero => rfl
  | succ n ih =>
    simp only [tok_peek_calls, tok_peek_eq h, ih, bind, Except.bind, List.replicate_succ]

theorem skip_space_split (src : List Char) (line : Int) :
    ∃ w, src = w ++ (skip_space src line).1 ∧ w.all isspace = true ∧
      (skip_space src line).2 = line + newlines w := by
  induction src generalizing line with
  | nil => exact ⟨[], rfl, rfl, by simp [skip_space, newlines]⟩
  | cons c cs ih =>
    simp only [skip_space]
    split
    · rename_i hc
      obtain ⟨w, h1, h2, h3⟩ := ih (if c = '\n' then line + 1 else line)
      refine ⟨c :: w, ?_, ?_, ?_⟩
      · rw [List.cons_append, ← h1]
      · simp only [List.all_cons, hc, h2, Bool.and_self]
      · rw [h3]
        by_cases hn : c = '\n'
        · simp only [hn, if_true, newlines, List.filter_cons, decide_True, List.length_cons]
          push_cast
          ring
        · simp only [hn, if_false, newlines, List.filter_cons, decide_False]
          simp
    · exact ⟨[], rfl, rfl, by simp [newlines]⟩

theorem lex_ident_split (src buff : List Char) (b rest : List Char)
    (h : lex_ident src buff = .ok (b, rest)) :
    ∃ cs, src = cs ++ rest ∧ cs.all (fun c => !isspace c) = true ∧
      (∀ c tl, src = c :: tl → (isalnum c || decide (c = '_')) = true → cs ≠ []) := by
  induction src generalizing buff with
  | nil =>
    simp only [lex_ident, Except.ok.injEq, Prod.mk.injEq] at h
    exact ⟨[], by simp [h.2], rfl, fun c tl hc => by simp at hc⟩
  | cons c cs ih =>
    simp only [lex_ident] at h
    split at h
    · rename_i hc
      split at h
      · obtain ⟨w, h1, h2, _⟩ := ih _ h
        refine ⟨c :: w, by rw [List.cons_append, ← h1], ?_, fun _ _ _ _ => by simp⟩
        have : isspace c = false := by
          cases hs : isspace c with
          | false => rfl
          | true =>
            rw [isspace_not_ident hs] at hc
            exact absurd hc (by decide)
        simp only [List.all_cons, this, Bool.not_false, h2, Bool.and_self]
      · simp at h
    · rename_i hc
      simp only [Except.ok.injEq, Prod.mk.injEq] at h
      refine ⟨[], by simp [h.2], rfl, ?_⟩
      intro x tl hx hx1
      simp only [List.cons.injEq] at hx
      rw [← hx.1] at hx1
      simp only [Bool.or_eq_true, decide_eq_true_eq] at hc hx1
      exact absurd hx1 hc

theorem lex_number_split (src : List Char) (v : Int) (r : Int) (rest : List Char)
    (h : lex_number src v = .ok (r, rest)) :
    ∃ cs, src = cs ++ rest ∧ cs.all (fun c => !isspace c) = true ∧
      (∀ c tl, src = c :: tl → isdigit c = true → cs ≠ []) := by
  induction src generalizing v with
  | nil =>
    simp only [lex_number, Except.ok.injEq, Prod.mk.injEq] at h
    exact ⟨[], by simp [h.2], rfl, fun c tl hc => by simp at hc⟩
  | cons c cs ih =>
    simp only [lex_number] at h
    split at h
    · rename_i hc
      obtain ⟨v1, _, k1⟩ := bind_ok.1 h
      obtain ⟨w, h1, h2, _⟩ := ih _ k1
      refine ⟨c :: w, by rw [List.cons_append, ← h1], ?_, fun _ _ _ _ => by simp⟩
      simp only [List.all_cons, isdigit_not_space hc, Bool.not_false, h2, Bool.and_self]
    · rename_i hc
      simp only [Except.ok.injEq, Prod.mk.injEq] at h
      refine ⟨[], by simp [h.2], rfl, ?_⟩
      intro x tl hx hx1
      simp only [List.cons.injEq] at hx
      rw [← hx.1] at hx1
      exact absurd hx1 hc

theorem punct_kind_space {c : Char} (h : isspace c = true) : punct_kind c = none := by
  rcases isspace_cases h with h | h | h | h | h | h <;> subst h <;> decide

theorem ite_ne {α : Type} {p : Prop} [Decidable p] {a b x : α} (ha : a ≠ x) (hb : b ≠ x) :
    (if p then a else b) ≠ x := by
  split <;> assumption

theorem punct_kind_ne_eof (c : Char) : punct_kind c ≠ some .TOK_EOF := by
  unfold punct_kind
  iterate 12 (apply ite_ne (by simp))
  simp

theorem punct_not_space {c : Char} {kind : TokKind} (h : punct_kind c = some kind) :
    isspace c = false ∧ kind ≠ .TOK_EOF := by
  constructor
  · cases hs : isspace c with
    | false => rfl
    | true => rw [punct_kind_space hs] at h; simp at h
  · intro hk
    rw [hk] at h
    exact punct_kind_ne_eof c h

theorem tok_switch_split (lx : Lexer) (src : List Char) (srcl : Int) (tok : Token)
    (lx1 : Lexer) (h : tok_switch true lx src srcl = .ok (tok, lx1)) :
    ∃ text, src = text ++ lx1.source ∧ TokText text ∧ lx1.source_line = srcl ∧
      tok.kind ≠ .TOK_EOF := by
  cases src with
  | nil => simp [tok_switch] at h
  | cons c cs =>
    simp only [tok_switch] at h
    split at h
    · rename_i hc
      obtain ⟨⟨buff, src1⟩, h1, k1⟩ := bind_ok.1 h
      simp only [if_true, Except.ok.injEq, Prod.mk.injEq] at k1
      obtain ⟨text, t1, t2, t3⟩ := lex_ident_split _ _ _ _ h1
      refine ⟨text, ?_, ⟨t3 c cs rfl (ident_start_is_ident hc), t2⟩, ?_, ?_⟩
      · rw [← k1.2]; exact t1
      · rw [← k1.2]
      · rw [← k1.1]
        simp only
        split
        · decide
        · split
          · decide
          · split <;> decide
    · split at h
      · rename_i hd
        obtain ⟨⟨v, src1⟩, h1, k1⟩ := bind_ok.1 h
        simp only [if_true, Except.ok.injEq, Prod.mk.injEq] at k1
        obtain ⟨text, t1, t2, t3⟩ := lex_number_split _ _ _ _ h1
        refine ⟨text, ?_, ⟨t3 c cs rfl hd, t2⟩, ?_, ?_⟩
        · rw [← k1.2]; exact t1
        · rw [← k1.2]
        · rw [← k1.1]
          simp
      · split at h
        · rename_i kind hk
          simp only [if_true, Except.ok.injEq, Prod.mk.injEq] at h
          refine ⟨[c], ?_, ⟨by simp, ?_⟩, ?_, ?_⟩
          · rw [← h.2]; rfl
          · simp [(punct_not_space hk).1]
          · rw [← h.2]
          · rw [← h.1]
            exact (punct_not_space hk).2
        · simp at h

theorem tok_next_split (lx lx1 : Lexer) (tok : Token) (h : tok_next lx = .ok (tok, lx1)) :
    ∃ w text, lx.source = w ++ (text ++ lx1.source) ∧ w.all isspace = true ∧
      text.all (fun c => !isspace c) = true ∧ (text = [] ↔ tok.kind = .TOK_EOF) ∧
      lx1.source_line = lx.source_line + newlines w := by
  unfold tok_next _tok_next at h
  split at h
  · rename_i hs
    simp only [Except.ok.injEq, Prod.mk.injEq] at h
    refine ⟨[], [], ?_, rfl, rfl, ?_, ?_⟩
    · rw [← h.2, hs]; rfl
    · rw [← h.1]; simp
    · rw [← h.2]; simp [newlines]
  · rename_i c src hs
    obtain ⟨text, t1, t2, t3, t4⟩ := tok_switch_split _ _ _ _ _ h
    obtain ⟨w, w1, w2, w3⟩ := skip_space_split (c :: src) lx.source_line
    refine ⟨w, text, ?_, w2, t2.2, ?_, ?_⟩
    · rw [hs, ← t1]; exact w1
    · exact ⟨fun e => absurd e t2.1, fun e => absurd e t4⟩
    · rw [t3, w3]

/-- C11. Peek is idempotent: on every lexer state on which tokenisation does
not fail, `tok_peek` leaves `source` and `source_line` as they are, any number
of consecutive `tok_peek` calls return the same token (kind, value, id) and
leave the state as it is, and the following `tok_next` returns that token and
moves `source` past it: past the whitespace `w` in front of it and the
characters `text` of the token, which is empty only for the end-of-input token;
`source_line` grows by the newlines of `w`. -/
theorem tok_peek_idempotent (lx : Lexer) (tok : Token) (h : tok_peek lx = .ok tok) :
    _tok_next false lx = .ok (tok, lx) ∧
    (∀ n, tok_peek_calls n lx = .ok (List.replicate n tok, lx)) ∧
    ∃ lx1 w text, tok_next lx = .ok (tok, lx1) ∧
      lx.source = w ++ (text ++ lx1.source) ∧ w.all isspace = true ∧
      text.all (fun c => !isspace c) = true ∧ (text = [] ↔ tok.kind = .TOK_EOF) ∧
      lx1.source_line = lx.source_line + newlines w := by
  refine ⟨tok_peek_eq h, tok_peek_calls_eq h, ?_⟩
  obtain ⟨lx1, h1⟩ := tok_next_of_peek h
  obtain ⟨w, text, k⟩ := tok_next_split lx lx1 tok h1
  exact ⟨lx1, w, text, h1, k⟩

/-- A run of C11 on the text `\n foo+1` at line 1: three peeks return the
identifier `foo` and leave the state, `tok_next` returns it and stops at `+1`
on line 2. -/
theorem tok_peek_idempotent_witness :
    tok_peek_calls 3 ⟨['\n', ' ', 'f', 'o', 'o', '+', '1'], 1⟩ =
      .ok (List.replicate 3 ⟨.TOK_ID, none, some (.interned "foo")⟩,
        ⟨['\n', ' ', 'f', 'o', 'o', '+', '1'], 1⟩) ∧
    tok_next ⟨['\n', ' ', 'f', 'o', 'o', '+', '1'], 1⟩ =
      .ok (⟨.TOK_ID, none, some (.interned "foo")⟩, ⟨['+', '1'], 2⟩) :=
  ⟨(tok_peek_idempotent ⟨['\n', ' ', 'f', 'o', 'o', '+', '1'], 1⟩
      ⟨.TOK_ID, none, some (.interned "foo")⟩ (by rfl)).2.1 3, by rfl⟩

/-! ## Facts about the semantic checks -/

/-- C12, the code at the inputs where it departs from the claim: `check_expr`
returns 1 on `1 = 2` in every symbol table, and on `(a + b) = 2` with `a` and
`b` declared `int`, although `check_lvalue` stops with "Invalid lvalue" on both
left operands: `EXPR_ASSIGN` lies in `EXPR_BINARY .. EXPR_BINARY_END - 1`, so the
branch of the binary kinds is taken and the branch that calls `check_lvalue` is
never reached. -/
theorem check_expr_assign_no_lvalue :
    (∀ sym_table, check_expr sym_table (.binary .EXPR_ASSIGN (.intlit 1) (.intlit 2)) = .ok 1) ∧
    check_expr [⟨.interned "a", .int, 0, -4⟩, ⟨.interned "b", .int, 0, -8⟩]
        (.binary .EXPR_ASSIGN
          (.binary .EXPR_ADD (.id (.interned "a")) (.id (.interned "b"))) (.intlit 2)) = .ok 1 ∧
    check_lvalue (.intlit 1) = .error (.sem_fatal "Invalid lvalue") ∧
    check_lvalue (.binary .EXPR_ADD (.id (.interned "a")) (.id (.interned "b"))) =
      .error (.sem_fatal "Invalid lvalue") ∧
    (EXPR_BINARY ≤ BinKind.EXPR_ASSIGN.code ∧ BinKind.EXPR_ASSIGN.code < EXPR_BINARY_END) :=
  ⟨fun _ => by rfl, by rfl, by rfl, by rfl, by decide⟩

/-- C15. Binary typing: when the operands of a binary arithmetic or assignment
node have the types `t1` and `t2`, `eval_expr_type` returns `int` when both are
`char` or `int` and one at least is `int`, returns `char` when both are `char`,
and stops with a fatal semantic error when one of them is `void` ("void in
expr") and otherwise when one of them is a pointer or a function type ("no
type"). -/
theorem eval_expr_type_binary (sym_table : List Sym) (kind : BinKind) (l r : Expr)
    (t1 t2 : CType) (h1 : eval_expr_type sym_table l = .ok t1)
    (h2 : eval_expr_type sym_table r = .ok t2) :
    ((t1.kind = .TYPE_INT ∧ (t2.kind = .TYPE_INT ∨ t2.kind = .TYPE_CHAR)) ∨
        (t1.kind = .TYPE_CHAR ∧ t2.kind = .TYPE_INT) →
      eval_expr_type sym_table (.binary kind l r) = .ok .int) ∧
    (t1.kind = .TYPE_CHAR ∧ t2.kind = .TYPE_CHAR →
      eval_expr_type sym_table (.binary kind l r) = .ok .char) ∧
    (t1.kind = .TYPE_VOID ∨ t2.kind = .TYPE_VOID →
      eval_expr_type sym_table (.binary kind l r) =
        .error (.sem_fatal "Invalid expression type (void in expr)")) ∧
    (t1.kind ≠ .TYPE_VOID ∧ t2.kind ≠ .TYPE_VOID ∧
        (t1.kind = .TYPE_PTR ∨ t1.kind = .TYPE_FUNC ∨ t2.kind = .TYPE_PTR ∨
          t2.kind = .TYPE_FUNC) →
      eval_expr_type sym_table (.binary kind l r) =
        .error (.sem_fatal "Invalid expression type (no type)")) := by
  simp only [eval_expr_type, h1, h2, bind, Except.bind]
  cases t1 <;> cases t2 <;>
    simp [CType.kind, CType.is_void, CType.is_int, CType.is_char]

/-- A run of C15 on `1 + 300` (a `char` and an `int` literal): the type is
`int`. -/
theorem eval_expr_type_binary_witness :
    eval_expr_type [] (.binary .EXPR_ADD (.intlit 1) (.intlit 300)) = .ok .int :=
  (eval_expr_type_binary [] .EXPR_ADD (.intlit 1) (.intlit 300) .char .int (by rfl) (by rfl)).1
    (Or.inr ⟨rfl, rfl⟩)

/-- C16. Call typing: on a call node whose callee is the identifier `id`,
`eval_expr_type` returns the return type (`base_type`) of the symbol's type when
`sym_get` finds a global symbol of a function type, and stops with a fatal
semantic error when `id` is unknown, when the symbol is not global, and when it
is global but its type is no function type; it stops with a fatal semantic error
as well when the callee is no identifier.  The result is the same for every
argument list. -/
theorem eval_expr_type_call (sym_table : List Sym) (l : Expr) (args : List Expr) :
    (∀ id sym base_type params, l = .id id → sym_get id sym_table = some sym →
      sym.global ≠ 0 → sym.type = .func base_type params →
      eval_expr_type sym_table (.call l args) = .ok base_type) ∧
    (∀ id, l = .id id → sym_get id sym_table = none →
      eval_expr_type sym_table (.call l args) =
        .error (.sem_fatal ("Invalid symbol " ++ id.str))) ∧
    (∀ id sym, l = .id id → sym_get id sym_table = some sym → sym.global = 0 →
      eval_expr_type sym_table (.call l args) =
        .error (.sem_fatal ("Invalid function call: " ++ sym.id.str ++ " not a global symbol"))) ∧
    (∀ id sym, l = .id id → sym_get id sym_table = some sym → sym.global ≠ 0 →
      sym.type.kind ≠ .TYPE_FUNC →
      eval_expr_type sym_table (.call l args) =
        .error (.sem_fatal ("Invalid function call: " ++ sym.id.str ++ " is not a function"))) ∧
    ((∀ id, l ≠ .id id) →
      eval_expr_type sym_table (.call l args) = .error (.sem_fatal "Invalid function call")) ∧
    (∀ args1, eval_expr_type sym_table (.call l args1) =
      eval_expr_type sym_table (.call l args)) := by
  refine ⟨?_, ?_, ?_, ?_, ?_, ?_⟩
  · intro id sym base_type params hl hs hg ht
    subst hl
    simp only [eval_expr_type, hs, hg, if_false, ht]
  · intro id hl hs
    subst hl
    simp only [eval_expr_type, hs]
  · intro id sym hl hs hg
    subst hl
    simp only [eval_expr_type, hs, hg, if_true]
  · intro id sym hl hs hg ht
    subst hl
    simp only [eval_expr_type, hs, hg, if_false]
    cases hty : sym.type with
    | func b p => rw [hty] at ht; exact absurd rfl ht
    | void => rfl
    | char => rfl
    | int => rfl
    | ptr b => rfl
  · intro hl
    cases l with
    | id id => exact absurd rfl (hl id)
    | intlit v => rfl
    | call a b => rfl
    | neg a => rfl
    | binary k a b => rfl
  · intro args1
    cases l with
    | id id => simp only [eval_expr_type]
    | intlit v => rfl
    | call a b => rfl
    | neg a => rfl
    | binary k a b => rfl

/-- A run of C16 on `f(1)` and `f(1, 2)` with `f` a global function that
returns `int`. -/
theorem eval_expr_type_call_witness :
    eval_expr_type [⟨.interned "f", .func .int [], 1, 0⟩]
        (.call (.id (.interned "f")) [.intlit 1]) = .ok .int ∧
    eval_expr_type [⟨.interned "f", .func .int [], 1, 0⟩]
        (.call (.id (.interned "f")) [.intlit 1, .intlit 2]) =
      eval_expr_type [⟨.interned "f", .func .int [], 1, 0⟩]
        (.call (.id (.interned "f")) [.intlit 1]) :=
  ⟨(eval_expr_type_call [⟨.interned "f", .func .int [], 1, 0⟩] (.id (.interned "f"))
      [.intlit 1]).1 (.interned "f") ⟨.interned "f", .func .int [], 1, 0⟩ .int [] rfl (by rfl)
      (by decide) rfl,
   (eval_expr_type_call [⟨.interned "f", .func .int [], 1, 0⟩] (.id (.interned "f"))
      [.intlit 1]).2.2.2.2.2 [.intlit 1, .intlit 2]⟩

/-! ## Call emission -/

theorem compile_args_pushed (sym_table : List Sym) (args : List Expr)
    (texts : List (List String))
    (h : List.Forall₂ (fun a text => compile_expr sym_table a = .ok text) args texts) :
    compile_args sym_table args = .ok (pushed_args texts) := by
  induction h with
  | nil => rw [compile_args]; rfl
  | cons h1 _ ih =>
    rw [compile_args, h1, ih]
    rfl

/-- C20. Call emission: for a call whose callee is the identifier `id`, bound
to a symbol of a function type, and whose arguments `a1 .. an` (list order)
compile to the texts `texts`, `compile_expr` writes, in this order, for each
argument its text followed by `pushl %eax`, then `call id`, then `n` lines
`popl %eax`.  A callee that is no identifier is fatal. -/
theorem compile_call_emission (sym_table : List Sym) (l : Expr) (args : List Expr) :
    (∀ id sym texts, l = .id id → sym_get id sym_table = some sym →
      sym.type.kind = .TYPE_FUNC →
      List.Forall₂ (fun a text => compile_expr sym_table a = .ok text) args texts →
      texts.length = args.length ∧
      compile_expr sym_table (.call l args) =
        .ok (pushed_args texts ++ ["\tcall " ++ id.str ++ "\n"] ++
          List.replicate args.length "\tpopl %eax\n")) ∧
    ((∀ id, l ≠ .id id) →
      compile_expr sym_table (.call l args) =
        .error (.fatal "We don't handle \"complex\" function calls")) := by
  constructor
  · intro id sym texts hl hs hk ha
    subst hl
    refine ⟨ha.length_eq.symm, ?_⟩
    rw [compile_expr]
    simp only [hs, hk, ne_eq, not_true_eq_false, if_false, compile_args_pushed _ _ _ ha]
    rfl
  · intro hl
    cases l with
    | id id => exact absurd rfl (hl id)
    | intlit v => rw [compile_expr]; exact hl
    | call a b => rw [compile_expr]; exact hl
    | neg a => rw [compile_expr]; exact hl
    | binary k a b => rw [compile_expr]; exact hl

/-- A run of C20 on `f(1, 2)` with `f` a function symbol: two pushes, the call,
two pops. -/
theorem compile_call_emission_witness :
    compile_expr [⟨.interned "f", .func .int [], 1, 0⟩]
        (.call (.id (.interned "f")) [.intlit 1, .intlit 2]) =
      .ok ["\tmovl $1,%eax\n", "\tpushl %eax\n", "\tmovl $2,%eax\n", "\tpushl %eax\n",
        "\tcall f\n", "\tpopl %eax\n", "\tpopl %eax\n"] :=
  ((compile_call_emission [⟨.interned "f", .func .int [], 1, 0⟩] (.id (.interned "f"))
      [.intlit 1, .intlit 2]).1 (.interned "f") ⟨.interned "f", .func .int [], 1, 0⟩
      [["\tmovl $1,%eax\n"], ["\tmovl $2,%eax\n"]] rfl (by rfl) rfl
      (.cons (by rfl) (.cons (by rfl) .nil))).2

/-! ## Declarations in the semantic check -/

theorem check_decl_found {decl : Decl} {st : State} {sym : Sym}
    (hs : sym_get decl.id st.sym_table = some sym) :
    check_stmt (.decl decl) st =
      .error (.sem_fatal ("Symbol '" ++ decl.id.str ++ "' already declared")) := by
  rw [check_stmt]
  simp only [hs]

/-- Where the identifier is new, `check_stmt` on a declaration is undefined (no
room in the table, a type without a size, an overflow of the frame offset) or
returns 1 with the symbol appended and the frame offset decreased. -/
theorem check_decl_new {decl : Decl} {st : State}
    (hs : sym_get decl.id st.sym_table = none) :
    check_stmt (.decl decl) st = .error .undefined ∨
    ∃ size, decl.type.size = some size ∧ st.sym_table.length < SYM_TABLE_SIZE ∧
      INT_MIN ≤ st.func_var_offset - size ∧ st.func_var_offset - size ≤ INT_MAX ∧
      check_stmt (.decl decl) st =
        .ok (1, { st with
          sym_table := st.sym_table ++ [⟨decl.id, decl.type, 0, st.func_var_offset⟩]
          func_var_offset := st.func_var_offset - size }) := by
  rw [check_stmt]
  simp only [hs, sym_add]
  by_cases hroom : st.sym_table.length < SYM_TABLE_SIZE
  · simp only [hroom, if_true, bind, Except.bind]
    cases hsz : decl.type.size with
    | none => exact Or.inl rfl
    | some size =>
      simp only [int_chk]
      by_cases hr : INT_MIN ≤ st.func_var_offset - size ∧ st.func_var_offset - size ≤ INT_MAX
      · simp only [hr, and_self, if_true]
        exact Or.inr ⟨size, rfl, trivial, hr.1, hr.2, rfl⟩
      · simp only [hr, if_false]
        exact Or.inl trivial
  · simp only [hroom, if_false, bind, Except.bind]
    exact Or.inl trivial

theorem check_glob_found {decl : GlobDecl} {st : State} {id : Ident} {sym : Sym}
    (hd : (∃ type, decl = .var id type) ∨ ∃ type func_def, decl = .func id type func_def)
    (hs : sym_get id st.sym_table = some sym) :
    check_glob_decl decl st =
      .error (.sem_fatal ("Symbol '" ++ id.str ++ "' already declared")) := by
  rcases hd with ⟨type, rfl⟩ | ⟨type, func_def, rfl⟩ <;> simp only [check_glob_decl, hs]

theorem check_var_new {id : Ident} {type : CType} {st : State}
    (hs : sym_get id st.sym_table = none) :
    (st.sym_table.length < SYM_TABLE_SIZE →
      check_glob_decl (.var id type) st =
        .ok (1, { st with sym_table := st.sym_table ++ [⟨id, type, 1, 0⟩] })) ∧
    (¬ st.sym_table.length < SYM_TABLE_SIZE →
      check_glob_decl (.var id type) st = .error .undefined) := by
  simp only [check_glob_decl, hs, sym_add]
  constructor <;> intro hroom <;> simp only [hroom, if_true, if_false, bind, Except.bind]

theorem check_func_new {id : Ident} {type : CType} {body : Stmt} {st : State}
    (hs : sym_get id st.sym_table = none) :
    (st.sym_table.length < SYM_TABLE_SIZE →
      check_glob_decl (.func id type (some body)) st =
        check_stmt body { st with
          sym_table := st.sym_table ++ [⟨id, type, 1, 0⟩]
          func_var_offset := -4 }) ∧
    (¬ st.sym_table.length < SYM_TABLE_SIZE →
      check_glob_decl (.func id type (some body)) st = .error .undefined) := by
  simp only [check_glob_decl, hs, sym_add]
  constructor <;> intro hroom <;> simp only [hroom, if_true, if_false, bind, Except.bind]

mutual
/-- The check of a statement only appends to the symbol table. -/
theorem check_stmt_appends : ∀ (stmt : Stmt) (st : State) (r : Int) (st1 : State),
    check_stmt stmt st = .ok (r, st1) → ∃ added, st1.sym_table = st.sym_table ++ added
  | .decl decl, st, r, st1, h => by
    cases hs : sym_get decl.id st.sym_table with
    | some sym => rw [check_decl_found hs] at h; cases h
    | none =>
      rcases check_decl_new hs with k | ⟨size, _, _, _, _, k⟩
      · rw [k] at h; cases h
      · rw [k] at h
        cases h
        exact ⟨_, rfl⟩
  | .expr expr, st, r, st1, h => by
    rw [check_stmt] at h
    obtain ⟨res, _, k⟩ := bind_ok.1 h
    cases k
    exact ⟨[], by simp⟩
  | .block block, st, r, st1, h => by
    rw [check_stmt] at h
    exact check_stmts_appends block 1 st r st1 h
  | .block_unset, st, r, st1, h => by
    rw [check_stmt] at h
    cases h
  | .ret e, st, r, st1, h => by
    rw [check_stmt] at h
    cases h
    exact ⟨[], by simp⟩
  | .ret_unset, st, r, st1, h => by
    rw [check_stmt] at h
    cases h
    exact ⟨[], by simp⟩
/-- The same for the loop over the statements of a block. -/
theorem check_stmts_appends : ∀ (curr : List Stmt) (res : Int) (st : State) (r : Int)
    (st1 : State),
    check_stmts curr res st = .ok (r, st1) → ∃ added, st1.sym_table = st.sym_table ++ added
  | [], res, st, r, st1, h => by
    rw [check_stmts] at h
    cases h
    exact ⟨[], by simp⟩
  | stmt :: next, res, st, r, st1, h => by
    rw [check_stmts] at h
    split at h
    · exact check_stmts_appends next 0 st r st1 h
    · obtain ⟨⟨r1, st2⟩, h1, k1⟩ := bind_ok.1 h
      obtain ⟨a1, e1⟩ := check_stmt_appends stmt st r1 st2 h1
      obtain ⟨a2, e2⟩ := check_stmts_appends next _ st2 r st1 k1
      exact ⟨a1 ++ a2, by rw [e2, e1, List.append_assoc]⟩
end

/-- C13, as the code has it.  Redeclaration: `check_stmt` on a local
declaration and `check_glob_decl` on a global variable stop with a fatal
semantic error exactly when `sym_get` finds the declared identifier; where it
does not and the run is defined, they return 1 and append exactly one symbol
with the declared identifier and type (global flag 0 and the current
`func_var_offset` as offset for a local, whose size is then taken off
`func_var_offset`; global flag 1 for a global).  `check_glob_decl` on a function
with a body stops with the fatal error "already declared" when `sym_get` finds
the identifier; where it does not, it appends the symbol of the function with
global flag 1, sets `func_var_offset` to -4 and goes on with `check_stmt` on the
body in that state, so when it returns the table is the old one, the symbol of
the function and the symbols that the body appended. -/
theorem check_redeclaration (st : State) :
    (∀ decl : Decl,
      ((∃ sym, sym_get decl.id st.sym_table = some sym) ↔
        ∃ msg, check_stmt (.decl decl) st = .error (.sem_fatal msg)) ∧
      (∀ r st1, check_stmt (.decl decl) st = .ok (r, st1) →
        r = 1 ∧ ∃ size, decl.type.size = some size ∧
          st1 = { st with
            sym_table := st.sym_table ++ [⟨decl.id, decl.type, 0, st.func_var_offset⟩]
            func_var_offset := st.func_var_offset - size }) ∧
      (sym_get decl.id st.sym_table = none → st.sym_table.length < SYM_TABLE_SIZE →
        ∀ size, decl.type.size = some size →
        INT_MIN ≤ st.func_var_offset - size → st.func_var_offset - size ≤ INT_MAX →
        (check_stmt (.decl decl) st).returns = true)) ∧
    (∀ id type,
      ((∃ sym, sym_get id st.sym_table = some sym) ↔
        ∃ msg, check_glob_decl (.var id type) st = .error (.sem_fatal msg)) ∧
      (∀ r st1, check_glob_decl (.var id type) st = .ok (r, st1) →
        r = 1 ∧ st1 = { st with sym_table := st.sym_table ++ [⟨id, type, 1, 0⟩] }) ∧
      (sym_get id st.sym_table = none → st.sym_table.length < SYM_TABLE_SIZE →
        (check_glob_decl (.var id type) st).returns = true)) ∧
    (∀ id type body,
      ((∃ sym, sym_get id st.sym_table = some sym) →
        check_glob_decl (.func id type (some body)) st =
          .error (.sem_fatal ("Symbol '" ++ id.str ++ "' already declared"))) ∧
      (sym_get id st.sym_table = none → st.sym_table.length < SYM_TABLE_SIZE →
        check_glob_decl (.func id type (some body)) st =
          check_stmt body { st with
            sym_table := st.sym_table ++ [⟨id, type, 1, 0⟩]
            func_var_offset := -4 }) ∧
      (∀ r st1, check_glob_decl (.func id type (some body)) st = .ok (r, st1) →
        ∃ locals, st1.sym_table = st.sym_table ++ ⟨id, type, 1, 0⟩ :: locals)) := by
  refine ⟨fun decl => ⟨⟨?_, ?_⟩, ?_, ?_⟩, fun id type => ⟨⟨?_, ?_⟩, ?_, ?_⟩,
    fun id type body => ⟨?_, ?_, ?_⟩⟩
  · rintro ⟨sym, hs⟩
    exact ⟨_, check_decl_found hs⟩
  · rintro ⟨msg, h⟩
    cases hs : sym_get decl.id st.sym_table with
    | some sym => exact ⟨sym, rfl⟩
    | none =>
      rcases check_decl_new hs with k | ⟨size, _, _, _, _, k⟩ <;> rw [k] at h <;> cases h
  · intro r st1 h
    cases hs : sym_get decl.id st.sym_table with
    | some sym => rw [check_decl_found hs] at h; cases h
    | none =>
      rcases check_decl_new hs with k | ⟨size, hsz, _, _, _, k⟩
      · rw [k] at h; cases h
      · rw [k] at h
        cases h
        exact ⟨rfl, size, hsz, rfl⟩
  · intro hs hroom size hsz hlo hhi
    rcases check_decl_new hs with k | ⟨size1, _, _, _, _, k⟩
    · exfalso
      rw [check_stmt] at k
      simp only [hs, sym_add, hroom, if_true, bind, Except.bind, hsz, int_chk, hlo, hhi,
        and_self] at k
      cases k
    · rw [k]; rfl
  · rintro ⟨sym, hs⟩
    exact ⟨_, check_glob_found (Or.inl ⟨type, rfl⟩) hs⟩
  · rintro ⟨msg, h⟩
    cases hs : sym_get id st.sym_table with
    | some sym => exact ⟨sym, rfl⟩
    | none =>
      by_cases hroom : st.sym_table.length < SYM_TABLE_SIZE
      · rw [(check_var_new hs).1 hroom] at h; cases h
      · rw [(check_var_new hs).2 hroom] at h; cases h
  · intro r st1 h
    cases hs : sym_get id st.sym_table with
    | some sym => rw [check_glob_found (Or.inl ⟨type, rfl⟩) hs] at h; cases h
    | none =>
      by_cases hroom : st.sym_table.length < SYM_TABLE_SIZE
      · rw [(check_var_new hs).1 hroom] at h
        cases h
        exact ⟨rfl, rfl⟩
      · rw [(check_var_new hs).2 hroom] at h; cases h
  · intro hs hroom
    rw [(check_var_new hs).1 hroom]; rfl
  · rintro ⟨sym, hs⟩
    exact check_glob_found (Or.inr ⟨type, _, rfl⟩) hs
  · intro hs hroom
    exact (check_func_new hs).1 hroom
  · intro r st1 h
    cases hs : sym_get id st.sym_table with
    | some sym => rw [check_glob_found (Or.inr ⟨type, _, rfl⟩) hs] at h; cases h
    | none =>
      by_cases hroom : st.sym_table.length < SYM_TABLE_SIZE
      · rw [(check_func_new hs).1 hroom] at h
        obtain ⟨added, e⟩ := check_stmt_appends _ _ _ _ h
        exact ⟨added, by rw [e]; simp⟩
      · rw [(check_func_new hs).2 hroom] at h; cases h

/-- A run of C13 on the declaration `int a;` in the state at program start. -/
theorem check_redeclaration_witness :
    (check_stmt (.decl ⟨.int, .interned "a"⟩) State.init).returns = true :=
  ((check_redeclaration State.init).1 ⟨.int, .interned "a"⟩).2.2 (by rfl) (by decide) 4 rfl
    (by decide) (by decide)

/-- C13 as stated fails for a function declaration.  From the empty table, where
`sym_get` does not find `f`, `check_glob_decl` on `int f() { y; }` stops with a
fatal semantic error, and on `int f() { int a; }` it appends two symbols, `f` and
`a`. -/
theorem check_glob_decl_func_body :
    sym_get (.interned "f") State.init.sym_table = none ∧
    check_glob_decl
        (.func (.interned "f") (.func .int []) (some (.block [.expr (.id (.interned "y"))])))
        State.init = .error (.sem_fatal "Invalid symbol y") ∧
    check_glob_decl
        (.func (.interned "f") (.func .int []) (some (.block [.decl ⟨.int, .interned "a"⟩])))
        State.init =
      .ok (1, ⟨[⟨.interned "f", .func .int [], 1, 0⟩, ⟨.interned "a", .int, 0, -4⟩],
        -8, 0, none, []⟩) :=
  ⟨by rfl, by rfl, by rfl⟩

/-! ## Runs of the semantic check and of the declaration parser -/

/-- C14, the code at the claim's own example.  `parse_unit` on
`int main() { return y; }` returns the unit with the one function `main` whose
body is `return y;`; `check_unit` on that unit returns 0 without any fatal error,
although `sym_get` finds no symbol `y` in the table it leaves: `check_stmt` has
no case for `STMT_RET` and returns 0 on every return statement without looking
at its operand. -/
theorem check_unit_return_unknown (arg_prec : Int) (curr_param_null : Nat → Bool) (n : Nat) :
    parse_unit arg_prec curr_param_null (n + 12) (parser_init "int main() \x7b return y; \x7d") =
      .ok ([.func (.interned "main") (.func .int [])
        (some (.block [.ret (some (.id (.interned "y")))]))], ⟨[], 1⟩) ∧
    check_unit [.func (.interned "main") (.func .int [])
        (some (.block [.ret (some (.id (.interned "y")))]))] State.init =
      .ok (0, ⟨[⟨.literal "putchar", .int, 0, 0⟩, ⟨.interned "main", .func .int [], 1, 0⟩],
        -4, 0, none, []⟩) ∧
    sym_get (.interned "y")
      [⟨.literal "putchar", .int, 0, 0⟩, ⟨.interned "main", .func .int [], 1, 0⟩] = none ∧
    (∀ expr st, check_stmt (.ret expr) st = .ok (0, st)) :=
  ⟨by rfl, by rfl, by rfl, fun _ _ => by rw [check_stmt]⟩

/-- C17, the code at a declaration with two parameters, the local `curr_param`
starting as the null pointer.  On `int f(int a, int b);` `parse_glob_decl` stops
with the syntax error "Invalid type for function parameter": after a parameter
the loop goes on when the next token is a comma, but the comma is never
consumed, so the next call of `parse_func_param` meets it where a type is
expected.  With one parameter, `int f(int a);`, the function type carries that
parameter. -/
theorem parse_glob_decl_two_params (arg_prec : Int) (n : Nat) :
    parse_glob_decl arg_prec true (n + 4) (parser_init "int f(int a, int b);") =
      .error (.syn_fatal 1 "Invalid type for function parameter") ∧
    parse_func_params (n + 3) .null [] ⟨"int a, int b);".data, 1⟩ =
      .error (.syn_fatal 1 "Invalid type for function parameter") ∧
    parse_func_param (n + 1) ⟨"int a, int b);".data, 1⟩ =
      .ok ((.interned "a", .int), ⟨", int b);".data, 1⟩) ∧
    parse_func_param (n + 1) ⟨", int b);".data, 1⟩ =
      .error (.syn_fatal 1 "Invalid type for function parameter") ∧
    parse_glob_decl arg_prec true (n + 4) (parser_init "int f(int a);") =
      .ok (.func (.interned "f") (.func .int [(.interned "a", .int)]) none, ⟨[], 1⟩) :=
  ⟨by rfl, by rfl, by rfl, by rfl, by rfl⟩

/-- C19, the code at the claim's own example.  `parse_unit` on
`int main() { putchar(65); return 0; }` returns the unit with the one function
`main`; `check_unit` on it is undefined: the callee `putchar` of the parser is an
interned string, the built-in symbol carries the address of a string literal, so
`sym_get` returns the null pointer and `check_expr` reads `global` through it.
Were the symbol found, the call would still be fatal, as the built-in is not
global and its type is `int`. -/
theorem check_unit_putchar (arg_prec : Int) (curr_param_null : Nat → Bool) (n : Nat) :
    parse_unit arg_prec curr_param_null (n + 14)
        (parser_init "int main() \x7b putchar(65); return 0; \x7d") =
      .ok ([.func (.interned "main") (.func .int [])
        (some (.block [.expr (.call (.id (.interned "putchar")) [.intlit 65]),
          .ret (some (.intlit 0))]))], ⟨[], 1⟩) ∧
    check_unit [.func (.interned "main") (.func .int [])
        (some (.block [.expr (.call (.id (.interned "putchar")) [.intlit 65]),
          .ret (some (.intlit 0))]))] State.init = .error .undefined ∧
    init_builtin_sym State.init =
      .ok ⟨[⟨.literal "putchar", .int, 0, 0⟩], 0, 0, none, []⟩ ∧
    sym_get (.interned "putchar") [⟨.literal "putchar", .int, 0, 0⟩] = none ∧
    check_expr [⟨.interned "putchar", .int, 0, 0⟩]
        (.call (.id (.interned "putchar")) [.intlit 65]) =
      .error (.sem_fatal "Invalid function call: putchar not a global symbol") ∧
    check_expr [⟨.interned "putchar", .int, 1, 0⟩]
        (.call (.id (.interned "putchar")) [.intlit 65]) =
      .error (.sem_fatal "Invalid function call: putchar is not a function") :=
  ⟨by rfl, by rfl, by rfl, by rfl, by rfl, by rfl⟩

/-! ## Whitespace in front of a token -/

theorem skip_space_shift (src : List Char) (line k : Int) :
    skip_space src (line + k) = ((skip_space src line).1, (skip_space src line).2 + k) := by
  induction src generalizing line with
  | nil => rfl
  | cons c cs ih =>
    simp only [skip_space]
    split
    · by_cases hn : c = '\n'
      · simp only [hn, if_true]
        rw [show line + k + 1 = (line + 1) + k by ring]
        exact ih (line + 1)
      · simp only [hn, if_false]
        exact ih line
    · rfl

theorem skip_space_front (w s : List Char) (line : Int) (hw : w.all isspace = true) :
    skip_space (w ++ s) line = ((skip_space s line).1, (skip_space s line).2 + newlines w) := by
  induction w generalizing line with
  | nil => simp [newlines]
  | cons c cs ih =>
    simp only [List.all_cons, Bool.and_eq_true] at hw
    rw [List.cons_append]
    simp only [skip_space, hw.1, if_true]
    rw [ih _ hw.2]
    by_cases hn : c = '\n'
    · simp only [hn, if_true, newlines, List.filter_cons, decide_True, List.length_cons]
      rw [skip_space_shift s line 1]
      simp only [Prod.mk.injEq, true_and]
      push_cast
      ring
    · simp only [hn, if_false, newlines, List.filter_cons, decide_False]
      simp

theorem skip_space_all (w : List Char) (line : Int) (hw : w.all isspace = true) :
    (skip_space w line).1 = [] := by
  have := skip_space_front w [] line hw
  rw [List.append_nil] at this
  rw [this]
  rfl

/-- With `update_source` set, the token and the rest of the text that
`tok_switch` returns depend on the text alone. -/
theorem tok_switch_text (lx : Lexer) (src : List Char) (srcl : Int) (tok : Token)
    (lx1 : Lexer) (h : tok_switch true lx src srcl = .ok (tok, lx1)) (lxa : Lexer)
    (srcla : Int) : tok_switch true lxa src srcla = .ok (tok, ⟨lx1.source, srcla⟩) := by
  cases src with
  | nil => simp [tok_switch] at h
  | cons c cs =>
    simp only [tok_switch] at h ⊢
    split
    · rename_i hc
      simp only [hc, if_true] at h
      obtain ⟨⟨buff, src1⟩, h1, k1⟩ := bind_ok.1 h
      simp only [h1, bind, Except.bind]
      simp only [Except.ok.injEq, Prod.mk.injEq] at k1
      obtain ⟨rfl, rfl⟩ := k1
      rfl
    · rename_i hc
      simp only [hc, Bool.false_eq_true, if_false] at h
      split
      · rename_i hd
        simp only [hd, if_true] at h
        obtain ⟨⟨v, src1⟩, h1, k1⟩ := bind_ok.1 h
        simp only [h1, bind, Except.bind]
        simp only [Except.ok.injEq, Prod.mk.injEq] at k1
        obtain ⟨rfl, rfl⟩ := k1
        rfl
      · rename_i hd
        simp only [hd, Bool.false_eq_true, if_false] at h
        split
        · rename_i kind hk
          simp only [hk, if_true, Except.ok.injEq, Prod.mk.injEq] at h
          obtain ⟨rfl, rfl⟩ := h
          rfl
        · rename_i hk
          simp [hk] at h

theorem tok_next_space_end (w : List Char) (line : Int) (hne : w ≠ [])
    (hw : w.all isspace = true) :
    tok_next ⟨w, line⟩ = .error (.syn_fatal line "Invalid token") := by
  rw [tok_next, tok_next_nonempty true w line hne, skip_space_all w line hw]
  rfl

theorem tok_next_space_text (w s : List Char) (line : Int) (tok : Token) (lx1 : Lexer)
    (hs : s ≠ []) (hw : w.all isspace = true) (h : tok_next ⟨s, line⟩ = .ok (tok, lx1)) :
    tok_next ⟨w ++ s, line⟩ = .ok (tok, ⟨lx1.source, lx1.source_line + newlines w⟩) := by
  rw [tok_next, tok_next_nonempty true s line hs] at h
  obtain ⟨_, _, _, hl, _⟩ := tok_switch_split _ _ _ _ _ h
  rw [tok_next, tok_next_nonempty true (w ++ s) line (by simp [hs]), skip_space_front w s line hw,
    hl]
  exact tok_switch_text _ _ _ _ _ h _ _

/-- C18, the code where it departs from the claim and where it agrees with it.
On a text of whitespace alone `tok_next` stops with the syntax error "Invalid
token", whereas on the empty text it returns the end-of-input token: the test
for the end of the text comes before the loop that skips the whitespace.  So
`parse_unit` stops with that error on `int x;` followed by a newline.  In front
of a text that is not empty, whitespace is skipped as claimed: `tok_next`
returns the same token and the same rest, and the line counter is larger by the
newlines of the whitespace. -/
theorem tok_next_whitespace :
    (∀ w line, w ≠ [] → w.all isspace = true →
      tok_next ⟨w, line⟩ = .error (.syn_fatal line "Invalid token")) ∧
    (∀ line, tok_next ⟨[], line⟩ = .ok (⟨.TOK_EOF, none, none⟩, ⟨[], line⟩)) ∧
    tok_next ⟨[' '], 1⟩ = .error (.syn_fatal 1 "Invalid token") ∧
    (∀ arg_prec curr_param_null n,
      parse_unit arg_prec curr_param_null (n + 3) (parser_init "int x;\n") =
        .error (.syn_fatal 1 "Invalid token")) ∧
    (∀ w s line tok lx1, s ≠ [] → w.all isspace = true →
      tok_next ⟨s, line⟩ = .ok (tok, lx1) →
      tok_next ⟨w ++ s, line⟩ = .ok (tok, ⟨lx1.source, lx1.source_line + newlines w⟩)) :=
  ⟨tok_next_space_end, fun _ => rfl, by rfl, fun _ _ _ => by rfl, tok_next_space_text⟩

/-! ## The text of expressions and of units -/

/-- C21. Binary arithmetic emission: for a node of kind `EXPR_MUL`, `EXPR_DIV`,
`EXPR_ADD` or `EXPR_SUB` with the instruction `instr` of its operator
(`imull %ecx`, `idivl %ecx`, `addl %ecx,%eax`, `subl %ecx,%eax`), whose
operands compile to the texts `a` (right) and `b` (left), `compile_expr` writes
`a`, then `movl %eax,%ecx`, then `b`, then `instr`. -/
theorem compile_binary_emission (sym_table : List Sym) (kind : BinKind) (instr : String)
    (l r : Expr) (a b : List String) (hk : (kind, instr) ∈ arith_instr)
    (hr : compile_expr sym_table r = .ok a) (hl : compile_expr sym_table l = .ok b) :
    compile_expr sym_table (.binary kind l r) =
      .ok (a ++ ["\tmovl %eax,%ecx\n"] ++ b ++ [instr]) := by
  simp only [arith_instr, List.mem_cons, Prod.mk.injEq, List.mem_singleton, List.not_mem_nil,
    or_false] at hk
  rcases hk with ⟨rfl, rfl⟩ | ⟨rfl, rfl⟩ | ⟨rfl, rfl⟩ | ⟨rfl, rfl⟩ <;>
    rw [compile_expr, hr, hl] <;> first | rfl | (intro h; cases h)

/-- A run of C21 on `1 * 2`. -/
theorem compile_binary_emission_witness :
    compile_expr [] (.binary .EXPR_MUL (.intlit 1) (.intlit 2)) =
      .ok ["\tmovl $2,%eax\n", "\tmovl %eax,%ecx\n", "\tmovl $1,%eax\n", "\timull %ecx\n"] :=
  compile_binary_emission [] .EXPR_MUL "\timull %ecx\n" (.intlit 1) (.intlit 2)
    ["\tmovl $2,%eax\n"] ["\tmovl $1,%eax\n"] (by simp [arith_instr]) (by rfl) (by rfl)

/-- C22, as the code has it.  Assignment and lvalue emission: for `x = e` with
`x` bound to the symbol `sym` of type `int` and `e` compiling to the text `a`,
`compile_expr` writes `a`, then `movl %eax,%ecx`, then the text of
`compile_lvalue` for `x`, then `movl %ecx,(%eax)`; the text of `compile_lvalue`
is `movl %ebp,%eax` and `addl $<offset>,%eax` for a local, and for a global the
one line `movl <name>,%eax`, the name written bare, without a `$`. -/
theorem compile_assign_emission (sym_table : List Sym) (id : Ident) (sym : Sym) (e : Expr)
    (a : List String) (hs : sym_get id sym_table = some sym) (ht : sym.type = .int)
    (he : compile_expr sym_table e = .ok a) :
    compile_lvalue sym_table (.id id) = .ok (lvalue_text sym) ∧
    compile_expr sym_table (.binary .EXPR_ASSIGN (.id id) e) =
      .ok (a ++ ["\tmovl %eax,%ecx\n"] ++ lvalue_text sym ++ ["\tmovl %ecx,(%eax)\n"]) ∧
    (sym.global = 0 →
      lvalue_text sym = ["\tmovl %ebp,%eax\n", "\taddl $" ++ fmt_d sym.offset ++ ",%eax\n"]) ∧
    (sym.global ≠ 0 → lvalue_text sym = ["\tmovl " ++ sym.id.str ++ ",%eax\n"]) := by
  have hlv : compile_lvalue sym_table (.id id) = .ok (lvalue_text sym) := by
    simp only [compile_lvalue, hs, ht, CType.is_int, Bool.not_true, Bool.false_eq_true, if_false,
      lvalue_text]
    split <;> rfl
  refine ⟨hlv, ?_, ?_, ?_⟩
  · rw [compile_expr, he, hlv]
    rfl
  · intro hg
    simp [lvalue_text, hg]
  · intro hg
    simp [lvalue_text, hg]

/-- A run of C22 on `a = 1` with `a` a local at offset -4. -/
theorem compile_assign_emission_witness :
    compile_expr [⟨.interned "a", .int, 0, -4⟩]
        (.binary .EXPR_ASSIGN (.id (.interned "a")) (.intlit 1)) =
      .ok ["\tmovl $1,%eax\n", "\tmovl %eax,%ecx\n", "\tmovl %ebp,%eax\n", "\taddl $-4,%eax\n",
        "\tmovl %ecx,(%eax)\n"] :=
  (compile_assign_emission [⟨.interned "a", .int, 0, -4⟩] (.interned "a")
    ⟨.interned "a", .int, 0, -4⟩ (.intlit 1) ["\tmovl $1,%eax\n"] (by rfl) rfl (by rfl)).2.1.trans
    (by rfl)

/-- C22 as stated fails for a global: for `g = 1` with `g` a global `int`,
`compile_expr` writes `movl g,%eax` for the address, not `movl $g,%eax`. -/
theorem compile_assign_global_bare :
    compile_expr [⟨.interned "g", .int, 1, 0⟩]
        (.binary .EXPR_ASSIGN (.id (.interned "g")) (.intlit 1)) =
      .ok ["\tmovl $1,%eax\n", "\tmovl %eax,%ecx\n", "\tmovl g,%eax\n", "\tmovl %ecx,(%eax)\n"] ∧
    compile_lvalue [⟨.interned "g", .int, 1, 0⟩] (.id (.interned "g")) = .ok ["\tmovl g,%eax\n"] ∧
    lvalue_text_immediate ⟨.interned "g", .int, 1, 0⟩ = ["\tmovl $g,%eax\n"] ∧
    ["\tmovl g,%eax\n"] ≠ lvalue_text_immediate ⟨.interned "g", .int, 1, 0⟩ ∧
    ["\tmovl $1,%eax\n", "\tmovl %eax,%ecx\n", "\tmovl g,%eax\n", "\tmovl %ecx,(%eax)\n"] ≠
      ["\tmovl $1,%eax\n"] ++ ["\tmovl %eax,%ecx\n"] ++
        lvalue_text_immediate ⟨.interned "g", .int, 1, 0⟩ ++ ["\tmovl %ecx,(%eax)\n"] :=
  ⟨by rfl, by rfl, by rfl, by decide, by decide⟩

mutual
/-- The code generator only appends to the output. -/
theorem compile_stmt_fout : ∀ (stmt : Stmt) (st st1 : State),
    compile_stmt stmt st = .ok st1 → ∃ code, st1.fout = st.fout ++ code
  | .decl decl, st, st1, h => by
    rw [compile_stmt] at h
    obtain ⟨size, _, _, rfl⟩ := compile_decl_ok h
    exact ⟨_, rfl⟩
  | .expr expr, st, st1, h => by
    rw [compile_stmt] at h
    obtain ⟨text, _, k1⟩ := bind_ok.1 h
    cases k1
    exact ⟨text, rfl⟩
  | .block block, st, st1, h => by
    rw [compile_stmt] at h
    obtain ⟨st2, h1, k1⟩ := bind_ok.1 h
    cases k1
    exact compile_stmts_fout block st st2 h1
  | .block_unset, st, st1, h => by
    rw [compile_stmt] at h
    cases h
  | .ret none, st, st1, h => by
    rw [compile_stmt] at h
    cases h
    exact ⟨_, rfl⟩
  | .ret (some expr), st, st1, h => by
    rw [compile_stmt] at h
    obtain ⟨text, _, k1⟩ := bind_ok.1 h
    cases k1
    exact ⟨_, rfl⟩
  | .ret_unset, st, st1, h => by
    rw [compile_stmt] at h
    cases h
/-- The same for the loop over the statements of a block. -/
theorem compile_stmts_fout : ∀ (stmts : List Stmt) (st st1 : State),
    compile_stmts stmts st = .ok st1 → ∃ code, st1.fout = st.fout ++ code
  | [], st, st1, h => by
    rw [compile_stmts] at h
    cases h
    exact ⟨[], by simp⟩
  | stmt :: next, st, st1, h => by
    rw [compile_stmts] at h
    obtain ⟨st2, h1, k1⟩ := bind_ok.1 h
    obtain ⟨c1, e1⟩ := compile_stmt_fout stmt st st2 h1
    obtain ⟨c2, e2⟩ := compile_stmts_fout next st2 st1 k1
    exact ⟨c1 ++ c2, by rw [e2, e1, List.append_assoc]⟩
end

theorem body_code_eq {body : Stmt} {st st1 : State} (h : compile_stmt body st = .ok st1) :
    st1.fout = st.fout ++ body_code body st := by
  obtain ⟨code, e⟩ := compile_stmt_fout body st st1 h
  simp only [body_code, h, e, List.drop_left]

theorem compile_glob_decl_fout {decl : GlobDecl} {st st1 : State}
    (h : compile_glob_decl decl st = .ok st1) :
    st1.fout = st.fout ++ glob_emission decl st := by
  cases decl with
  | var id type =>
    simp only [compile_glob_decl] at h
    split at h
    · cases h
    · rename_i size hsize
      obtain ⟨rfl, _⟩ := sym_add_ok h
      simp [glob_emission, hsize, emit]
  | func id type func_def =>
    cases func_def with
    | none =>
      simp only [compile_glob_decl] at h
      obtain ⟨rfl, _⟩ := sym_add_ok h
      simp [glob_emission]
    | some body =>
      simp only [compile_glob_decl] at h
      obtain ⟨st2, h1, k1⟩ := bind_ok.1 h
      obtain ⟨rfl, _⟩ := sym_add_ok k1
      have e := body_code_eq h1
      simp only [emit, e, glob_emission, func_entry, List.append_assoc]

theorem compile_globs_fout : ∀ (unit : List GlobDecl) (st st1 : State),
    compile_globs unit st = .ok st1 → st1.fout = st.fout ++ unit_emission unit st
  | [], st, st1, h => by
    rw [compile_globs] at h
    cases h
    simp [unit_emission]
  | decl :: next, st, st1, h => by
    rw [compile_globs] at h
    obtain ⟨st2, h1, k1⟩ := bind_ok.1 h
    have e1 := compile_glob_decl_fout h1
    have e2 := compile_globs_fout next st2 st1 k1
    simp only [unit_emission, h1, e2, e1, List.append_assoc]

/-- C23. Unit emission structure: when `compile_unit` returns, the output is
what was there before, the `___entry` stub, and the emissions of the global
declarations in the order of the unit: for a variable its label and a `.zero`
reservation of the size of its type; for a function with a body its label,
`pushl %ebp`, `movl %esp,%ebp`, the code of the body, `leave`, `ret`; nothing
for a function without a body. -/
theorem compile_unit_emission (unit : List GlobDecl) (st st1 : State)
    (h : compile_unit unit st = .ok st1) :
    st1.fout = st.fout ++ entry_stub ++ unit_emission unit (emit entry_stub (sym_reset st)) ∧
    entry_stub =
      ["___entry:\n", "\tpushl %ebp\n", "\tmovl %esp,%ebp\n", "\tcall main\n",
        "\tmovl %eax,%ebx\n", "\tmovl $1,%eax\n", "\tsyscall\n", "\tleave\n", "\tret\n"] ∧
    (∀ decl next sta, unit_emission (decl :: next) sta =
      glob_emission decl sta ++
        match compile_glob_decl decl sta with
        | .ok stb => unit_emission next stb
        | .error _ => []) ∧
    (∀ id type size sta, type.size = some size →
      glob_emission (.var id type) sta = [id.str ++ ":\n", "\t.zero $" ++ fmt_d size ++ "\n"]) ∧
    (∀ id type sta, glob_emission (.func id type none) sta = []) ∧
    (∀ id type body sta stb, compile_stmt body (func_entry id sta) = .ok stb →
      ∃ code, stb.fout = (func_entry id sta).fout ++ code ∧
        glob_emission (.func id type (some body)) sta =
          [id.str ++ ":\n", "\tpushl %ebp\n", "\tmovl %esp,%ebp\n"] ++ code ++
            ["\tleave\n", "\tret\n"]) := by
  refine ⟨?_, rfl, fun _ _ _ => rfl, ?_, fun _ _ _ => rfl, ?_⟩
  · unfold compile_unit at h
    have e := compile_globs_fout unit _ st1 h
    rw [e]
    simp [emit, sym_reset]
  · intro id type size sta hs
    simp [glob_emission, hs]
  · intro id type body sta stb hb
    exact ⟨body_code body (func_entry id sta), body_code_eq hb, rfl⟩

/-- A run of C23 on the unit `int g; int f(); int main() { return 0; }`. -/
theorem compile_unit_emission_witness :
    compile_unit
        [.var (.interned "g") .int, .func (.interned "f") (.func .int []) none,
          .func (.interned "main") (.func .int []) (some (.block [.ret (some (.intlit 0))]))]
        State.init =
      .ok ⟨[⟨.interned "g", .int, 1, 0⟩, ⟨.interned "f", .func .int [], 1, 0⟩,
          ⟨.interned "main", .func .int [], 1, 0⟩], -4, 0, none,
        entry_stub ++ ["g:\n", "\t.zero $4\n", "main:\n", "\tpushl %ebp\n",
          "\tmovl %esp,%ebp\n", "\tmovl $0,%eax\n", "\tleave\n", "\tret\n", "\tleave\n",
          "\tret\n"]⟩ ∧
    (State.mk [⟨.interned "g", .int, 1, 0⟩, ⟨.interned "f", .func .int [], 1, 0⟩,
        ⟨.interned "main", .func .int [], 1, 0⟩] (-4) 0 none
      (entry_stub ++ ["g:\n", "\t.zero $4\n", "main:\n", "\tpushl %ebp\n",
        "\tmovl %esp,%ebp\n", "\tmovl $0,%eax\n", "\tleave\n", "\tret\n", "\tleave\n",
        "\tret\n"])).fout =
      State.init.fout ++ entry_stub ++
        unit_emission [.var (.interned "g") .int, .func (.interned "f") (.func .int []) none,
          .func (.interned "main") (.func .int []) (some (.block [.ret (some (.intlit 0))]))]
          (emit entry_stub (sym_reset State.init)) :=
  ⟨by rfl,
   (compile_unit_emission
    [.var (.interned "g") .int, .func (.interned "f") (.func .int []) none,
      .func (.interned "main") (.func .int []) (some (.block [.ret (some (.intlit 0))]))]
    State.init _ (by rfl)).1⟩

/-! ## Runs of the whole pipeline -/

theorem sum_product_parse (arg_prec : Int) (curr_param_null : Nat → Bool) (n : Nat) :
    parse_unit arg_prec curr_param_null (n + 14)
        (parser_init "int main() \x7b return 1+2*3; \x7d") =
      .ok ([.func (.interned "main") (.func .int [])
        (some (.block [.ret (some (.binary .EXPR_ADD (.intlit 1)
          (.binary .EXPR_MUL (.intlit 2) (.intlit 3))))]))], ⟨[], 1⟩) := by
  rfl

theorem sum_product_check :
    check_unit [.func (.interned "main") (.func .int [])
        (some (.block [.ret (some (.binary .EXPR_ADD (.intlit 1)
          (.binary .EXPR_MUL (.intlit 2) (.intlit 3))))]))] State.init =
      .ok (0, ⟨[⟨.literal "putchar", .int, 0, 0⟩, ⟨.interned "main", .func .int [], 1, 0⟩],
        -4, 0, none, []⟩) := by
  rfl

theorem sum_product_irc :
    unit_to_irc [.func (.interned "main") (.func .int [])
        (some (.block [.ret (some (.binary .EXPR_ADD (.intlit 1)
          (.binary .EXPR_MUL (.intlit 2) (.intlit 3))))]))]
        ⟨[⟨.literal "putchar", .int, 0, 0⟩, ⟨.interned "main", .func .int [], 1, 0⟩],
          -4, 0, none, []⟩ =
      .ok ([.func (.interned "main") (.func .int [])
        (some (.block [.decl ⟨.char, .interned "___t0"⟩, .decl ⟨.char, .interned "___t1"⟩,
          .expr (.binary .EXPR_ASSIGN (.id (.interned "___t1"))
            (.binary .EXPR_MUL (.intlit 2) (.intlit 3))),
          .expr (.binary .EXPR_ASSIGN (.id (.interned "___t0"))
            (.binary .EXPR_ADD (.intlit 1) (.id (.interned "___t1")))),
          .ret (some (.id (.interned "___t0")))]))],
        ⟨[⟨.interned "main", .func .int [], 1, 0⟩], -4, 2, none, []⟩) := by
  rfl

theorem sum_product_compile :
    compile_unit [.func (.interned "main") (.func .int [])
        (some (.block [.decl ⟨.char, .interned "___t0"⟩, .decl ⟨.char, .interned "___t1"⟩,
          .expr (.binary .EXPR_ASSIGN (.id (.interned "___t1"))
            (.binary .EXPR_MUL (.intlit 2) (.intlit 3))),
          .expr (.binary .EXPR_ASSIGN (.id (.interned "___t0"))
            (.binary .EXPR_ADD (.intlit 1) (.id (.interned "___t1")))),
          .ret (some (.id (.interned "___t0")))]))]
        ⟨[⟨.interned "main", .func .int [], 1, 0⟩], -4, 2, none, []⟩ = .error .assert_fail := by
  rfl

/-- C24, the code at the scenario.  On `int main() { return 1+2*3; }` the parser,
the semantic check and the lowering return; the lowering declares the two
temporaries with the type `char`, the type that `eval_expr_type` gives to
`1+2*3` and to `2*3`; `compile_unit` then stops at a failed assertion: for
`___t1 = 2 * 3` `compile_lvalue` asserts that the type of `___t1` is `int`.  So
the run does not complete and no code for the sum is written. -/
theorem pipeline_sum_product (arg_prec : Int) (curr_param_null : Nat → Bool) (n : Nat) :
    pipeline arg_prec curr_param_null (n + 14) "int main() \x7b return 1+2*3; \x7d" =
      .error .assert_fail ∧
    parse_unit arg_prec curr_param_null (n + 14)
        (parser_init "int main() \x7b return 1+2*3; \x7d") =
      .ok ([.func (.interned "main") (.func .int [])
        (some (.block [.ret (some (.binary .EXPR_ADD (.intlit 1)
          (.binary .EXPR_MUL (.intlit 2) (.intlit 3))))]))], ⟨[], 1⟩) ∧
    check_unit [.func (.interned "main") (.func .int [])
        (some (.block [.ret (some (.binary .EXPR_ADD (.intlit 1)
          (.binary .EXPR_MUL (.intlit 2) (.intlit 3))))]))] State.init =
      .ok (0, ⟨[⟨.literal "putchar", .int, 0, 0⟩, ⟨.interned "main", .func .int [], 1, 0⟩],
        -4, 0, none, []⟩) ∧
    unit_to_irc [.func (.interned "main") (.func .int [])
        (some (.block [.ret (some (.binary .EXPR_ADD (.intlit 1)
          (.binary .EXPR_MUL (.intlit 2) (.intlit 3))))]))]
        ⟨[⟨.literal "putchar", .int, 0, 0⟩, ⟨.interned "main", .func .int [], 1, 0⟩],
          -4, 0, none, []⟩ =
      .ok ([.func (.interned "main") (.func .int [])
        (some (.block [.decl ⟨.char, .interned "___t0"⟩, .decl ⟨.char, .interned "___t1"⟩,
          .expr (.binary .EXPR_ASSIGN (.id (.interned "___t1"))
            (.binary .EXPR_MUL (.intlit 2) (.intlit 3))),
          .expr (.binary .EXPR_ASSIGN (.id (.interned "___t0"))
            (.binary .EXPR_ADD (.intlit 1) (.id (.interned "___t1")))),
          .ret (some (.id (.interned "___t0")))]))],
        ⟨[⟨.interned "main", .func .int [], 1, 0⟩], -4, 2, none, []⟩) ∧
    compile_unit [.func (.interned "main") (.func .int [])
        (some (.block [.decl ⟨.char, .interned "___t0"⟩, .decl ⟨.char, .interned "___t1"⟩,
          .expr (.binary .EXPR_ASSIGN (.id (.interned "___t1"))
            (.binary .EXPR_MUL (.intlit 2) (.intlit 3))),
          .expr (.binary .EXPR_ASSIGN (.id (.interned "___t0"))
            (.binary .EXPR_ADD (.intlit 1) (.id (.interned "___t1")))),
          .ret (some (.id (.interned "___t0")))]))]
        ⟨[⟨.interned "main", .func .int [], 1, 0⟩], -4, 2, none, []⟩ = .error .assert_fail ∧
    eval_expr_type [] (.binary .EXPR_MUL (.intlit 2) (.intlit 3)) = .ok .char ∧
    compile_lvalue [⟨.interned "___t0", .char, 0, -4⟩, ⟨.interned "___t1", .char, 0, -5⟩]
      (.id (.interned "___t1")) = .error .assert_fail := by
  refine ⟨?_, sum_product_parse _ _ _, sum_product_check, sum_product_irc, sum_product_compile,
    by rfl, by rfl⟩
  unfold pipeline
  rw [sum_product_parse]
  simp only [bind, Except.bind]
  rw [sum_product_check]
  simp only []
  rw [sum_product_irc]
  simp only []
  exact sum_product_compile

/-- The parse of the first declaration of the scenario with a forward
declaration, as far as it depends on the value of the local `curr_param`. -/
theorem putchar_decl_parse (arg_prec : Int) (n : Nat) (null : Bool) :
    parse_glob_decl arg_prec null (n + 14)
        (parser_init "int putchar(int c); int main() \x7b putchar(65); return 0; \x7d") =
      if null then
        .ok (.func (.interned "putchar") (.func .int [(.interned "c", .int)]) none,
          ⟨" int main() \x7b putchar(65); return 0; \x7d".data, 1⟩)
      else .error .undefined := by
  cases null <;> rfl

theorem putchar_parse (arg_prec : Int) (curr_param_null : Nat → Bool) (n : Nat) :
    parse_unit arg_prec curr_param_null (n + 15)
        (parser_init "int putchar(int c); int main() \x7b putchar(65); return 0; \x7d") =
      if curr_param_null 0 then
        .ok ([.func (.interned "putchar") (.func .int [(.interned "c", .int)]) none,
          .func (.interned "main") (.func .int [])
            (some (.block [.expr (.call (.id (.interned "putchar")) [.intlit 65]),
              .ret (some (.intlit 0))]))], ⟨[], 1⟩)
      else .error .undefined := by
  rw [parse_unit, parse_globs]
  have hpeek : tok_peek
      (parser_init "int putchar(int c); int main() \x7b putchar(65); return 0; \x7d") =
      .ok ⟨.TOK_KW_INT, none, some (.interned "int")⟩ := by rfl
  rw [hpeek, putchar_decl_parse]
  cases curr_param_null 0
  · rfl
  · rfl

theorem putchar_check :
    check_unit [.func (.interned "putchar") (.func .int [(.interned "c", .int)]) none,
        .func (.interned "main") (.func .int [])
          (some (.block [.expr (.call (.id (.interned "putchar")) [.intlit 65]),
            .ret (some (.intlit 0))]))] State.init = .error .undefined := by
  rfl

theorem putchar_decl_check :
    check_glob_decl (.func (.interned "putchar") (.func .int [(.interned "c", .int)]) none)
      ⟨[⟨.literal "putchar", .int, 0, 0⟩], 0, 0, none, []⟩ = .error .undefined := by
  rfl

theorem putchar_irc :
    unit_to_irc [.func (.interned "putchar") (.func .int [(.interned "c", .int)]) none,
        .func (.interned "main") (.func .int [])
          (some (.block [.expr (.call (.id (.interned "putchar")) [.intlit 65]),
            .ret (some (.intlit 0))]))] State.init =
      .ok ([.func (.interned "putchar") (.func .int [(.interned "c", .int)]) none,
        .func (.interned "main") (.func .int [])
          (some (.block [.expr (.call (.id (.interned "putchar")) [.intlit 65]),
            .ret (some (.intlit 0))]))],
        ⟨[⟨.interned "putchar", .func .int [(.interned "c", .int)], 1, 0⟩,
          ⟨.interned "main", .func .int [], 1, 0⟩], 0, 0, none, []⟩) := by
  rfl

theorem putchar_compile :
    compile_unit [.func (.interned "putchar") (.func .int [(.interned "c", .int)]) none,
        .func (.interned "main") (.func .int [])
          (some (.block [.expr (.call (.id (.interned "putchar")) [.intlit 65]),
            .ret (some (.intlit 0))]))]
        ⟨[⟨.interned "putchar", .func .int [(.interned "c", .int)], 1, 0⟩,
          ⟨.interned "main", .func .int [], 1, 0⟩], 0, 0, none, []⟩ =
      .ok ⟨[⟨.interned "putchar", .func .int [(.interned "c", .int)], 1, 0⟩,
          ⟨.interned "main", .func .int [], 1, 0⟩], -4, 0, none,
        entry_stub ++ ["main:\n", "\tpushl %ebp\n", "\tmovl %esp,%ebp\n", "\tmovl $65,%eax\n",
          "\tpushl %eax\n", "\tcall putchar\n", "\tpopl %eax\n", "\tmovl $0,%eax\n",
          "\tleave\n", "\tret\n", "\tleave\n", "\tret\n"]⟩ := by
  rfl

/-- C25, the code at the scenario.  On
`int putchar(int c); int main() { putchar(65); return 0; }` the run is undefined
whatever the local `curr_param` of `parse_glob_decl` holds.  When it is the null
pointer the parser returns the two declarations and `check_unit` is undefined:
for the declaration of `putchar`, which has no body, `check_glob_decl` calls
`check_stmt` on the null pointer `func_def`.  When it is not, the parser itself
writes through it.  The two later passes, run on the parsed unit from the state
at program start, return, the declaration of `putchar` writes no code, and the
code of `main` is the one of the scenario. -/
theorem pipeline_forward_decl (arg_prec : Int) (curr_param_null : Nat → Bool) (n : Nat) :
    pipeline arg_prec curr_param_null (n + 15)
        "int putchar(int c); int main() \x7b putchar(65); return 0; \x7d" = .error .undefined ∧
    parse_unit arg_prec (fun _ => true) (n + 15)
        (parser_init "int putchar(int c); int main() \x7b putchar(65); return 0; \x7d") =
      .ok ([.func (.interned "putchar") (.func .int [(.interned "c", .int)]) none,
        .func (.interned "main") (.func .int [])
          (some (.block [.expr (.call (.id (.interned "putchar")) [.intlit 65]),
            .ret (some (.intlit 0))]))], ⟨[], 1⟩) ∧
    parse_unit arg_prec (fun _ => false) (n + 15)
        (parser_init "int putchar(int c); int main() \x7b putchar(65); return 0; \x7d") =
      .error .undefined ∧
    check_unit [.func (.interned "putchar") (.func .int [(.interned "c", .int)]) none,
        .func (.interned "main") (.func .int [])
          (some (.block [.expr (.call (.id (.interned "putchar")) [.intlit 65]),
            .ret (some (.intlit 0))]))] State.init = .error .undefined ∧
    check_glob_decl (.func (.interned "putchar") (.func .int [(.interned "c", .int)]) none)
      ⟨[⟨.literal "putchar", .int, 0, 0⟩], 0, 0, none, []⟩ = .error .undefined ∧
    unit_to_irc [.func (.interned "putchar") (.func .int [(.interned "c", .int)]) none,
        .func (.interned "main") (.func .int [])
          (some (.block [.expr (.call (.id (.interned "putchar")) [.intlit 65]),
            .ret (some (.intlit 0))]))] State.init =
      .ok ([.func (.interned "putchar") (.func .int [(.interned "c", .int)]) none,
        .func (.interned "main") (.func .int [])
          (some (.block [.expr (.call (.id (.interned "putchar")) [.intlit 65]),
            .ret (some (.intlit 0))]))],
        ⟨[⟨.interned "putchar", .func .int [(.interned "c", .int)], 1, 0⟩,
          ⟨.interned "main", .func .int [], 1, 0⟩], 0, 0, none, []⟩) ∧
    compile_unit [.func (.interned "putchar") (.func .int [(.interned "c", .int)]) none,
        .func (.interned "main") (.func .int [])
          (some (.block [.expr (.call (.id (.interned "putchar")) [.intlit 65]),
            .ret (some (.intlit 0))]))]
        ⟨[⟨.interned "putchar", .func .int [(.interned "c", .int)], 1, 0⟩,
          ⟨.interned "main", .func .int [], 1, 0⟩], 0, 0, none, []⟩ =
      .ok ⟨[⟨.interned "putchar", .func .int [(.interned "c", .int)], 1, 0⟩,
          ⟨.interned "main", .func .int [], 1, 0⟩], -4, 0, none,
        entry_stub ++ ["main:\n", "\tpushl %ebp\n", "\tmovl %esp,%ebp\n", "\tmovl $65,%eax\n",
          "\tpushl %eax\n", "\tcall putchar\n", "\tpopl %eax\n", "\tmovl $0,%eax\n",
          "\tleave\n", "\tret\n", "\tleave\n", "\tret\n"]⟩ := by
  refine ⟨?_, putchar_parse arg_prec (fun _ => true) n,
    putchar_parse arg_prec (fun _ => false) n, putchar_check, putchar_decl_check, putchar_irc,
    putchar_compile⟩
  unfold pipeline
  rw [putchar_parse]
  cases curr_param_null 0
  · rfl
  · simp only [if_true, bind, Except.bind]
    rw [putchar_check]

/-! ## The declaration parser, one step at a time -/

theorem parse_block_cons {ap : Int} {f : Nat} {lx lx1 lx2 : Lexer} {s : Stmt} {tok : Token}
    {rest : List Stmt} (h1 : parse_stmt ap f lx = .ok (s, lx1)) (h2 : tok_peek lx1 = .ok tok)
    (h3 : tok.kind ≠ .TOK_RBRACE) (h4 : parse_block_stmts ap f lx1 = .ok (rest, lx2)) :
    parse_block_stmts ap (f + 1) lx = .ok (s :: rest, lx2) := by
  rw [parse_block_stmts]
  simp only [h1, h2, h3, h4, bind, Except.bind, ne_eq, not_false_eq_true, if_true]

theorem parse_block_last {ap : Int} {f : Nat} {lx lx1 : Lexer} {s : Stmt} {tok : Token}
    (h1 : parse_stmt ap f lx = .ok (s, lx1)) (h2 : tok_peek lx1 = .ok tok)
    (h3 : tok.kind = .TOK_RBRACE) : parse_block_stmts ap (f + 1) lx = .ok ([s], lx1) := by
  rw [parse_block_stmts]
  simp only [h1, h2, h3, bind, Except.bind, ne_eq, not_true_eq_false, if_false]

theorem parse_stmt_block_of {ap : Int} {f : Nat} {lx lx1 lx2 lx3 : Lexer} {t1 t2 tok : Token}
    {block : List Stmt} (h1 : tok_expect .TOK_LBRACE lx = .ok (t1, lx1))
    (h2 : tok_peek lx1 = .ok tok) (h3 : tok.kind ≠ .TOK_RBRACE)
    (h4 : parse_block_stmts ap f lx1 = .ok (block, lx2))
    (h5 : tok_expect .TOK_RBRACE lx2 = .ok (t2, lx3)) :
    parse_stmt_block ap (f + 1) lx = .ok (.block block, lx3) := by
  rw [parse_stmt_block]
  simp only [h1, h2, h3, h4, h5, bind, Except.bind, ne_eq, not_false_eq_true, if_true]

theorem glob_decl_body_block {ap : Int} {f : Nat} {id : Ident} {type : CType} {lx lx1 : Lexer}
    {tok : Token} {body : Stmt} (h1 : tok_peek lx = .ok tok) (h2 : tok.kind = .TOK_LBRACE)
    (h3 : parse_stmt_block ap f lx = .ok (body, lx1)) :
    glob_decl_body ap f id type lx = .ok (.func id type (some body), lx1) := by
  simp only [glob_decl_body, h1, h2, h3, bind, Except.bind, if_true]

theorem parse_glob_decl_func {ap : Int} {null : Bool} {f : Nat} {lx lx1 lx2 lx3 lx4 lx5 lx6 : Lexer}
    {base type : CType} {tok tok1 t4 t6 : Token} {id : Ident} {params : List (Ident × CType)}
    (h1 : get_base_type lx = .ok (some base, lx1))
    (h2 : parse_type f base lx1 = .ok (type, lx2))
    (h3 : tok_expect .TOK_ID lx2 = .ok (tok, lx3)) (h4 : tok_id tok = .ok id)
    (h5 : tok_peek lx3 = .ok tok1) (h6 : tok1.kind ≠ .TOK_SEMI)
    (h7 : tok_expect .TOK_LPAREN lx3 = .ok (t4, lx4))
    (h8 : glob_decl_params null f lx4 = .ok (params, lx5))
    (h9 : tok_expect .TOK_RPAREN lx5 = .ok (t6, lx6)) :
    parse_glob_decl ap null f lx = glob_decl_body ap f id (.func type params) lx6 := by
  simp only [parse_glob_decl, h1, h2, h3, h4, h5, h6, h7, h8, h9, bind, Except.bind, if_false]

theorem parse_globs_cons {ap : Int} {c : Nat → Bool} {f k : Nat} {lx lx1 lx2 : Lexer}
    {tok : Token} {decl : GlobDecl} {rest : List GlobDecl} (h1 : tok_peek lx = .ok tok)
    (h2 : tok.kind ≠ .TOK_EOF) (h3 : parse_glob_decl ap (c k) f lx = .ok (decl, lx1))
    (h4 : parse_globs ap c f (k + 1) lx1 = .ok (rest, lx2)) :
    parse_globs ap c (f + 1) k lx = .ok (decl :: rest, lx2) := by
  rw [parse_globs]
  simp only [h1, h2, h3, h4, bind, Except.bind, ne_eq, not_false_eq_true, if_true]

theorem parse_globs_end {ap : Int} {c : Nat → Bool} {f k : Nat} {lx : Lexer} {tok : Token}
    (h1 : tok_peek lx = .ok tok) (h2 : tok.kind = .TOK_EOF) :
    parse_globs ap c (f + 1) k lx = .ok ([], lx) := by
  rw [parse_globs]
  simp only [h1, h2, bind, Except.bind, ne_eq, not_true_eq_false, if_false]

theorem locals_stmt1 (ap : Int) (n : Nat) :
    parse_stmt ap (n + 13) ⟨" int a; int b; a = 1; b = 2; return a+b; \x7d".data, 1⟩ =
      .ok (.decl ⟨.int, .interned "a"⟩, ⟨" int b; a = 1; b = 2; return a+b; \x7d".data, 1⟩) := by
  rfl

theorem locals_stmt2 (ap : Int) (n : Nat) :
    parse_stmt ap (n + 12) ⟨" int b; a = 1; b = 2; return a+b; \x7d".data, 1⟩ =
      .ok (.decl ⟨.int, .interned "b"⟩, ⟨" a = 1; b = 2; return a+b; \x7d".data, 1⟩) := by
  rfl

theorem locals_stmt3 (ap : Int) (n : Nat) :
    parse_stmt ap (n + 11) ⟨" a = 1; b = 2; return a+b; \x7d".data, 1⟩ =
      .ok (.expr (.binary .EXPR_ASSIGN (.id (.interned "a")) (.intlit 1)),
        ⟨" b = 2; return a+b; \x7d".data, 1⟩) := by
  rfl

theorem locals_stmt4 (ap : Int) (n : Nat) :
    parse_stmt ap (n + 10) ⟨" b = 2; return a+b; \x7d".data, 1⟩ =
      .ok (.expr (.binary .EXPR_ASSIGN (.id (.interned "b")) (.intlit 2)),
        ⟨" return a+b; \x7d".data, 1⟩) := by
  rfl

theorem locals_stmt5 (ap : Int) (n : Nat) :
    parse_stmt ap (n + 9) ⟨" return a+b; \x7d".data, 1⟩ =
      .ok (.ret (some (.binary .EXPR_ADD (.id (.interned "a")) (.id (.interned "b")))),
        ⟨" \x7d".data, 1⟩) := by
  rfl

theorem locals_block (ap : Int) (n : Nat) :
    parse_block_stmts ap (n + 14) ⟨" int a; int b; a = 1; b = 2; return a+b; \x7d".data, 1⟩ =
      .ok ([.decl ⟨.int, .interned "a"⟩, .decl ⟨.int, .interned "b"⟩,
          .expr (.binary .EXPR_ASSIGN (.id (.interned "a")) (.intlit 1)),
          .expr (.binary .EXPR_ASSIGN (.id (.interned "b")) (.intlit 2)),
          .ret (some (.binary .EXPR_ADD (.id (.interned "a")) (.id (.interned "b"))))],
        ⟨" \x7d".data, 1⟩) :=
  parse_block_cons (locals_stmt1 ap n) (by rfl) (by decide)
    (parse_block_cons (locals_stmt2 ap n) (by rfl) (by decide)
      (parse_block_cons (locals_stmt3 ap n) (by rfl) (by decide)
        (parse_block_cons (locals_stmt4 ap n) (by rfl) (by decide)
          (parse_block_last (locals_stmt5 ap n) (by rfl) (by decide)))))

theorem locals_body (ap : Int) (n : Nat) :
    parse_stmt_block ap (n + 15)
        ⟨" \x7b int a; int b; a = 1; b = 2; return a+b; \x7d".data, 1⟩ =
      .ok (.block [.decl ⟨.int, .interned "a"⟩, .decl ⟨.int, .interned "b"⟩,
          .expr (.binary .EXPR_ASSIGN (.id (.interned "a")) (.intlit 1)),
          .expr (.binary .EXPR_ASSIGN (.id (.interned "b")) (.intlit 2)),
          .ret (some (.binary .EXPR_ADD (.id (.interned "a")) (.id (.interned "b"))))],
        ⟨[], 1⟩) :=
  parse_stmt_block_of (by rfl) (by rfl) (by decide) (locals_block ap n) (by rfl)

theorem locals_head (ap : Int) (null : Bool) (n : Nat) :
    parse_glob_decl ap null (n + 15)
        (parser_init "int main() \x7b int a; int b; a = 1; b = 2; return a+b; \x7d") =
      glob_decl_body ap (n + 15) (.interned "main") (.func .int [])
        ⟨" \x7b int a; int b; a = 1; b = 2; return a+b; \x7d".data, 1⟩ :=
  parse_glob_decl_func (by rfl) (by rfl) (by rfl) (by rfl) (by rfl) (by decide) (by rfl)
    (by rfl) (by rfl)

theorem locals_parse (arg_prec : Int) (curr_param_null : Nat → Bool) (n : Nat) :
    parse_unit arg_prec curr_param_null (n + 16)
        (parser_init "int main() \x7b int a; int b; a = 1; b = 2; return a+b; \x7d") =
      .ok ([.func (.interned "main") (.func .int [])
        (some (.block [.decl ⟨.int, .interned "a"⟩, .decl ⟨.int, .interned "b"⟩,
          .expr (.binary .EXPR_ASSIGN (.id (.interned "a")) (.intlit 1)),
          .expr (.binary .EXPR_ASSIGN (.id (.interned "b")) (.intlit 2)),
          .ret (some (.binary .EXPR_ADD (.id (.interned "a")) (.id (.interned "b"))))]))],
        ⟨[], 1⟩) :=
  parse_globs_cons (by rfl) (by decide)
    ((locals_head arg_prec _ n).trans
      (glob_decl_body_block (by rfl) (by decide) (locals_body arg_prec n)))
    (parse_globs_end (by rfl) (by decide))

theorem return_call_stmt (st : State) (f : Ident) (sym : Sym) (ret : CType)
    (params : List (Ident × CType)) (block : List Stmt) (c : Nat)
    (hs : sym_get f st.sym_table = some sym) (hg : sym.global ≠ 0)
    (ht : sym.type = .func ret params) (hb : st.curr_block = some block)
    (hc : st.tmp_vars_count = c) (hmax : (c : Int) + 1 ≤ INT_MAX) :
    stmt_to_irc (.ret (some (.call (.id f) []))) st =
      .ok { st with
        tmp_vars_count := (c : Int) + 1
        curr_block := some (block ++
          [.decl ⟨ret, .interned ("___t" ++ Nat.repr c)⟩,
           .expr (.binary .EXPR_ASSIGN (.id (.interned ("___t" ++ Nat.repr c)))
             (.call (.id f) [])),
           .ret (some (.id (.interned ("___t" ++ Nat.repr c))))]) } := by
  rw [stmt_to_irc]
  simp only [expr_is_atom, Bool.false_eq_true, if_false]
  rw [store_expr_temp_var]
  simp only [store_begin, Bool.false_eq_true, if_false, tmp_var_at hc hmax, bind, Except.bind,
    eval_expr_type, hs, hg, ht, add_stmt, hb, store_operand, expr_is_atom, if_true]
  rw [store_args]
  simp only [store_end, Bool.false_eq_true, if_false, add_stmt, List.append_assoc,
    List.singleton_append, List.cons_append, List.nil_append, bind, Except.bind]

theorem call_stmt1 (ap : Int) (n : Nat) :
    parse_stmt ap (n + 8) ⟨" return 69; \x7d int main() \x7b return f(); \x7d".data, 1⟩ =
      .ok (.ret (some (.intlit 69)), ⟨" \x7d int main() \x7b return f(); \x7d".data, 1⟩) := by
  rfl

theorem call_body1 (ap : Int) (n : Nat) :
    parse_stmt_block ap (n + 10)
        ⟨" \x7b return 69; \x7d int main() \x7b return f(); \x7d".data, 1⟩ =
      .ok (.block [.ret (some (.intlit 69))], ⟨" int main() \x7b return f(); \x7d".data, 1⟩) :=
  parse_stmt_block_of (by rfl) (by rfl) (by decide)
    (parse_block_last (call_stmt1 ap n) (by rfl) (by decide)) (by rfl)

theorem call_head1 (ap : Int) (null : Bool) (n : Nat) :
    parse_glob_decl ap null (n + 10)
        (parser_init "int f() \x7b return 69; \x7d int main() \x7b return f(); \x7d") =
      glob_decl_body ap (n + 10) (.interned "f") (.func .int [])
        ⟨" \x7b return 69; \x7d int main() \x7b return f(); \x7d".data, 1⟩ :=
  parse_glob_decl_func (by rfl) (by rfl) (by rfl) (by rfl) (by rfl) (by decide) (by rfl)
    (by rfl) (by rfl)

theorem call_stmt2 (ap : Int) (n : Nat) :
    parse_stmt ap (n + 7) ⟨" return f(); \x7d".data, 1⟩ =
      .ok (.ret (some (.call (.id (.interned "f")) [])), ⟨" \x7d".data, 1⟩) := by
  rfl

theorem call_body2 (ap : Int) (n : Nat) :
    parse_stmt_block ap (n + 9) ⟨" \x7b return f(); \x7d".data, 1⟩ =
      .ok (.block [.ret (some (.call (.id (.interned "f")) []))], ⟨[], 1⟩) :=
  parse_stmt_block_of (by rfl) (by rfl) (by decide)
    (parse_block_last (call_stmt2 ap n) (by rfl) (by decide)) (by rfl)

theorem call_head2 (ap : Int) (null : Bool) (n : Nat) :
    parse_glob_decl ap null (n + 9) ⟨" int main() \x7b return f(); \x7d".data, 1⟩ =
      glob_decl_body ap (n + 9) (.interned "main") (.func .int [])
        ⟨" \x7b return f(); \x7d".data, 1⟩ :=
  parse_glob_decl_func (by rfl) (by rfl) (by rfl) (by rfl) (by rfl) (by decide) (by rfl)
    (by rfl) (by rfl)

theorem call_parse (arg_prec : Int) (curr_param_null : Nat → Bool) (n : Nat) :
    parse_unit arg_prec curr_param_null (n + 11)
        (parser_init "int f() \x7b return 69; \x7d int main() \x7b return f(); \x7d") =
      .ok ([.func (.interned "f") (.func .int []) (some (.block [.ret (some (.intlit 69))])),
        .func (.interned "main") (.func .int [])
          (some (.block [.ret (some (.call (.id (.interned "f")) []))]))], ⟨[], 1⟩) :=
  parse_globs_cons (by rfl) (by decide)
    ((call_head1 arg_prec _ n).trans
      (glob_decl_body_block (by rfl) (by decide) (call_body1 arg_prec n)))
    (parse_globs_cons (by rfl) (by decide)
      ((call_head2 arg_prec _ n).trans
        (glob_decl_body_block (by rfl) (by decide) (call_body2 arg_prec n)))
      (parse_globs_end (by rfl) (by decide)))

theorem call_check :
    check_unit [.func (.interned "f") (.func .int []) (some (.block [.ret (some (.intlit 69))])),
        .func (.interned "main") (.func .int [])
          (some (.block [.ret (some (.call (.id (.interned "f")) []))]))] State.init =
      .ok (0, ⟨[⟨.literal "putchar", .int, 0, 0⟩, ⟨.interned "f", .func .int [], 1, 0⟩],
        -4, 0, none, []⟩) := by
  rfl

theorem call_irc :
    unit_to_irc [.func (.interned "f") (.func .int []) (some (.block [.ret (some (.intlit 69))])),
        .func (.interned "main") (.func .int [])
          (some (.block [.ret (some (.call (.id (.interned "f")) []))]))]
        ⟨[⟨.literal "putchar", .int, 0, 0⟩, ⟨.interned "f", .func .int [], 1, 0⟩],
          -4, 0, none, []⟩ =
      .ok ([.func (.interned "f") (.func .int []) (some (.block [.ret (some (.intlit 69))])),
        .func (.interned "main") (.func .int [])
          (some (.block [.decl ⟨.int, .interned "___t0"⟩,
            .expr (.binary .EXPR_ASSIGN (.id (.interned "___t0"))
              (.call (.id (.interned "f")) [])),
            .ret (some (.id (.interned "___t0")))]))],
        ⟨[⟨.interned "f", .func .int [], 1, 0⟩, ⟨.interned "main", .func .int [], 1, 0⟩],
          -4, 1, none, []⟩) := by
  rfl

theorem call_compile :
    compile_unit
        [.func (.interned "f") (.func .int []) (some (.block [.ret (some (.intlit 69))])),
        .func (.interned "main") (.func .int [])
          (some (.block [.decl ⟨.int, .interned "___t0"⟩,
            .expr (.binary .EXPR_ASSIGN (.id (.interned "___t0"))
              (.call (.id (.interned "f")) [])),
            .ret (some (.id (.interned "___t0")))]))]
        ⟨[⟨.interned "f", .func .int [], 1, 0⟩, ⟨.interned "main", .func .int [], 1, 0⟩],
          -4, 1, none, []⟩ =
      .ok ⟨[⟨.interned "f", .func .int [], 1, 0⟩, ⟨.interned "main", .func .int [], 1, 0⟩],
        -8, 1, none,
        entry_stub ++ ["f:\n", "\tpushl %ebp\n", "\tmovl %esp,%ebp\n", "\tmovl $69,%eax\n",
          "\tleave\n", "\tret\n", "\tleave\n", "\tret\n",
          "main:\n", "\tpushl %ebp\n", "\tmovl %esp,%ebp\n", "\tsubl $4,%esp\n", "\tcall f\n",
          "\tmovl %eax,%ecx\n", "\tmovl %ebp,%eax\n", "\taddl $-4,%eax\n",
          "\tmovl %ecx,(%eax)\n", "\tmovl -4(%ebp),%eax\n", "\tleave\n", "\tret\n",
          "\tleave\n", "\tret\n"]⟩ := by
  rfl

/-- C26. Return of a call: where `sym_get` finds for `f` a global symbol of a
function type with the return type `ret` (the function is declared earlier in
the unit), the lowering of `return f();` appends to the current block exactly
three statements: the declaration of the temporary `t` named from the counter,
of the type `ret`; the assignment `t = f()`; and `return t`.  On
`int f() { return 69; } int main() { return f(); }` the four passes return, the
lowered `main` is these three statements, and the code of `main` has `call f`,
the store to `t`, the load of `t` and then `leave`, `ret`. -/
theorem return_call_lowering :
    (∀ (st : State) (f : Ident) (sym : Sym) (ret : CType) (params : List (Ident × CType))
        (block : List Stmt) (c : Nat),
      sym_get f st.sym_table = some sym → sym.global ≠ 0 → sym.type = .func ret params →
      st.curr_block = some block → st.tmp_vars_count = c → (c : Int) + 1 ≤ INT_MAX →
      stmt_to_irc (.ret (some (.call (.id f) []))) st =
        .ok { st with
          tmp_vars_count := (c : Int) + 1
          curr_block := some (block ++
            [.decl ⟨ret, .interned ("___t" ++ Nat.repr c)⟩,
             .expr (.binary .EXPR_ASSIGN (.id (.interned ("___t" ++ Nat.repr c)))
               (.call (.id f) [])),
             .ret (some (.id (.interned ("___t" ++ Nat.repr c))))]) }) ∧
    (∀ (arg_prec : Int) (curr_param_null : Nat → Bool) (n : Nat),
      pipeline arg_prec curr_param_null (n + 11)
          "int f() \x7b return 69; \x7d int main() \x7b return f(); \x7d" =
        .ok ⟨[⟨.interned "f", .func .int [], 1, 0⟩, ⟨.interned "main", .func .int [], 1, 0⟩],
          -8, 1, none,
          entry_stub ++ ["f:\n", "\tpushl %ebp\n", "\tmovl %esp,%ebp\n", "\tmovl $69,%eax\n",
            "\tleave\n", "\tret\n", "\tleave\n", "\tret\n",
            "main:\n", "\tpushl %ebp\n", "\tmovl %esp,%ebp\n", "\tsubl $4,%esp\n", "\tcall f\n",
            "\tmovl %eax,%ecx\n", "\tmovl %ebp,%eax\n", "\taddl $-4,%eax\n",
            "\tmovl %ecx,(%eax)\n", "\tmovl -4(%ebp),%eax\n", "\tleave\n", "\tret\n",
            "\tleave\n", "\tret\n"]⟩) ∧
    unit_to_irc [.func (.interned "f") (.func .int []) (some (.block [.ret (some (.intlit 69))])),
        .func (.interned "main") (.func .int [])
          (some (.block [.ret (some (.call (.id (.interned "f")) []))]))]
        ⟨[⟨.literal "putchar", .int, 0, 0⟩, ⟨.interned "f", .func .int [], 1, 0⟩],
          -4, 0, none, []⟩ =
      .ok ([.func (.interned "f") (.func .int []) (some (.block [.ret (some (.intlit 69))])),
        .func (.interned "main") (.func .int [])
          (some (.block [.decl ⟨.int, .interned "___t0"⟩,
            .expr (.binary .EXPR_ASSIGN (.id (.interned "___t0"))
              (.call (.id (.interned "f")) [])),
            .ret (some (.id (.interned "___t0")))]))],
        ⟨[⟨.interned "f", .func .int [], 1, 0⟩, ⟨.interned "main", .func .int [], 1, 0⟩],
          -4, 1, none, []⟩) := by
  refine ⟨return_call_stmt, ?_, call_irc⟩
  intro arg_prec curr_param_null n
  unfold pipeline
  rw [call_parse]
  simp only [bind, Except.bind]
  rw [call_check]
  simp only []
  rw [call_irc]
  simp only []
  exact call_compile

/-- A run of C26 on the statement `return f();` of `main`, reached with `f` in
the table, an empty current block and the counter 0. -/
theorem return_call_lowering_witness :
    stmt_to_irc (.ret (some (.call (.id (.interned "f")) [])))
        ⟨[⟨.interned "f", .func .int [], 1, 0⟩], -4, 0, some [], []⟩ =
      .ok ⟨[⟨.interned "f", .func .int [], 1, 0⟩], -4, 1,
        some [.decl ⟨.int, .interned "___t0"⟩,
          .expr (.binary .EXPR_ASSIGN (.id (.interned "___t0")) (.call (.id (.interned "f")) [])),
          .ret (some (.id (.interned "___t0")))], []⟩ :=
  return_call_lowering.1 ⟨[⟨.interned "f", .func .int [], 1, 0⟩], -4, 0, some [], []⟩
    (.interned "f") ⟨.interned "f", .func .int [], 1, 0⟩ .int [] [] 0 (by rfl) (by decide) rfl rfl
    rfl (by decide)

/-! ## The tests of equality are sound -/

mutual
theorem CType.type_same_sound : ∀ (a b : CType), a.same b = true → a = b
  | .void, b, h => by cases b <;> simp [CType.same] at h ⊢
  | .char, b, h => by cases b <;> simp [CType.same] at h ⊢
  | .int, b, h => by cases b <;> simp [CType.same] at h ⊢
  | .ptr a, b, h => by
    cases b <;> simp only [CType.same, Bool.false_eq_true] at h
    rw [CType.type_same_sound a _ h]
  | .func a ps, b, h => by
    cases b <;> simp only [CType.same, Bool.false_eq_true, Bool.and_eq_true] at h
    rw [CType.type_same_sound a _ h.1, CType.same_params_sound ps _ h.2]
theorem CType.same_params_sound : ∀ (ps qs : List (Ident × CType)),
    CType.same_params ps qs = true → ps = qs
  | [], qs, h => by cases qs <;> simp [CType.same_params] at h ⊢
  | p :: ps, qs, h => by
    cases qs <;> simp only [CType.same_params, Bool.false_eq_true, Bool.and_eq_true] at h
    rw [CType.same_param_sound p _ h.1, CType.same_params_sound ps _ h.2]
theorem CType.same_param_sound : ∀ (p q : Ident × CType), CType.same_param p q = true → p = q
  | (i, a), (j, b), h => by
    simp only [CType.same_param, Bool.and_eq_true, decide_eq_true_eq] at h
    rw [h.1, CType.type_same_sound a b h.2]
end

mutual
theorem Expr.expr_same_sound : ∀ (a b : Expr), a.same b = true → a = b
  | .intlit v, b, h => by
    cases b <;> simp only [Expr.same, Bool.false_eq_true, decide_eq_true_eq] at h
    rw [h]
  | .id i, b, h => by
    cases b <;> simp only [Expr.same, Bool.false_eq_true, decide_eq_true_eq] at h
    rw [h]
  | .call l r, b, h => by
    cases b <;> simp only [Expr.same, Bool.false_eq_true, Bool.and_eq_true] at h
    rw [Expr.expr_same_sound l _ h.1, Expr.expr_list_same_sound r _ h.2]
  | .neg l, b, h => by
    cases b <;> simp only [Expr.same, Bool.false_eq_true] at h
    rw [Expr.expr_same_sound l _ h]
  | .binary k l r, b, h => by
    cases b <;>
      simp only [Expr.same, Bool.false_eq_true, Bool.and_eq_true, decide_eq_true_eq] at h
    rw [h.1.1, Expr.expr_same_sound l _ h.1.2, Expr.expr_same_sound r _ h.2]
theorem Expr.expr_list_same_sound : ∀ (es fs : List Expr), Expr.same_list es fs = true → es = fs
  | [], fs, h => by cases fs <;> simp [Expr.same_list] at h ⊢
  | e :: es, fs, h => by
    cases fs <;> simp only [Expr.same_list, Bool.false_eq_true, Bool.and_eq_true] at h
    rw [Expr.expr_same_sound e _ h.1, Expr.expr_list_same_sound es _ h.2]
end

mutual
theorem Stmt.stmt_same_sound : ∀ (a b : Stmt), a.same b = true → a = b
  | .decl d, b, h => by
    cases b <;>
      simp only [Stmt.same, Bool.false_eq_true, Bool.and_eq_true, decide_eq_true_eq] at h
    rename_i e
    cases d
    cases e
    simp only at h
    rw [CType.type_same_sound _ _ h.1, h.2]
  | .expr a, b, h => by
    cases b <;> simp only [Stmt.same, Bool.false_eq_true] at h
    rw [Expr.expr_same_sound a _ h]
  | .block a, b, h => by
    cases b <;> simp only [Stmt.same, Bool.false_eq_true] at h
    rw [Stmt.stmt_list_same_sound a _ h]
  | .block_unset, b, h => by cases b <;> simp [Stmt.same] at h ⊢
  | .ret none, b, h => by
    cases b with
    | ret e => cases e <;> simp [Stmt.same] at h ⊢
    | _ => simp [Stmt.same] at h
  | .ret (some a), b, h => by
    cases b with
    | ret e =>
      cases e with
      | none => simp [Stmt.same] at h
      | some x =>
        simp only [Stmt.same] at h
        rw [Expr.expr_same_sound a _ h]
    | _ => simp [Stmt.same] at h
  | .ret_unset, b, h => by cases b <;> simp [Stmt.same] at h ⊢
theorem Stmt.stmt_list_same_sound : ∀ (ss ts : List Stmt), Stmt.same_list ss ts = true → ss = ts
  | [], ts, h => by cases ts <;> simp [Stmt.same_list] at h ⊢
  | s :: ss, ts, h => by
    cases ts <;> simp only [Stmt.same_list, Bool.false_eq_true, Bool.and_eq_true] at h
    rw [Stmt.stmt_same_sound s _ h.1, Stmt.stmt_list_same_sound ss _ h.2]
end

theorem GlobDecl.glob_same_sound (a b : GlobDecl) (h : a.same b = true) : a = b := by
  cases a with
  | var i a =>
    cases b <;>
      simp only [GlobDecl.same, Bool.false_eq_true, Bool.and_eq_true, decide_eq_true_eq] at h
    rw [h.1, CType.type_same_sound _ _ h.2]
  | func i a s =>
    cases b with
    | var j b => cases s <;> simp [GlobDecl.same] at h
    | func j b t =>
      cases s <;> cases t <;>
        simp only [GlobDecl.same, Bool.false_eq_true, Bool.and_eq_true, decide_eq_true_eq] at h
      · rw [h.1, CType.type_same_sound _ _ h.2]
      · rw [h.1.1, CType.type_same_sound _ _ h.1.2, Stmt.stmt_same_sound _ _ h.2]

theorem GlobDecl.glob_list_same_sound : ∀ (ds es : List GlobDecl),
    GlobDecl.same_list ds es = true → ds = es
  | [], es, h => by cases es <;> simp [GlobDecl.same_list] at h ⊢
  | d :: ds, es, h => by
    cases es <;> simp only [GlobDecl.same_list, Bool.false_eq_true, Bool.and_eq_true] at h
    rw [GlobDecl.glob_same_sound d _ h.1, GlobDecl.glob_list_same_sound ds _ h.2]

theorem Sym.sym_list_same_sound : ∀ (ss ts : List Sym), Sym.same_list ss ts = true → ss = ts
  | [], ts, h => by cases ts <;> simp [Sym.same_list] at h ⊢
  | s :: ss, ts, h => by
    cases ts <;>
      simp only [Sym.same_list, Bool.false_eq_true, Bool.and_eq_true, decide_eq_true_eq] at h
    rename_i t ts
    cases s
    cases t
    simp only at h
    rw [h.1.1.1.1, CType.type_same_sound _ _ h.1.1.1.2, h.1.1.2, h.1.2,
      Sym.sym_list_same_sound ss _ h.2]

theorem State.state_same_sound (a b : State) (h : a.same b = true) : a = b := by
  cases a with
  | mk s1 o1 c1 b1 f1 =>
    cases b with
    | mk s2 o2 c2 b2 f2 =>
      simp only [State.same, Bool.and_eq_true, decide_eq_true_eq] at h
      obtain ⟨⟨⟨⟨hs, ho⟩, hc⟩, hb⟩, hf⟩ := h
      rw [Sym.sym_list_same_sound _ _ hs, ho, hc, hf]
      cases b1 <;> cases b2 <;> simp only [Bool.false_eq_true] at hb
      · rfl
      · rw [Stmt.stmt_list_same_sound _ _ hb]

theorem Res.res_same_sound {α : Type} {same : α → α → Bool}
    (hs : ∀ a b, same a b = true → a = b) (x y : Res α) (h : Res.same same x y = true) :
    x = y := by
  cases x <;> cases y <;> simp only [Res.same, Bool.false_eq_true, decide_eq_true_eq] at h
  · rw [h]
  · rw [hs _ _ h]

theorem same_pair_sound {α β : Type} {sa : α → α → Bool} {sb : β → β → Bool}
    (ha : ∀ a b, sa a b = true → a = b) (hb : ∀ a b, sb a b = true → a = b) (x y : α × β)
    (h : same_pair sa sb x y = true) : x = y := by
  simp only [same_pair, Bool.and_eq_true] at h
  exact Prod.ext (ha _ _ h.1) (hb _ _ h.2)

theorem int_same_sound (a b : Int) (h : decide (a = b) = true) : a = b := by
  simpa using h

/-- An outcome of `check_unit` is the one that evaluation gives. -/
theorem check_eq {x y : Res (Int × State)}
    (h : Res.same (same_pair (fun a b => decide (a = b)) State.same) x y = true) : x = y :=
  Res.res_same_sound (same_pair_sound int_same_sound State.state_same_sound) x y h

/-- An outcome of `unit_to_irc` is the one that evaluation gives. -/
theorem irc_eq {x y : Res (List GlobDecl × State)}
    (h : Res.same (same_pair GlobDecl.same_list State.same) x y = true) : x = y :=
  Res.res_same_sound (same_pair_sound GlobDecl.glob_list_same_sound State.state_same_sound) x y h

/-- An outcome of `compile_unit` is the one that evaluation gives. -/
theorem state_eq {x y : Res State} (h : Res.same State.same x y = true) : x = y :=
  Res.res_same_sound State.state_same_sound x y h

/-- An outcome of `block_to_irc` is the one that evaluation gives. -/
theorem block_eq {x y : Res (Stmt × State)}
    (h : Res.same (same_pair Stmt.same State.same) x y = true) : x = y :=
  Res.res_same_sound (same_pair_sound Stmt.stmt_same_sound State.state_same_sound) x y h

theorem locals_check :
    check_unit [.func (.interned "main") (.func .int [])
        (some (.block [.decl ⟨.int, .interned "a"⟩, .decl ⟨.int, .interned "b"⟩,
          .expr (.binary .EXPR_ASSIGN (.id (.interned "a")) (.intlit 1)),
          .expr (.binary .EXPR_ASSIGN (.id (.interned "b")) (.intlit 2)),
          .ret (some (.binary .EXPR_ADD (.id (.interned "a")) (.id (.interned "b"))))]))]
        State.init =
      .ok (0, ⟨[⟨.literal "putchar", .int, 0, 0⟩, ⟨.interned "main", .func .int [], 1, 0⟩,
        ⟨.interned "a", .int, 0, -4⟩, ⟨.interned "b", .int, 0, -8⟩], -12, 0, none, []⟩) := check_eq (by decide!)

theorem locals_irc :
    unit_to_irc [.func (.interned "main") (.func .int [])
        (some (.block [.decl ⟨.int, .interned "a"⟩, .decl ⟨.int, .interned "b"⟩,
          .expr (.binary .EXPR_ASSIGN (.id (.interned "a")) (.intlit 1)),
          .expr (.binary .EXPR_ASSIGN (.id (.interned "b")) (.intlit 2)),
          .ret (some (.binary .EXPR_ADD (.id (.interned "a")) (.id (.interned "b"))))]))]
        ⟨[⟨.literal "putchar", .int, 0, 0⟩, ⟨.interned "main", .func .int [], 1, 0⟩,
          ⟨.interned "a", .int, 0, -4⟩, ⟨.interned "b", .int, 0, -8⟩], -12, 0, none, []⟩ =
      .ok ([.func (.interned "main") (.func .int [])
        (some (.block [.decl ⟨.int, .interned "a"⟩, .decl ⟨.int, .interned "b"⟩,
          .expr (.binary .EXPR_ASSIGN (.id (.interned "a")) (.intlit 1)),
          .expr (.binary .EXPR_ASSIGN (.id (.interned "b")) (.intlit 2)),
          .decl ⟨.int, .interned "___t0"⟩,
          .expr (.binary .EXPR_ASSIGN (.id (.interned "___t0"))
            (.binary .EXPR_ADD (.id (.interned "a")) (.id (.interned "b")))),
          .ret (some (.id (.interned "___t0")))]))],
        ⟨[⟨.interned "a", .int, 0, -12⟩, ⟨.interned "b", .int, 0, -16⟩,
          ⟨.interned "main", .func .int [], 1, 0⟩], -20, 1, none, []⟩) := irc_eq (by decide!)

theorem locals_compile :
    compile_unit [.func (.interned "main") (.func .int [])
        (some (.block [.decl ⟨.int, .interned "a"⟩, .decl ⟨.int, .interned "b"⟩,
          .expr (.binary .EXPR_ASSIGN (.id (.interned "a")) (.intlit 1)),
          .expr (.binary .EXPR_ASSIGN (.id (.interned "b")) (.intlit 2)),
          .decl ⟨.int, .interned "___t0"⟩,
          .expr (.binary .EXPR_ASSIGN (.id (.interned "___t0"))
            (.binary .EXPR_ADD (.id (.interned "a")) (.id (.interned "b")))),
          .ret (some (.id (.interned "___t0")))]))]
        ⟨[⟨.interned "a", .int, 0, -12⟩, ⟨.interned "b", .int, 0, -16⟩,
          ⟨.interned "main", .func .int [], 1, 0⟩], -20, 1, none, []⟩ =
      .ok ⟨[⟨.interned "main", .func .int [], 1, 0⟩], -16, 1, none,
        entry_stub ++ ["main:\n", "\tpushl %ebp\n", "\tmovl %esp,%ebp\n",
          "\tsubl $4,%esp\n", "\tsubl $4,%esp\n",
          "\tmovl $1,%eax\n", "\tmovl %eax,%ecx\n", "\tmovl %ebp,%eax\n", "\taddl $-4,%eax\n",
          "\tmovl %ecx,(%eax)\n",
          "\tmovl $2,%eax\n", "\tmovl %eax,%ecx\n", "\tmovl %ebp,%eax\n", "\taddl $-8,%eax\n",
          "\tmovl %ecx,(%eax)\n",
          "\tsubl $4,%esp\n",
          "\tmovl -8(%ebp),%eax\n", "\tmovl %eax,%ecx\n", "\tmovl -4(%ebp),%eax\n",
          "\taddl %ecx,%eax\n", "\tmovl %eax,%ecx\n", "\tmovl %ebp,%eax\n", "\taddl $-12,%eax\n",
          "\tmovl %ecx,(%eax)\n",
          "\tmovl -12(%ebp),%eax\n", "\tleave\n", "\tret\n", "\tleave\n", "\tret\n"]⟩ := state_eq (by decide!)

theorem locals_frame :
    frame_log
        (.block [.decl ⟨.int, .interned "a"⟩, .decl ⟨.int, .interned "b"⟩,
          .expr (.binary .EXPR_ASSIGN (.id (.interned "a")) (.intlit 1)),
          .expr (.binary .EXPR_ASSIGN (.id (.interned "b")) (.intlit 2)),
          .decl ⟨.int, .interned "___t0"⟩,
          .expr (.binary .EXPR_ASSIGN (.id (.interned "___t0"))
            (.binary .EXPR_ADD (.id (.interned "a")) (.id (.interned "b")))),
          .ret (some (.id (.interned "___t0")))])
        (func_entry (.interned "main") (emit entry_stub (sym_reset
          ⟨[⟨.interned "a", .int, 0, -12⟩, ⟨.interned "b", .int, 0, -16⟩,
            ⟨.interned "main", .func .int [], 1, 0⟩], -20, 1, none, []⟩))) =
      [⟨.interned "a", .int, 0, -4⟩, ⟨.interned "b", .int, 0, -8⟩,
        ⟨.interned "___t0", .int, 0, -12⟩] := Sym.sym_list_same_sound _ _ (by decide!)

/-- C27. Scenario S6: on `int main() { int a; int b; a = 1; b = 2; return a+b; }`
the four passes return.  The lowering adds the temporary `___t0` for `a+b`;
during code generation `compile_decl` gives `a` the frame offset -4, `b` -8 and
`___t0` -12; the code written reads `a` as `movl -4(%ebp),%eax` and `b` as
`movl -8(%ebp),%eax`. -/
theorem pipeline_locals (arg_prec : Int) (curr_param_null : Nat → Bool) (n : Nat) :
    pipeline arg_prec curr_param_null (n + 16)
        "int main() \x7b int a; int b; a = 1; b = 2; return a+b; \x7d" =
      .ok ⟨[⟨.interned "main", .func .int [], 1, 0⟩], -16, 1, none,
        entry_stub ++ ["main:\n", "\tpushl %ebp\n", "\tmovl %esp,%ebp\n",
          "\tsubl $4,%esp\n", "\tsubl $4,%esp\n",
          "\tmovl $1,%eax\n", "\tmovl %eax,%ecx\n", "\tmovl %ebp,%eax\n", "\taddl $-4,%eax\n",
          "\tmovl %ecx,(%eax)\n",
          "\tmovl $2,%eax\n", "\tmovl %eax,%ecx\n", "\tmovl %ebp,%eax\n", "\taddl $-8,%eax\n",
          "\tmovl %ecx,(%eax)\n",
          "\tsubl $4,%esp\n",
          "\tmovl -8(%ebp),%eax\n", "\tmovl %eax,%ecx\n", "\tmovl -4(%ebp),%eax\n",
          "\taddl %ecx,%eax\n", "\tmovl %eax,%ecx\n", "\tmovl %ebp,%eax\n", "\taddl $-12,%eax\n",
          "\tmovl %ecx,(%eax)\n",
          "\tmovl -12(%ebp),%eax\n", "\tleave\n", "\tret\n", "\tleave\n", "\tret\n"]⟩ ∧
    unit_to_irc [.func (.interned "main") (.func .int [])
        (some (.block [.decl ⟨.int, .interned "a"⟩, .decl ⟨.int, .interned "b"⟩,
          .expr (.binary .EXPR_ASSIGN (.id (.interned "a")) (.intlit 1)),
          .expr (.binary .EXPR_ASSIGN (.id (.interned "b")) (.intlit 2)),
          .ret (some (.binary .EXPR_ADD (.id (.interned "a")) (.id (.interned "b"))))]))]
        ⟨[⟨.literal "putchar", .int, 0, 0⟩, ⟨.interned "main", .func .int [], 1, 0⟩,
          ⟨.interned "a", .int, 0, -4⟩, ⟨.interned "b", .int, 0, -8⟩], -12, 0, none, []⟩ =
      .ok ([.func (.interned "main") (.func .int [])
        (some (.block [.decl ⟨.int, .interned "a"⟩, .decl ⟨.int, .interned "b"⟩,
          .expr (.binary .EXPR_ASSIGN (.id (.interned "a")) (.intlit 1)),
          .expr (.binary .EXPR_ASSIGN (.id (.interned "b")) (.intlit 2)),
          .decl ⟨.int, .interned "___t0"⟩,
          .expr (.binary .EXPR_ASSIGN (.id (.interned "___t0"))
            (.binary .EXPR_ADD (.id (.interned "a")) (.id (.interned "b")))),
          .ret (some (.id (.interned "___t0")))]))],
        ⟨[⟨.interned "a", .int, 0, -12⟩, ⟨.interned "b", .int, 0, -16⟩,
          ⟨.interned "main", .func .int [], 1, 0⟩], -20, 1, none, []⟩) ∧
    frame_log
        (.block [.decl ⟨.int, .interned "a"⟩, .decl ⟨.int, .interned "b"⟩,
          .expr (.binary .EXPR_ASSIGN (.id (.interned "a")) (.intlit 1)),
          .expr (.binary .EXPR_ASSIGN (.id (.interned "b")) (.intlit 2)),
          .decl ⟨.int, .interned "___t0"⟩,
          .expr (.binary .EXPR_ASSIGN (.id (.interned "___t0"))
            (.binary .EXPR_ADD (.id (.interned "a")) (.id (.interned "b")))),
          .ret (some (.id (.interned "___t0")))])
        (func_entry (.interned "main") (emit entry_stub (sym_reset
          ⟨[⟨.interned "a", .int, 0, -12⟩, ⟨.interned "b", .int, 0, -16⟩,
            ⟨.interned "main", .func .int [], 1, 0⟩], -20, 1, none, []⟩))) =
      [⟨.interned "a", .int, 0, -4⟩, ⟨.interned "b", .int, 0, -8⟩,
        ⟨.interned "___t0", .int, 0, -12⟩] ∧
    compile_expr [⟨.interned "a", .int, 0, -4⟩, ⟨.interned "b", .int, 0, -8⟩,
        ⟨.interned "___t0", .int, 0, -12⟩]
        (.binary .EXPR_ADD (.id (.interned "a")) (.id (.interned "b"))) =
      .ok ["\tmovl -8(%ebp),%eax\n", "\tmovl %eax,%ecx\n", "\tmovl -4(%ebp),%eax\n",
        "\taddl %ecx,%eax\n"] := by
  refine ⟨?_, locals_irc, locals_frame, by rfl⟩
  unfold pipeline
  rw [locals_parse]
  simp only [bind, Except.bind]
  rw [locals_check]
  simp only []
  rw [locals_irc]
  simp only []
  exact locals_compile

/-! ## Nested blocks in the lowering -/

theorem nested_parse (arg_prec : Int) (curr_param_null : Nat → Bool) (n : Nat) :
    parse_unit arg_prec curr_param_null (n + 13)
        (parser_init "int main() \x7b \x7b return 1; \x7d \x7d") =
      .ok ([.func (.interned "main") (.func .int [])
        (some (.block [.block [.ret (some (.intlit 1))]]))], ⟨[], 1⟩) := by
  rfl

theorem nested_check :
    check_unit [.func (.interned "main") (.func .int [])
        (some (.block [.block [.ret (some (.intlit 1))]]))] State.init =
      .ok (0, ⟨[⟨.literal "putchar", .int, 0, 0⟩, ⟨.interned "main", .func .int [], 1, 0⟩],
        -4, 0, none, []⟩) :=
  check_eq (by decide!)

theorem nested_irc :
    unit_to_irc [.func (.interned "main") (.func .int [])
        (some (.block [.block [.ret (some (.intlit 1))]]))]
        ⟨[⟨.literal "putchar", .int, 0, 0⟩, ⟨.interned "main", .func .int [], 1, 0⟩],
          -4, 0, none, []⟩ =
      .ok ([.func (.interned "main") (.func .int []) (some (.block []))],
        ⟨[⟨.interned "main", .func .int [], 1, 0⟩], -4, 0, none, []⟩) :=
  irc_eq (by decide!)

theorem nested_compile :
    compile_unit [.func (.interned "main") (.func .int []) (some (.block []))]
        ⟨[⟨.interned "main", .func .int [], 1, 0⟩], -4, 0, none, []⟩ =
      .ok ⟨[⟨.interned "main", .func .int [], 1, 0⟩], -4, 0, none,
        entry_stub ++ ["main:\n", "\tpushl %ebp\n", "\tmovl %esp,%ebp\n", "\tleave\n",
          "\tret\n"]⟩ :=
  state_eq (by decide!)

theorem stmt_to_irc_block {block : List Stmt} {st st1 : State}
    (h : stmt_to_irc (.block block) st = .ok st1) : st1.curr_block = st.curr_block := by
  rw [stmt_to_irc] at h
  obtain ⟨st2, h1, k1⟩ := bind_ok.1 h
  obtain ⟨⟨blk, st3⟩, h2, k2⟩ := bind_ok.1 k1
  cases k2
  unfold block_leave at h2
  split at h2
  · cases h2
  · cases h2
    rfl

/-- C30. Nested blocks do not survive the lowering: `stmt_to_irc` on a block
statement runs `block_to_irc` and drops the block that is returned, so it leaves
the current block as it was; no statement of a block returned by `block_to_irc`
is a block; the lowering of the block `{ { return 1; } }` is the empty block,
and on `int main() { { return 1; } }` the four passes return and the code
written for `main` has no code for the return statement. -/
theorem nested_block_dropped :
    (∀ (nested : List Stmt) (st st1 : State),
      stmt_to_irc (.block nested) st = .ok st1 → st1.curr_block = st.curr_block) ∧
    (∀ (body irc : Stmt) (st st1 : State), block_to_irc body st = .ok (irc, st1) →
      ∃ lowered, irc = .block lowered ∧ ∀ s ∈ lowered, ∀ b, s ≠ .block b) ∧
    (∀ st : State, block_to_irc (.block [.block [.ret (some (.intlit 1))]]) st =
      .ok (.block [], st)) ∧
    (∀ (arg_prec : Int) (curr_param_null : Nat → Bool) (n : Nat),
      pipeline arg_prec curr_param_null (n + 13) "int main() \x7b \x7b return 1; \x7d \x7d" =
        .ok ⟨[⟨.interned "main", .func .int [], 1, 0⟩], -4, 0, none,
          entry_stub ++ ["main:\n", "\tpushl %ebp\n", "\tmovl %esp,%ebp\n", "\tleave\n",
            "\tret\n"]⟩) := by
  refine ⟨fun nested st st1 h => stmt_to_irc_block h, ?_, ?_, ?_⟩
  · intro body irc st st1 h
    obtain ⟨stmts, lowered, _, rfl, hf, _⟩ := block_to_irc_ok h
    refine ⟨lowered, rfl, ?_⟩
    intro s hs b e
    subst e
    rcases hf _ hs with h1 | ⟨h1, _⟩
    · simp [Stmt.irc_form] at h1
    · cases h1
  · intro st
    rfl
  · intro arg_prec curr_param_null n
    unfold pipeline
    rw [nested_parse]
    simp only [bind, Except.bind]
    rw [nested_check]
    simp only []
    rw [nested_irc]
    simp only []
    exact nested_compile

/-! ## The statements that one call of `store_expr_temp_var` adds -/

theorem add_stmt_eq {stmt : Stmt} {st st1 : State} (h : add_stmt stmt st = .ok st1) :
    st1.curr_block = st.curr_block.map (fun b => b ++ [stmt]) ∧
    st1.tmp_vars_count = st.tmp_vars_count ∧ st1.sym_table = st.sym_table := by
  unfold add_stmt at h
  split at h
  · cases h
  · rename_i b hb
    cases h
    simp [hb]

theorem block_append_trans {b0 b1 b2 : Option (List Stmt)} {a c : List Stmt}
    (h1 : b1 = b0.map (fun b => b ++ a)) (h2 : b2 = b1.map (fun b => b ++ c)) :
    b2 = b0.map (fun b => b ++ (a ++ c)) := by
  subst h1 h2
  cases b0 <;> simp

theorem store_begin_false {expr : Expr} {st st0 : State} {res : Option Ident}
    (h : store_begin expr false st = .ok (res, st0)) :
    ∃ type, eval_expr_type st.sym_table expr = .ok type ∧
      res = some (.interned ("___t" ++ fmt_d st.tmp_vars_count)) ∧
      st0.curr_block = st.curr_block.map
        (fun b => b ++ [.decl ⟨type, .interned ("___t" ++ fmt_d st.tmp_vars_count)⟩]) ∧
      st0.tmp_vars_count = st.tmp_vars_count + 1 ∧ st0.sym_table = st.sym_table := by
  unfold store_begin at h
  simp only [Bool.false_eq_true, if_false] at h
  obtain ⟨⟨t, st1⟩, h1, k1⟩ := bind_ok.1 h
  obtain ⟨type, h2, k2⟩ := bind_ok.1 k1
  obtain ⟨st2, h3, k3⟩ := bind_ok.1 k2
  obtain ⟨rfl, rfl, _⟩ := tmp_var_ok h1
  obtain ⟨hb, hc, hs⟩ := add_stmt_eq h3
  simp only [Except.ok.injEq, Prod.mk.injEq] at k3
  obtain ⟨rfl, rfl⟩ := k3
  exact ⟨type, h2, rfl, hb, hc, hs⟩

theorem store_end_false {t : Ident} {res1 : Option Ident} {rvalue : Expr} {st st1 : State}
    (h : store_end false (some t) rvalue st = .ok (res1, st1)) :
    res1 = some t ∧
    st1.curr_block = st.curr_block.map
      (fun b => b ++ [.expr (.binary .EXPR_ASSIGN (.id t) rvalue)]) ∧
    st1.tmp_vars_count = st.tmp_vars_count ∧ st1.sym_table = st.sym_table := by
  unfold store_end at h
  simp only [Bool.false_eq_true, if_false] at h
  obtain ⟨st2, h1, k⟩ := bind_ok.1 h
  simp only [Except.ok.injEq, Prod.mk.injEq] at k
  obtain ⟨rfl, rfl⟩ := k
  exact ⟨rfl, add_stmt_eq h1⟩

theorem FlatOperand.mono {a b : List Stmt} {e x : Expr} (h : FlatOperand a e x)
    (hs : ∀ s ∈ a, s ∈ b) : FlatOperand b e x := by
  rcases h with h | ⟨h, t, type, hx, hm⟩
  · exact Or.inl h
  · exact Or.inr ⟨h, t, type, hx, hs _ hm⟩

theorem FlatOperand.of_atom {a : List Stmt} {e x : Expr} (h : FlatOperand a e x)
    (ha : expr_is_atom e = true) : x = e := by
  rcases h with h | ⟨h, _⟩
  · exact h.2
  · rw [ha] at h
    cases h

theorem flat_operands_atoms {a : List Stmt} {r args : List Expr}
    (h : List.Forall₂ (FlatOperand a) r args) (ha : r.all expr_is_atom = true) : args = r := by
  induction h with
  | nil => rfl
  | cons h1 _ ih =>
    simp only [List.all_cons, Bool.and_eq_true] at ha
    rw [h1.of_atom ha.1, ih ha.2]

/-- The shape of what the operand pattern adds, from the shape of what the
call for the operand adds. -/
theorem store_operand_shape {e x : Expr} {rec : Res (Option Ident × State)} {st st1 : State}
    (h : store_operand e rec st = .ok (x, st1))
    (ih : ∀ res st2, rec = .ok (res, st2) → ∃ t type rest, res = some t ∧
      st2.curr_block = st.curr_block.map (fun b => b ++ .decl ⟨type, t⟩ :: rest)) :
    ∃ added, st1.curr_block = st.curr_block.map (fun b => b ++ added) ∧
      FlatOperand added e x ∧ (expr_is_atom e = true → added = []) ∧
      (expr_is_atom e = false → ∃ d rest, added = .decl d :: rest) := by
  unfold store_operand at h
  split at h
  · rename_i ha
    simp only [Except.ok.injEq, Prod.mk.injEq] at h
    obtain ⟨rfl, rfl⟩ := h
    refine ⟨[], ?_, Or.inl ⟨ha, rfl⟩, fun _ => rfl, fun hn => ?_⟩
    · cases st.curr_block <;> simp
    · rw [ha] at hn
      cases hn
  · rename_i ha
    split at h
    · cases h
    · cases h
    · rename_i t st2
      simp only [Except.ok.injEq, Prod.mk.injEq] at h
      obtain ⟨rfl, rfl⟩ := h
      obtain ⟨t1, type, rest, ht, hb⟩ := ih _ _ rfl
      cases ht
      refine ⟨.decl ⟨type, t⟩ :: rest, hb, Or.inr ⟨by simpa using ha, t, type, rfl, by simp⟩,
        fun hn => absurd hn ha, fun _ => ⟨_, _, rfl⟩⟩

theorem StoreShape.first_decl {E : Expr} {st st1 : State} {res : Option Ident}
    (h : StoreShape E st st1 res) :
    ∃ t type rest, res = some t ∧
      st1.curr_block = st.curr_block.map (fun b => b ++ .decl ⟨type, t⟩ :: rest) := by
  obtain ⟨type, mid, rvalue, hr, _, hb, _⟩ := h
  exact ⟨_, type, _, hr, by simpa using hb⟩

theorem store_shape_sym {st st0 : State} {sa : Option (List Stmt)} {a : List Stmt}
    (h : sa = st0.curr_block.map (fun b => b ++ a)) {d : Stmt}
    (h0 : st0.curr_block = st.curr_block.map (fun b => b ++ [d])) :
    sa = st.curr_block.map (fun b => b ++ (d :: a)) := by
  rw [h, h0]
  cases st.curr_block <;> simp

mutual
theorem store_shape : ∀ (E : Expr) (st st1 : State) (res : Option Ident),
    store_expr_temp_var E false st = .ok (res, st1) → StoreShape E st st1 res
  | .call l r, st, st1, res, h => by
    rw [store_expr_temp_var] at h
    obtain ⟨⟨res0, st0⟩, h0, k0⟩ := bind_ok.1 h
    obtain ⟨⟨l1, sta⟩, ha, ka⟩ := bind_ok.1 k0
    obtain ⟨⟨args, stb⟩, hb, kb⟩ := bind_ok.1 ka
    obtain ⟨type, hty, rfl, hb0, _, _⟩ := store_begin_false h0
    obtain ⟨al, bl, fl, el, nl⟩ := store_operand_shape ha
      (fun res2 st2 h2 => (store_shape l st0 st2 res2 h2).first_decl)
    obtain ⟨ar, br, fr, er, nr⟩ := store_args_shape r sta stb args hb
    obtain ⟨rfl, be, _, _⟩ := store_end_false kb
    refine ⟨type, al ++ ar, .call l1 args, rfl, hty, ?_, ?_, ?_, ?_⟩
    · have := block_append_trans (block_append_trans bl br) be
      have := store_shape_sym this hb0
      simpa using this
    · exact ⟨fl.mono (fun s hs => List.mem_append_left _ hs),
        fr.imp (fun _ _ hx => hx.mono (fun s hs => List.mem_append_right _ hs))⟩
    · intro hf
      simp only [Expr.flat, Bool.and_eq_true] at hf
      rw [el hf.1, er hf.2] at *
      exact ⟨rfl, by rw [fl.of_atom hf.1, flat_operands_atoms fr hf.2]⟩
    · intro hf
      cases hl : expr_is_atom l
      · obtain ⟨d, rest, e⟩ := nl hl
        exact ⟨d, rest ++ ar, by rw [e]; rfl⟩
      · have hr : r.all expr_is_atom = false := by
          simpa [Expr.flat, hl] using hf
        obtain ⟨d, rest, e⟩ := nr hr
        exact ⟨d, rest, by rw [el hl, e]; rfl⟩
  | .neg l, st, st1, res, h => by
    rw [store_expr_temp_var] at h
    obtain ⟨⟨res0, st0⟩, h0, k0⟩ := bind_ok.1 h
    obtain ⟨⟨l1, sta⟩, ha, ka⟩ := bind_ok.1 k0
    obtain ⟨type, hty, rfl, hb0, _, _⟩ := store_begin_false h0
    obtain ⟨al, bl, fl, el, nl⟩ := store_operand_shape ha
      (fun res2 st2 h2 => (store_shape l st0 st2 res2 h2).first_decl)
    obtain ⟨rfl, be, _, _⟩ := store_end_false ka
    refine ⟨type, al, .neg l1, rfl, hty, ?_, fl, ?_, ?_⟩
    · have := block_append_trans bl be
      have := store_shape_sym this hb0
      simpa using this
    · intro hf
      simp only [Expr.flat] at hf
      exact ⟨el hf, by rw [fl.of_atom hf]⟩
    · intro hf
      simp only [Expr.flat] at hf
      exact nl hf
  | .binary kind l r, st, st1, res, h => by
    rw [store_expr_temp_var] at h
    obtain ⟨⟨res0, st0⟩, h0, k0⟩ := bind_ok.1 h
    obtain ⟨⟨l1, sta⟩, ha, ka⟩ := bind_ok.1 k0
    obtain ⟨⟨r1, stb⟩, hb, kb⟩ := bind_ok.1 ka
    obtain ⟨type, hty, rfl, hb0, _, _⟩ := store_begin_false h0
    obtain ⟨al, bl, fl, el, nl⟩ := store_operand_shape ha
      (fun res2 st2 h2 => (store_shape l st0 st2 res2 h2).first_decl)
    obtain ⟨ar, br, fr, er, nr⟩ := store_operand_shape hb
      (fun res2 st2 h2 => (store_shape r sta st2 res2 h2).first_decl)
    obtain ⟨rfl, be, _, _⟩ := store_end_false kb
    refine ⟨type, al ++ ar, .binary kind l1 r1, rfl, hty, ?_, ?_, ?_, ?_⟩
    · have := block_append_trans (block_append_trans bl br) be
      have := store_shape_sym this hb0
      simpa using this
    · exact ⟨rfl, fl.mono (fun s hs => List.mem_append_left _ hs),
        fr.mono (fun s hs => List.mem_append_right _ hs)⟩
    · intro hf
      simp only [Expr.flat, Bool.and_eq_true] at hf
      rw [el hf.1, er hf.2] at *
      exact ⟨rfl, by rw [fl.of_atom hf.1, fr.of_atom hf.2]⟩
    · intro hf
      cases hl : expr_is_atom l
      · obtain ⟨d, rest, e⟩ := nl hl
        exact ⟨d, rest ++ ar, by rw [e]; rfl⟩
      · have hr : expr_is_atom r = false := by
          simpa [Expr.flat, hl] using hf
        obtain ⟨d, rest, e⟩ := nr hr
        exact ⟨d, rest, by rw [el hl, e]; rfl⟩
  | .intlit value, st, st1, res, h => by
    rw [store_expr_temp_var] at h
    obtain ⟨_, _, k0⟩ := bind_ok.1 h
    cases k0
  | .id id, st, st1, res, h => by
    rw [store_expr_temp_var] at h
    obtain ⟨_, _, k0⟩ := bind_ok.1 h
    cases k0
theorem store_args_shape : ∀ (r : List Expr) (st st1 : State) (args : List Expr),
    store_args r st = .ok (args, st1) →
    ∃ added, st1.curr_block = st.curr_block.map (fun b => b ++ added) ∧
      List.Forall₂ (FlatOperand added) r args ∧
      (r.all expr_is_atom = true → added = []) ∧
      (r.all expr_is_atom = false → ∃ d rest, added = .decl d :: rest)
  | [], st, st1, args, h => by
    rw [store_args] at h
    simp only [Except.ok.injEq, Prod.mk.injEq] at h
    obtain ⟨rfl, rfl⟩ := h
    refine ⟨[], ?_, List.Forall₂.nil, fun _ => rfl, fun hn => ?_⟩
    · cases st.curr_block <;> simp
    · simp at hn
  | e :: next, st, st1, args, h => by
    rw [store_args] at h
    obtain ⟨⟨tmp, sta⟩, ha, ka⟩ := bind_ok.1 h
    obtain ⟨⟨rest, stb⟩, hb, kb⟩ := bind_ok.1 ka
    simp only [Except.ok.injEq, Prod.mk.injEq] at kb
    obtain ⟨rfl, rfl⟩ := kb
    obtain ⟨al, bl, fl, el, nl⟩ := store_operand_shape ha
      (fun res2 st2 h2 => (store_shape e st st2 res2 h2).first_decl)
    obtain ⟨ar, br, fr, er, nr⟩ := store_args_shape next sta stb rest hb
    refine ⟨al ++ ar, block_append_trans bl br,
      List.Forall₂.cons (fl.mono (fun s hs => List.mem_append_left _ hs))
        (fr.imp (fun _ _ hx => hx.mono (fun s hs => List.mem_append_right _ hs))), ?_, ?_⟩
    · intro hf
      simp only [List.all_cons, Bool.and_eq_true] at hf
      rw [el hf.1, er hf.2]
      rfl
    · intro hf
      cases hl : expr_is_atom e
      · obtain ⟨d, rest1, e1⟩ := nl hl
        exact ⟨d, rest1 ++ ar, by rw [e1]; rfl⟩
      · have hr : next.all expr_is_atom = false := by
          simpa [hl] using hf
        obtain ⟨d, rest1, e1⟩ := nr hr
        exact ⟨d, rest1, by rw [el hl, e1]; rfl⟩
end

/-- C28. Every call `store_expr_temp_var(E, 0)` that returns has created the
temporary `___t<n>`, `n` the value of `tmp_vars_count` at the call, and has
appended to the current block: the declaration of that temporary, of the type
that `eval_expr_type` gives for `E`; then the statements `mid` of the operands
of `E` that are not atoms; then, as the last statement, the assignment to the
temporary of `E` with those operands replaced by identifiers declared in `mid`.
When every operand of `E` is an atom `mid` is empty, so the assignment of `E`
itself follows the declaration immediately; otherwise the statement after the
declaration is another declaration. -/
theorem store_expr_temp_var_decl_assign (E : Expr) (st st1 : State) (res : Option Ident)
    (h : store_expr_temp_var E false st = .ok (res, st1)) :
    ∃ type mid rvalue,
      res = some (.interned ("___t" ++ fmt_d st.tmp_vars_count)) ∧
      eval_expr_type st.sym_table E = .ok type ∧
      st1.curr_block = st.curr_block.map (fun b => b ++
        (.decl ⟨type, .interned ("___t" ++ fmt_d st.tmp_vars_count)⟩ :: mid ++
          [.expr (.binary .EXPR_ASSIGN (.id (.interned ("___t" ++ fmt_d st.tmp_vars_count)))
            rvalue)])) ∧
      Flattened mid E rvalue ∧
      (E.flat = true → mid = [] ∧ rvalue = E) ∧
      (E.flat = false → ∃ d rest, mid = .decl d :: rest) :=
  store_shape E st st1 res h

theorem store_expr_temp_var_decl_assign_witness :
    ∃ type mid rvalue,
      some (Ident.interned "___t0") = some (.interned ("___t" ++ fmt_d 0)) ∧
      eval_expr_type [] (.binary .EXPR_MUL (.intlit 2) (.intlit 3)) = .ok type ∧
      some [Stmt.decl ⟨.char, .interned "___t0"⟩,
          .expr (.binary .EXPR_ASSIGN (.id (.interned "___t0"))
            (.binary .EXPR_MUL (.intlit 2) (.intlit 3)))] =
        (some []).map (fun b => b ++
          (.decl ⟨type, .interned ("___t" ++ fmt_d 0)⟩ :: mid ++
            [.expr (.binary .EXPR_ASSIGN (.id (.interned ("___t" ++ fmt_d 0))) rvalue)])) ∧
      Flattened mid (.binary .EXPR_MUL (.intlit 2) (.intlit 3)) rvalue ∧
      ((Expr.binary .EXPR_MUL (.intlit 2) (.intlit 3)).flat = true →
        mid = [] ∧ rvalue = .binary .EXPR_MUL (.intlit 2) (.intlit 3)) ∧
      ((Expr.binary .EXPR_MUL (.intlit 2) (.intlit 3)).flat = false →
        ∃ d rest, mid = .decl d :: rest) :=
  store_expr_temp_var_decl_assign (.binary .EXPR_MUL (.intlit 2) (.intlit 3))
    ⟨[], 0, 0, some [], []⟩
    ⟨[], 0, 1, some [.decl ⟨.char, .interned "___t0"⟩,
      .expr (.binary .EXPR_ASSIGN (.id (.interned "___t0"))
        (.binary .EXPR_MUL (.intlit 2) (.intlit 3)))], []⟩
    (some (.interned "___t0")) (by rfl)

/-- The lowering of `1+2*3` with `first` = 0: the declaration of `___t0` is
followed by the declaration of `___t1`, and the assignment to `___t0` is the
fourth statement. -/
theorem store_decl_not_adjacent :
    store_expr_temp_var
        (.binary .EXPR_ADD (.intlit 1) (.binary .EXPR_MUL (.intlit 2) (.intlit 3))) false
        ⟨[], 0, 0, some [], []⟩ =
      .ok (some (.interned "___t0"),
        ⟨[], 0, 2, some [.decl ⟨.char, .interned "___t0"⟩, .decl ⟨.char, .interned "___t1"⟩,
          .expr (.binary .EXPR_ASSIGN (.id (.interned "___t1"))
            (.binary .EXPR_MUL (.intlit 2) (.intlit 3))),
          .expr (.binary .EXPR_ASSIGN (.id (.interned "___t0"))
            (.binary .EXPR_ADD (.intlit 1) (.id (.interned "___t1"))))], []⟩) ∧
    expr_is_atom (.binary .EXPR_ADD (.intlit 1) (.binary .EXPR_MUL (.intlit 2) (.intlit 3))) =
      false := by
  exact ⟨by rfl, by rfl⟩

/-! ## Temporaries are defined before they are used -/

theorem tmp_name_inj {i j : Nat} (h : tmp_name i = tmp_name j) : i = j :=
  tmp_name_injective h

theorem fmt_d_nat (c : Nat) : Ident.interned ("___t" ++ fmt_d (c : Int)) = tmp_name c := rfl

theorem Hygienic.hyg_left {c0 : Nat} {a b : List Ident} (h : Hygienic c0 (a ++ b)) :
    Hygienic c0 a :=
  fun k hk hm => h k hk (List.mem_append_left _ hm)

theorem Hygienic.hyg_right {c0 : Nat} {a b : List Ident} (h : Hygienic c0 (a ++ b)) :
    Hygienic c0 b :=
  fun k hk hm => h k hk (List.mem_append_right _ hm)

theorem Covered.of_hygienic {c0 : Nat} {ids : List Ident} (h : Hygienic c0 ids)
    (A : List Stmt) : Covered c0 A ids :=
  fun k hk hm => absurd hm (h k hk)

theorem Covered.cov_append {c0 : Nat} {A : List Stmt} {a b : List Ident}
    (ha : Covered c0 A a) (hb : Covered c0 A b) : Covered c0 A (a ++ b) := by
  intro k hk hm
  rcases List.mem_append.1 hm with h | h
  · exact ha k hk h
  · exact hb k hk h

theorem Seg.nil {c0 c c1 : Nat} (h : c ≤ c1) : Seg c0 c c1 [] := by
  refine ⟨h, by simp, by simp, ?_, List.Pairwise.nil⟩
  intro pre s post k e
  simp at e

theorem Seg.count_zero {c0 a b : Nat} {A : List Stmt} (h : Seg c0 a b A) {k : Nat}
    (hk : c0 ≤ k) (hr : k < a ∨ b ≤ k) : A.countP (Stmt.assigns (tmp_name k)) = 0 := by
  rw [List.countP_eq_zero]
  intro s hs ha
  have := h.2.2.1 s hs k hk ha
  omega

theorem Seg.declared_range {c0 a b : Nat} {A : List Stmt} (h : Seg c0 a b A) {k : Nat}
    (hk : c0 ≤ k) (hd : A.any (Stmt.declares (tmp_name k)) = true) : a ≤ k ∧ k < b := by
  obtain ⟨s, hs, hd⟩ := List.any_eq_true.1 hd
  exact h.2.1 s hs k hk hd

theorem split_append {α : Type} {A B pre post : List α} {s : α}
    (e : A ++ B = pre ++ s :: post) :
    (∃ post1, A = pre ++ s :: post1) ∨ (∃ pre1, pre = A ++ pre1 ∧ B = pre1 ++ s :: post) := by
  rcases List.append_eq_append_iff.1 e with ⟨a1, e1, e2⟩ | ⟨c1, e1, e2⟩
  · exact Or.inr ⟨a1, e1, e2⟩
  · cases c1 with
    | nil =>
      simp only [List.append_nil, List.nil_append] at e1 e2
      exact Or.inr ⟨[], by simp [e1], e2.symm⟩
    | cons y c2 =>
      simp only [List.cons_append, List.cons.injEq] at e2
      obtain ⟨rfl, _⟩ := e2
      exact Or.inl ⟨c2, e1⟩

theorem Seg.seg_append {c0 a b c : Nat} {A B : List Stmt} (hA : Seg c0 a b A)
    (hB : Seg c0 b c B) : Seg c0 a c (A ++ B) := by
  have hab := hA.1
  have hbc := hB.1
  refine ⟨le_trans hab hbc, ?_, ?_, ?_, ?_⟩
  · intro s hs k hk hd
    rcases List.mem_append.1 hs with h | h
    · have := hA.2.1 s h k hk hd
      omega
    · have := hB.2.1 s h k hk hd
      omega
  · intro s hs k hk hd
    rcases List.mem_append.1 hs with h | h
    · have := hA.2.2.1 s h k hk hd
      omega
    · have := hB.2.2.1 s h k hk hd
      omega
  · intro pre s post k e hk hu
    rcases split_append e with ⟨post1, e1⟩ | ⟨pre1, e1, e2⟩
    · exact hA.2.2.2.1 pre s post1 k e1 hk hu
    · subst e1
      obtain ⟨hd, hc⟩ := hB.2.2.2.1 pre1 s post k e2 hk hu
      have hr := hB.declared_range hk (List.any_eq_true.2 (by
        obtain ⟨x, hx, hdx⟩ := List.any_eq_true.1 hd
        exact ⟨x, by rw [e2]; exact List.mem_append_left _ hx, hdx⟩))
      refine ⟨by simp [hd], ?_⟩
      rw [List.countP_append, hc, hA.count_zero hk (Or.inr hr.1)]
  · unfold DeclOrder
    rw [List.pairwise_append]
    refine ⟨hA.2.2.2.2, hB.2.2.2.2, ?_⟩
    intro s hs s1 hs1 x y hx hy dx dy
    have := hA.2.1 s hs x hx dx
    have := hB.2.1 s1 hs1 y hy dy
    omega

theorem Covered.cov_left {c0 a b c : Nat} {A B : List Stmt} {ids : List Ident}
    (hA : Seg c0 a b A) (hB : Seg c0 b c B) (h : Covered c0 A ids) :
    Covered c0 (A ++ B) ids := by
  intro k hk hm
  obtain ⟨hd, hc⟩ := h k hk hm
  have hr := hA.declared_range hk hd
  refine ⟨by simp [hd], ?_⟩
  rw [List.countP_append, hc, hB.count_zero hk (Or.inl hr.2)]

theorem Covered.cov_right {c0 a b c : Nat} {A B : List Stmt} {ids : List Ident}
    (hA : Seg c0 a b A) (hB : Seg c0 b c B) (h : Covered c0 B ids) :
    Covered c0 (A ++ B) ids := by
  intro k hk hm
  obtain ⟨hd, hc⟩ := h k hk hm
  have hr := hB.declared_range hk hd
  refine ⟨by simp [hd], ?_⟩
  rw [List.countP_append, hc, hA.count_zero hk (Or.inr hr.1)]

/-- One more statement at the end of a segment: it declares nothing, assigns
only temporaries in the range, and its uses are covered by the segment. -/
theorem Seg.snoc {c0 a b : Nat} {A : List Stmt} {s : Stmt} (hA : Seg c0 a b A)
    (hd : ∀ t, s.declares t = false)
    (ha : ∀ k, c0 ≤ k → s.assigns (tmp_name k) = true → a ≤ k ∧ k < b)
    (hu : Covered c0 A s.uses) : Seg c0 a b (A ++ [s]) := by
  refine ⟨hA.1, ?_, ?_, ?_, ?_⟩
  · intro x hx k hk hdx
    rcases List.mem_append.1 hx with h | h
    · exact hA.2.1 x h k hk hdx
    · simp only [List.mem_singleton] at h
      subst h
      rw [hd] at hdx
      cases hdx
  · intro x hx k hk hax
    rcases List.mem_append.1 hx with h | h
    · exact hA.2.2.1 x h k hk hax
    · simp only [List.mem_singleton] at h
      subst h
      exact ha k hk hax
  · intro pre x post k e hk hux
    rcases split_append e with ⟨post1, e1⟩ | ⟨pre1, e1, e2⟩
    · exact hA.2.2.2.1 pre x post1 k e1 hk hux
    · cases pre1 with
      | nil =>
        simp only [List.nil_append, List.cons.injEq, List.append_nil] at e1 e2
        obtain ⟨rfl, _⟩ := e2
        subst e1
        exact hu k hk hux
      | cons y p2 =>
        have := congrArg List.length e2
        simp at this
  · unfold DeclOrder
    rw [List.pairwise_append]
    refine ⟨hA.2.2.2.2, List.pairwise_singleton _ _, ?_⟩
    intro x _ y hy p q _ _ _ dy
    simp only [List.mem_singleton] at hy
    subst hy
    rw [hd] at dy
    cases dy

theorem uses_subset_ids {e : Expr} {t : Ident} (h : t ∈ (Stmt.expr e).uses) : t ∈ e.ids := by
  unfold Stmt.uses at h
  split at h
  · rename_i x r heq
    cases heq
    split at h
    · simpa [Expr.ids] using h
    · simp [Expr.ids, h]
  · rename_i heq
    cases heq
    exact h
  · rename_i heq
    cases heq
  · simp at h

theorem assigns_mem_ids {e : Expr} {t : Ident} (h : (Stmt.expr e).assigns t = true) :
    t ∈ e.ids := by
  unfold Stmt.assigns at h
  split at h
  · rename_i x r heq
    cases heq
    simp only [decide_eq_true_eq] at h
    simp [Expr.ids, h]
  · cases h

/-- The last statement of a lowering with `first` set: the expression with
its operands replaced. -/
theorem Seg.snoc_expr {c0 a b : Nat} {A : List Stmt} {e : Expr} (hA : Seg c0 a b A)
    (hc : Covered c0 A e.ids) : Seg c0 a b (A ++ [.expr e]) :=
  hA.snoc (fun _ => rfl)
    (fun k hk ha => hA.declared_range hk (hc k hk (assigns_mem_ids ha)).1)
    (fun k hk hm => hc k hk (uses_subset_ids hm))

/-- The return statement after the lowering of its operand. -/
theorem Seg.snoc_ret {c0 a b : Nat} {A : List Stmt} {e : Expr} (hA : Seg c0 a b A)
    (hc : Covered c0 A e.ids) : Seg c0 a b (A ++ [.ret (some e)]) :=
  hA.snoc (fun _ => rfl) (fun k hk ha => by cases ha) (fun k hk hm => hc k hk hm)

/-- The last statement of a lowering with `first` = 0: the assignment to the
temporary. -/
theorem Seg.snoc_assign {c0 a b c : Nat} {A : List Stmt} {rv : Expr} (hA : Seg c0 a b A)
    (hr : a ≤ c ∧ c < b) (hn : expr_is_atom rv = false) (hc : Covered c0 A rv.ids) :
    Seg c0 a b (A ++ [.expr (.binary .EXPR_ASSIGN (.id (tmp_name c)) rv)]) := by
  refine hA.snoc (fun _ => rfl) ?_ ?_
  · intro k hk ha
    simp only [Stmt.assigns, decide_eq_true_eq] at ha
    rw [← tmp_name_inj ha]
    exact hr
  · intro k hk hm
    simp only [Stmt.uses, hn, Bool.false_eq_true, if_false] at hm
    exact hc k hk hm

theorem block_append_nil (b : Option (List Stmt)) : b = b.map (fun x => x ++ []) := by
  cases b <;> simp

theorem Seg.single_decl (c0 c : Nat) (type : CType) :
    Seg c0 c (c + 1) [.decl ⟨type, tmp_name c⟩] := by
  refine ⟨by omega, ?_, ?_, ?_, List.pairwise_singleton _ _⟩
  · intro s hs k hk hd
    simp only [List.mem_singleton] at hs
    subst hs
    simp only [Stmt.declares, decide_eq_true_eq] at hd
    have := tmp_name_inj hd
    omega
  · intro s hs k hk ha
    simp only [List.mem_singleton] at hs
    subst hs
    cases ha
  · intro pre s post k e hk hu
    cases pre with
    | nil =>
      simp only [List.nil_append, List.cons.injEq] at e
      obtain ⟨rfl, _⟩ := e
      simp [Stmt.uses] at hu
    | cons y p2 =>
      have := congrArg List.length e
      simp at this

theorem store_begin_seg {c0 c : Nat} {expr : Expr} {first : Bool} {st st0 : State}
    {res0 : Option Ident} (h : store_begin expr first st = .ok (res0, st0))
    (hc : st.tmp_vars_count = c) :
    ∃ A0 cb, st0.tmp_vars_count = (cb : Nat) ∧
      st0.curr_block = st.curr_block.map (fun b => b ++ A0) ∧ Seg c0 c cb A0 ∧
      (first = false → res0 = some (tmp_name c) ∧ c < cb ∧
        A0.any (Stmt.declares (tmp_name c)) = true ∧
        A0.countP (Stmt.assigns (tmp_name c)) = 0) := by
  cases first with
  | true =>
    simp only [store_begin, if_true, Except.ok.injEq, Prod.mk.injEq] at h
    obtain ⟨rfl, rfl⟩ := h
    exact ⟨[], c, hc, block_append_nil _, Seg.nil (le_refl _), fun e => by cases e⟩
  | false =>
    obtain ⟨type, _, hr, hb, hn, _⟩ := store_begin_false h
    rw [hc, fmt_d_nat] at hr hb
    refine ⟨[.decl ⟨type, tmp_name c⟩], c + 1, by rw [hn, hc]; rfl, hb,
      Seg.single_decl c0 c type, fun _ => ⟨hr, by omega, by simp [Stmt.declares], ?_⟩⟩
    simp [Stmt.assigns]

theorem store_end_seg {c0 c c2 : Nat} {first : Bool} {res0 res : Option Ident} {rv : Expr}
    {st st1 : State} {B : List Stmt} (h : store_end first res0 rv st = .ok (res, st1))
    (hB : Seg c0 c c2 B) (hcov : Covered c0 B rv.ids) (hn : expr_is_atom rv = false)
    (hf : first = false → res0 = some (tmp_name c) ∧ c < c2 ∧
      B.any (Stmt.declares (tmp_name c)) = true ∧
      B.countP (Stmt.assigns (tmp_name c)) = 0) :
    ∃ s, st1.tmp_vars_count = st.tmp_vars_count ∧
      st1.curr_block = st.curr_block.map (fun b => b ++ [s]) ∧ Seg c0 c c2 (B ++ [s]) ∧
      (first = false → res = some (tmp_name c) ∧ Covered c0 (B ++ [s]) [tmp_name c]) := by
  cases first with
  | true =>
    simp only [store_end, if_true] at h
    obtain ⟨st2, h1, k⟩ := bind_ok.1 h
    simp only [Except.ok.injEq, Prod.mk.injEq] at k
    obtain ⟨rfl, rfl⟩ := k
    obtain ⟨hb, hcn, _⟩ := add_stmt_eq h1
    exact ⟨.expr rv, hcn, hb, hB.snoc_expr hcov, fun e => by cases e⟩
  | false =>
    obtain ⟨rfl, hlt, hany, hcnt⟩ := hf rfl
    obtain ⟨rfl, hb, hcn, _⟩ := store_end_false h
    refine ⟨_, hcn, hb, hB.snoc_assign ⟨le_refl _, hlt⟩ hn hcov, fun _ => ⟨rfl, ?_⟩⟩
    intro k hk hm
    simp only [List.mem_singleton] at hm
    have hkc := tmp_name_inj hm
    subst hkc
    refine ⟨by simp [hany], ?_⟩
    rw [List.countP_append, hcnt]
    simp [Stmt.assigns]

theorem store_operand_seg {c0 c : Nat} {e x : Expr} {rec : Res (Option Ident × State)}
    {st st1 : State} (h : store_operand e rec st = .ok (x, st1))
    (hc : st.tmp_vars_count = c) (hyg : Hygienic c0 e.ids)
    (ih : ∀ res st2, rec = .ok (res, st2) → ∃ A c1, st2.tmp_vars_count = (c1 : Nat) ∧
      st2.curr_block = st.curr_block.map (fun b => b ++ A) ∧ Seg c0 c c1 A ∧
      res = some (tmp_name c) ∧ Covered c0 A [tmp_name c]) :
    ∃ A c1, st1.tmp_vars_count = (c1 : Nat) ∧
      st1.curr_block = st.curr_block.map (fun b => b ++ A) ∧ Seg c0 c c1 A ∧
      Covered c0 A x.ids ∧ expr_is_atom x = true := by
  unfold store_operand at h
  split at h
  · rename_i ha
    simp only [Except.ok.injEq, Prod.mk.injEq] at h
    obtain ⟨rfl, rfl⟩ := h
    exact ⟨[], c, hc, block_append_nil _, Seg.nil (le_refl _), Covered.of_hygienic hyg _, ha⟩
  · split at h
    · cases h
    · cases h
    · rename_i t st2
      simp only [Except.ok.injEq, Prod.mk.injEq] at h
      obtain ⟨rfl, rfl⟩ := h
      obtain ⟨A, c1, h1, h2, h3, h4, h5⟩ := ih _ _ rfl
      cases h4
      exact ⟨A, c1, h1, h2, h3, h5, rfl⟩

/-- What a call of `store_expr_temp_var` at the counter value `c` adds. -/
theorem store_seg_end {c0 c cb c2 : Nat} {first : Bool} {res0 res : Option Ident} {rv : Expr}
    {st st0 st2 st1 : State} {A0 M : List Stmt}
    (h : store_end first res0 rv st2 = .ok (res, st1))
    (h0 : st0.curr_block = st.curr_block.map (fun b => b ++ A0)) (s0 : Seg c0 c cb A0)
    (f0 : first = false → res0 = some (tmp_name c) ∧ c < cb ∧
      A0.any (Stmt.declares (tmp_name c)) = true ∧
      A0.countP (Stmt.assigns (tmp_name c)) = 0)
    (hm : st2.curr_block = st0.curr_block.map (fun b => b ++ M)) (sm : Seg c0 cb c2 M)
    (hc2 : st2.tmp_vars_count = (c2 : Nat)) (hle : c0 ≤ c)
    (hcov : Covered c0 M rv.ids) (hn : expr_is_atom rv = false) :
    ∃ A c1, st1.tmp_vars_count = (c1 : Nat) ∧
      st1.curr_block = st.curr_block.map (fun b => b ++ A) ∧ Seg c0 c c1 A ∧
      (first = false → res = some (tmp_name c) ∧ Covered c0 A [tmp_name c]) := by
  have sB := s0.seg_append sm
  obtain ⟨s, hcn, hb, hs, hf⟩ := store_end_seg h sB (Covered.cov_right s0 sm hcov) hn
    (fun e => by
      obtain ⟨r1, r2, r3, r4⟩ := f0 e
      refine ⟨r1, lt_of_lt_of_le r2 sm.1, by simp [r3], ?_⟩
      rw [List.countP_append, r4, sm.count_zero hle (Or.inl r2)])
  exact ⟨A0 ++ M ++ [s], c2, by rw [hcn, hc2],
    block_append_trans (block_append_trans h0 hm) hb, hs, hf⟩

mutual
theorem store_seg : ∀ (c0 : Nat) (E : Expr) (first : Bool) (st st1 : State)
    (res : Option Ident) (c : Nat), st.tmp_vars_count = c → c0 ≤ c → Hygienic c0 E.ids →
    store_expr_temp_var E first st = .ok (res, st1) →
    ∃ A c1, st1.tmp_vars_count = (c1 : Nat) ∧
      st1.curr_block = st.curr_block.map (fun b => b ++ A) ∧ Seg c0 c c1 A ∧
      (first = false → res = some (tmp_name c) ∧ Covered c0 A [tmp_name c])
  | c0, .call l r, first, st, st1, res, c, hc, hle, hyg, h => by
    rw [store_expr_temp_var] at h
    obtain ⟨⟨res0, st0⟩, h0, k0⟩ := bind_ok.1 h
    obtain ⟨⟨l1, sta⟩, ha, ka⟩ := bind_ok.1 k0
    obtain ⟨⟨args, stb⟩, hb, kb⟩ := bind_ok.1 ka
    simp only [Expr.ids] at hyg
    obtain ⟨A0, cb, n0, b0, s0, f0⟩ := store_begin_seg h0 hc
    have hlb : c0 ≤ cb := le_trans hle s0.1
    obtain ⟨Al, c1, n1, b1, s1, v1, _⟩ := store_operand_seg ha n0 hyg.hyg_left
      (fun res2 st2 h2 => by
        obtain ⟨A, c1, q1, q2, q3, q4⟩ := store_seg c0 l false st0 st2 res2 cb n0 hlb hyg.hyg_left h2
        exact ⟨A, c1, q1, q2, q3, (q4 rfl).1, (q4 rfl).2⟩)
    obtain ⟨Ar, c2, n2, b2, s2, v2⟩ :=
      store_args_seg c0 r sta stb args c1 n1 (le_trans hlb s1.1) hyg.hyg_right hb
    exact store_seg_end kb b0 s0 f0 (block_append_trans b1 b2) (s1.seg_append s2) n2 hle
      (by
        simp only [Expr.ids]
        exact (Covered.cov_left s1 s2 v1).cov_append (Covered.cov_right s1 s2 v2)) rfl
  | c0, .neg l, first, st, st1, res, c, hc, hle, hyg, h => by
    rw [store_expr_temp_var] at h
    obtain ⟨⟨res0, st0⟩, h0, k0⟩ := bind_ok.1 h
    obtain ⟨⟨l1, sta⟩, ha, ka⟩ := bind_ok.1 k0
    simp only [Expr.ids] at hyg
    obtain ⟨A0, cb, n0, b0, s0, f0⟩ := store_begin_seg h0 hc
    have hlb : c0 ≤ cb := le_trans hle s0.1
    obtain ⟨Al, c1, n1, b1, s1, v1, _⟩ := store_operand_seg ha n0 hyg
      (fun res2 st2 h2 => by
        obtain ⟨A, c1, q1, q2, q3, q4⟩ := store_seg c0 l false st0 st2 res2 cb n0 hlb hyg h2
        exact ⟨A, c1, q1, q2, q3, (q4 rfl).1, (q4 rfl).2⟩)
    exact store_seg_end ka b0 s0 f0 b1 s1 n1 hle (by simpa only [Expr.ids] using v1) rfl
  | c0, .binary kind l r, first, st, st1, res, c, hc, hle, hyg, h => by
    rw [store_expr_temp_var] at h
    obtain ⟨⟨res0, st0⟩, h0, k0⟩ := bind_ok.1 h
    obtain ⟨⟨l1, sta⟩, ha, ka⟩ := bind_ok.1 k0
    obtain ⟨⟨r1, stb⟩, hb, kb⟩ := bind_ok.1 ka
    simp only [Expr.ids] at hyg
    obtain ⟨A0, cb, n0, b0, s0, f0⟩ := store_begin_seg h0 hc
    have hlb : c0 ≤ cb := le_trans hle s0.1
    obtain ⟨Al, c1, n1, b1, s1, v1, _⟩ := store_operand_seg ha n0 hyg.hyg_left
      (fun res2 st2 h2 => by
        obtain ⟨A, c1, q1, q2, q3, q4⟩ := store_seg c0 l false st0 st2 res2 cb n0 hlb hyg.hyg_left h2
        exact ⟨A, c1, q1, q2, q3, (q4 rfl).1, (q4 rfl).2⟩)
    have hl1 : c0 ≤ c1 := le_trans hlb s1.1
    obtain ⟨Ar, c2, n2, b2, s2, v2, _⟩ := store_operand_seg hb n1 hyg.hyg_right
      (fun res2 st2 h2 => by
        obtain ⟨A, c3, q1, q2, q3, q4⟩ :=
          store_seg c0 r false sta st2 res2 c1 n1 hl1 hyg.hyg_right h2
        exact ⟨A, c3, q1, q2, q3, (q4 rfl).1, (q4 rfl).2⟩)
    exact store_seg_end kb b0 s0 f0 (block_append_trans b1 b2) (s1.seg_append s2) n2 hle
      (by
        simp only [Expr.ids]
        exact (Covered.cov_left s1 s2 v1).cov_append (Covered.cov_right s1 s2 v2)) rfl
  | c0, .intlit value, first, st, st1, res, c, hc, hle, hyg, h => by
    rw [store_expr_temp_var] at h
    obtain ⟨_, _, k0⟩ := bind_ok.1 h
    cases k0
  | c0, .id id, first, st, st1, res, c, hc, hle, hyg, h => by
    rw [store_expr_temp_var] at h
    obtain ⟨_, _, k0⟩ := bind_ok.1 h
    cases k0
theorem store_args_seg : ∀ (c0 : Nat) (r : List Expr) (st st1 : State) (args : List Expr)
    (c : Nat), st.tmp_vars_count = c → c0 ≤ c → Hygienic c0 (Expr.ids_list r) →
    store_args r st = .ok (args, st1) →
    ∃ A c1, st1.tmp_vars_count = (c1 : Nat) ∧
      st1.curr_block = st.curr_block.map (fun b => b ++ A) ∧ Seg c0 c c1 A ∧
      Covered c0 A (Expr.ids_list args)
  | c0, [], st, st1, args, c, hc, hle, hyg, h => by
    rw [store_args] at h
    simp only [Except.ok.injEq, Prod.mk.injEq] at h
    obtain ⟨rfl, rfl⟩ := h
    exact ⟨[], c, hc, block_append_nil _, Seg.nil (le_refl _), fun k hk hm => by
      simp [Expr.ids_list] at hm⟩
  | c0, e :: next, st, st1, args, c, hc, hle, hyg, h => by
    rw [store_args] at h
    obtain ⟨⟨tmp, sta⟩, ha, ka⟩ := bind_ok.1 h
    obtain ⟨⟨rest, stb⟩, hb, kb⟩ := bind_ok.1 ka
    simp only [Except.ok.injEq, Prod.mk.injEq] at kb
    obtain ⟨rfl, rfl⟩ := kb
    simp only [Expr.ids_list] at hyg
    obtain ⟨Al, c1, n1, b1, s1, v1, _⟩ := store_operand_seg ha hc hyg.hyg_left
      (fun res2 st2 h2 => by
        obtain ⟨A, c1, q1, q2, q3, q4⟩ := store_seg c0 e false st st2 res2 c hc hle hyg.hyg_left h2
        exact ⟨A, c1, q1, q2, q3, (q4 rfl).1, (q4 rfl).2⟩)
    obtain ⟨Ar, c2, n2, b2, s2, v2⟩ :=
      store_args_seg c0 next sta stb rest c1 n1 (le_trans hle s1.1) hyg.hyg_right hb
    refine ⟨Al ++ Ar, c2, n2, block_append_trans b1 b2, s1.seg_append s2, ?_⟩
    simp only [Expr.ids_list]
    exact (Covered.cov_left s1 s2 v1).cov_append (Covered.cov_right s1 s2 v2)
end

theorem Seg.user_decl {c0 : Nat} (c : Nat) {d : Decl} (h : Hygienic c0 [d.id]) :
    Seg c0 c c [.decl d] := by
  refine ⟨le_refl _, ?_, ?_, ?_, List.pairwise_singleton _ _⟩
  · intro s hs k hk hd
    simp only [List.mem_singleton] at hs
    subst hs
    simp only [Stmt.declares, decide_eq_true_eq] at hd
    exact absurd (by simp [hd]) (h k hk)
  · intro s hs k hk ha
    simp only [List.mem_singleton] at hs
    subst hs
    cases ha
  · intro pre s post k e hk hu
    cases pre with
    | nil =>
      simp only [List.nil_append, List.cons.injEq] at e
      obtain ⟨rfl, _⟩ := e
      simp [Stmt.uses] at hu
    | cons y p2 =>
      have := congrArg List.length e
      simp at this

theorem irc_decl_sym_eq {decl : Decl} {st st1 : State} (h : irc_decl_sym decl st = .ok st1) :
    st1.curr_block = st.curr_block ∧ st1.tmp_vars_count = st.tmp_vars_count := by
  unfold irc_decl_sym at h
  obtain ⟨st2, h1, k1⟩ := bind_ok.1 h
  obtain ⟨rfl, _⟩ := sym_add_ok h1
  split at k1
  · cases k1
  · obtain ⟨off, h2, k2⟩ := bind_ok.1 k1
    cases k2
    exact ⟨rfl, rfl⟩

theorem stmt_seg (c0 : Nat) (stmt : Stmt) (st st1 : State) (c : Nat)
    (hc : st.tmp_vars_count = c) (hle : c0 ≤ c) (hyg : Hygienic c0 stmt.ids)
    (h : stmt_to_irc stmt st = .ok st1) :
    ∃ A c1, st1.tmp_vars_count = (c1 : Nat) ∧
      st1.curr_block = st.curr_block.map (fun b => b ++ A) ∧ Seg c0 c c1 A := by
  cases stmt with
  | decl d =>
    rw [stmt_to_irc] at h
    obtain ⟨st2, h1, k1⟩ := bind_ok.1 h
    obtain ⟨hb, hn, _⟩ := add_stmt_eq h1
    obtain ⟨hb2, hn2⟩ := irc_decl_sym_eq k1
    exact ⟨[.decl d], c, by rw [hn2, hn, hc], by rw [hb2, hb],
      Seg.user_decl c (by simpa only [Stmt.ids] using hyg)⟩
  | expr e =>
    rw [stmt_to_irc] at h
    obtain ⟨⟨res, st2⟩, h1, k1⟩ := bind_ok.1 h
    cases k1
    obtain ⟨A, c1, q1, q2, q3, _⟩ :=
      store_seg c0 e true st st1 res c hc hle (by simpa only [Stmt.ids] using hyg) h1
    exact ⟨A, c1, q1, q2, q3⟩
  | block b =>
    have hb := stmt_to_irc_block h
    obtain ⟨added, ⟨_, hm, _⟩, _⟩ := stmt_to_irc_grows (.block b) st st1 h
    rw [hc] at hm
    obtain ⟨c1, hc1⟩ := Int.eq_ofNat_of_zero_le (le_trans (Int.ofNat_zero_le c) hm)
    refine ⟨[], c1, hc1, by rw [hb]; exact block_append_nil _, Seg.nil ?_⟩
    rw [hc1] at hm
    exact Int.ofNat_le.1 hm
  | block_unset =>
    rw [stmt_to_irc] at h
    cases h
  | ret e =>
    cases e with
    | none =>
      rw [stmt_to_irc] at h
      obtain ⟨hb, hn, _⟩ := add_stmt_eq h
      exact ⟨[.ret_unset], c, by rw [hn, hc], hb,
        (Seg.nil (le_refl c)).snoc (fun _ => rfl) (fun k hk ha => by cases ha)
          (fun k hk hm => by simp [Stmt.uses] at hm)⟩
    | some e =>
      rw [stmt_to_irc] at h
      simp only [Stmt.ids] at hyg
      split at h
      · obtain ⟨hb, hn, _⟩ := add_stmt_eq h
        exact ⟨[.ret (some e)], c, by rw [hn, hc], hb,
          (Seg.nil (le_refl c)).snoc_ret (Covered.of_hygienic hyg _)⟩
      · obtain ⟨⟨res, st2⟩, h1, k1⟩ := bind_ok.1 h
        obtain ⟨A, c1, q1, q2, q3, q4⟩ := store_seg c0 e false st st2 res c hc hle hyg h1
        obtain ⟨rfl, hcov⟩ := q4 rfl
        simp only at k1
        obtain ⟨hb, hn, _⟩ := add_stmt_eq k1
        exact ⟨A ++ [.ret (some (.id (tmp_name c)))], c1, by rw [hn, q1],
          block_append_trans q2 hb, q3.snoc_ret (by simpa only [Expr.ids] using hcov)⟩
  | ret_unset =>
    rw [stmt_to_irc] at h
    cases h

theorem stmts_seg (c0 : Nat) : ∀ (stmts : List Stmt) (st st1 : State) (c : Nat),
    st.tmp_vars_count = c → c0 ≤ c → Hygienic c0 (Stmt.ids_list stmts) →
    stmts_to_irc stmts st = .ok st1 →
    ∃ A c1, st1.tmp_vars_count = (c1 : Nat) ∧
      st1.curr_block = st.curr_block.map (fun b => b ++ A) ∧ Seg c0 c c1 A
  | [], st, st1, c, hc, hle, hyg, h => by
    rw [stmts_to_irc] at h
    cases h
    exact ⟨[], c, hc, block_append_nil _, Seg.nil (le_refl _)⟩
  | stmt :: next, st, st1, c, hc, hle, hyg, h => by
    rw [stmts_to_irc] at h
    obtain ⟨st2, h1, k1⟩ := bind_ok.1 h
    simp only [Stmt.ids_list] at hyg
    obtain ⟨A, c1, n1, b1, s1⟩ := stmt_seg c0 stmt st st2 c hc hle hyg.hyg_left h1
    obtain ⟨B, c2, n2, b2, s2⟩ :=
      stmts_seg c0 next st2 st1 c1 n1 (le_trans hle s1.1) hyg.hyg_right k1
    exact ⟨A ++ B, c2, n2, block_append_trans b1 b2, s1.seg_append s2⟩

/-- C29. Temporaries are defined before use when the source block does not
mention the name of a temporary still to be created.  If `tmp_vars_count` is
`c0` at the call and no identifier of `body` is `___t<k>` with `c0 ≤ k`, then
the block that `block_to_irc` returns has, before each statement that uses a
temporary `___t<k>`, `c0 ≤ k`, as an operand, a call argument or a return
operand, the declaration of that temporary and exactly one assignment to it;
and the temporaries are declared in the order of their counter values, all of
them below the counter value at the return. -/
theorem block_to_irc_defined_before_use (body irc : Stmt) (st st1 : State) (c0 : Nat)
    (hc : st.tmp_vars_count = c0) (hyg : Hygienic c0 body.ids)
    (h : block_to_irc body st = .ok (irc, st1)) :
    ∃ lowered c1, irc = .block lowered ∧ st1.tmp_vars_count = (c1 : Nat) ∧
      DefinedBeforeUse c0 lowered ∧ DeclOrder c0 lowered ∧
      ∀ s ∈ lowered, ∀ k, c0 ≤ k → s.declares (tmp_name k) = true → k < c1 := by
  unfold block_to_irc at h
  split at h
  · rename_i stmts
    obtain ⟨st2, h1, k1⟩ := bind_ok.1 h
    obtain ⟨A, c1, n1, b1, s1⟩ := stmts_seg c0 stmts (block_enter st) st2 c0 hc (le_refl _)
      (by simpa only [Stmt.ids] using hyg) h1
    unfold block_leave at k1
    simp only [block_enter, Option.map_some', List.nil_append] at b1
    rw [b1] at k1
    simp only [Except.ok.injEq, Prod.mk.injEq] at k1
    obtain ⟨rfl, rfl⟩ := k1
    exact ⟨A, c1, rfl, n1, s1.2.2.2.1, s1.2.2.2.2, fun s hs k hk hd => (s1.2.1 s hs k hk hd).2⟩
  · cases h

/-! ## A source block that uses the name of a temporary -/

theorem clash_stmt1 (ap : Int) (n : Nat) :
    parse_stmt ap (n + 12) ⟨" int ___t0; ___t0 = 5; return ___t0 + 1 + 2; \x7d".data, 1⟩ =
      .ok (.decl ⟨.int, .interned "___t0"⟩,
        ⟨" ___t0 = 5; return ___t0 + 1 + 2; \x7d".data, 1⟩) := by
  rfl

theorem clash_stmt2 (ap : Int) (n : Nat) :
    parse_stmt ap (n + 11) ⟨" ___t0 = 5; return ___t0 + 1 + 2; \x7d".data, 1⟩ =
      .ok (.expr (.binary .EXPR_ASSIGN (.id (.interned "___t0")) (.intlit 5)),
        ⟨" return ___t0 + 1 + 2; \x7d".data, 1⟩) := by
  rfl

theorem clash_stmt3 (ap : Int) (n : Nat) :
    parse_stmt ap (n + 10) ⟨" return ___t0 + 1 + 2; \x7d".data, 1⟩ =
      .ok (.ret (some (.binary .EXPR_ADD
          (.binary .EXPR_ADD (.id (.interned "___t0")) (.intlit 1)) (.intlit 2))),
        ⟨" \x7d".data, 1⟩) := by
  rfl

theorem clash_block (ap : Int) (n : Nat) :
    parse_block_stmts ap (n + 13)
        ⟨" int ___t0; ___t0 = 5; return ___t0 + 1 + 2; \x7d".data, 1⟩ =
      .ok ([.decl ⟨.int, .interned "___t0"⟩,
          .expr (.binary .EXPR_ASSIGN (.id (.interned "___t0")) (.intlit 5)),
          .ret (some (.binary .EXPR_ADD
            (.binary .EXPR_ADD (.id (.interned "___t0")) (.intlit 1)) (.intlit 2)))],
        ⟨" \x7d".data, 1⟩) :=
  parse_block_cons (clash_stmt1 ap n) (by rfl) (by decide)
    (parse_block_cons (clash_stmt2 ap n) (by rfl) (by decide)
      (parse_block_last (clash_stmt3 ap n) (by rfl) (by decide)))

theorem clash_body (ap : Int) (n : Nat) :
    parse_stmt_block ap (n + 14)
        ⟨" \x7b int ___t0; ___t0 = 5; return ___t0 + 1 + 2; \x7d".data, 1⟩ =
      .ok (.block [.decl ⟨.int, .interned "___t0"⟩,
          .expr (.binary .EXPR_ASSIGN (.id (.interned "___t0")) (.intlit 5)),
          .ret (some (.binary .EXPR_ADD
            (.binary .EXPR_ADD (.id (.interned "___t0")) (.intlit 1)) (.intlit 2)))],
        ⟨[], 1⟩) :=
  parse_stmt_block_of (by rfl) (by rfl) (by decide) (clash_block ap n) (by rfl)

theorem clash_head (ap : Int) (null : Bool) (n : Nat) :
    parse_glob_decl ap null (n + 14)
        (parser_init "int main() \x7b int ___t0; ___t0 = 5; return ___t0 + 1 + 2; \x7d") =
      glob_decl_body ap (n + 14) (.interned "main") (.func .int [])
        ⟨" \x7b int ___t0; ___t0 = 5; return ___t0 + 1 + 2; \x7d".data, 1⟩ :=
  parse_glob_decl_func (by rfl) (by rfl) (by rfl) (by rfl) (by rfl) (by decide) (by rfl)
    (by rfl) (by rfl)

theorem clash_parse (arg_prec : Int) (curr_param_null : Nat → Bool) (n : Nat) :
    parse_unit arg_prec curr_param_null (n + 15)
        (parser_init "int main() \x7b int ___t0; ___t0 = 5; return ___t0 + 1 + 2; \x7d") =
      .ok ([.func (.interned "main") (.func .int [])
        (some (.block [.decl ⟨.int, .interned "___t0"⟩,
          .expr (.binary .EXPR_ASSIGN (.id (.interned "___t0")) (.intlit 5)),
          .ret (some (.binary .EXPR_ADD
            (.binary .EXPR_ADD (.id (.interned "___t0")) (.intlit 1)) (.intlit 2)))]))],
        ⟨[], 1⟩) :=
  parse_globs_cons (by rfl) (by decide)
    ((clash_head arg_prec _ n).trans
      (glob_decl_body_block (by rfl) (by decide) (clash_body arg_prec n)))
    (parse_globs_end (by rfl) (by decide))

theorem clash_check :
    check_unit [.func (.interned "main") (.func .int [])
        (some (.block [.decl ⟨.int, .interned "___t0"⟩,
          .expr (.binary .EXPR_ASSIGN (.id (.interned "___t0")) (.intlit 5)),
          .ret (some (.binary .EXPR_ADD
            (.binary .EXPR_ADD (.id (.interned "___t0")) (.intlit 1)) (.intlit 2)))]))]
        State.init =
      .ok (0, ⟨[⟨.literal "putchar", .int, 0, 0⟩, ⟨.interned "main", .func .int [], 1, 0⟩,
        ⟨.interned "___t0", .int, 0, -4⟩], -8, 0, none, []⟩) :=
  check_eq (by decide!)

theorem clash_irc :
    block_to_irc (.block [.decl ⟨.int, .interned "___t0"⟩,
          .expr (.binary .EXPR_ASSIGN (.id (.interned "___t0")) (.intlit 5)),
          .ret (some (.binary .EXPR_ADD
            (.binary .EXPR_ADD (.id (.interned "___t0")) (.intlit 1)) (.intlit 2)))])
        ⟨[], -8, 0, none, []⟩ =
      .ok (.block [.decl ⟨.int, .interned "___t0"⟩,
          .expr (.binary .EXPR_ASSIGN (.id (.interned "___t0")) (.intlit 5)),
          .decl ⟨.int, .interned "___t0"⟩, .decl ⟨.int, .interned "___t1"⟩,
          .expr (.binary .EXPR_ASSIGN (.id (.interned "___t1"))
            (.binary .EXPR_ADD (.id (.interned "___t0")) (.intlit 1))),
          .expr (.binary .EXPR_ASSIGN (.id (.interned "___t0"))
            (.binary .EXPR_ADD (.id (.interned "___t1")) (.intlit 2))),
          .ret (some (.id (.interned "___t0")))],
        ⟨[⟨.interned "___t0", .int, 0, -8⟩], -12, 2, none, []⟩) :=
  block_eq (by decide!)

/-- The block of `int main() { int ___t0; ___t0 = 5; return ___t0 + 1 + 2; }`
passes the parser and the semantic check; in the block that `block_to_irc`
returns for it at the counter value 0, the use of `___t0` in the return
statement comes after two assignments to `___t0`, the one of the source and
the one that defines the temporary. -/
theorem tmp_name_clash :
    (∀ (arg_prec : Int) (curr_param_null : Nat → Bool) (n : Nat),
      parse_unit arg_prec curr_param_null (n + 15)
          (parser_init "int main() \x7b int ___t0; ___t0 = 5; return ___t0 + 1 + 2; \x7d") =
        .ok ([.func (.interned "main") (.func .int [])
          (some (.block [.decl ⟨.int, .interned "___t0"⟩,
            .expr (.binary .EXPR_ASSIGN (.id (.interned "___t0")) (.intlit 5)),
            .ret (some (.binary .EXPR_ADD
              (.binary .EXPR_ADD (.id (.interned "___t0")) (.intlit 1)) (.intlit 2)))]))],
          ⟨[], 1⟩)) ∧
    check_unit [.func (.interned "main") (.func .int [])
        (some (.block [.decl ⟨.int, .interned "___t0"⟩,
          .expr (.binary .EXPR_ASSIGN (.id (.interned "___t0")) (.intlit 5)),
          .ret (some (.binary .EXPR_ADD
            (.binary .EXPR_ADD (.id (.interned "___t0")) (.intlit 1)) (.intlit 2)))]))]
        State.init =
      .ok (0, ⟨[⟨.literal "putchar", .int, 0, 0⟩, ⟨.interned "main", .func .int [], 1, 0⟩,
        ⟨.interned "___t0", .int, 0, -4⟩], -8, 0, none, []⟩) ∧
    block_to_irc (.block [.decl ⟨.int, .interned "___t0"⟩,
          .expr (.binary .EXPR_ASSIGN (.id (.interned "___t0")) (.intlit 5)),
          .ret (some (.binary .EXPR_ADD
            (.binary .EXPR_ADD (.id (.interned "___t0")) (.intlit 1)) (.intlit 2)))])
        ⟨[], -8, 0, none, []⟩ =
      .ok (.block [.decl ⟨.int, .interned "___t0"⟩,
          .expr (.binary .EXPR_ASSIGN (.id (.interned "___t0")) (.intlit 5)),
          .decl ⟨.int, .interned "___t0"⟩, .decl ⟨.int, .interned "___t1"⟩,
          .expr (.binary .EXPR_ASSIGN (.id (.interned "___t1"))
            (.binary .EXPR_ADD (.id (.interned "___t0")) (.intlit 1))),
          .expr (.binary .EXPR_ASSIGN (.id (.interned "___t0"))
            (.binary .EXPR_ADD (.id (.interned "___t1")) (.intlit 2))),
          .ret (some (.id (.interned "___t0")))],
        ⟨[⟨.interned "___t0", .int, 0, -8⟩], -12, 2, none, []⟩) ∧
    tmp_name 0 ∈ (Stmt.ret (some (.id (.interned "___t0")))).uses ∧
    List.countP (Stmt.assigns (tmp_name 0))
        [.decl ⟨.int, .interned "___t0"⟩,
          .expr (.binary .EXPR_ASSIGN (.id (.interned "___t0")) (.intlit 5)),
          .decl ⟨.int, .interned "___t0"⟩, .decl ⟨.int, .interned "___t1"⟩,
          .expr (.binary .EXPR_ASSIGN (.id (.interned "___t1"))
            (.binary .EXPR_ADD (.id (.interned "___t0")) (.intlit 1))),
          .expr (.binary .EXPR_ASSIGN (.id (.interned "___t0"))
            (.binary .EXPR_ADD (.id (.interned "___t1")) (.intlit 2)))] = 2 ∧
    ¬ DefinedBeforeUse 0
        [.decl ⟨.int, .interned "___t0"⟩,
          .expr (.binary .EXPR_ASSIGN (.id (.interned "___t0")) (.intlit 5)),
          .decl ⟨.int, .interned "___t0"⟩, .decl ⟨.int, .interned "___t1"⟩,
          .expr (.binary .EXPR_ASSIGN (.id (.interned "___t1"))
            (.binary .EXPR_ADD (.id (.interned "___t0")) (.intlit 1))),
          .expr (.binary .EXPR_ASSIGN (.id (.interned "___t0"))
            (.binary .EXPR_ADD (.id (.interned "___t1")) (.intlit 2))),
          .ret (some (.id (.interned "___t0")))] := by
  refine ⟨clash_parse, clash_check, clash_irc, by decide, by decide, ?_⟩
  intro h
  have h2 := (h [.decl ⟨.int, .interned "___t0"⟩,
      .expr (.binary .EXPR_ASSIGN (.id (.interned "___t0")) (.intlit 5)),
      .decl ⟨.int, .interned "___t0"⟩, .decl ⟨.int, .interned "___t1"⟩,
      .expr (.binary .EXPR_ASSIGN (.id (.interned "___t1"))
        (.binary .EXPR_ADD (.id (.interned "___t0")) (.intlit 1))),
      .expr (.binary .EXPR_ASSIGN (.id (.interned "___t0"))
        (.binary .EXPR_ADD (.id (.interned "___t1")) (.intlit 2)))]
    (.ret (some (.id (.interned "___t0")))) [] 0 rfl (le_refl _) (by decide)).2
  revert h2
  decide

theorem block_to_irc_defined_before_use_witness :
    block_to_irc (.block [.ret (some (.binary .EXPR_ADD (.intlit 1)
        (.binary .EXPR_MUL (.intlit 2) (.intlit 3))))]) ⟨[], 0, 0, none, []⟩ =
      .ok (.block [.decl ⟨.char, .interned "___t0"⟩, .decl ⟨.char, .interned "___t1"⟩,
          .expr (.binary .EXPR_ASSIGN (.id (.interned "___t1"))
            (.binary .EXPR_MUL (.intlit 2) (.intlit 3))),
          .expr (.binary .EXPR_ASSIGN (.id (.interned "___t0"))
            (.binary .EXPR_ADD (.intlit 1) (.id (.interned "___t1")))),
          .ret (some (.id (.interned "___t0")))], ⟨[], 0, 2, none, []⟩) ∧
    ∃ lowered c1,
      Stmt.block [.decl ⟨.char, .interned "___t0"⟩, .decl ⟨.char, .interned "___t1"⟩,
          .expr (.binary .EXPR_ASSIGN (.id (.interned "___t1"))
            (.binary .EXPR_MUL (.intlit 2) (.intlit 3))),
          .expr (.binary .EXPR_ASSIGN (.id (.interned "___t0"))
            (.binary .EXPR_ADD (.intlit 1) (.id (.interned "___t1")))),
          .ret (some (.id (.interned "___t0")))] = .block lowered ∧
      (2 : Int) = (c1 : Nat) ∧ DefinedBeforeUse 0 lowered ∧ DeclOrder 0 lowered ∧
      ∀ s ∈ lowered, ∀ k, 0 ≤ k → s.declares (tmp_name k) = true → k < c1 :=
  ⟨by rfl, block_to_irc_defined_before_use
    (.block [.ret (some (.binary .EXPR_ADD (.intlit 1)
      (.binary .EXPR_MUL (.intlit 2) (.intlit 3))))])
    (.block [.decl ⟨.char, .interned "___t0"⟩, .decl ⟨.char, .interned "___t1"⟩,
      .expr (.binary .EXPR_ASSIGN (.id (.interned "___t1"))
        (.binary .EXPR_MUL (.intlit 2) (.intlit 3))),
      .expr (.binary .EXPR_ASSIGN (.id (.interned "___t0"))
        (.binary .EXPR_ADD (.intlit 1) (.id (.interned "___t1")))),
      .ret (some (.id (.interned "___t0")))])
    ⟨[], 0, 0, none, []⟩ ⟨[], 0, 2, none, []⟩ 0 rfl
    (by simp [Hygienic, Stmt.ids, Stmt.ids_list, Expr.ids]) (by rfl)⟩

/-! ## The read of the precedence table for a call argument -/

/-- C31, the code at the read.  In `parse_expr_unary_post` the ceiling of a call
argument is read at the index `TOK_EQUAL`, which is 14, from a table of six
entries: the read is outside the array and does not yield the precedence 8 of
`=`, which is the entry at the index `TOK_EQUAL - TOK_BIN_OP` = 5.  The reads of
`parse_expr_binary`, at `tok.kind - TOK_BIN_OP` for an operator token, do lie
in 0..5.  What the parser does with an argument depends on the value found
behind the table: with 8 `f(1+2)` is a call with the argument `1+2`, with 1 the
argument ends before `+` and the closing parenthesis is missed; with 8
`f(a=1)` is rejected, with 999 it is a call with the argument `a=1`. -/
theorem arg_prec_out_of_bounds :
    arg_prec_index = 14 ∧ op_precedence_table.length = 6 ∧
    op_precedence arg_prec_index = .error .undefined ∧
    op_precedence (TokKind.TOK_EQUAL.code - TOK_BIN_OP) = .ok 8 ∧
    (∀ kind : TokKind, TOK_BIN_OP ≤ kind.code → kind.code < TOK_BIN_OP_END →
      kind.code - TOK_BIN_OP < op_precedence_table.length ∧
      ∃ p, op_precedence (kind.code - TOK_BIN_OP) = .ok p) ∧
    (∀ n : Nat, parse_expr 8 (n + 12) (parser_init "f(1+2)") =
      .ok (.call (.id (.interned "f")) [.binary .EXPR_ADD (.intlit 1) (.intlit 2)], ⟨[], 1⟩)) ∧
    (∀ n : Nat, parse_expr 1 (n + 12) (parser_init "f(1+2)") = .error .assert_fail) ∧
    (∀ n : Nat, parse_expr 8 (n + 12) (parser_init "f(a=1)") = .error .assert_fail) ∧
    (∀ n : Nat, parse_expr 999 (n + 12) (parser_init "f(a=1)") =
      .ok (.call (.id (.interned "f"))
        [.binary .EXPR_ASSIGN (.id (.interned "a")) (.intlit 1)], ⟨[], 1⟩)) := by
  refine ⟨rfl, rfl, rfl, rfl, ?_, fun n => by rfl, fun n => by rfl, fun n => by rfl,
    fun n => by rfl⟩
  intro kind h1 h2
  cases kind <;> simp only [TokKind.code, TOK_BIN_OP, TOK_BIN_OP_END] at h1 h2 <;>
    first
    | omega
    | exact ⟨by decide, _, rfl⟩

/-- A run of C31 on the token `+`. -/
theorem arg_prec_out_of_bounds_witness :
    TokKind.TOK_PLUS.code - TOK_BIN_OP < op_precedence_table.length ∧
    ∃ p, op_precedence (TokKind.TOK_PLUS.code - TOK_BIN_OP) = .ok p :=
  arg_prec_out_of_bounds.2.2.2.2.1 .TOK_PLUS (by decide) (by decide)

/-! ## The operators that the code generator does not handle -/

theorem lvalue_mod_neg (tbl : List Sym) (e : Expr) (h : e.has_mod_neg = true) :
    (compile_lvalue tbl e).returns = false := by
  cases e with
  | intlit v => rfl
  | id i => simp [Expr.has_mod_neg] at h
  | call l r => rfl
  | neg l => rfl
  | binary k l r => rfl

theorem returns_bind_left {α β : Type} {x : Res α} {f : α → Res β}
    (h : x.returns = false) : (x >>= f).returns = false := by
  cases x with
  | error e => rfl
  | ok a => cases h

theorem returns_bind_right {α β : Type} {x : Res α} {f : α → Res β}
    (h : ∀ a, (f a).returns = false) : (x >>= f).returns = false := by
  cases x with
  | error e => rfl
  | ok a => exact h a

mutual
theorem compile_expr_mod_neg : ∀ (tbl : List Sym) (e : Expr), e.has_mod_neg = true →
    (compile_expr tbl e).returns = false
  | tbl, .intlit v, h => by simp [Expr.has_mod_neg] at h
  | tbl, .id i, h => by simp [Expr.has_mod_neg] at h
  | tbl, .neg l, h => by
    rw [compile_expr]
    rfl
  | tbl, .call l r, h => by
    cases l with
    | id f =>
      simp only [Expr.has_mod_neg, Bool.false_or] at h
      rw [compile_expr]
      split
      · rfl
      · split
        · rfl
        · exact returns_bind_left (compile_args_mod_neg tbl r h)
    | intlit v => rfl
    | call a b => rfl
    | neg a => rfl
    | binary k a b => rfl
  | tbl, .binary kind l r, h => by
    simp only [Expr.has_mod_neg, Bool.or_eq_true, decide_eq_true_eq] at h
    cases kind with
    | EXPR_MOD =>
      rw [compile_expr]
      rfl
    | EXPR_ASSIGN =>
      rw [compile_expr]
      rcases h with (h | h) | h
      · cases h
      · exact returns_bind_right (fun a => returns_bind_left (lvalue_mod_neg tbl l h))
      · exact returns_bind_left (compile_expr_mod_neg tbl r h)
    | EXPR_MUL =>
      rw [compile_expr]
      rcases h with (h | h) | h
      · cases h
      · exact returns_bind_right (fun a => returns_bind_left (compile_expr_mod_neg tbl l h))
      · exact returns_bind_left (compile_expr_mod_neg tbl r h)
      · intro e
        cases e
      · intro e
        cases e
    | EXPR_DIV =>
      rw [compile_expr]
      rcases h with (h | h) | h
      · cases h
      · exact returns_bind_right (fun a => returns_bind_left (compile_expr_mod_neg tbl l h))
      · exact returns_bind_left (compile_expr_mod_neg tbl r h)
      · intro e
        cases e
      · intro e
        cases e
    | EXPR_ADD =>
      rw [compile_expr]
      rcases h with (h | h) | h
      · cases h
      · exact returns_bind_right (fun a => returns_bind_left (compile_expr_mod_neg tbl l h))
      · exact returns_bind_left (compile_expr_mod_neg tbl r h)
      · intro e
        cases e
      · intro e
        cases e
    | EXPR_SUB =>
      rw [compile_expr]
      rcases h with (h | h) | h
      · cases h
      · exact returns_bind_right (fun a => returns_bind_left (compile_expr_mod_neg tbl l h))
      · exact returns_bind_left (compile_expr_mod_neg tbl r h)
      · intro e
        cases e
      · intro e
        cases e
theorem compile_args_mod_neg : ∀ (tbl : List Sym) (r : List Expr),
    Expr.has_mod_neg_list r = true → (compile_args tbl r).returns = false
  | tbl, [], h => by simp [Expr.has_mod_neg_list] at h
  | tbl, e :: next, h => by
    simp only [Expr.has_mod_neg_list, Bool.or_eq_true] at h
    rw [compile_args]
    rcases h with h | h
    · exact returns_bind_left (compile_expr_mod_neg tbl e h)
    · exact returns_bind_right (fun a => returns_bind_left (compile_args_mod_neg tbl next h))
end

mutual
theorem compile_stmt_mod_neg : ∀ (s : Stmt) (st : State), s.has_mod_neg = true →
    (compile_stmt s st).returns = false
  | .decl d, st, h => by simp [Stmt.has_mod_neg] at h
  | .expr e, st, h => by
    rw [compile_stmt]
    exact returns_bind_left (compile_expr_mod_neg _ e (by simpa only [Stmt.has_mod_neg] using h))
  | .block b, st, h => by
    rw [compile_stmt]
    exact returns_bind_left
      (compile_stmts_mod_neg b st (by simpa only [Stmt.has_mod_neg] using h))
  | .block_unset, st, h => by simp [Stmt.has_mod_neg] at h
  | .ret none, st, h => by simp [Stmt.has_mod_neg] at h
  | .ret (some e), st, h => by
    rw [compile_stmt]
    exact returns_bind_left (compile_expr_mod_neg _ e (by simpa only [Stmt.has_mod_neg] using h))
  | .ret_unset, st, h => by simp [Stmt.has_mod_neg] at h
theorem compile_stmts_mod_neg : ∀ (b : List Stmt) (st : State),
    Stmt.has_mod_neg_list b = true → (compile_stmts b st).returns = false
  | [], st, h => by simp [Stmt.has_mod_neg_list] at h
  | s :: next, st, h => by
    simp only [Stmt.has_mod_neg_list, Bool.or_eq_true] at h
    rw [compile_stmts]
    rcases h with h | h
    · exact returns_bind_left (compile_stmt_mod_neg s st h)
    · exact returns_bind_right (fun st1 => compile_stmts_mod_neg next st1 h)
end

theorem compile_glob_mod_neg (d : GlobDecl) (st : State) (h : d.has_mod_neg = true) :
    (compile_glob_decl d st).returns = false := by
  cases d with
  | var id type => simp [GlobDecl.has_mod_neg] at h
  | func id type body =>
    cases body with
    | none => simp [GlobDecl.has_mod_neg] at h
    | some body =>
      simp only [compile_glob_decl]
      exact returns_bind_left (compile_stmt_mod_neg body _ h)

theorem compile_globs_mod_neg : ∀ (unit : List GlobDecl) (st : State),
    (∃ d ∈ unit, d.has_mod_neg = true) → (compile_globs unit st).returns = false
  | [], st, h => by simp at h
  | d :: next, st, h => by
    rw [compile_globs]
    obtain ⟨x, hx, hd⟩ := h
    rcases List.mem_cons.1 hx with rfl | hx
    · exact returns_bind_left (compile_glob_mod_neg x st hd)
    · exact returns_bind_right (fun st1 => compile_globs_mod_neg next st1 ⟨x, hx, hd⟩)

theorem mod_parse (arg_prec : Int) (curr_param_null : Nat → Bool) (n : Nat) :
    parse_unit arg_prec curr_param_null (n + 12)
        (parser_init "int main() \x7b return 7 % 2; \x7d") =
      .ok ([.func (.interned "main") (.func .int [])
        (some (.block [.ret (some (.binary .EXPR_MOD (.intlit 7) (.intlit 2)))]))],
        ⟨[], 1⟩) := by
  rfl

theorem neg_parse (arg_prec : Int) (curr_param_null : Nat → Bool) (n : Nat) :
    parse_unit arg_prec curr_param_null (n + 11)
        (parser_init "int main() \x7b return -7; \x7d") =
      .ok ([.func (.interned "main") (.func .int [])
        (some (.block [.ret (some (.neg (.intlit 7)))]))], ⟨[], 1⟩) := by
  rfl

theorem mod_check :
    check_unit [.func (.interned "main") (.func .int [])
        (some (.block [.ret (some (.binary .EXPR_MOD (.intlit 7) (.intlit 2)))]))]
        State.init =
      .ok (0, ⟨[⟨.literal "putchar", .int, 0, 0⟩, ⟨.interned "main", .func .int [], 1, 0⟩],
        -4, 0, none, []⟩) :=
  check_eq (by decide!)

theorem neg_check :
    check_unit [.func (.interned "main") (.func .int [])
        (some (.block [.ret (some (.neg (.intlit 7)))]))] State.init =
      .ok (0, ⟨[⟨.literal "putchar", .int, 0, 0⟩, ⟨.interned "main", .func .int [], 1, 0⟩],
        -4, 0, none, []⟩) :=
  check_eq (by decide!)

theorem mod_irc :
    unit_to_irc [.func (.interned "main") (.func .int [])
        (some (.block [.ret (some (.binary .EXPR_MOD (.intlit 7) (.intlit 2)))]))]
        ⟨[⟨.literal "putchar", .int, 0, 0⟩, ⟨.interned "main", .func .int [], 1, 0⟩],
          -4, 0, none, []⟩ =
      .ok ([.func (.interned "main") (.func .int [])
        (some (.block [.decl ⟨.char, .interned "___t0"⟩,
          .expr (.binary .EXPR_ASSIGN (.id (.interned "___t0"))
            (.binary .EXPR_MOD (.intlit 7) (.intlit 2))),
          .ret (some (.id (.interned "___t0")))]))],
        ⟨[⟨.interned "main", .func .int [], 1, 0⟩], -4, 1, none, []⟩) :=
  irc_eq (by decide!)

theorem neg_irc :
    unit_to_irc [.func (.interned "main") (.func .int [])
        (some (.block [.ret (some (.neg (.intlit 7)))]))]
        ⟨[⟨.literal "putchar", .int, 0, 0⟩, ⟨.interned "main", .func .int [], 1, 0⟩],
          -4, 0, none, []⟩ =
      .ok ([.func (.interned "main") (.func .int [])
        (some (.block [.decl ⟨.char, .interned "___t0"⟩,
          .expr (.binary .EXPR_ASSIGN (.id (.interned "___t0")) (.neg (.intlit 7))),
          .ret (some (.id (.interned "___t0")))]))],
        ⟨[⟨.interned "main", .func .int [], 1, 0⟩], -4, 1, none, []⟩) :=
  irc_eq (by decide!)

theorem mod_compile :
    compile_unit [.func (.interned "main") (.func .int [])
        (some (.block [.decl ⟨.char, .interned "___t0"⟩,
          .expr (.binary .EXPR_ASSIGN (.id (.interned "___t0"))
            (.binary .EXPR_MOD (.intlit 7) (.intlit 2))),
          .ret (some (.id (.interned "___t0")))]))]
        ⟨[⟨.interned "main", .func .int [], 1, 0⟩], -4, 1, none, []⟩ =
      .error (.fatal "Invalid expression") :=
  state_eq (by decide!)

theorem neg_compile :
    compile_unit [.func (.interned "main") (.func .int [])
        (some (.block [.decl ⟨.char, .interned "___t0"⟩,
          .expr (.binary .EXPR_ASSIGN (.id (.interned "___t0")) (.neg (.intlit 7))),
          .ret (some (.id (.interned "___t0")))]))]
        ⟨[⟨.interned "main", .func .int [], 1, 0⟩], -4, 1, none, []⟩ =
      .error (.fatal "Invalid expression") :=
  state_eq (by decide!)

theorem mod_pipeline (arg_prec : Int) (curr_param_null : Nat → Bool) (n : Nat) :
    pipeline arg_prec curr_param_null (n + 12) "int main() \x7b return 7 % 2; \x7d" =
      .error (.fatal "Invalid expression") := by
  unfold pipeline
  rw [mod_parse]
  simp only [bind, Except.bind]
  rw [mod_check]
  simp only []
  rw [mod_irc]
  simp only []
  exact mod_compile

theorem neg_pipeline (arg_prec : Int) (curr_param_null : Nat → Bool) (n : Nat) :
    pipeline arg_prec curr_param_null (n + 11) "int main() \x7b return -7; \x7d" =
      .error (.fatal "Invalid expression") := by
  unfold pipeline
  rw [neg_parse]
  simp only [bind, Except.bind]
  rw [neg_check]
  simp only []
  rw [neg_irc]
  simp only []
  exact neg_compile

/-- C32. The code generator rejects the two operators: for every expression
whose root is of kind `EXPR_MOD` or `EXPR_NEG`, in every symbol table,
`compile_expr` stops with the fatal error "Invalid expression"; and
`compile_unit` does not return on a unit in which the body of a function has an
expression with such a node.  The earlier passes accept both operators: on
`int main() { return 7 % 2; }` and on `int main() { return -7; }` the parser,
the semantic check and the lowering return, and the run stops in
`compile_unit` with that fatal error. -/
theorem compile_mod_neg_fatal :
    (∀ (tbl : List Sym) (l r : Expr),
      compile_expr tbl (.binary .EXPR_MOD l r) = .error (.fatal "Invalid expression")) ∧
    (∀ (tbl : List Sym) (l : Expr),
      compile_expr tbl (.neg l) = .error (.fatal "Invalid expression")) ∧
    (∀ (unit : List GlobDecl) (st : State), (∃ d ∈ unit, d.has_mod_neg = true) →
      (compile_unit unit st).returns = false) ∧
    (∀ (arg_prec : Int) (curr_param_null : Nat → Bool) (n : Nat),
      parse_unit arg_prec curr_param_null (n + 12)
          (parser_init "int main() \x7b return 7 % 2; \x7d") =
        .ok ([.func (.interned "main") (.func .int [])
          (some (.block [.ret (some (.binary .EXPR_MOD (.intlit 7) (.intlit 2)))]))],
          ⟨[], 1⟩) ∧
      pipeline arg_prec curr_param_null (n + 12) "int main() \x7b return 7 % 2; \x7d" =
        .error (.fatal "Invalid expression") ∧
      parse_unit arg_prec curr_param_null (n + 11)
          (parser_init "int main() \x7b return -7; \x7d") =
        .ok ([.func (.interned "main") (.func .int [])
          (some (.block [.ret (some (.neg (.intlit 7)))]))], ⟨[], 1⟩) ∧
      pipeline arg_prec curr_param_null (n + 11) "int main() \x7b return -7; \x7d" =
        .error (.fatal "Invalid expression")) ∧
    (∃ st, unit_to_irc [.func (.interned "main") (.func .int [])
        (some (.block [.ret (some (.binary .EXPR_MOD (.intlit 7) (.intlit 2)))]))]
        ⟨[⟨.literal "putchar", .int, 0, 0⟩, ⟨.interned "main", .func .int [], 1, 0⟩],
          -4, 0, none, []⟩ =
      .ok ([.func (.interned "main") (.func .int [])
        (some (.block [.decl ⟨.char, .interned "___t0"⟩,
          .expr (.binary .EXPR_ASSIGN (.id (.interned "___t0"))
            (.binary .EXPR_MOD (.intlit 7) (.intlit 2))),
          .ret (some (.id (.interned "___t0")))]))], st)) ∧
    (∃ st, unit_to_irc [.func (.interned "main") (.func .int [])
        (some (.block [.ret (some (.neg (.intlit 7)))]))]
        ⟨[⟨.literal "putchar", .int, 0, 0⟩, ⟨.interned "main", .func .int [], 1, 0⟩],
          -4, 0, none, []⟩ =
      .ok ([.func (.interned "main") (.func .int [])
        (some (.block [.decl ⟨.char, .interned "___t0"⟩,
          .expr (.binary .EXPR_ASSIGN (.id (.interned "___t0")) (.neg (.intlit 7))),
          .ret (some (.id (.interned "___t0")))]))], st)) := by
  refine ⟨fun tbl l r => ?_, fun tbl l => ?_, fun unit st h => ?_,
    fun arg_prec curr_param_null n => ⟨mod_parse _ _ _, mod_pipeline _ _ _, neg_parse _ _ _,
      neg_pipeline _ _ _⟩, ⟨_, mod_irc⟩, ⟨_, neg_irc⟩⟩
  · rw [compile_expr]
  · rw [compile_expr]
  · exact compile_globs_mod_neg unit _ h

/-- A run of C32 on the unit of `main` with the body `return -7;`. -/
theorem compile_mod_neg_fatal_witness :
    (compile_unit [.func (.interned "main") (.func .int [])
      (some (.block [.ret (some (.neg (.intlit 7)))]))] State.init).returns = false :=
  compile_mod_neg_fatal.2.2.1 _ State.init ⟨_, List.mem_singleton.2 rfl, by rfl⟩

/-! ## A function that calls itself -/

theorem compile_call_unknown (tbl : List Sym) (f : Ident) (args : List Expr)
    (h : sym_get f tbl = none) :
    compile_expr tbl (.call (.id f) args) = .error (.fatal ("Invalid symbol " ++ f.str)) := by
  rw [compile_expr]
  simp only [h]

theorem compile_call_stmt {f : Ident} {s : Stmt} (hs : CallStmt f s) (st : State)
    (h : sym_get f st.sym_table = none) :
    compile_stmt s st = .error (.fatal ("Invalid symbol " ++ f.str)) := by
  obtain ⟨args, rfl | ⟨t, rfl⟩ | rfl⟩ := hs
  · rw [compile_stmt, compile_call_unknown _ f args h]
    rfl
  · rw [compile_stmt, compile_expr, compile_call_unknown _ f args h]
    rfl
  · rw [compile_stmt, compile_call_unknown _ f args h]
    rfl

theorem compile_stmts_append (a b : List Stmt) (st : State) :
    compile_stmts (a ++ b) st = compile_stmts a st >>= compile_stmts b := by
  induction a generalizing st with
  | nil =>
    rw [List.nil_append, compile_stmts]
    rfl
  | cons x rest ih =>
    rw [List.cons_append, compile_stmts, compile_stmts]
    cases compile_stmt x st with
    | error e => rfl
    | ok st1 => exact ih st1

theorem compile_globs_append (a b : List GlobDecl) (st : State) :
    compile_globs (a ++ b) st = compile_globs a st >>= compile_globs b := by
  induction a generalizing st with
  | nil =>
    rw [List.nil_append, compile_globs]
    rfl
  | cons x rest ih =>
    rw [List.cons_append, compile_globs, compile_globs]
    cases compile_glob_decl x st with
    | error e => rfl
    | ok st1 => exact ih st1

theorem compile_block_table {block : List Stmt} {st st1 : State}
    (h : compile_stmt (.block block) st = .ok st1) : st1.sym_table = st.sym_table := by
  rw [compile_stmt] at h
  obtain ⟨st2, h1, k1⟩ := bind_ok.1 h
  cases k1
  obtain ⟨ext, he⟩ := compile_stmts_syms block st st2 h1
  simp [he, State.sym_table_count]

/-- The symbols that the statements of a block leave in the table are those of
the declarations at the top level of the block. -/
theorem compile_stmts_decl_ids : ∀ (stmts : List Stmt) (st st1 : State),
    compile_stmts stmts st = .ok st1 →
    ∃ ext, st1.sym_table = st.sym_table ++ ext ∧
      ∀ sym ∈ ext, ∃ d, Stmt.decl d ∈ stmts ∧ sym.id = d.id
  | [], st, st1, h => by
    rw [compile_stmts] at h
    cases h
    exact ⟨[], by simp, by simp⟩
  | s :: next, st, st1, h => by
    rw [compile_stmts] at h
    obtain ⟨st2, h1, k1⟩ := bind_ok.1 h
    obtain ⟨e2, he2, hd2⟩ := compile_stmts_decl_ids next st2 st1 k1
    have hfirst : ∃ e1, st2.sym_table = st.sym_table ++ e1 ∧
        ∀ sym ∈ e1, ∃ d, Stmt.decl d ∈ s :: next ∧ sym.id = d.id := by
      cases s with
      | decl d =>
        rw [compile_stmt] at h1
        obtain ⟨size, _, _, rfl⟩ := compile_decl_ok h1
        exact ⟨_, rfl, by simp⟩
      | expr e =>
        rw [compile_stmt] at h1
        obtain ⟨text, _, k⟩ := bind_ok.1 h1
        cases k
        exact ⟨[], by simp [emit], by simp⟩
      | block b =>
        exact ⟨[], by simp [compile_block_table h1], by simp⟩
      | block_unset =>
        rw [compile_stmt] at h1
        cases h1
      | ret e =>
        cases e with
        | none =>
          rw [compile_stmt] at h1
          cases h1
          exact ⟨[], by simp [emit], by simp⟩
        | some e =>
          rw [compile_stmt] at h1
          obtain ⟨text, _, k⟩ := bind_ok.1 h1
          cases k
          exact ⟨[], by simp [emit], by simp⟩
      | ret_unset =>
        rw [compile_stmt] at h1
        cases h1
    obtain ⟨e1, he1, hd1⟩ := hfirst
    refine ⟨e1 ++ e2, by rw [he2, he1, List.append_assoc], ?_⟩
    intro sym hm
    rcases List.mem_append.1 hm with hm | hm
    · exact hd1 sym hm
    · obtain ⟨d, hd, e⟩ := hd2 sym hm
      exact ⟨d, List.mem_cons_of_mem _ hd, e⟩

/-- The symbols that the declarations of a unit leave in the table are those of
the declarations, when the bodies are blocks. -/
theorem compile_globs_names : ∀ (unit : List GlobDecl) (st st1 : State),
    (∀ d ∈ unit, d.block_body = true) → compile_globs unit st = .ok st1 →
    ∃ ext, st1.sym_table = st.sym_table ++ ext ∧ ∀ sym ∈ ext, ∃ d ∈ unit, sym.id = d.name
  | [], st, st1, hb, h => by
    rw [compile_globs] at h
    cases h
    exact ⟨[], by simp, by simp⟩
  | g :: next, st, st1, hb, h => by
    rw [compile_globs] at h
    obtain ⟨st2, h1, k1⟩ := bind_ok.1 h
    obtain ⟨e2, he2, hd2⟩ := compile_globs_names next st2 st1
      (fun d hd => hb d (List.mem_cons_of_mem _ hd)) k1
    have hfirst : ∃ sym, st2.sym_table = st.sym_table ++ [sym] ∧ sym.id = g.name := by
      cases g with
      | var id type =>
        simp only [compile_glob_decl] at h1
        split at h1
        · cases h1
        · obtain ⟨rfl, _⟩ := sym_add_ok h1
          exact ⟨⟨id, type, 1, 0⟩, by simp [emit], rfl⟩
      | func id type body =>
        cases body with
        | none =>
          simp only [compile_glob_decl] at h1
          obtain ⟨rfl, _⟩ := sym_add_ok h1
          exact ⟨⟨id, type, 1, 0⟩, rfl, rfl⟩
        | some body =>
          have hblock := hb _ (List.mem_cons_self _ _)
          cases body with
          | block b =>
            simp only [compile_glob_decl] at h1
            obtain ⟨st3, h3, k3⟩ := bind_ok.1 h1
            obtain ⟨rfl, _⟩ := sym_add_ok k3
            have := compile_block_table h3
            exact ⟨⟨id, type, 1, 0⟩, by simp [emit, this, func_entry], rfl⟩
          | decl d => cases hblock
          | expr e => cases hblock
          | block_unset => cases hblock
          | ret e => cases hblock
          | ret_unset => cases hblock
    obtain ⟨sym1, hfirst, hname⟩ := hfirst
    refine ⟨sym1 :: e2, by rw [he2, hfirst]; simp, ?_⟩
    intro sym hm
    rcases List.mem_cons.1 hm with rfl | hm
    · exact ⟨g, List.mem_cons_self _ _, hname⟩
    · obtain ⟨d, hd, e⟩ := hd2 sym hm
      exact ⟨d, List.mem_cons_of_mem _ hd, e⟩

theorem sym_get_append_none {id : Ident} {a b : List Sym} (ha : sym_get id a = none)
    (hb : ∀ s ∈ b, s.id ≠ id) : sym_get id (a ++ b) = none := by
  rw [sym_get_none] at ha ⊢
  intro s hs
  rcases List.mem_append.1 hs with h | h
  · exact ha s h
  · exact hb s h

theorem self_call_parse (arg_prec : Int) (curr_param_null : Nat → Bool) (n : Nat) :
    parse_unit arg_prec curr_param_null (n + 10) (parser_init "int f() \x7b f(); \x7d") =
      .ok ([.func (.interned "f") (.func .int [])
        (some (.block [.expr (.call (.id (.interned "f")) [])]))], ⟨[], 1⟩) := by
  rfl

theorem self_call_check :
    check_unit [.func (.interned "f") (.func .int [])
        (some (.block [.expr (.call (.id (.interned "f")) [])]))] State.init =
      .ok (1, ⟨[⟨.literal "putchar", .int, 0, 0⟩, ⟨.interned "f", .func .int [], 1, 0⟩],
        -4, 0, none, []⟩) :=
  check_eq (by decide!)

theorem self_call_irc :
    unit_to_irc [.func (.interned "f") (.func .int [])
        (some (.block [.expr (.call (.id (.interned "f")) [])]))]
        ⟨[⟨.literal "putchar", .int, 0, 0⟩, ⟨.interned "f", .func .int [], 1, 0⟩],
          -4, 0, none, []⟩ =
      .ok ([.func (.interned "f") (.func .int [])
          (some (.block [.expr (.call (.id (.interned "f")) [])]))],
        ⟨[⟨.interned "f", .func .int [], 1, 0⟩], -4, 0, none, []⟩) :=
  irc_eq (by decide!)

theorem self_call_compile :
    compile_unit [.func (.interned "f") (.func .int [])
        (some (.block [.expr (.call (.id (.interned "f")) [])]))]
        ⟨[⟨.interned "f", .func .int [], 1, 0⟩], -4, 0, none, []⟩ =
      .error (.fatal "Invalid symbol f") :=
  state_eq (by decide!)

/-- C33. Direct recursion cannot be compiled.  `compile_expr` on a call of `f`
stops with the fatal error "Invalid symbol f" when `sym_get` does not find `f`.
`compile_glob_decl` adds the symbol of a function only after the body, so on a
unit in which no declaration before the function `f` has the name `f`, when
the declarations before `f` and the statements of the body before the call
compile and those statements declare no local `f`, `compile_unit` stops with
that fatal error at a call of `f` at the top level of the body of `f`.  On
`int f() { f(); }` the parser, the semantic check and the lowering return and
`compile_unit` stops with "Invalid symbol f". -/
theorem compile_recursion_fatal :
    (∀ (tbl : List Sym) (f : Ident) (args : List Expr), sym_get f tbl = none →
      compile_expr tbl (.call (.id f) args) = .error (.fatal ("Invalid symbol " ++ f.str))) ∧
    (∀ (pre post : List GlobDecl) (f : Ident) (type : CType) (before after : List Stmt)
        (s : Stmt) (st st1 st2 : State),
      (∀ d ∈ pre, d.name ≠ f ∧ d.block_body = true) →
      compile_globs pre (emit entry_stub (sym_reset st)) = .ok st1 →
      (∀ d, Stmt.decl d ∈ before → d.id ≠ f) →
      compile_stmts before (func_entry f st1) = .ok st2 →
      CallStmt f s →
      compile_unit (pre ++ .func f type (some (.block (before ++ s :: after))) :: post) st =
        .error (.fatal ("Invalid symbol " ++ f.str))) ∧
    (∀ (arg_prec : Int) (curr_param_null : Nat → Bool) (n : Nat),
      parse_unit arg_prec curr_param_null (n + 10) (parser_init "int f() \x7b f(); \x7d") =
        .ok ([.func (.interned "f") (.func .int [])
          (some (.block [.expr (.call (.id (.interned "f")) [])]))], ⟨[], 1⟩) ∧
      pipeline arg_prec curr_param_null (n + 10) "int f() \x7b f(); \x7d" =
        .error (.fatal "Invalid symbol f")) ∧
    unit_to_irc [.func (.interned "f") (.func .int [])
        (some (.block [.expr (.call (.id (.interned "f")) [])]))]
        ⟨[⟨.literal "putchar", .int, 0, 0⟩, ⟨.interned "f", .func .int [], 1, 0⟩],
          -4, 0, none, []⟩ =
      .ok ([.func (.interned "f") (.func .int [])
          (some (.block [.expr (.call (.id (.interned "f")) [])]))],
        ⟨[⟨.interned "f", .func .int [], 1, 0⟩], -4, 0, none, []⟩) := by
  refine ⟨compile_call_unknown, ?_, ?_, self_call_irc⟩
  · intro pre post f type before after s st st1 st2 hpre h1 hbefore h2 hs
    obtain ⟨e1, he1, hn1⟩ := compile_globs_names pre _ st1 (fun d hd => (hpre d hd).2) h1
    obtain ⟨e2, he2, hn2⟩ := compile_stmts_decl_ids before _ st2 h2
    have hf1 : sym_get f st1.sym_table = none := by
      rw [he1]
      refine sym_get_append_none (by simp [emit, sym_reset, sym_get]) ?_
      intro sym hm
      obtain ⟨d, hd, e⟩ := hn1 sym hm
      rw [e]
      exact (hpre d hd).1
    have hf2 : sym_get f st2.sym_table = none := by
      rw [he2]
      refine sym_get_append_none (by simpa [func_entry, emit] using hf1) ?_
      intro sym hm
      obtain ⟨d, hd, e⟩ := hn2 sym hm
      rw [e]
      exact hbefore d hd
    unfold compile_unit
    rw [compile_globs_append, h1]
    simp only [bind, Except.bind]
    rw [compile_globs]
    simp only [compile_glob_decl]
    rw [compile_stmt, compile_stmts_append, h2]
    simp only [bind, Except.bind]
    rw [compile_stmts, compile_call_stmt hs st2 hf2]
    rfl
  · intro arg_prec curr_param_null n
    refine ⟨self_call_parse _ _ _, ?_⟩
    unfold pipeline
    rw [self_call_parse]
    simp only [bind, Except.bind]
    rw [self_call_check]
    simp only []
    rw [self_call_irc]
    simp only []
    exact self_call_compile

/-- A run of C33 on the unit of `int f() { f(); }`. -/
theorem compile_recursion_fatal_witness :
    compile_unit [.func (.interned "f") (.func .int [])
        (some (.block [.expr (.call (.id (.interned "f")) [])]))] State.init =
      .error (.fatal "Invalid symbol f") :=
  compile_recursion_fatal.2.1 [] [] (.interned "f") (.func .int []) [] []
    (.expr (.call (.id (.interned "f")) [])) State.init
    (emit entry_stub (sym_reset State.init))
    (func_entry (.interned "f") (emit entry_stub (sym_reset State.init)))
    (by simp) (by rfl) (by simp) (by rfl) ⟨[], Or.inl rfl⟩

/-! ## The symbol table during the semantic check -/

theorem check_glob_decl_appends {decl : GlobDecl} {st st1 : State} {r : Int}
    (h : check_glob_decl decl st = .ok (r, st1)) :
    ∃ added, st1.sym_table = st.sym_table ++ added := by
  cases decl with
  | var id type =>
    simp only [check_glob_decl] at h
    split at h
    · cases h
    · obtain ⟨st2, h1, k1⟩ := bind_ok.1 h
      cases k1
      obtain ⟨rfl, _⟩ := sym_add_ok h1
      exact ⟨_, rfl⟩
  | func id type body =>
    simp only [check_glob_decl] at h
    split at h
    · cases h
    · obtain ⟨st2, h1, k1⟩ := bind_ok.1 h
      obtain ⟨rfl, _⟩ := sym_add_ok h1
      cases body with
      | none => cases k1
      | some body =>
        simp only at k1
        obtain ⟨added, e⟩ := check_stmt_appends body _ r st1 k1
        exact ⟨⟨id, type, 1, 0⟩ :: added, by rw [e]; simp⟩

theorem check_globs_zero : ∀ (curr : List GlobDecl) (st : State),
    check_globs curr 0 st = .ok (0, st)
  | [], st => by rw [check_globs]
  | d :: next, st => by
    rw [check_globs]
    simp only [if_true]
    exact check_globs_zero next st

theorem check_globs_appends : ∀ (curr : List GlobDecl) (res : Int) (st st1 : State) (r : Int),
    check_globs curr res st = .ok (r, st1) → ∃ added, st1.sym_table = st.sym_table ++ added
  | [], res, st, st1, r, h => by
    rw [check_globs] at h
    cases h
    exact ⟨[], by simp⟩
  | d :: next, res, st, st1, r, h => by
    rw [check_globs] at h
    split at h
    · exact check_globs_appends next 0 st st1 r h
    · obtain ⟨⟨r1, st2⟩, h1, k1⟩ := bind_ok.1 h
      obtain ⟨a1, e1⟩ := check_glob_decl_appends h1
      obtain ⟨a2, e2⟩ := check_globs_appends next _ st2 st1 r k1
      exact ⟨a1 ++ a2, by rw [e2, e1, List.append_assoc]⟩

theorem check_globs_append : ∀ (a b : List GlobDecl) (res : Int) (st : State),
    check_globs (a ++ b) res st =
      check_globs a res st >>= fun p => check_globs b p.1 p.2
  | [], b, res, st => by
    rw [List.nil_append, check_globs]
    rfl
  | d :: next, b, res, st => by
    rw [List.cons_append, check_globs, check_globs]
    split
    · exact check_globs_append next b 0 st
    · cases check_glob_decl d st with
      | error e => rfl
      | ok p => exact check_globs_append next b _ p.2

/-- The first statement of a checked block, when it is a declaration, leaves
its symbol in the table. -/
theorem check_block_first_decl {d : Decl} {rest : List Stmt} {st st1 : State} {r : Int}
    (h : check_stmt (.block (.decl d :: rest)) st = .ok (r, st1)) :
    ∃ sym ∈ st1.sym_table, sym.id = d.id := by
  rw [check_stmt, check_stmts] at h
  simp only [one_ne_zero, if_false] at h
  obtain ⟨⟨r1, st2⟩, h1, k1⟩ := bind_ok.1 h
  obtain ⟨a2, e2⟩ := check_stmts_appends rest _ st2 r st1 k1
  cases hs : sym_get d.id st.sym_table with
  | some sym => rw [check_decl_found hs] at h1; cases h1
  | none =>
    rcases check_decl_new hs with k | ⟨size, _, _, _, _, k⟩
    · rw [k] at h1; cases h1
    · rw [k] at h1
      cases h1
      exact ⟨⟨d.id, d.type, 0, st.func_var_offset⟩, by rw [e2]; simp, rfl⟩

/-- When the loop of `check_unit` ends with a result other than 0, every
declaration was checked: a function whose body starts with a declaration has
left the symbol of that declaration in the table. -/
theorem check_globs_declares : ∀ (pre : List GlobDecl) (res : Int) (st st1 : State) (r : Int),
    check_globs pre res st = .ok (r, st1) → r ≠ 0 →
    ∀ fid ftype d rest, GlobDecl.func fid ftype (some (.block (.decl d :: rest))) ∈ pre →
      ∃ sym ∈ st1.sym_table, sym.id = d.id
  | [], res, st, st1, r, h, hr, fid, ftype, d, rest, hm => by simp at hm
  | g :: next, res, st, st1, r, h, hr, fid, ftype, d, rest, hm => by
    rw [check_globs] at h
    split at h
    · rw [check_globs_zero] at h
      cases h
      exact absurd rfl hr
    · obtain ⟨⟨r1, st2⟩, h1, k1⟩ := bind_ok.1 h
      simp only at k1
      by_cases hr1 : r1 = 0
      · rw [if_pos hr1, check_globs_zero] at k1
        cases k1
        exact absurd rfl hr
      · rcases List.mem_cons.1 hm with e | hm
        · subst e
          simp only [check_glob_decl] at h1
          split at h1
          · cases h1
          · obtain ⟨st3, h3, k3⟩ := bind_ok.1 h1
            obtain ⟨sym, hs, hid⟩ := check_block_first_decl k3
            obtain ⟨a2, e2⟩ := check_globs_appends next _ st2 st1 r k1
            exact ⟨sym, by rw [e2]; exact List.mem_append_left _ hs, hid⟩
        · exact check_globs_declares next _ st2 st1 r k1 hr fid ftype d rest hm

theorem sym_get_of_mem {id : Ident} {tbl : List Sym} (h : ∃ sym ∈ tbl, sym.id = id) :
    ∃ sym, sym_get id tbl = some sym := by
  cases hs : sym_get id tbl with
  | some sym => exact ⟨sym, rfl⟩
  | none =>
    obtain ⟨sym, hm, e⟩ := h
    exact absurd e ((sym_get_none id tbl).1 hs sym hm)

theorem skip_stmt1 (ap : Int) (n : Nat) :
    parse_stmt ap (n + 8) ⟨" int a; return 0; \x7d int g() \x7b int a; \x7d".data, 1⟩ =
      .ok (.decl ⟨.int, .interned "a"⟩, ⟨" return 0; \x7d int g() \x7b int a; \x7d".data, 1⟩) := by
  rfl

theorem skip_stmt2 (ap : Int) (n : Nat) :
    parse_stmt ap (n + 7) ⟨" return 0; \x7d int g() \x7b int a; \x7d".data, 1⟩ =
      .ok (.ret (some (.intlit 0)), ⟨" \x7d int g() \x7b int a; \x7d".data, 1⟩) := by
  rfl

theorem skip_body1 (ap : Int) (n : Nat) :
    parse_stmt_block ap (n + 10)
        ⟨" \x7b int a; return 0; \x7d int g() \x7b int a; \x7d".data, 1⟩ =
      .ok (.block [.decl ⟨.int, .interned "a"⟩, .ret (some (.intlit 0))],
        ⟨" int g() \x7b int a; \x7d".data, 1⟩) :=
  parse_stmt_block_of (by rfl) (by rfl) (by decide)
    (parse_block_cons (skip_stmt1 ap n) (by rfl) (by decide)
      (parse_block_last (skip_stmt2 ap n) (by rfl) (by decide))) (by rfl)

theorem skip_head1 (ap : Int) (null : Bool) (n : Nat) :
    parse_glob_decl ap null (n + 10)
        (parser_init "int f() \x7b int a; return 0; \x7d int g() \x7b int a; \x7d") =
      glob_decl_body ap (n + 10) (.interned "f") (.func .int [])
        ⟨" \x7b int a; return 0; \x7d int g() \x7b int a; \x7d".data, 1⟩ :=
  parse_glob_decl_func (by rfl) (by rfl) (by rfl) (by rfl) (by rfl) (by decide) (by rfl)
    (by rfl) (by rfl)

theorem skip_stmt3 (ap : Int) (n : Nat) :
    parse_stmt ap (n + 7) ⟨" int a; \x7d".data, 1⟩ =
      .ok (.decl ⟨.int, .interned "a"⟩, ⟨" \x7d".data, 1⟩) := by
  rfl

theorem skip_body2 (ap : Int) (n : Nat) :
    parse_stmt_block ap (n + 9) ⟨" \x7b int a; \x7d".data, 1⟩ =
      .ok (.block [.decl ⟨.int, .interned "a"⟩], ⟨[], 1⟩) :=
  parse_stmt_block_of (by rfl) (by rfl) (by decide)
    (parse_block_last (skip_stmt3 ap n) (by rfl) (by decide)) (by rfl)

theorem skip_head2 (ap : Int) (null : Bool) (n : Nat) :
    parse_glob_decl ap null (n + 9) ⟨" int g() \x7b int a; \x7d".data, 1⟩ =
      glob_decl_body ap (n + 9) (.interned "g") (.func .int [])
        ⟨" \x7b int a; \x7d".data, 1⟩ :=
  parse_glob_decl_func (by rfl) (by rfl) (by rfl) (by rfl) (by rfl) (by decide) (by rfl)
    (by rfl) (by rfl)

theorem skip_parse (arg_prec : Int) (curr_param_null : Nat → Bool) (n : Nat) :
    parse_unit arg_prec curr_param_null (n + 11)
        (parser_init "int f() \x7b int a; return 0; \x7d int g() \x7b int a; \x7d") =
      .ok ([.func (.interned "f") (.func .int [])
          (some (.block [.decl ⟨.int, .interned "a"⟩, .ret (some (.intlit 0))])),
        .func (.interned "g") (.func .int []) (some (.block [.decl ⟨.int, .interned "a"⟩]))],
        ⟨[], 1⟩) :=
  parse_globs_cons (by rfl) (by decide)
    ((skip_head1 arg_prec _ n).trans
      (glob_decl_body_block (by rfl) (by decide) (skip_body1 arg_prec n)))
    (parse_globs_cons (by rfl) (by decide)
      ((skip_head2 arg_prec _ n).trans
        (glob_decl_body_block (by rfl) (by decide) (skip_body2 arg_prec n)))
      (parse_globs_end (by rfl) (by decide)))

/-! ## An atom as an expression statement -/

theorem store_atom_assert (e : Expr) (st : State) (h : expr_is_atom e = true) :
    store_expr_temp_var e true st = .error .assert_fail := by
  cases e with
  | intlit v => rfl
  | id i => rfl
  | call l r => cases h
  | neg l => cases h
  | binary k l r => cases h

theorem stmts_to_irc_error {pre post : List Stmt} {s : Stmt} :
    ∀ (st : State), (∀ st1, (stmt_to_irc s st1).returns = false) →
      (stmts_to_irc (pre ++ s :: post) st).returns = false := by
  induction pre with
  | nil =>
    intro st hs
    rw [List.nil_append, stmts_to_irc]
    have := hs st
    cases h1 : stmt_to_irc s st with
    | error e => rfl
    | ok st1 => rw [h1] at this; cases this
  | cons x rest ih =>
    intro st hs
    rw [List.cons_append, stmts_to_irc]
    cases h1 : stmt_to_irc x st with
    | error e => rfl
    | ok st1 => exact ih st1 hs

/-- C35. Lowering fails on an atomic expression statement: for an expression
statement whose expression is an integer literal or an identifier,
`stmt_to_irc` calls `store_expr_temp_var` with `first` set, which reaches
`assert(0)` in every state; so `block_to_irc` does not return on a block that
has such a statement at its top level, and the run on `int main() { 5; }` stops
at the failed assertion after the parser and the semantic check returned. -/
theorem stmt_to_irc_atom_assert :
    (∀ (e : Expr) (st : State), expr_is_atom e = true →
      store_expr_temp_var e true st = .error .assert_fail ∧
      stmt_to_irc (.expr e) st = .error .assert_fail) ∧
    (∀ (e : Expr) (pre post : List Stmt) (st : State), expr_is_atom e = true →
      (block_to_irc (.block (pre ++ .expr e :: post)) st).returns = false) ∧
    (∀ (arg_prec : Int) (curr_param_null : Nat → Bool) (n : Nat),
      parse_unit arg_prec curr_param_null (n + 10) (parser_init "int main() \x7b 5; \x7d") =
        .ok ([.func (.interned "main") (.func .int []) (some (.block [.expr (.intlit 5)]))],
          ⟨[], 1⟩) ∧
      check_unit [.func (.interned "main") (.func .int []) (some (.block [.expr (.intlit 5)]))]
          State.init =
        .ok (1, ⟨[⟨.literal "putchar", .int, 0, 0⟩, ⟨.interned "main", .func .int [], 1, 0⟩],
          -4, 0, none, []⟩) ∧
      pipeline arg_prec curr_param_null (n + 10) "int main() \x7b 5; \x7d" =
        .error .assert_fail) := by
  have hstmt : ∀ (e : Expr) (st : State), expr_is_atom e = true →
      stmt_to_irc (.expr e) st = .error .assert_fail := by
    intro e st h
    rw [stmt_to_irc, store_atom_assert e st h]
    rfl
  refine ⟨fun e st h => ⟨store_atom_assert e st h, hstmt e st h⟩, ?_, ?_⟩
  · intro e pre post st h
    have := @stmts_to_irc_error pre post (.expr e) (block_enter st)
      (fun st1 => by rw [hstmt e st1 h]; rfl)
    unfold block_to_irc
    cases h1 : stmts_to_irc (pre ++ .expr e :: post) (block_enter st) with
    | error e =>
      simp only [h1]
      rfl
    | ok st1 => rw [h1] at this; cases this
  · intro arg_prec curr_param_null n
    have hp : parse_unit arg_prec curr_param_null (n + 10)
        (parser_init "int main() \x7b 5; \x7d") =
        .ok ([.func (.interned "main") (.func .int []) (some (.block [.expr (.intlit 5)]))],
          ⟨[], 1⟩) := by
      rfl
    have hc : check_unit
        [.func (.interned "main") (.func .int []) (some (.block [.expr (.intlit 5)]))]
          State.init =
        .ok (1, ⟨[⟨.literal "putchar", .int, 0, 0⟩, ⟨.interned "main", .func .int [], 1, 0⟩],
          -4, 0, none, []⟩) := check_eq (by decide!)
    refine ⟨hp, hc, ?_⟩
    unfold pipeline
    rw [hp]
    simp only [bind, Except.bind]
    rw [hc]
    rfl

/-- A run of C35 on the statement `x;`. -/
theorem stmt_to_irc_atom_assert_witness :
    store_expr_temp_var (.id (.interned "x")) true ⟨[], 0, 0, some [], []⟩ =
      .error .assert_fail ∧
    stmt_to_irc (.expr (.id (.interned "x"))) ⟨[], 0, 0, some [], []⟩ = .error .assert_fail :=
  stmt_to_irc_atom_assert.1 (.id (.interned "x")) ⟨[], 0, 0, some [], []⟩ rfl

/-! ## The register `%ecx` in the text of an atom -/

theorem digitChar_ne_percent (k : Nat) (h : k < 10) : Nat.digitChar k ≠ '%' := by
  interval_cases k <;> decide

theorem toDigitsCore_no_percent (fuel n : Nat) (ds : List Char) (h : ∀ c ∈ ds, c ≠ '%') :
    ∀ c ∈ Nat.toDigitsCore 10 fuel n ds, c ≠ '%' := by
  induction fuel generalizing n ds with
  | zero => simpa [Nat.toDigitsCore] using h
  | succ fuel ih =>
    have hd : ∀ c ∈ Nat.digitChar (n % 10) :: ds, c ≠ '%' := by
      intro c hc
      rcases List.mem_cons.1 hc with rfl | hc
      · exact digitChar_ne_percent _ (Nat.mod_lt _ (by decide))
      · exact h c hc
    simp only [Nat.toDigitsCore]
    split
    · exact hd
    · exact ih _ _ hd

theorem repr_no_percent (n : Nat) : '%' ∉ (Nat.repr n).data := by
  intro hm
  simp only [Nat.repr, Nat.toDigits, List.asString] at hm
  exact toDigitsCore_no_percent _ _ [] (by simp) _ hm rfl

theorem fmt_d_no_percent (v : Int) : '%' ∉ (fmt_d v).data := by
  cases v with
  | ofNat n => exact repr_no_percent n
  | negSucc n =>
    simp only [fmt_d, String.data_append, List.mem_append, not_or]
    exact ⟨by decide, repr_no_percent _⟩

theorem mentions_skip (a b : List Char) (h : '%' ∉ a) :
    mentions_ecx (a ++ b) = mentions_ecx b := by
  induction a with
  | nil => rfl
  | cons c rest ih =>
    simp only [List.mem_cons, not_or] at h
    rw [List.cons_append, mentions_ecx, ih h.2]
    have : ecx_at (c :: (rest ++ b)) = false := by
      simp only [ecx_at, List.take_succ_cons, decide_eq_false_iff_not, List.cons.injEq, not_and]
      intro e
      exact absurd e.symm h.1
    rw [this, Bool.false_or]

/-- A line made of a text without `%`, a text without `%` and an end that does
not mention `%ecx` does not mention it. -/
theorem line_no_ecx (head mid tail : String) (h1 : '%' ∉ head.data) (h2 : '%' ∉ mid.data)
    (h3 : mentions_ecx tail.data = false) : mentions_ecx (head ++ mid ++ tail).data = false := by
  simp only [String.data_append, List.append_assoc]
  rw [mentions_skip _ _ h1, mentions_skip _ _ h2, h3]

theorem sym_get_some_id {id : Ident} {tbl : List Sym} {sym : Sym}
    (h : sym_get id tbl = some sym) : sym.id = id := by
  induction tbl with
  | nil => simp [sym_get] at h
  | cons s rest ih =>
    simp only [sym_get] at h
    split at h
    · rename_i e
      cases h
      exact e.symm
    · exact ih h

theorem compile_atom_no_ecx (tbl : List Sym) (e : Expr) (text : List String)
    (ha : expr_is_atom e = true) (hn : ∀ id, e = .id id → '%' ∉ id.str.data)
    (h : compile_expr tbl e = .ok text) : ∀ line ∈ text, mentions_ecx line.data = false := by
  cases e with
  | intlit v =>
    rw [compile_expr] at h
    cases h
    intro line hl
    simp only [List.mem_singleton] at hl
    subst hl
    exact line_no_ecx _ _ _ (by decide) (fmt_d_no_percent v) (by decide)
  | id i =>
    rw [compile_expr] at h
    split at h
    · cases h
    · rename_i sym hs
      have hid := sym_get_some_id hs
      split at h
      · cases h
      · split at h
        · cases h
          intro line hl
          simp only [List.mem_cons, List.mem_singleton, List.not_mem_nil, or_false] at hl
          rcases hl with rfl | rfl
          · exact line_no_ecx _ _ _ (by decide) (by rw [hid]; exact hn i rfl) (by decide)
          · decide
        · cases h
          intro line hl
          simp only [List.mem_singleton] at hl
          subst hl
          exact line_no_ecx _ _ _ (by decide) (fmt_d_no_percent _) (by decide)
  | call l r => cases ha
  | neg l => cases ha
  | binary k l r => cases ha

theorem compile_lvalue_no_ecx (tbl : List Sym) (id : Ident) (text : List String)
    (hn : '%' ∉ id.str.data) (h : compile_lvalue tbl (.id id) = .ok text) :
    ∀ line ∈ text, mentions_ecx line.data = false := by
  simp only [compile_lvalue] at h
  split at h
  · cases h
  · rename_i sym hs
    have hid := sym_get_some_id hs
    split at h
    · cases h
    · split at h
      · cases h
        intro line hl
        simp only [List.mem_singleton] at hl
        subst hl
        exact line_no_ecx _ _ _ (by decide) (by rw [hid]; exact hn) (by decide)
      · cases h
        intro line hl
        simp only [List.mem_cons, List.mem_singleton, List.not_mem_nil, or_false] at hl
        rcases hl with rfl | rfl
        · decide
        · exact line_no_ecx _ _ _ (by decide) (fmt_d_no_percent _) (by decide)

theorem lex_ident_chars : ∀ (src buff buff1 src1 : List Char),
    lex_ident src buff = .ok (buff1, src1) → '%' ∉ buff → '%' ∉ buff1
  | [], buff, buff1, src1, h, hb => by
    rw [lex_ident] at h
    cases h
    exact hb
  | c :: src, buff, buff1, src1, h, hb => by
    rw [lex_ident] at h
    split at h
    · rename_i hc
      split at h
      · refine lex_ident_chars src (buff ++ [c]) buff1 src1 h ?_
        simp only [List.mem_append, List.mem_singleton, not_or]
        refine ⟨hb, ?_⟩
        intro e
        rw [← e] at hc
        revert hc
        decide
      · cases h
    · cases h
      exact hb

theorem tok_id_no_percent (upd : Bool) (lx lx1 : Lexer) (tok : Token) (id : Ident)
    (h : _tok_next upd lx = .ok (tok, lx1)) (hi : tok.id = some id) : '%' ∉ id.str.data := by
  unfold _tok_next at h
  split at h
  · cases h
    cases hi
  · revert h
    generalize (skip_space _ lx.source_line).1 = cs
    generalize (skip_space _ lx.source_line).2 = srcl
    intro h
    unfold tok_switch at h
    split at h
    · cases h
    · split at h
      · obtain ⟨⟨buff, src1⟩, h1, k1⟩ := bind_ok.1 h
        simp only [Except.ok.injEq, Prod.mk.injEq] at k1
        obtain ⟨rfl, _⟩ := k1
        simp only [Option.some.injEq] at hi
        subst hi
        exact lex_ident_chars _ [] buff src1 h1 (by simp)
      · split at h
        · obtain ⟨⟨value, src1⟩, h1, k1⟩ := bind_ok.1 h
          simp only [Except.ok.injEq, Prod.mk.injEq] at k1
          obtain ⟨rfl, _⟩ := k1
          cases hi
        · split at h
          · simp only [Except.ok.injEq, Prod.mk.injEq] at h
            obtain ⟨rfl, _⟩ := h
            cases hi
          · cases h

/-- C36. Register C survives the evaluation of an atom.  For an integer literal
and for an identifier whose name has no `%`, when `compile_expr` returns no
line of its text mentions `%ecx`; the same holds for the text of
`compile_lvalue` for such an identifier.  So in the text of a binary node with
an atom as left operand and in the text of an assignment to an identifier, the
lines between `movl %eax,%ecx` and the last instruction do not mention `%ecx`.
Every identifier that `_tok_next` returns has a name without `%`. -/
theorem atom_keeps_ecx :
    (∀ (tbl : List Sym) (e : Expr) (text : List String), expr_is_atom e = true →
      (∀ id, e = .id id → '%' ∉ id.str.data) → compile_expr tbl e = .ok text →
      ∀ line ∈ text, mentions_ecx line.data = false) ∧
    (∀ (tbl : List Sym) (kind : BinKind) (instr : String) (l r : Expr) (a b : List String),
      (kind, instr) ∈ arith_instr → expr_is_atom l = true →
      (∀ id, l = .id id → '%' ∉ id.str.data) →
      compile_expr tbl r = .ok a → compile_expr tbl l = .ok b →
      compile_expr tbl (.binary kind l r) = .ok (a ++ ["\tmovl %eax,%ecx\n"] ++ b ++ [instr]) ∧
      ∀ line ∈ b, mentions_ecx line.data = false) ∧
    (∀ (tbl : List Sym) (id : Ident) (r : Expr) (a b : List String), '%' ∉ id.str.data →
      compile_expr tbl r = .ok a → compile_lvalue tbl (.id id) = .ok b →
      compile_expr tbl (.binary .EXPR_ASSIGN (.id id) r) =
        .ok (a ++ ["\tmovl %eax,%ecx\n"] ++ b ++ ["\tmovl %ecx,(%eax)\n"]) ∧
      ∀ line ∈ b, mentions_ecx line.data = false) ∧
    (∀ (upd : Bool) (lx lx1 : Lexer) (tok : Token) (id : Ident),
      _tok_next upd lx = .ok (tok, lx1) → tok.id = some id → '%' ∉ id.str.data) ∧
    mentions_ecx "\tmovl %eax,%ecx\n".data = true := by
  refine ⟨compile_atom_no_ecx, ?_, ?_, tok_id_no_percent, by decide⟩
  · intro tbl kind instr l r a b hk ha hn hr hl
    refine ⟨?_, compile_atom_no_ecx tbl l b ha hn hl⟩
    simp only [arith_instr, List.mem_cons, Prod.mk.injEq, List.mem_singleton, List.not_mem_nil,
      or_false] at hk
    rcases hk with ⟨rfl, rfl⟩ | ⟨rfl, rfl⟩ | ⟨rfl, rfl⟩ | ⟨rfl, rfl⟩ <;>
      rw [compile_expr, hr, hl] <;> first | rfl | (intro h; cases h)
  · intro tbl id r a b hn hr hl
    refine ⟨?_, compile_lvalue_no_ecx tbl id b hn hl⟩
    rw [compile_expr, hr, hl]
    rfl

/-- A run of C36 on the local `a` at the offset -4. -/
theorem atom_keeps_ecx_witness : mentions_ecx "\tmovl -4(%ebp),%eax\n".data = false :=
  atom_keeps_ecx.1 [⟨.interned "a", .int, 0, -4⟩] (.id (.interned "a"))
    ["\tmovl -4(%ebp),%eax\n"] rfl
    (fun id e => by
      cases e
      decide)
    (by rfl) _ (List.mem_singleton.2 rfl)

/-! ## The normal form of a lowered body -/

/-- What `stmt_to_irc` adds for one statement: for `return;` the one return
node whose operand is never written, for every other statement only statements
of the lowered form. -/
theorem stmt_to_irc_part (stmt : Stmt) (st st1 : State) (h : stmt_to_irc stmt st = .ok st1) :
    ∃ part, st1.curr_block = st.curr_block.map (fun b => b ++ part) ∧
      (stmt = .ret none → part = [.ret_unset]) ∧
      (stmt ≠ .ret none → ∀ x ∈ part, x.irc_form = true) := by
  by_cases hr : stmt = .ret none
  · subst hr
    rw [stmt_to_irc] at h
    obtain ⟨hb, _, _⟩ := add_stmt_eq h
    exact ⟨[.ret_unset], hb, fun _ => rfl, fun hn => absurd rfl hn⟩
  · obtain ⟨added, ⟨hb, _, _⟩, hf⟩ := stmt_to_irc_grows stmt st st1 h
    refine ⟨added, hb, fun e => absurd e hr, fun _ x hx => ?_⟩
    rcases hf x hx with h1 | ⟨_, h2⟩
    · exact h1
    · exact absurd h2 hr

theorem stmts_to_irc_parts : ∀ (stmts : List Stmt) (st st1 : State),
    stmts_to_irc stmts st = .ok st1 →
    ∃ parts : List (List Stmt), st1.curr_block = st.curr_block.map (fun b => b ++ parts.flatten) ∧
      List.Forall₂ (fun (s : Stmt) (part : List Stmt) =>
        (s = .ret none → part = [.ret_unset]) ∧
        (s ≠ .ret none → ∀ x ∈ part, x.irc_form = true)) stmts parts
  | [], st, st1, h => by
    rw [stmts_to_irc] at h
    cases h
    exact ⟨[], block_append_nil _, List.Forall₂.nil⟩
  | s :: next, st, st1, h => by
    rw [stmts_to_irc] at h
    obtain ⟨st2, h1, k1⟩ := bind_ok.1 h
    obtain ⟨part, hb, hp⟩ := stmt_to_irc_part s st st2 h1
    obtain ⟨parts, hbs, hps⟩ := stmts_to_irc_parts next st2 st1 k1
    exact ⟨part :: parts, by simpa using block_append_trans hb hbs, List.Forall₂.cons hp hps⟩

theorem unset_parse (arg_prec : Int) (curr_param_null : Nat → Bool) (n : Nat) :
    parse_unit arg_prec curr_param_null (n + 5) (parser_init "int main() \x7b return; \x7d") =
      .ok ([.func (.interned "main") (.func .int []) (some (.block [.ret none]))],
        ⟨[], 1⟩) := by
  rfl

theorem unset_check :
    check_unit [.func (.interned "main") (.func .int []) (some (.block [.ret none]))]
        State.init =
      .ok (0, ⟨[⟨.literal "putchar", .int, 0, 0⟩, ⟨.interned "main", .func .int [], 1, 0⟩],
        -4, 0, none, []⟩) :=
  check_eq (by decide!)

theorem unset_irc :
    unit_to_irc [.func (.interned "main") (.func .int []) (some (.block [.ret none]))]
        ⟨[⟨.literal "putchar", .int, 0, 0⟩, ⟨.interned "main", .func .int [], 1, 0⟩],
          -4, 0, none, []⟩ =
      .ok ([.func (.interned "main") (.func .int []) (some (.block [.ret_unset]))],
        ⟨[⟨.interned "main", .func .int [], 1, 0⟩], -4, 0, none, []⟩) :=
  irc_eq (by decide!)

theorem unset_compile :
    compile_unit [.func (.interned "main") (.func .int []) (some (.block [.ret_unset]))]
        ⟨[⟨.interned "main", .func .int [], 1, 0⟩], -4, 0, none, []⟩ = .error .undefined :=
  state_eq (by decide!)

/-- C1. IR-C normal form, and the statement on which the code leaves it.  When
`block_to_irc` returns on a body, the returned block is the lowerings of the
statements of the body one after the other.  The lowering of every statement
other than `return;` holds only declarations, expression statements that are a
call, unary or binary node with atoms as callee, operands and call arguments,
or the binding `t = node` of such a node to an identifier, and returns with an
atom as operand.  The lowering of `return;` is one return node whose operand
field is never written: the parser writes the null pointer there, `stmt_to_irc`
does not.  So the operand of the return in the lowering of `{ return; }` is
neither absent nor an atom, and on `int main() { return; }` the run is
undefined when `compile_stmt` reads that field. -/
theorem block_to_irc_normal_form :
    (∀ (body irc : Stmt) (st st1 : State), block_to_irc body st = .ok (irc, st1) →
      ∃ (stmts : List Stmt) (parts : List (List Stmt)),
        body = .block stmts ∧ irc = .block parts.flatten ∧
        List.Forall₂ (fun (s : Stmt) (part : List Stmt) =>
          (s = .ret none → part = [.ret_unset]) ∧
          (s ≠ .ret none → ∀ x ∈ part, x.irc_form = true)) stmts parts) ∧
    (∀ st : State, block_to_irc (.block [.ret none]) st = .ok (.block [.ret_unset], st)) ∧
    Stmt.irc_form .ret_unset = false ∧
    (∀ st : State, compile_stmt .ret_unset st = .error .undefined) ∧
    (∀ (arg_prec : Int) (curr_param_null : Nat → Bool) (n : Nat),
      parse_unit arg_prec curr_param_null (n + 5) (parser_init "int main() \x7b return; \x7d") =
        .ok ([.func (.interned "main") (.func .int []) (some (.block [.ret none]))],
          ⟨[], 1⟩) ∧
      pipeline arg_prec curr_param_null (n + 5) "int main() \x7b return; \x7d" =
        .error .undefined) ∧
    unit_to_irc [.func (.interned "main") (.func .int []) (some (.block [.ret none]))]
        ⟨[⟨.literal "putchar", .int, 0, 0⟩, ⟨.interned "main", .func .int [], 1, 0⟩],
          -4, 0, none, []⟩ =
      .ok ([.func (.interned "main") (.func .int []) (some (.block [.ret_unset]))],
        ⟨[⟨.interned "main", .func .int [], 1, 0⟩], -4, 0, none, []⟩) := by
  refine ⟨?_, fun st => by rfl, rfl, fun st => by rw [compile_stmt], ?_, unset_irc⟩
  · intro body irc st st1 h
    unfold block_to_irc at h
    split at h
    · rename_i stmts
      obtain ⟨st2, h1, k1⟩ := bind_ok.1 h
      obtain ⟨parts, hb, hp⟩ := stmts_to_irc_parts stmts (block_enter st) st2 h1
      unfold block_leave at k1
      simp only [block_enter, Option.map_some', List.nil_append] at hb
      rw [hb] at k1
      simp only [Except.ok.injEq, Prod.mk.injEq] at k1
      exact ⟨stmts, parts, rfl, k1.1.symm, hp⟩
    · cases h
  · intro arg_prec curr_param_null n
    refine ⟨unset_parse _ _ _, ?_⟩
    unfold pipeline
    rw [unset_parse]
    simp only [bind, Except.bind]
    rw [unset_check]
    simp only []
    rw [unset_irc]
    simp only []
    exact unset_compile

/-- A run of C1 on the body `{ return 1+2*3; }`. -/
theorem block_to_irc_normal_form_witness :
    ∃ (stmts : List Stmt) (parts : List (List Stmt)),
      Stmt.block [.ret (some (.binary .EXPR_ADD (.intlit 1)
        (.binary .EXPR_MUL (.intlit 2) (.intlit 3))))] = .block stmts ∧
      Stmt.block [
        .decl ⟨.char, .interned "___t0"⟩,
        .decl ⟨.char, .interned "___t1"⟩,
        .expr (.binary .EXPR_ASSIGN (.id (.interned "___t1"))
          (.binary .EXPR_MUL (.intlit 2) (.intlit 3))),
        .expr (.binary .EXPR_ASSIGN (.id (.interned "___t0"))
          (.binary .EXPR_ADD (.intlit 1) (.id (.interned "___t1")))),
        .ret (some (.id (.interned "___t0")))] = .block parts.flatten ∧
      List.Forall₂ (fun (s : Stmt) (part : List Stmt) =>
        (s = .ret none → part = [.ret_unset]) ∧
        (s ≠ .ret none → ∀ x ∈ part, x.irc_form = true)) stmts parts :=
  block_to_irc_normal_form.1 _ _ State.init ⟨[], 0, 2, none, []⟩ (by rfl)

/-! ## The temporaries of a unit -/

theorem temp_range_self (c : Nat) : temp_range c c = [] := by
  simp [temp_range]

theorem temp_range_succ (c : Nat) : temp_range c (c + 1) = [tmp_name c] := by
  simp [temp_range]

theorem temp_range_append {c b c1 : Nat} (h1 : c ≤ b) (h2 : b ≤ c1) :
    temp_range c b ++ temp_range b c1 = temp_range c c1 := by
  obtain ⟨m, rfl⟩ := Nat.exists_eq_add_of_le h1
  obtain ⟨n, rfl⟩ := Nat.exists_eq_add_of_le h2
  simp only [temp_range, ← List.map_append]
  congr 1
  have := @List.range'_append c m n 1
  simp only [Nat.one_mul] at this
  rw [show c + m - c = m by omega, show c + m + n - (c + m) = n by omega,
    show c + m + n - c = n + m by omega]
  exact this

theorem temp_range_nodup (c c1 : Nat) : (temp_range c c1).Nodup := by
  unfold temp_range
  exact (List.nodup_range' c (c1 - c)).map (fun i j h => tmp_name_inj h)

theorem temp_range_get (c c1 N : Nat) (h : N < c1 - c) :
    (temp_range c c1)[N]? = some (tmp_name (c + N)) := by
  simp [temp_range, List.getElem?_map, List.getElem?_range', h]

theorem declared_ids_append (a b : List Stmt) :
    declared_ids (a ++ b) = declared_ids a ++ declared_ids b := by
  simp [declared_ids]

theorem TempRun.run_idle {st : State} {c : Nat} (hc : st.tmp_vars_count = c) :
    TempRun st st c [] :=
  ⟨[], c, block_append_nil _, hc, le_refl _, (temp_range_self c).symm,
    by rw [temp_range_self]; rfl⟩

theorem TempRun.run_then {st st1 st2 : State} {c c1 : Nat} {l1 l2 : List Ident}
    (h1 : TempRun st st1 c l1) (hc : st1.tmp_vars_count = c1) (h2 : TempRun st1 st2 c1 l2) :
    TempRun st st2 c (l1 ++ l2) := by
  obtain ⟨A, a, b1, n1, le1, e1, d1⟩ := h1
  obtain ⟨B, b, b2, n2, le2, e2, d2⟩ := h2
  have : a = c1 := by
    have := n1.symm.trans hc
    exact_mod_cast this
  subst this
  exact ⟨A ++ B, b, block_append_trans b1 b2, n2, le_trans le1 le2,
    by rw [e1, e2, temp_range_append le1 le2],
    by rw [declared_ids_append, d1, d2, temp_range_append le1 le2]⟩

theorem TempRun.count {st st1 : State} {c : Nat} {l : List Ident} (h : TempRun st st1 c l) :
    ∃ c1 : Nat, st1.tmp_vars_count = c1 ∧ c ≤ c1 := by
  obtain ⟨_, c1, _, n1, le1, _, _⟩ := h
  exact ⟨c1, n1, le1⟩

/-- A statement that declares nothing is added and the counter stays. -/
theorem TempRun.add {stmt : Stmt} {st st1 : State} {c : Nat} (h : add_stmt stmt st = .ok st1)
    (hc : st.tmp_vars_count = c) (hd : stmt.decl_id = none) : TempRun st st1 c [] := by
  obtain ⟨hb, hn, _⟩ := add_stmt_eq h
  exact ⟨[stmt], c, hb, by rw [hn, hc], le_refl _, (temp_range_self c).symm,
    by simp [declared_ids, hd, temp_range_self]⟩

theorem store_begin_run {expr : Expr} {first : Bool} {st st0 : State} {res0 : Option Ident}
    {c : Nat} (hc : st.tmp_vars_count = c) (h : store_begin expr first st = .ok (res0, st0)) :
    TempRun st st0 c (begin_temps first st) := by
  cases first with
  | true =>
    simp only [store_begin, if_true, Except.ok.injEq, Prod.mk.injEq] at h
    obtain ⟨_, rfl⟩ := h
    exact TempRun.run_idle hc
  | false =>
    obtain ⟨type, _, hr, hb, hn, _⟩ := store_begin_false h
    rw [hc, fmt_d_nat] at hr hb
    have hlog : begin_temps false st = [tmp_name c] := by
      unfold store_begin at h
      simp only [Bool.false_eq_true, if_false] at h
      obtain ⟨⟨t, st1⟩, h1, _⟩ := bind_ok.1 h
      obtain ⟨ht, _, _⟩ := tmp_var_ok h1
      rw [hc, fmt_d_nat] at ht
      simp [begin_temps, h1, ht]
    exact ⟨[.decl ⟨type, tmp_name c⟩], c + 1, hb, by rw [hn, hc]; rfl, by omega,
      by rw [hlog, temp_range_succ], by rw [temp_range_succ]; rfl⟩

theorem store_end_run {first : Bool} {res0 res : Option Ident} {rv : Expr} {st st1 : State}
    {c : Nat} (hc : st.tmp_vars_count = c) (h : store_end first res0 rv st = .ok (res, st1)) :
    TempRun st st1 c [] := by
  unfold store_end at h
  split at h
  · obtain ⟨st2, h1, k⟩ := bind_ok.1 h
    simp only [Except.ok.injEq, Prod.mk.injEq] at k
    obtain ⟨_, rfl⟩ := k
    exact TempRun.add h1 hc rfl
  · split at h
    · cases h
    · obtain ⟨st2, h1, k⟩ := bind_ok.1 h
      simp only [Except.ok.injEq, Prod.mk.injEq] at k
      obtain ⟨_, rfl⟩ := k
      exact TempRun.add h1 hc rfl

theorem store_operand_run {e x : Expr} {rec : Res (Option Ident × State)} {st st1 : State}
    {c : Nat} {log : List Ident} (hc : st.tmp_vars_count = c)
    (h : store_operand e rec st = .ok (x, st1))
    (ih : ∀ res st2, rec = .ok (res, st2) → TempRun st st2 c log) :
    TempRun st st1 c (if expr_is_atom e then [] else log) := by
  unfold store_operand at h
  split at h
  · rename_i ha
    simp only [Except.ok.injEq, Prod.mk.injEq] at h
    obtain ⟨_, rfl⟩ := h
    simp only [ha, if_true]
    exact TempRun.run_idle hc
  · rename_i ha
    split at h
    · cases h
    · cases h
    · simp only [Except.ok.injEq, Prod.mk.injEq] at h
      obtain ⟨_, rfl⟩ := h
      simp only [ha, Bool.false_eq_true, if_false]
      exact ih _ _ rfl


mutual
theorem store_temps_run : ∀ (E : Expr) (first : Bool) (st st1 : State) (res : Option Ident)
    (c : Nat), st.tmp_vars_count = c → store_expr_temp_var E first st = .ok (res, st1) →
    TempRun st st1 c (store_temps E first st)
  | .call l r, first, st, st1, res, c, hc, h => by
    rw [store_expr_temp_var] at h
    obtain ⟨⟨res0, st0⟩, h0, k0⟩ := bind_ok.1 h
    obtain ⟨⟨l1, sta⟩, ha, ka⟩ := bind_ok.1 k0
    obtain ⟨⟨args, stb⟩, hb, kb⟩ := bind_ok.1 ka
    rw [store_temps]
    simp only [h0, ha]
    have r0 := store_begin_run hc h0
    obtain ⟨c0, n0, _⟩ := r0.count
    have ra := store_operand_run n0 ha
      (fun res2 st2 h2 => store_temps_run l false st0 st2 res2 c0 n0 h2)
    obtain ⟨ca, na, _⟩ := ra.count
    have rb := args_temps_run r sta stb args ca na hb
    obtain ⟨cb, nb, _⟩ := rb.count
    have re := store_end_run nb kb
    have := r0.run_then n0 (ra.run_then na (rb.run_then nb re))
    simpa only [List.append_nil] using this
  | .neg l, first, st, st1, res, c, hc, h => by
    rw [store_expr_temp_var] at h
    obtain ⟨⟨res0, st0⟩, h0, k0⟩ := bind_ok.1 h
    obtain ⟨⟨l1, sta⟩, ha, ka⟩ := bind_ok.1 k0
    rw [store_temps]
    simp only [h0]
    have r0 := store_begin_run hc h0
    obtain ⟨c0, n0, _⟩ := r0.count
    have ra := store_operand_run n0 ha
      (fun res2 st2 h2 => store_temps_run l false st0 st2 res2 c0 n0 h2)
    obtain ⟨ca, na, _⟩ := ra.count
    have re := store_end_run na ka
    have := r0.run_then n0 (ra.run_then na re)
    simpa only [List.append_nil] using this
  | .binary kind l r, first, st, st1, res, c, hc, h => by
    rw [store_expr_temp_var] at h
    obtain ⟨⟨res0, st0⟩, h0, k0⟩ := bind_ok.1 h
    obtain ⟨⟨l1, sta⟩, ha, ka⟩ := bind_ok.1 k0
    obtain ⟨⟨r1, stb⟩, hb, kb⟩ := bind_ok.1 ka
    rw [store_temps]
    simp only [h0, ha]
    have r0 := store_begin_run hc h0
    obtain ⟨c0, n0, _⟩ := r0.count
    have ra := store_operand_run n0 ha
      (fun res2 st2 h2 => store_temps_run l false st0 st2 res2 c0 n0 h2)
    obtain ⟨ca, na, _⟩ := ra.count
    have rb := store_operand_run na hb
      (fun res2 st2 h2 => store_temps_run r false sta st2 res2 ca na h2)
    obtain ⟨cb, nb, _⟩ := rb.count
    have re := store_end_run nb kb
    have := r0.run_then n0 (ra.run_then na (rb.run_then nb re))
    simpa only [List.append_nil] using this
  | .intlit value, first, st, st1, res, c, hc, h => by
    rw [store_expr_temp_var] at h
    obtain ⟨_, _, k0⟩ := bind_ok.1 h
    cases k0
  | .id id, first, st, st1, res, c, hc, h => by
    rw [store_expr_temp_var] at h
    obtain ⟨_, _, k0⟩ := bind_ok.1 h
    cases k0
theorem args_temps_run : ∀ (r : List Expr) (st st1 : State) (args : List Expr) (c : Nat),
    st.tmp_vars_count = c → store_args r st = .ok (args, st1) →
    TempRun st st1 c (args_temps r st)
  | [], st, st1, args, c, hc, h => by
    rw [store_args] at h
    simp only [Except.ok.injEq, Prod.mk.injEq] at h
    obtain ⟨_, rfl⟩ := h
    rw [args_temps]
    exact TempRun.run_idle hc
  | e :: next, st, st1, args, c, hc, h => by
    rw [store_args] at h
    obtain ⟨⟨tmp, sta⟩, ha, ka⟩ := bind_ok.1 h
    obtain ⟨⟨rest, stb⟩, hb, kb⟩ := bind_ok.1 ka
    simp only [Except.ok.injEq, Prod.mk.injEq] at kb
    obtain ⟨_, rfl⟩ := kb
    rw [args_temps]
    simp only [ha]
    have ra := store_operand_run hc ha
      (fun res2 st2 h2 => store_temps_run e false st st2 res2 c hc h2)
    obtain ⟨ca, na, _⟩ := ra.count
    exact ra.run_then na (args_temps_run next sta stb rest ca na hb)
end


theorem TempRun.counts {st st1 : State} {c : Nat} {l : List Ident} (h : TempRun st st1 c l) :
    CountRun st st1 c l := by
  obtain ⟨_, c1, _, n1, le1, e1, _⟩ := h
  exact ⟨c1, n1, le1, e1⟩

theorem CountRun.count_idle {st st1 : State} {c : Nat}
    (hc : st.tmp_vars_count = c) (h : st1.tmp_vars_count = st.tmp_vars_count) :
    CountRun st st1 c [] :=
  ⟨c, by rw [h, hc], le_refl _, (temp_range_self c).symm⟩

theorem CountRun.count_then {st st1 st2 : State} {c c1 : Nat} {l1 l2 : List Ident}
    (h1 : CountRun st st1 c l1) (hc : st1.tmp_vars_count = c1) (h2 : CountRun st1 st2 c1 l2) :
    CountRun st st2 c (l1 ++ l2) := by
  obtain ⟨a, n1, le1, e1⟩ := h1
  obtain ⟨b, n2, le2, e2⟩ := h2
  have : a = c1 := by
    have := n1.symm.trans hc
    exact_mod_cast this
  subst this
  exact ⟨b, n2, le_trans le1 le2, by rw [e1, e2, temp_range_append le1 le2]⟩

theorem CountRun.to {st st1 sb : State} {c : Nat} {l : List Ident}
    (h : CountRun st st1 c l) (hb : sb.tmp_vars_count = st1.tmp_vars_count) :
    CountRun st sb c l := by
  obtain ⟨a, n1, le1, e1⟩ := h
  exact ⟨a, by rw [hb, n1], le1, e1⟩

theorem block_leave_count {parent : Option (List Stmt)} {st st1 : State} {blk : Stmt}
    (h : block_leave parent st = .ok (blk, st1)) :
    st1.tmp_vars_count = st.tmp_vars_count := by
  unfold block_leave at h
  split at h
  · cases h
  · cases h
    rfl

/-- The statements that `stmt_to_irc` adds for a statement that is neither a
declaration nor a block declare exactly the temporaries of the run. -/
theorem stmt_temps_decls (stmt : Stmt) (st st1 : State) (c : Nat)
    (hd : ∀ d, stmt ≠ .decl d) (hb : ∀ b, stmt ≠ .block b) (hc : st.tmp_vars_count = c)
    (h : stmt_to_irc stmt st = .ok st1) : TempRun st st1 c (stmt_temps stmt st) := by
  cases stmt with
  | decl d => exact absurd rfl (hd d)
  | block b => exact absurd rfl (hb b)
  | expr e =>
    rw [stmt_to_irc] at h
    obtain ⟨⟨res, st2⟩, h1, k1⟩ := bind_ok.1 h
    cases k1
    rw [stmt_temps]
    exact store_temps_run e true st st1 res c hc h1
  | block_unset =>
    rw [stmt_to_irc] at h
    cases h
  | ret_unset =>
    rw [stmt_to_irc] at h
    cases h
  | ret o =>
    cases o with
    | none =>
      rw [stmt_to_irc] at h
      rw [stmt_temps]
      exact TempRun.add h hc rfl
    | some e =>
      rw [stmt_to_irc] at h
      rw [stmt_temps]
      split at h
      · rename_i ha
        simp only [ha, if_true]
        exact TempRun.add h hc rfl
      · rename_i ha
        simp only [ha, Bool.false_eq_true, if_false]
        obtain ⟨⟨res, st2⟩, h1, k1⟩ := bind_ok.1 h
        have r1 := store_temps_run e false st st2 res c hc h1
        obtain ⟨c1, n1, _⟩ := r1.count
        cases res with
        | none => cases k1
        | some t =>
          have := r1.run_then n1 (TempRun.add k1 n1 rfl)
          simpa only [List.append_nil] using this

mutual
theorem stmt_temps_run : ∀ (stmt : Stmt) (st st1 : State) (c : Nat),
    st.tmp_vars_count = c → stmt_to_irc stmt st = .ok st1 →
    CountRun st st1 c (stmt_temps stmt st)
  | .decl decl, st, st1, c, hc, h => by
    rw [stmt_to_irc] at h
    obtain ⟨st2, h1, k1⟩ := bind_ok.1 h
    obtain ⟨_, n1, _⟩ := add_stmt_eq h1
    obtain ⟨_, n2⟩ := irc_decl_sym_eq k1
    rw [stmt_temps]
    exact CountRun.count_idle hc (n2.trans n1)
  | .expr expr, st, st1, c, hc, h =>
    (stmt_temps_decls (.expr expr) st st1 c (fun _ e => by cases e) (fun _ e => by cases e)
      hc h).counts
  | .block block, st, st1, c, hc, h => by
    rw [stmt_to_irc] at h
    obtain ⟨st2, h1, k1⟩ := bind_ok.1 h
    obtain ⟨⟨blk, st3⟩, h2, k2⟩ := bind_ok.1 k1
    cases k2
    rw [stmt_temps]
    exact (stmts_temps_run block (block_enter st) st2 c hc h1).to (block_leave_count h2)
  | .block_unset, st, st1, c, hc, h => by
    rw [stmt_to_irc] at h
    cases h
  | .ret none, st, st1, c, hc, h =>
    (stmt_temps_decls (.ret none) st st1 c (fun _ e => by cases e) (fun _ e => by cases e)
      hc h).counts
  | .ret (some expr), st, st1, c, hc, h =>
    (stmt_temps_decls (.ret (some expr)) st st1 c (fun _ e => by cases e)
      (fun _ e => by cases e) hc h).counts
  | .ret_unset, st, st1, c, hc, h => by
    rw [stmt_to_irc] at h
    cases h
theorem stmts_temps_run : ∀ (stmts : List Stmt) (st st1 : State) (c : Nat),
    st.tmp_vars_count = c → stmts_to_irc stmts st = .ok st1 →
    CountRun st st1 c (stmts_temps stmts st)
  | [], st, st1, c, hc, h => by
    rw [stmts_to_irc] at h
    cases h
    rw [stmts_temps]
    exact CountRun.count_idle hc rfl
  | stmt :: next, st, st1, c, hc, h => by
    rw [stmts_to_irc] at h
    obtain ⟨st2, h1, k1⟩ := bind_ok.1 h
    rw [stmts_temps]
    simp only [h1]
    have r1 := stmt_temps_run stmt st st2 c hc h1
    obtain ⟨c1, n1, _, _⟩ := r1
    exact CountRun.count_then ⟨c1, n1, ‹_›, ‹_›⟩ n1 (stmts_temps_run next st2 st1 c1 n1 k1)
end

theorem block_temps_run {body irc : Stmt} {st st1 : State} {c : Nat}
    (hc : st.tmp_vars_count = c) (h : block_to_irc body st = .ok (irc, st1)) :
    CountRun st st1 c (block_temps body st) := by
  unfold block_to_irc at h
  split at h
  · rename_i stmts
    obtain ⟨st2, h1, k1⟩ := bind_ok.1 h
    rw [block_temps]
    exact (stmts_temps_run stmts (block_enter st) st2 c hc h1).to (block_leave_count k1)
  · cases h

theorem sym_add_count {id : Ident} {type : CType} {g o : Int} {st st1 : State}
    (h : sym_add id type g o st = .ok st1) : st1.tmp_vars_count = st.tmp_vars_count := by
  obtain ⟨rfl, _⟩ := sym_add_ok h
  rfl

theorem globs_temps_run : ∀ (unit : List GlobDecl) (st st1 : State) (irc : List GlobDecl)
    (c : Nat), st.tmp_vars_count = c → globs_to_irc unit st = .ok (irc, st1) →
    CountRun st st1 c (globs_temps unit st)
  | [], st, st1, irc, c, hc, h => by
    rw [globs_to_irc] at h
    cases h
    rw [globs_temps]
    exact CountRun.count_idle hc rfl
  | .var id type :: next, st, st1, irc, c, hc, h => by
    rw [globs_to_irc] at h
    obtain ⟨st2, h1, k1⟩ := bind_ok.1 h
    obtain ⟨⟨rest, st3⟩, h2, k2⟩ := bind_ok.1 k1
    cases k2
    rw [globs_temps]
    simp only [h1]
    exact globs_temps_run next st2 st1 rest c ((sym_add_count h1).trans hc) h2
  | .func id type none :: next, st, st1, irc, c, hc, h => by
    rw [globs_to_irc] at h
    obtain ⟨st2, h1, k1⟩ := bind_ok.1 h
    obtain ⟨⟨rest, st3⟩, h2, k2⟩ := bind_ok.1 k1
    cases k2
    rw [globs_temps]
    simp only [h1]
    exact globs_temps_run next st2 st1 rest c ((sym_add_count h1).trans hc) h2
  | .func id type (some func_def) :: next, st, st1, irc, c, hc, h => by
    rw [globs_to_irc] at h
    obtain ⟨⟨body, st2⟩, h1, k1⟩ := bind_ok.1 h
    obtain ⟨st3, h2, k2⟩ := bind_ok.1 k1
    obtain ⟨⟨rest, st4⟩, h3, k3⟩ := bind_ok.1 k2
    cases k3
    rw [globs_temps]
    simp only [h1, h2]
    have r1 := block_temps_run hc h1
    obtain ⟨c1, n1, le1, e1⟩ := r1
    exact CountRun.count_then ⟨c1, n1, le1, e1⟩ n1
      (globs_temps_run next st3 st1 rest c1 ((sym_add_count h2).trans n1) h3)

theorem unit_temps_run {unit irc : List GlobDecl} {st st1 : State} {c : Nat}
    (hc : st.tmp_vars_count = c) (h : unit_to_irc unit st = .ok (irc, st1)) :
    CountRun st st1 c (unit_temps unit st) := by
  unfold unit_to_irc at h
  unfold unit_temps
  exact globs_temps_run unit (sym_reset st) st1 irc c hc h

theorem two_stmt1 (ap : Int) (n : Nat) :
    parse_stmt ap (n + 10) ⟨" return 1+2; \x7d int main() \x7b return 3+4; \x7d".data, 1⟩ =
      .ok (.ret (some (.binary .EXPR_ADD (.intlit 1) (.intlit 2))),
        ⟨" \x7d int main() \x7b return 3+4; \x7d".data, 1⟩) := by
  rfl

theorem two_body1 (ap : Int) (n : Nat) :
    parse_stmt_block ap (n + 12)
        ⟨" \x7b return 1+2; \x7d int main() \x7b return 3+4; \x7d".data, 1⟩ =
      .ok (.block [.ret (some (.binary .EXPR_ADD (.intlit 1) (.intlit 2)))],
        ⟨" int main() \x7b return 3+4; \x7d".data, 1⟩) :=
  parse_stmt_block_of (by rfl) (by rfl) (by decide)
    (parse_block_last (two_stmt1 ap n) (by rfl) (by decide)) (by rfl)

theorem two_head1 (ap : Int) (null : Bool) (n : Nat) :
    parse_glob_decl ap null (n + 12)
        (parser_init "int f() \x7b return 1+2; \x7d int main() \x7b return 3+4; \x7d") =
      glob_decl_body ap (n + 12) (.interned "f") (.func .int [])
        ⟨" \x7b return 1+2; \x7d int main() \x7b return 3+4; \x7d".data, 1⟩ :=
  parse_glob_decl_func (by rfl) (by rfl) (by rfl) (by rfl) (by rfl) (by decide) (by rfl)
    (by rfl) (by rfl)

theorem two_stmt2 (ap : Int) (n : Nat) :
    parse_stmt ap (n + 9) ⟨" return 3+4; \x7d".data, 1⟩ =
      .ok (.ret (some (.binary .EXPR_ADD (.intlit 3) (.intlit 4))), ⟨" \x7d".data, 1⟩) := by
  rfl

theorem two_body2 (ap : Int) (n : Nat) :
    parse_stmt_block ap (n + 11) ⟨" \x7b return 3+4; \x7d".data, 1⟩ =
      .ok (.block [.ret (some (.binary .EXPR_ADD (.intlit 3) (.intlit 4)))], ⟨[], 1⟩) :=
  parse_stmt_block_of (by rfl) (by rfl) (by decide)
    (parse_block_last (two_stmt2 ap n) (by rfl) (by decide)) (by rfl)

theorem two_head2 (ap : Int) (null : Bool) (n : Nat) :
    parse_glob_decl ap null (n + 11) ⟨" int main() \x7b return 3+4; \x7d".data, 1⟩ =
      glob_decl_body ap (n + 11) (.interned "main") (.func .int [])
        ⟨" \x7b return 3+4; \x7d".data, 1⟩ :=
  parse_glob_decl_func (by rfl) (by rfl) (by rfl) (by rfl) (by rfl) (by decide) (by rfl)
    (by rfl) (by rfl)

theorem two_parse (arg_prec : Int) (curr_param_null : Nat → Bool) (n : Nat) :
    parse_unit arg_prec curr_param_null (n + 13)
        (parser_init "int f() \x7b return 1+2; \x7d int main() \x7b return 3+4; \x7d") =
      .ok ([.func (.interned "f") (.func .int [])
          (some (.block [.ret (some (.binary .EXPR_ADD (.intlit 1) (.intlit 2)))])),
        .func (.interned "main") (.func .int [])
          (some (.block [.ret (some (.binary .EXPR_ADD (.intlit 3) (.intlit 4)))]))],
        ⟨[], 1⟩) :=
  parse_globs_cons (by rfl) (by decide)
    ((two_head1 arg_prec _ n).trans
      (glob_decl_body_block (by rfl) (by decide) (two_body1 arg_prec n)))
    (parse_globs_cons (by rfl) (by decide)
      ((two_head2 arg_prec _ n).trans
        (glob_decl_body_block (by rfl) (by decide) (two_body2 arg_prec n)))
      (parse_globs_end (by rfl) (by decide)))

theorem two_irc :
    unit_to_irc [.func (.interned "f") (.func .int [])
          (some (.block [.ret (some (.binary .EXPR_ADD (.intlit 1) (.intlit 2)))])),
        .func (.interned "main") (.func .int [])
          (some (.block [.ret (some (.binary .EXPR_ADD (.intlit 3) (.intlit 4)))]))]
        ⟨[⟨.literal "putchar", .int, 0, 0⟩, ⟨.interned "f", .func .int [], 1, 0⟩], -4, 0,
          none, []⟩ =
      .ok ([.func (.interned "f") (.func .int [])
          (some (.block [.decl ⟨.char, .interned "___t0"⟩,
            .expr (.binary .EXPR_ASSIGN (.id (.interned "___t0"))
              (.binary .EXPR_ADD (.intlit 1) (.intlit 2))),
            .ret (some (.id (.interned "___t0")))])),
        .func (.interned "main") (.func .int [])
          (some (.block [.decl ⟨.char, .interned "___t1"⟩,
            .expr (.binary .EXPR_ASSIGN (.id (.interned "___t1"))
              (.binary .EXPR_ADD (.intlit 3) (.intlit 4))),
            .ret (some (.id (.interned "___t1")))]))],
        ⟨[⟨.interned "f", .func .int [], 1, 0⟩, ⟨.interned "main", .func .int [], 1, 0⟩], -4, 2,
          none, []⟩) :=
  irc_eq (by decide!)

/-- C2. Temporary freshness.  From a counter `c` in the range of `int`,
`tmp_var` returns the interned name `___t` followed by the decimal rendering of
`c` and increments `tmp_vars_count` by one; so the `N` calls made from the
counter 0 return `___t0`, ..., `___t<N-1>` and leave the counter at `N`;
different counter values give different names.  The names that the calls of
`tmp_var` return during a run of `store_expr_temp_var`, `stmt_to_irc`,
`block_to_irc` or `unit_to_irc` that starts at the counter `c` and ends at `c1`
are those of the values `c`, ..., `c1 - 1`, one each and in this order: no
value is used twice and the counter is never set back, so no name is returned
twice during the lowering of a unit, and the names made for a function come
after those of the functions before it.  The declarations that
`store_expr_temp_var`, and `stmt_to_irc` for an expression or return statement,
add to the current block declare exactly these names.  On
`int f() { return 1+2; } int main() { return 3+4; }` the temporary of `f` is
`___t0` and that of `main` is `___t1`. -/
theorem tmp_var_fresh :
    (∀ (st : State) (c : Nat), st.tmp_vars_count = c → (c : Int) + 1 ≤ INT_MAX →
      tmp_var st = .ok (.interned ("___t" ++ Nat.repr c),
        { st with tmp_vars_count := (c : Int) + 1 })) ∧
    (∀ N : Nat, (N : Int) ≤ INT_MAX →
      tmp_var_calls N State.init =
        .ok ((List.range N).map (fun k => Ident.interned ("___t" ++ Nat.repr k)),
          { State.init with tmp_vars_count := N })) ∧
    (∀ i j : Nat, Ident.interned ("___t" ++ Nat.repr i) = .interned ("___t" ++ Nat.repr j) →
      i = j) ∧
    (∀ (body irc : Stmt) (st st1 : State), block_to_irc body st = .ok (irc, st1) →
      st.tmp_vars_count ≤ st1.tmp_vars_count) ∧
    (∀ (unit irc : List GlobDecl) (st st1 : State), unit_to_irc unit st = .ok (irc, st1) →
      st.tmp_vars_count ≤ st1.tmp_vars_count) ∧
    (∀ c c1 : Nat, (temp_range c c1).Nodup ∧ (temp_range c c1).length = c1 - c ∧
      ∀ k : Nat, k < c1 - c →
        (temp_range c c1)[k]? = some (.interned ("___t" ++ Nat.repr (c + k)))) ∧
    (∀ (expr : Expr) (first : Bool) (st st1 : State) (res : Option Ident) (c : Nat),
      st.tmp_vars_count = c → store_expr_temp_var expr first st = .ok (res, st1) →
      ∃ (added : List Stmt) (c1 : Nat),
        st1.curr_block = st.curr_block.map (fun b => b ++ added) ∧
        st1.tmp_vars_count = (c1 : Nat) ∧ c ≤ c1 ∧
        store_temps expr first st = temp_range c c1 ∧
        declared_ids added = temp_range c c1) ∧
    (∀ (stmt : Stmt) (st st1 : State) (c : Nat), (∀ d, stmt ≠ .decl d) →
      (∀ b, stmt ≠ .block b) → st.tmp_vars_count = c → stmt_to_irc stmt st = .ok st1 →
      ∃ (added : List Stmt) (c1 : Nat),
        st1.curr_block = st.curr_block.map (fun b => b ++ added) ∧
        st1.tmp_vars_count = (c1 : Nat) ∧ c ≤ c1 ∧
        stmt_temps stmt st = temp_range c c1 ∧
        declared_ids added = temp_range c c1) ∧
    (∀ (body irc : Stmt) (st st1 : State) (c : Nat), st.tmp_vars_count = c →
      block_to_irc body st = .ok (irc, st1) →
      ∃ c1 : Nat, st1.tmp_vars_count = (c1 : Nat) ∧ c ≤ c1 ∧
        block_temps body st = temp_range c c1) ∧
    (∀ (id : Ident) (type : CType) (body irc : Stmt) (next : List GlobDecl)
        (st st1 st2 : State),
      block_to_irc body st = .ok (irc, st1) → sym_add id type 1 0 st1 = .ok st2 →
      globs_temps (.func id type (some body) :: next) st =
        block_temps body st ++ globs_temps next st2) ∧
    (∀ (unit irc : List GlobDecl) (st st1 : State) (c : Nat), st.tmp_vars_count = c →
      unit_to_irc unit st = .ok (irc, st1) →
      ∃ c1 : Nat, st1.tmp_vars_count = (c1 : Nat) ∧ c ≤ c1 ∧
        unit_temps unit st = temp_range c c1 ∧ (unit_temps unit st).Nodup) ∧
    (∀ (arg_prec : Int) (curr_param_null : Nat → Bool) (n : Nat),
      parse_unit arg_prec curr_param_null (n + 13)
          (parser_init "int f() \x7b return 1+2; \x7d int main() \x7b return 3+4; \x7d") =
        .ok ([.func (.interned "f") (.func .int [])
            (some (.block [.ret (some (.binary .EXPR_ADD (.intlit 1) (.intlit 2)))])),
          .func (.interned "main") (.func .int [])
            (some (.block [.ret (some (.binary .EXPR_ADD (.intlit 3) (.intlit 4)))]))],
          ⟨[], 1⟩)) ∧
    unit_to_irc [.func (.interned "f") (.func .int [])
          (some (.block [.ret (some (.binary .EXPR_ADD (.intlit 1) (.intlit 2)))])),
        .func (.interned "main") (.func .int [])
          (some (.block [.ret (some (.binary .EXPR_ADD (.intlit 3) (.intlit 4)))]))]
        ⟨[⟨.literal "putchar", .int, 0, 0⟩, ⟨.interned "f", .func .int [], 1, 0⟩], -4, 0,
          none, []⟩ =
      .ok ([.func (.interned "f") (.func .int [])
          (some (.block [.decl ⟨.char, .interned "___t0"⟩,
            .expr (.binary .EXPR_ASSIGN (.id (.interned "___t0"))
              (.binary .EXPR_ADD (.intlit 1) (.intlit 2))),
            .ret (some (.id (.interned "___t0")))])),
        .func (.interned "main") (.func .int [])
          (some (.block [.decl ⟨.char, .interned "___t1"⟩,
            .expr (.binary .EXPR_ASSIGN (.id (.interned "___t1"))
              (.binary .EXPR_ADD (.intlit 3) (.intlit 4))),
            .ret (some (.id (.interned "___t1")))]))],
        ⟨[⟨.interned "f", .func .int [], 1, 0⟩, ⟨.interned "main", .func .int [], 1, 0⟩], -4, 2,
          none, []⟩) ∧
    unit_temps [.func (.interned "f") (.func .int [])
          (some (.block [.ret (some (.binary .EXPR_ADD (.intlit 1) (.intlit 2)))])),
        .func (.interned "main") (.func .int [])
          (some (.block [.ret (some (.binary .EXPR_ADD (.intlit 3) (.intlit 4)))]))]
        ⟨[⟨.literal "putchar", .int, 0, 0⟩, ⟨.interned "f", .func .int [], 1, 0⟩], -4, 0,
          none, []⟩ = [.interned "___t0", .interned "___t1"] := by
  refine ⟨fun st c hc hmax => tmp_var_at hc hmax, ?_, fun i j h => tmp_name_injective h, ?_, ?_,
    ?_, ?_, ?_, ?_, ?_, ?_, two_parse, two_irc, by decide⟩
  · intro N hN
    have := tmp_var_calls_from N 0 State.init rfl (by simpa using hN)
    simpa using this
  · intro body irc st st1 h
    obtain ⟨_, _, _, _, _, hm⟩ := block_to_irc_ok h
    exact hm
  · intro unit irc st st1 h
    exact globs_to_irc_counter unit (sym_reset st) st1 irc h
  · intro c c1
    exact ⟨temp_range_nodup c c1, by simp [temp_range], fun k hk => temp_range_get c c1 k hk⟩
  · intro expr first st st1 res c hc h
    exact store_temps_run expr first st st1 res c hc h
  · intro stmt st st1 c hd hb hc h
    exact stmt_temps_decls stmt st st1 c hd hb hc h
  · intro body irc st st1 c hc h
    exact block_temps_run hc h
  · intro id type body irc next st st1 st2 h1 h2
    rw [globs_temps]
    simp only [h1, h2]
  · intro unit irc st st1 c hc h
    obtain ⟨c1, n1, le1, e1⟩ := unit_temps_run hc h
    exact ⟨c1, n1, le1, e1, by rw [e1]; exact temp_range_nodup c c1⟩

/-- A run of C2: the lowering of the unit of
`int f() { return 1+2; } int main() { return 3+4; }` from the counter 0. -/
theorem tmp_var_fresh_witness :
    ∃ c1 : Nat, (2 : Int) = (c1 : Nat) ∧ 0 ≤ c1 ∧
      unit_temps [.func (.interned "f") (.func .int [])
            (some (.block [.ret (some (.binary .EXPR_ADD (.intlit 1) (.intlit 2)))])),
          .func (.interned "main") (.func .int [])
            (some (.block [.ret (some (.binary .EXPR_ADD (.intlit 3) (.intlit 4)))]))]
          ⟨[⟨.literal "putchar", .int, 0, 0⟩, ⟨.interned "f", .func .int [], 1, 0⟩], -4, 0,
            none, []⟩ = temp_range 0 c1 ∧
      (unit_temps [.func (.interned "f") (.func .int [])
            (some (.block [.ret (some (.binary .EXPR_ADD (.intlit 1) (.intlit 2)))])),
          .func (.interned "main") (.func .int [])
            (some (.block [.ret (some (.binary .EXPR_ADD (.intlit 3) (.intlit 4)))]))]
          ⟨[⟨.literal "putchar", .int, 0, 0⟩, ⟨.interned "f", .func .int [], 1, 0⟩], -4, 0,
            none, []⟩).Nodup :=
  tmp_var_fresh.2.2.2.2.2.2.2.2.2.2.1 _ _
    ⟨[⟨.literal "putchar", .int, 0, 0⟩, ⟨.interned "f", .func .int [], 1, 0⟩], -4, 0, none, []⟩
    ⟨[⟨.interned "f", .func .int [], 1, 0⟩, ⟨.interned "main", .func .int [], 1, 0⟩], -4, 2,
      none, []⟩ 0 rfl two_irc

/-! ## The symbol table during the semantic check -/

theorem type_not_null_ok {type : Res CType} {r : Int} (h : type_not_null type = .ok r) :
    r ≠ 0 := by
  unfold type_not_null at h
  split at h
  · cases h
  · cases h
    decide

theorem and_then_ok {a b : Res Int} {r : Int} (h : and_then a b = .ok r)
    (ha : ∀ x, a = .ok x → x ≠ 0) (hb : ∀ y, b = .ok y → y ≠ 0) : r ≠ 0 := by
  unfold and_then at h
  split at h
  · cases h
  · rename_i x
    split at h
    · rename_i hx
      exact absurd hx (ha x rfl)
    · split at h
      · cases h
      · rename_i y
        split at h
        · rename_i hy
          exact absurd hy (hb y rfl)
        · cases h
          decide

theorem check_expr_ok (tbl : List Sym) : ∀ (e : Expr) (r : Int), check_expr tbl e = .ok r → r ≠ 0
  | .id id, r, h => by
    rw [check_expr] at h
    split at h
    · cases h
    · exact type_not_null_ok h
  | .intlit value, r, h => by
    rw [check_expr] at h
    exact type_not_null_ok h
  | .call (.id id) args, r, h => by
    rw [check_expr] at h
    split at h
    · cases h
    · split at h
      · cases h
      · split at h
        · cases h
        · exact type_not_null_ok h
  | .call (.intlit _) _, r, h => by
    rw [check_expr] at h
    cases h
  | .call (.call _ _) _, r, h => by
    rw [check_expr] at h
    cases h
  | .call (.neg _) _, r, h => by
    rw [check_expr] at h
    cases h
  | .call (.binary _ _ _) _, r, h => by
    rw [check_expr] at h
    cases h
  | .neg l, r, h => by
    rw [check_expr] at h
    exact and_then_ok h (fun x hx => check_expr_ok tbl l x hx) (fun y hy => type_not_null_ok hy)
  | .binary kind l r1, r, h => by
    rw [check_expr] at h
    have hk : EXPR_BINARY ≤ kind.code ∧ kind.code < EXPR_BINARY_END := by
      cases kind <;> decide
    rw [if_pos hk] at h
    exact and_then_ok h
      (fun x hx => and_then_ok hx (fun a ha => check_expr_ok tbl l a ha)
        (fun b hb => check_expr_ok tbl r1 b hb))
      (fun y hy => type_not_null_ok hy)

mutual
theorem check_stmt_ok : ∀ (stmt : Stmt) (st st1 : State) (r : Int), stmt.has_ret = false →
    check_stmt stmt st = .ok (r, st1) → r ≠ 0
  | .decl decl, st, st1, r, _, h => by
    rw [check_stmt] at h
    split at h
    · cases h
    · obtain ⟨st2, h1, k1⟩ := bind_ok.1 h
      split at k1
      · cases k1
      · obtain ⟨off, h2, k2⟩ := bind_ok.1 k1
        cases k2
        decide
  | .expr expr, st, st1, r, _, h => by
    rw [check_stmt] at h
    obtain ⟨res, h1, k1⟩ := bind_ok.1 h
    cases k1
    exact check_expr_ok _ expr _ h1
  | .block block, st, st1, r, hn, h => by
    rw [check_stmt] at h
    rw [Stmt.has_ret] at hn
    exact check_stmts_ok block 1 st st1 r hn (by decide) h
  | .block_unset, st, st1, r, _, h => by
    rw [check_stmt] at h
    cases h
  | .ret e, st, st1, r, hn, h => by
    rw [Stmt.has_ret] at hn
    cases hn
  | .ret_unset, st, st1, r, hn, h => by
    rw [Stmt.has_ret] at hn
    cases hn
theorem check_stmts_ok : ∀ (curr : List Stmt) (res : Int) (st st1 : State) (r : Int),
    Stmt.has_ret_list curr = false → res ≠ 0 → check_stmts curr res st = .ok (r, st1) → r ≠ 0
  | [], res, st, st1, r, _, hr, h => by
    rw [check_stmts] at h
    cases h
    exact hr
  | stmt :: next, res, st, st1, r, hn, hr, h => by
    rw [check_stmts, if_neg hr] at h
    rw [Stmt.has_ret_list, Bool.or_eq_false_iff] at hn
    obtain ⟨⟨r1, st2⟩, h1, k1⟩ := bind_ok.1 h
    simp only at k1
    have h1n := check_stmt_ok stmt st st2 r1 hn.1 h1
    rw [if_neg h1n] at k1
    exact check_stmts_ok next 1 st2 st1 r hn.2 (by decide) k1
end

theorem check_globs_ok : ∀ (curr : List GlobDecl) (res : Int) (st st1 : State) (r : Int),
    (∀ g ∈ curr, g.has_ret = false) → res ≠ 0 → check_globs curr res st = .ok (r, st1) → r ≠ 0
  | [], res, st, st1, r, _, hr, h => by
    rw [check_globs] at h
    cases h
    exact hr
  | decl :: next, res, st, st1, r, hn, hr, h => by
    rw [check_globs, if_neg hr] at h
    obtain ⟨⟨r1, st2⟩, h1, k1⟩ := bind_ok.1 h
    simp only at k1
    have h1n : r1 ≠ 0 := by
      have hd := hn decl (List.mem_cons_self _ _)
      cases decl with
      | var id type =>
        simp only [check_glob_decl] at h1
        split at h1
        · cases h1
        · obtain ⟨st3, h3, k3⟩ := bind_ok.1 h1
          cases k3
          decide
      | func id type func_def =>
        simp only [check_glob_decl] at h1
        split at h1
        · cases h1
        · obtain ⟨st3, h3, k3⟩ := bind_ok.1 h1
          cases func_def with
          | none => cases k3
          | some body => exact check_stmt_ok body _ st2 r1 hd k3
    rw [if_neg h1n] at k1
    exact check_globs_ok next 1 st2 st1 r (fun g hg => hn g (List.mem_cons_of_mem _ hg))
      (by decide) k1

theorem no_scopes_fatal {pre post : List GlobDecl} {fid gid : Ident} {ftype gtype : CType}
    {d1 d2 : Decl} {rest1 rest2 : List Stmt} {st st0 st1 : State} {r : Int}
    (h0 : init_builtin_sym st = .ok st0) (h1 : check_globs pre 1 st0 = .ok (r, st1))
    (hr : r ≠ 0) (hm : GlobDecl.func fid ftype (some (.block (.decl d1 :: rest1))) ∈ pre)
    (hid : d2.id = d1.id) (hroom : st1.sym_table.length < SYM_TABLE_SIZE) :
    ∃ name, (name = d1.id.str ∨ name = gid.str) ∧
      check_unit (pre ++ .func gid gtype (some (.block (.decl d2 :: rest2))) :: post) st =
        .error (.sem_fatal ("Symbol '" ++ name ++ "' already declared")) := by
  obtain ⟨sym, hs, hsid⟩ := check_globs_declares pre 1 st0 st1 r h1 hr fid ftype d1 rest1 hm
  unfold check_unit
  rw [h0]
  simp only [bind, Except.bind]
  have := check_globs_append pre
    (.func gid gtype (some (.block (.decl d2 :: rest2))) :: post) 1 st0
  simp only [bind, Except.bind, h1] at this
  rw [this, check_globs, if_neg hr]
  cases hg : sym_get gid st1.sym_table with
  | some g =>
    refine ⟨gid.str, Or.inr rfl, ?_⟩
    simp only [check_glob_decl, hg, bind, Except.bind]
  | none =>
    refine ⟨d1.id.str, Or.inl rfl, ?_⟩
    obtain ⟨sym2, hs2⟩ := @sym_get_of_mem d2.id
      (st1.sym_table ++ [⟨gid, gtype, 1, 0⟩])
      ⟨sym, List.mem_append_left _ hs, by rw [hsid, hid]⟩
    simp only [check_glob_decl, hg, sym_add, hroom, if_true, bind, Except.bind]
    rw [check_stmt, check_stmts]
    simp only [one_ne_zero, if_false, bind, Except.bind]
    rw [check_decl_found hs2, hid]

theorem check_stmts_zero : ∀ (curr : List Stmt) (st : State),
    check_stmts curr 0 st = .ok (0, st)
  | [], st => by rw [check_stmts]
  | s :: next, st => by
    rw [check_stmts, if_pos rfl]
    exact check_stmts_zero next st

theorem plain_check :
    check_unit [.func (.interned "f") (.func .int [])
          (some (.block [.decl ⟨.int, .interned "a"⟩])),
        .func (.interned "g") (.func .int []) (some (.block [.decl ⟨.int, .interned "a"⟩]))]
        State.init = .error (.sem_fatal "Symbol 'a' already declared") :=
  check_eq (by decide!)

/-- C34. Semantic analysis has no scopes: `check_stmt` and `check_unit` only
append to the symbol table, so `sym_table_count` never decreases.  Where the
declarations before a function `g` have no return statement and were checked
without a fatal error (then the result of the loop of `check_unit` is not 0),
one of them is a function whose body starts with the declaration of a local of
the name that the first statement of the body of `g` declares, and the table
has room for the symbol of `g`, `check_unit` stops with the fatal error
"already declared", for that local or, when its own name is in the table, for
`g`: so on `int f() { int a; } int g() { int a; }`.  A return statement before
`g` takes this away: `check_stmt` has no case for `STMT_RET` and gives 0 for
every return statement, after which `res && ...` checks no further statement
or declaration; on `int f() { int a; return 0; } int g() { int a; }`
`check_unit` returns 0 with the table `putchar`, `f`, `a` and raises no fatal
error, the body of `g` is never looked at. -/
theorem check_unit_no_scopes :
    (∀ (stmt : Stmt) (st st1 : State) (r : Int), check_stmt stmt st = .ok (r, st1) →
      ∃ added, st1.sym_table = st.sym_table ++ added) ∧
    (∀ (unit : List GlobDecl) (st st1 : State) (r : Int), check_unit unit st = .ok (r, st1) →
      (∃ added, st1.sym_table = st.sym_table ++ added) ∧
      st.sym_table_count ≤ st1.sym_table_count) ∧
    (∀ (pre post : List GlobDecl) (fid gid : Ident) (ftype gtype : CType) (d1 d2 : Decl)
        (rest1 rest2 : List Stmt) (st st0 st1 : State) (r : Int),
      init_builtin_sym st = .ok st0 → check_globs pre 1 st0 = .ok (r, st1) → r ≠ 0 →
      GlobDecl.func fid ftype (some (.block (.decl d1 :: rest1))) ∈ pre → d2.id = d1.id →
      st1.sym_table.length < SYM_TABLE_SIZE →
      ∃ name, (name = d1.id.str ∨ name = gid.str) ∧
        check_unit (pre ++ .func gid gtype (some (.block (.decl d2 :: rest2))) :: post) st =
          .error (.sem_fatal ("Symbol '" ++ name ++ "' already declared"))) ∧
    (∀ (pre post : List GlobDecl) (fid gid : Ident) (ftype gtype : CType) (d1 d2 : Decl)
        (rest1 rest2 : List Stmt) (st st0 st1 : State) (r : Int),
      init_builtin_sym st = .ok st0 → check_globs pre 1 st0 = .ok (r, st1) →
      (∀ g ∈ pre, g.has_ret = false) →
      GlobDecl.func fid ftype (some (.block (.decl d1 :: rest1))) ∈ pre → d2.id = d1.id →
      st1.sym_table.length < SYM_TABLE_SIZE →
      ∃ name, (name = d1.id.str ∨ name = gid.str) ∧
        check_unit (pre ++ .func gid gtype (some (.block (.decl d2 :: rest2))) :: post) st =
          .error (.sem_fatal ("Symbol '" ++ name ++ "' already declared"))) ∧
    check_unit [.func (.interned "f") (.func .int [])
          (some (.block [.decl ⟨.int, .interned "a"⟩])),
        .func (.interned "g") (.func .int []) (some (.block [.decl ⟨.int, .interned "a"⟩]))]
        State.init = .error (.sem_fatal "Symbol 'a' already declared") ∧
    (∀ (e : Option Expr) (st : State), check_stmt (.ret e) st = .ok (0, st)) ∧
    (∀ (curr : List Stmt) (st : State), check_stmts curr 0 st = .ok (0, st)) ∧
    (∀ (curr : List GlobDecl) (st : State), check_globs curr 0 st = .ok (0, st)) ∧
    (∀ (arg_prec : Int) (curr_param_null : Nat → Bool) (n : Nat),
      parse_unit arg_prec curr_param_null (n + 11)
          (parser_init "int f() \x7b int a; return 0; \x7d int g() \x7b int a; \x7d") =
        .ok ([.func (.interned "f") (.func .int [])
            (some (.block [.decl ⟨.int, .interned "a"⟩, .ret (some (.intlit 0))])),
          .func (.interned "g") (.func .int [])
            (some (.block [.decl ⟨.int, .interned "a"⟩]))], ⟨[], 1⟩)) ∧
    check_unit [.func (.interned "f") (.func .int [])
          (some (.block [.decl ⟨.int, .interned "a"⟩, .ret (some (.intlit 0))])),
        .func (.interned "g") (.func .int []) (some (.block [.decl ⟨.int, .interned "a"⟩]))]
        State.init =
      .ok (0, ⟨[⟨.literal "putchar", .int, 0, 0⟩, ⟨.interned "f", .func .int [], 1, 0⟩,
        ⟨.interned "a", .int, 0, -4⟩], -8, 0, none, []⟩) := by
  refine ⟨fun stmt st st1 r h => check_stmt_appends stmt st r st1 h, ?_, ?_, ?_, plain_check,
    ?_, ?_, ?_, skip_parse, check_eq (by decide!)⟩
  · intro unit st st1 r h
    unfold check_unit at h
    obtain ⟨st0, h0, k0⟩ := bind_ok.1 h
    unfold init_builtin_sym at h0
    obtain ⟨rfl, _⟩ := sym_add_ok h0
    obtain ⟨added, e⟩ := check_globs_appends unit 1 _ st1 r k0
    refine ⟨⟨⟨.literal "putchar", .int, 0, 0⟩ :: added, by rw [e]; simp⟩, ?_⟩
    simp only [State.sym_table_count, e, List.length_append]
    omega
  · intro pre post fid gid ftype gtype d1 d2 rest1 rest2 st st0 st1 r h0 h1 hr hm hid hroom
    exact no_scopes_fatal h0 h1 hr hm hid hroom
  · intro pre post fid gid ftype gtype d1 d2 rest1 rest2 st st0 st1 r h0 h1 hn hm hid hroom
    exact no_scopes_fatal h0 h1 (check_globs_ok pre 1 st0 st1 r hn (by decide) h1) hm hid hroom
  · intro e st
    rw [check_stmt]
  · intro curr st
    exact check_stmts_zero curr st
  · intro curr st
    exact check_globs_zero curr st

/-- A run of C34 on the unit of `int f() { int a; } int g() { int a; }`. -/
theorem check_unit_no_scopes_witness :
    ∃ name, (name = "a" ∨ name = "g") ∧
      check_unit ([.func (.interned "f") (.func .int [])
          (some (.block [.decl ⟨.int, .interned "a"⟩]))] ++
        [.func (.interned "g") (.func .int []) (some (.block [.decl ⟨.int, .interned "a"⟩]))])
        State.init = .error (.sem_fatal ("Symbol '" ++ name ++ "' already declared")) :=
  check_unit_no_scopes.2.2.2.1
    [.func (.interned "f") (.func .int []) (some (.block [.decl ⟨.int, .interned "a"⟩]))] []
    (.interned "f") (.interned "g") (.func .int []) (.func .int []) ⟨.int, .interned "a"⟩
    ⟨.int, .interned "a"⟩ [] [] State.init ⟨[⟨.literal "putchar", .int, 0, 0⟩], 0, 0, none, []⟩
    ⟨[⟨.literal "putchar", .int, 0, 0⟩, ⟨.interned "f", .func .int [], 1, 0⟩,
      ⟨.interned "a", .int, 0, -4⟩], -8, 0, none, []⟩ 1 (by rfl) (check_eq (by decide!))
    (by decide) (List.mem_singleton.2 rfl) rfl (by decide)

end Ezc
